import Mathlib

/-!
# Native container-metadata parsers of `internal/fileinfo`

A shallow embedding of the MP4 (ISO-BMFF), Matroska (EBML) and AVI (RIFF)
parsers of `internal/fileinfo`, and theorems about them.

Modelling conventions.

* A file is an immutable `List Byte` that `os.Open` and `Stat` have opened
  without error; the read cursor of the open `*os.File` is an `Int` threaded
  through every function (`Seek` with a negative target fails and leaves the
  cursor where it was, `Seek` past the end is allowed; outside namespace
  `hosted` the file system accepts every non-negative target).
* `io.ReadFull` either delivers all requested bytes, or delivers the bytes
  that are left (the rest of the buffer keeps its zero value), moves the
  cursor to the end of what it read and reports `io.EOF` (nothing read) or
  `io.ErrUnexpectedEOF`.
* Go strings are byte sequences (`GoString`).
* `int64` offsets are mathematical integers.  Every offset the parsers
  compute is below `len + 2^57`, so wrap-around of `int64` sums is out of
  reach for any file that fits a file system; conversions that can change
  a value (`int64(uint64)`, uint32 sums) are written out with their modulus.
* Loops carry a fuel counter; `none` (`Run.outOfFuel`) means the fuel ran
  out.  The parsers start every walk with `len + 1` units and the termination
  theorems show that this is never used up.  The fuel bounds the depth of a
  chain of iterations and nested walks, not the total number of steps.
* `float64` arithmetic and the Unicode case tables of package `strings` are
  parameters (`GoRuntime`).
* The Matroska parser is modelled a second time on a `Host` (namespace
  `hosted`).  There a `Seek` beyond the largest offset of the file system is
  refused as well; `mkvparser.go` drops the result of every `Seek`, so the
  next read happens where the cursor stands.  An allocation `make([]byte, n)`
  can end the process for lack of memory.  What is stated about the walk of
  the Matroska parser over a whole file (header checks, parse limit, first
  video entry, duration) is stated on that model, for every host.
-/

namespace fileinfo

/-! ## Bytes, strings, errors -/

abbrev Byte := Fin 256

abbrev GoString := List Byte

/-- The bytes of an ASCII string literal. -/
def str (s : String) : GoString := s.toList.map (fun c => Fin.ofNat c.toNat)

/-- Go error values that the parsers produce. -/
inductive GoError where
  | eof
  | unexpectedEOF
  | seekNegative
  | msg (text : String)
  deriving DecidableEq, Repr

/-- A run-time panic of the Go program. -/
inductive GoPanic where
  | makesliceLenOutOfRange
  deriving DecidableEq, Repr

/-- Largest allocation `make([]byte, n)` accepts on a 64-bit Go runtime
(`maxAlloc`, 48 address bits); a longer slice panics in `runtime.makeslice`. -/
def maxAlloc : Nat := 2 ^ 48

/-- Conversion `int64(x)` of a 64-bit unsigned value (two's complement). -/
def toInt64 (n : Nat) : Int :=
  if n % 2 ^ 64 < 2 ^ 63 then ((n % 2 ^ 64 : Nat) : Int) else ((n % 2 ^ 64 : Nat) : Int) - 2 ^ 64

/-- Unsigned big-endian value of a byte sequence (`binary.BigEndian.UintN`). -/
def beUint (bs : List Byte) : Nat := bs.foldl (fun acc b => acc * 256 + b.val) 0

/-- Unsigned little-endian value of a byte sequence (`binary.LittleEndian.UintN`). -/
def leUint (bs : List Byte) : Nat := bs.foldr (fun b acc => b.val + 256 * acc) 0

/-- Go slice expression `s[lo:hi]` on a byte sequence. -/
def slice (s : List Byte) (lo hi : Nat) : List Byte := (s.take hi).drop lo

/-! ## The file cursor -/

/-- Result of `io.ReadFull(r, buf)`: the cursor afterwards, the buffer
contents (always as long as the buffer) and the error. -/
structure ReadResult where
  pos : Int
  buf : List Byte
  err : Option GoError
  deriving DecidableEq, Repr

/-- Bytes of the file from offset `pos` on (empty at or beyond the end). -/
def bytesFrom (data : List Byte) (pos : Int) : List Byte := data.drop pos.toNat

/-- Model of `io.ReadFull(r, buf)` with `len(buf) = n` on a file at cursor `pos`. -/
def readFull (data : List Byte) (pos : Int) (n : Nat) : ReadResult :=
  let got := (bytesFrom data pos).take n
  if got.length = n then ⟨pos + n, got, none⟩
  else ⟨pos + got.length, got ++ List.replicate (n - got.length) 0,
        some (if got.length = 0 then GoError.eof else GoError.unexpectedEOF)⟩

/-- Cursor after `r.Seek(off, io.SeekStart)` on a file system that accepts every
non-negative target: a negative target is refused.  The largest offset of a
file system is in `hosted.seekStart`. -/
def seekStart (pos off : Int) : Int := if off < 0 then pos else off

/-- Error of `r.Seek(off, io.SeekStart)`. -/
def seekStartErr (off : Int) : Option GoError := if off < 0 then some GoError.seekNegative else none

/-- Cursor after `r.Seek(delta, io.SeekCurrent)`. -/
def seekCurrent (pos delta : Int) : Int := seekStart pos (pos + delta)

/-! ## EBML variable-length integers (`mkvparser.go`) -/

/-- The scan `for i := 0; i < 8; i++ { if b&(0x80>>uint(i)) != 0 { ... break } }`
of `ebmlReadVINT` and `ebmlReadElementID`: `(length, mask)` for the first set
bit, the zero values when no bit is set. -/
def ebmlMarker (b : Byte) : Nat × Nat :=
  match (List.range 8).find? (fun i => b.val &&& (0x80 >>> i) ≠ 0) with
  | some i => (i + 1, 0x80 >>> i)
  | none => (0, 0)

/-- Result triple `(uint64, int, error)` of the two VINT readers, with the
cursor after the call. -/
structure VintResult where
  pos : Int
  value : Nat
  length : Nat
  err : Option GoError
  deriving DecidableEq, Repr

/-- The accumulation `value = (value << 8) | uint64(rb)` over the remaining bytes. -/
def shiftIn (value : Nat) (remaining : List Byte) : Nat :=
  remaining.foldl (fun v rb => ((v <<< 8) % 2 ^ 64) ||| rb.val) value

/-- Model of `ebmlReadVINT`: reads a variable-length integer, marker bit removed. -/
def ebmlReadVINT (data : List Byte) (pos : Int) : VintResult :=
  let first := readFull data pos 1
  match first.err with
  | some e => ⟨first.pos, 0, 0, some e⟩
  | none =>
    let b := first.buf.headD 0
    if b = 0 then ⟨first.pos, 0, 0, some (GoError.msg "invalid VINT: leading byte is 0")⟩
    else
      let length := (ebmlMarker b).1
      let mask := (ebmlMarker b).2
      let value := b.val &&& (mask ^^^ 0xFF)
      if length > 1 then
        let rest := readFull data first.pos (length - 1)
        match rest.err with
        | some e => ⟨rest.pos, 0, 0, some e⟩
        | none => ⟨rest.pos, shiftIn value rest.buf, length, none⟩
      else ⟨first.pos, value, length, none⟩

/-- Model of `ebmlReadElementID`: reads an element ID, marker bit kept. -/
def ebmlReadElementID (data : List Byte) (pos : Int) : VintResult :=
  let first := readFull data pos 1
  match first.err with
  | some e => ⟨first.pos, 0, 0, some e⟩
  | none =>
    let b := first.buf.headD 0
    if b = 0 then ⟨first.pos, 0, 0, some (GoError.msg "invalid element ID")⟩
    else
      let length := (ebmlMarker b).1
      let value := b.val
      if length > 1 then
        let rest := readFull data first.pos (length - 1)
        match rest.err with
        | some e => ⟨rest.pos, 0, 0, some e⟩
        | none => ⟨rest.pos, shiftIn value rest.buf, length, none⟩
      else ⟨first.pos, value, length, none⟩

/-- Number of leading zero bits of a byte (bit 7 is the first bit). -/
def leadingZeros (b : Byte) : Nat :=
  ((List.range 8).takeWhile (fun i => !(b.val.testBit (7 - i)))).length

/-- Total length of the VINT that starts with byte `b`, as the format
defines it: one more than the number of leading zero bits of `b`. -/
def vintLength (b : Byte) : Nat := 1 + leadingZeros b

/-! ## Runtime parameters and the metadata record -/

/-- What the parsers use of the Go runtime and library without this
development fixing it: `float64` arithmetic, the Unicode case mappings behind
`strings.ToUpper`/`strings.ToLower` on non-ASCII input, and `filepath.Base`. -/
structure GoRuntime where
  F : Type
  ofUint : Nat → F
  ofFloat32Bits : Nat → F
  ofFloat64Bits : Nat → F
  mul : F → F → F
  div : F → F → F
  round : F → F
  lt : F → F → Bool
  eq : F → F → Bool
  toInt : F → Int
  mapLower : GoString → GoString
  mapUpper : GoString → GoString
  base : GoString → GoString

/-- The record `FileInfo` of `fileinfo.go`. -/
structure FileInfo (F : Type) where
  Path : GoString
  Name : GoString
  Width : Int
  Height : Int
  Duration : GoString
  DurationSeconds : F
  Framerate : F
  Codec : GoString
  AudioCodec : GoString
  FileSize : Int
  HasDurationMismatch : Bool

/-- The record the three parsers start from: path, base name and size set,
every other field at its zero value. -/
def newFileInfo (rt : GoRuntime) (path : GoString) (size : Int) : FileInfo rt.F :=
  { Path := path, Name := rt.base path, Width := 0, Height := 0, Duration := [],
    DurationSeconds := rt.ofUint 0, Framerate := rt.ofUint 0, Codec := [], AudioCodec := [],
    FileSize := size, HasDurationMismatch := false }

/-- Decimal digits of a natural number as bytes. -/
def decimal (n : Nat) : GoString := (Nat.toDigits 10 n).map (fun c => Fin.ofNat c.toNat)

/-- The verb `%02d` of `fmt.Sprintf`: at least two characters, zero padded,
the sign counted in the width. -/
def sprintf02d (x : Int) : GoString :=
  if x < 0 then
    str "-" ++ List.replicate (1 - (decimal x.natAbs).length) (Fin.ofNat 48) ++ decimal x.natAbs
  else List.replicate (2 - (decimal x.natAbs).length) (Fin.ofNat 48) ++ decimal x.natAbs

/-- Model of `formatDuration`. -/
def formatDuration (rt : GoRuntime) (seconds : rt.F) : GoString :=
  let hours := Int.tdiv (rt.toInt seconds) 3600
  let minutes := Int.tdiv (Int.tmod (rt.toInt seconds) 3600) 60
  let secs := Int.tmod (rt.toInt seconds) 60
  sprintf02d hours ++ str ":" ++ sprintf02d minutes ++ str ":" ++ sprintf02d secs

/-! ## Package `strings` -/

/-- Function `strings.TrimRight(s, "\x00")`. -/
def trimRightNul (s : GoString) : GoString := s.rdropWhile (fun b => b = 0)

/-- Function `strings.HasPrefix`. -/
def hasPrefixStr (s p : GoString) : Bool := p.isPrefixOf s

/-- Function `strings.TrimPrefix`. -/
def trimPrefixStr (s p : GoString) : GoString := if hasPrefixStr s p then s.drop p.length else s

/-- ASCII lower-casing of one byte. -/
def asciiLower (b : Byte) : Byte := if 65 ≤ b.val ∧ b.val ≤ 90 then Fin.ofNat (b.val + 32) else b

/-- ASCII upper-casing of one byte. -/
def asciiUpper (b : Byte) : Byte := if 97 ≤ b.val ∧ b.val ≤ 122 then Fin.ofNat (b.val - 32) else b

/-- Function `strings.ToLower`: bytewise on ASCII input, the Unicode mapping otherwise. -/
def toLower (rt : GoRuntime) (s : GoString) : GoString :=
  if s.all (fun b => b.val < 128) then s.map asciiLower else rt.mapLower s

/-- Function `strings.ToUpper`: bytewise on ASCII input, the Unicode mapping otherwise. -/
def toUpper (rt : GoRuntime) (s : GoString) : GoString :=
  if s.all (fun b => b.val < 128) then s.map asciiUpper else rt.mapUpper s

/-! ## ISO-BMFF (`mp4parser.go`) -/

/-- Model of `mp4CodecName`. -/
def mp4CodecName (fourcc : GoString) : GoString :=
  if fourcc = str "avc1" ∨ fourcc = str "avc3" then str "h264"
  else if fourcc = str "hev1" ∨ fourcc = str "hvc1" then str "hevc"
  else if fourcc = str "vp08" then str "vp8"
  else if fourcc = str "vp09" then str "vp9"
  else if fourcc = str "av01" then str "av1"
  else if fourcc = str "mp4v" then str "mpeg4"
  else if fourcc ≠ [] then fourcc
  else []

/-- Model of `mp4AudioCodecName`. -/
def mp4AudioCodecName (fourcc : GoString) : GoString :=
  if fourcc = str "mp4a" then str "aac"
  else if fourcc = str "ac-3" then str "ac3"
  else if fourcc = str "ec-3" then str "eac3"
  else if fourcc = str "Opus" then str "opus"
  else if fourcc = str "fLaC" then str "flac"
  else if fourcc = str "alac" then str "alac"
  else if fourcc ≠ [] then fourcc
  else []

/-- State after a box walk or a box handler: the cursor, the variables the
handler closure captures, and the returned error. -/
structure Walk (σ : Type) where
  pos : Int
  st : σ
  err : Option GoError

/-- A box handler `func(boxType string, dataSize, dataOffset int64) error`,
with the cursor and the captured variables made explicit; `none` is a nested
walk that ran out of fuel. -/
abbrev BoxHandler (σ : Type) := GoString → Int → Int → Int → σ → Option (Walk σ)

/-- A decoded box header: type, box size and header size. -/
structure BoxHeader where
  boxType : GoString
  size : Int
  headerSize : Int
  deriving DecidableEq, Repr

/-- The header decoding of `mp4IterateBoxes` (source lines 59-77) for a box
at `pos` in a container ending at `endPos`: the cursor afterwards and the
header, or `none` where the loop breaks on a short read. -/
def mp4ReadBoxHeader (data : List Byte) (pos endPos : Int) : Int × Option BoxHeader :=
  let header := readFull data pos 8
  match header.err with
  | some _ => (header.pos, none)
  | none =>
    let size : Int := beUint (slice header.buf 0 4)
    let boxType := slice header.buf 4 8
    if size = 1 then
      let ext := readFull data header.pos 8
      match ext.err with
      | some _ => (ext.pos, none)
      | none => (ext.pos, some ⟨boxType, toInt64 (beUint ext.buf), 16⟩)
    else if size = 0 then (header.pos, some ⟨boxType, endPos - pos, 8⟩)
    else (header.pos, some ⟨boxType, size, 8⟩)

/-- The loop of `mp4IterateBoxes`; the first argument after the handler is the fuel. -/
def mp4Loop {σ : Type} (data : List Byte) (endPos : Int) (handler : BoxHandler σ) :
    Nat → Int → σ → Option (Walk σ)
  | 0, _, _ => none
  | fuel + 1, pos, s =>
    if pos + 8 > endPos then some ⟨pos, s, none⟩
    else
      match mp4ReadBoxHeader data pos endPos with
      | (p1, none) => some ⟨p1, s, none⟩
      | (p1, some h) =>
        if h.size < h.headerSize ∨ h.size > endPos - pos then some ⟨p1, s, none⟩
        else
          match handler h.boxType (h.size - h.headerSize) p1 p1 s with
          | none => none
          | some w =>
            match w.err with
            | some e => some ⟨w.pos, w.st, some e⟩
            | none =>
              match seekStartErr (pos + h.size) with
              | some _ => some ⟨w.pos, w.st, none⟩
              | none => mp4Loop data endPos handler fuel (seekStart w.pos (pos + h.size)) w.st

/-- Model of `mp4IterateBoxes(r, containerSize, containerOffset, handler)` with
the cursor at `pos`. -/
def mp4IterateBoxes {σ : Type} (data : List Byte) (pos : Int) (containerSize containerOffset : Int)
    (handler : BoxHandler σ) (s : σ) : Option (Walk σ) :=
  mp4Loop data (containerOffset + containerSize) handler (data.length + 1) pos s

/-- Result `(timescale, duration, err)` of `mp4ParseMvhd` with the cursor. -/
structure MvhdResult where
  pos : Int
  timescale : Nat
  duration : Nat
  err : Option GoError
  deriving DecidableEq, Repr

/-- Model of `mp4ParseMvhd`. -/
def mp4ParseMvhd (data : List Byte) (pos : Int) (_size offset : Int) : MvhdResult :=
  let version := readFull data (seekStart pos offset) 1
  match version.err with
  | some e => ⟨version.pos, 0, 0, some e⟩
  | none =>
    if version.buf.headD 0 = 0 then
      let d := readFull data (seekStart version.pos (offset + 4)) 16
      match d.err with
      | some e => ⟨d.pos, 0, 0, some e⟩
      | none => ⟨d.pos, beUint (slice d.buf 8 12), beUint (slice d.buf 12 16), none⟩
    else
      let d := readFull data (seekStart version.pos (offset + 4)) 28
      match d.err with
      | some e => ⟨d.pos, 0, 0, some e⟩
      | none => ⟨d.pos, beUint (slice d.buf 16 20), beUint (slice d.buf 20 28), none⟩

/-- Model of `mp4ParseTkhd`: the cursor, width and height. -/
def mp4ParseTkhd (data : List Byte) (pos : Int) (_size offset : Int) : Int × Int × Int :=
  let version := readFull data (seekStart pos offset) 1
  let dimsPos := if version.buf.headD 0 = 0 then seekStart version.pos (offset + 76)
    else seekStart version.pos (offset + 88)
  let dims := readFull data dimsPos 8
  match dims.err with
  | some _ => (dims.pos, 0, 0)
  | none =>
    (dims.pos, ((beUint (slice dims.buf 0 4) >>> 16 : Nat) : Int),
      ((beUint (slice dims.buf 4 8) >>> 16 : Nat) : Int))

/-- Model of `mp4ParseMdhd`: the cursor, timescale and duration.  The read
errors are ignored by the source, so a short read leaves zero bytes in the
buffer. -/
def mp4ParseMdhd (data : List Byte) (pos : Int) (_size offset : Int) : Int × Nat × Nat :=
  let version := readFull data (seekStart pos offset) 1
  if version.buf.headD 0 = 0 then
    let ts := readFull data (seekStart version.pos (offset + 12)) 8
    (ts.pos, beUint (slice ts.buf 0 4), beUint (slice ts.buf 4 8))
  else
    let ts := readFull data (seekStart version.pos (offset + 20)) 12
    (ts.pos, beUint (slice ts.buf 0 4), beUint (slice ts.buf 4 12))

/-- Model of `mp4ParseHdlr`: the cursor and the handler type. -/
def mp4ParseHdlr (data : List Byte) (pos : Int) (_size offset : Int) : Int × GoString :=
  let h := readFull data (seekStart pos (offset + 8)) 4
  match h.err with
  | some _ => (h.pos, [])
  | none => (h.pos, h.buf)

/-- Model of `mp4ParseStsd`: the cursor and the codec FourCC of the first entry. -/
def mp4ParseStsd (data : List Byte) (pos : Int) (_size offset : Int) : Int × GoString :=
  let e := readFull data (seekStart pos (offset + 8)) 8
  match e.err with
  | some _ => (e.pos, [])
  | none => (e.pos, slice e.buf 4 8)

/-- The entry loop of `mp4ParseStts`: entries still to read, cursor, running
uint32 total. -/
def mp4SttsLoop (data : List Byte) : Nat → Int → Nat → Int × Nat
  | 0, pos, total => (pos, total)
  | n + 1, pos, total =>
    let entry := readFull data pos 8
    match entry.err with
    | some _ => (entry.pos, total)
    | none => mp4SttsLoop data n entry.pos ((total + beUint (slice entry.buf 0 4)) % 2 ^ 32)

/-- Model of `mp4ParseStts`: the cursor and the total sample count. -/
def mp4ParseStts (data : List Byte) (pos : Int) (_size offset : Int) : Int × Nat :=
  let entryCount := readFull data (seekStart pos (offset + 4)) 4
  match entryCount.err with
  | some _ => (entryCount.pos, 0)
  | none => mp4SttsLoop data (beUint entryCount.buf) entryCount.pos 0

/-- The local variables of `mp4ParseTrak` that its box handlers assign. -/
structure TrakVars where
  trackWidth : Int
  trackHeight : Int
  handlerType : GoString
  codec : GoString
  mediaTimescale : Nat
  sampleCount : Nat
  mediaDuration : Nat
  deriving DecidableEq, Repr

/-- Handler of the boxes of `stbl` in `mp4ParseTrak`. -/
def mp4StblHandler (data : List Byte) : BoxHandler TrakVars :=
  fun boxType dataSize dataOffset pos v =>
    if boxType = str "stsd" then
      let r := mp4ParseStsd data pos dataSize dataOffset
      some ⟨r.1, { v with codec := r.2 }, none⟩
    else if boxType = str "stts" then
      let r := mp4ParseStts data pos dataSize dataOffset
      some ⟨r.1, { v with sampleCount := r.2 }, none⟩
    else some ⟨pos, v, none⟩

/-- Handler of the boxes of `minf` in `mp4ParseTrak`. -/
def mp4MinfHandler (data : List Byte) : BoxHandler TrakVars :=
  fun boxType dataSize dataOffset pos v =>
    if boxType = str "stbl" then
      match mp4IterateBoxes data (seekStart pos dataOffset) dataSize dataOffset
          (mp4StblHandler data) v with
      | none => none
      | some w => some ⟨w.pos, w.st, none⟩
    else some ⟨pos, v, none⟩

/-- Handler of the boxes of `mdia` in `mp4ParseTrak`. -/
def mp4MdiaHandler (data : List Byte) : BoxHandler TrakVars :=
  fun boxType dataSize dataOffset pos v =>
    if boxType = str "mdhd" then
      let r := mp4ParseMdhd data pos dataSize dataOffset
      some ⟨r.1, { v with mediaTimescale := r.2.1, mediaDuration := r.2.2 }, none⟩
    else if boxType = str "hdlr" then
      let r := mp4ParseHdlr data pos dataSize dataOffset
      some ⟨r.1, { v with handlerType := r.2 }, none⟩
    else if boxType = str "minf" then
      match mp4IterateBoxes data (seekStart pos dataOffset) dataSize dataOffset
          (mp4MinfHandler data) v with
      | none => none
      | some w => some ⟨w.pos, w.st, none⟩
    else some ⟨pos, v, none⟩

/-- Handler of the boxes of `trak` in `mp4ParseTrak`. -/
def mp4TrakHandler (data : List Byte) : BoxHandler TrakVars :=
  fun boxType dataSize dataOffset pos v =>
    if boxType = str "tkhd" then
      let r := mp4ParseTkhd data pos dataSize dataOffset
      some ⟨r.1, { v with trackWidth := r.2.1, trackHeight := r.2.2 }, none⟩
    else if boxType = str "mdia" then
      match mp4IterateBoxes data (seekStart pos dataOffset) dataSize dataOffset
          (mp4MdiaHandler data) v with
      | none => none
      | some w => some ⟨w.pos, w.st, none⟩
    else some ⟨pos, v, none⟩

/-- The assignments to `info` at the end of `mp4ParseTrak` (source lines 209-226). -/
def mp4TrakCommit (rt : GoRuntime) (v : TrakVars) (info : FileInfo rt.F) : FileInfo rt.F :=
  let info1 :=
    if v.handlerType = str "vide" ∧ info.Codec = [] then
      let base := { info with Codec := mp4CodecName v.codec, Width := v.trackWidth,
                              Height := v.trackHeight }
      if v.mediaTimescale > 0 ∧ v.sampleCount > 0 ∧ v.mediaDuration > 0 then
        let durationSec := rt.div (rt.ofUint v.mediaDuration) (rt.ofUint v.mediaTimescale)
        if rt.lt (rt.ofUint 0) durationSec then
          let fps := rt.div (rt.ofUint v.sampleCount) durationSec
          { base with Framerate := rt.div (rt.round (rt.mul fps (rt.ofUint 100))) (rt.ofUint 100) }
        else base
      else base
    else info
  if v.handlerType = str "soun" ∧ info1.AudioCodec = [] then
    { info1 with AudioCodec := mp4AudioCodecName v.codec }
  else info1

/-- Model of `mp4ParseTrak`: the cursor and the updated record (`none`: out of fuel). -/
def mp4ParseTrak (rt : GoRuntime) (data : List Byte) (pos : Int) (size offset : Int)
    (info : FileInfo rt.F) (_movieTimescale : Nat) : Option (Int × FileInfo rt.F) :=
  match mp4IterateBoxes data (seekStart pos offset) size offset (mp4TrakHandler data)
      ⟨0, 0, [], [], 0, 0, 0⟩ with
  | none => none
  | some w => some (w.pos, mp4TrakCommit rt w.st info)

/-- The variables the handler of `mp4ParseMoov` captures. -/
structure MoovVars (F : Type) where
  movieTimescale : Nat
  movieDuration : Nat
  info : FileInfo F

/-- Handler of the boxes of `moov` in `mp4ParseMoov`. -/
def mp4MoovHandler (rt : GoRuntime) (data : List Byte) : BoxHandler (MoovVars rt.F) :=
  fun boxType dataSize dataOffset pos v =>
    if boxType = str "mvhd" then
      let r := mp4ParseMvhd data pos dataSize dataOffset
      match r.err with
      | some _ => some ⟨r.pos, v, none⟩
      | none =>
        if r.timescale > 0 then
          let durationSec := rt.div (rt.ofUint r.duration) (rt.ofUint r.timescale)
          some ⟨r.pos, ⟨r.timescale, r.duration,
            { v.info with DurationSeconds := durationSec,
                          Duration := formatDuration rt durationSec }⟩, none⟩
        else some ⟨r.pos, ⟨r.timescale, r.duration, v.info⟩, none⟩
    else if boxType = str "trak" then
      match mp4ParseTrak rt data pos dataSize dataOffset v.info v.movieTimescale with
      | none => none
      | some r => some ⟨r.1, { v with info := r.2 }, none⟩
    else some ⟨pos, v, none⟩

/-- Model of `mp4ParseMoov`: the cursor, the updated record and the error. -/
def mp4ParseMoov (rt : GoRuntime) (data : List Byte) (pos : Int) (size offset : Int)
    (info : FileInfo rt.F) : Option (Walk (FileInfo rt.F)) :=
  match mp4IterateBoxes data (seekStart pos offset) size offset (mp4MoovHandler rt data)
      ⟨0, 0, info⟩ with
  | none => none
  | some w => some ⟨w.pos, w.st.info, w.err⟩

/-- Handler of the top-level boxes in `parseMP4`. -/
def mp4TopHandler (rt : GoRuntime) (data : List Byte) : BoxHandler (FileInfo rt.F) :=
  fun boxType dataSize dataOffset pos info =>
    if boxType = str "moov" then mp4ParseMoov rt data pos dataSize dataOffset info
    else some ⟨pos, info, none⟩

/-- Model of `parseMP4` on an opened file with contents `data`: the record or
the error (`none`: out of fuel). -/
def parseMP4 (rt : GoRuntime) (path : GoString) (data : List Byte) :
    Option (Except GoError (FileInfo rt.F)) :=
  match mp4IterateBoxes data 0 data.length 0 (mp4TopHandler rt data)
      (newFileInfo rt path data.length) with
  | none => none
  | some w =>
    match w.err with
    | some e => some (Except.error e)
    | none =>
      if w.st.Codec = [] then some (Except.error (GoError.msg "no video track found"))
      else some (Except.ok w.st)

/-! ## Matroska (`mkvparser.go`) -/

/-- Outcome of a Go computation that may panic: its result, the panic, or
(in this model only) a loop that ran out of fuel. -/
inductive Run (α : Type) where
  | done (a : α)
  | panic (p : GoPanic)
  | outOfFuel

def ebmlHeader : Nat := 0x1A45DFA3
def ebmlSegment : Nat := 0x18538067
def ebmlInfo : Nat := 0x1549A966
def ebmlTimestampScale : Nat := 0x2AD7B1
def ebmlDuration : Nat := 0x4489
def ebmlTracks : Nat := 0x1654AE6B
def ebmlTrackEntry : Nat := 0xAE
def ebmlTrackType : Nat := 0x83
def ebmlCodecID : Nat := 0x86
def ebmlVideo : Nat := 0xE0
def ebmlPixelWidth : Nat := 0xB0
def ebmlPixelHeight : Nat := 0xBA
def ebmlAudio : Nat := 0xE1
def ebmlDefaultDur : Nat := 0x23E383

/-- Result `(id, size, err)` of `ebmlReadElement` with the cursor. -/
structure ElemResult where
  pos : Int
  id : Nat
  size : Nat
  err : Option GoError
  deriving DecidableEq, Repr

/-- Model of `ebmlReadElement`: an element ID followed by a data size. -/
def ebmlReadElement (data : List Byte) (pos : Int) : ElemResult :=
  let id := ebmlReadElementID data pos
  match id.err with
  | some e => ⟨id.pos, 0, 0, some e⟩
  | none =>
    let size := ebmlReadVINT data id.pos
    match size.err with
    | some e => ⟨size.pos, 0, 0, some e⟩
    | none => ⟨size.pos, id.value, size.value, none⟩

/-- Result `(uint64, err)` of `ebmlReadUint` with the cursor. -/
structure UintResult where
  pos : Int
  val : Nat
  err : Option GoError
  deriving DecidableEq, Repr

/-- Model of `ebmlReadUint`: refuses more than 8 bytes before allocating. -/
def ebmlReadUint (data : List Byte) (pos : Int) (size : Nat) : UintResult :=
  if size > 8 then ⟨pos, 0, some (GoError.msg ("uint too large: " ++ toString size ++ " bytes"))⟩
  else
    let d := readFull data pos size
    match d.err with
    | some e => ⟨d.pos, 0, some e⟩
    | none => ⟨d.pos, shiftIn 0 d.buf, none⟩

/-- Result `(float64, err)` of `ebmlReadFloat` with the cursor. -/
structure FloatResult (F : Type) where
  pos : Int
  val : F
  err : Option GoError

/-- Model of `ebmlReadFloat`. -/
def ebmlReadFloat (rt : GoRuntime) (data : List Byte) (pos : Int) (size : Nat) :
    FloatResult rt.F :=
  if size = 4 then
    let d := readFull data pos 4
    match d.err with
    | some e => ⟨d.pos, rt.ofUint 0, some e⟩
    | none => ⟨d.pos, rt.ofFloat32Bits (beUint d.buf), none⟩
  else if size = 8 then
    let d := readFull data pos 8
    match d.err with
    | some e => ⟨d.pos, rt.ofUint 0, some e⟩
    | none => ⟨d.pos, rt.ofFloat64Bits (beUint d.buf), none⟩
  else ⟨pos, rt.ofUint 0, some (GoError.msg ("invalid float size: " ++ toString size))⟩

/-- Result `(string, err)` of `ebmlReadString` with the cursor. -/
structure StringResult where
  pos : Int
  val : GoString
  err : Option GoError
  deriving DecidableEq, Repr

/-- Model of `ebmlReadString`: `make([]byte, size)` comes first and panics for
a length beyond `maxAlloc`; a shorter allocation is taken to find memory (the
memory of the host is in `hosted.ebmlReadString`). -/
def ebmlReadString (data : List Byte) (pos : Int) (size : Nat) : Except GoPanic StringResult :=
  if size > maxAlloc then Except.error GoPanic.makesliceLenOutOfRange
  else
    let d := readFull data pos size
    match d.err with
    | some e => Except.ok ⟨d.pos, [], some e⟩
    | none => Except.ok ⟨d.pos, trimRightNul d.buf, none⟩

/-- Model of `mkvCodecName`. -/
def mkvCodecName (rt : GoRuntime) (codecID : GoString) : GoString :=
  if codecID = str "V_MPEG4/ISO/AVC" then str "h264"
  else if codecID = str "V_MPEGH/ISO/HEVC" then str "hevc"
  else if codecID = str "V_VP8" then str "vp8"
  else if codecID = str "V_VP9" then str "vp9"
  else if codecID = str "V_AV1" then str "av1"
  else if codecID = str "V_MPEG4/ISO/SP" ∨ codecID = str "V_MPEG4/ISO/ASP" ∨
      codecID = str "V_MPEG4/ISO/AP" then str "mpeg4"
  else if codecID = str "V_MPEG2" then str "mpeg2video"
  else if codecID = str "V_MPEG1" then str "mpeg1video"
  else if hasPrefixStr codecID (str "V_") then toLower rt (trimPrefixStr codecID (str "V_"))
  else codecID

/-- Model of `mkvAudioCodecName`. -/
def mkvAudioCodecName (rt : GoRuntime) (codecID : GoString) : GoString :=
  if codecID = str "A_AAC" ∨ codecID = str "A_AAC/MPEG2/LC" ∨ codecID = str "A_AAC/MPEG4/LC" then
    str "aac"
  else if codecID = str "A_VORBIS" then str "vorbis"
  else if codecID = str "A_OPUS" then str "opus"
  else if codecID = str "A_AC3" then str "ac3"
  else if codecID = str "A_EAC3" then str "eac3"
  else if codecID = str "A_DTS" then str "dts"
  else if codecID = str "A_FLAC" then str "flac"
  else if codecID = str "A_MPEG/L3" then str "mp3"
  else if codecID = str "A_MPEG/L2" then str "mp2"
  else if codecID = str "A_PCM/INT/LIT" then str "pcm"
  else if hasPrefixStr codecID (str "A_") then toLower rt (trimPrefixStr codecID (str "A_"))
  else codecID

/-- The loop of `mkvParseInfo`: fuel, cursor, `timestampScale`, `duration`. -/
def mkvInfoLoop (rt : GoRuntime) (data : List Byte) (endPos : Int) :
    Nat → Int → Nat → rt.F → Option (Int × Nat × rt.F)
  | 0, _, _, _ => none
  | fuel + 1, pos, ts, dur =>
    if pos ≥ endPos then some (pos, ts, dur)
    else
      let e := ebmlReadElement data pos
      match e.err with
      | some _ => some (e.pos, ts, dur)
      | none =>
        if e.id = ebmlTimestampScale then
          let r := ebmlReadUint data e.pos e.size
          mkvInfoLoop rt data endPos fuel (seekStart r.pos (e.pos + toInt64 e.size))
            (match r.err with | none => r.val | some _ => ts) dur
        else if e.id = ebmlDuration then
          let r := ebmlReadFloat rt data e.pos e.size
          mkvInfoLoop rt data endPos fuel (seekStart r.pos (e.pos + toInt64 e.size)) ts
            (match r.err with | none => r.val | some _ => dur)
        else mkvInfoLoop rt data endPos fuel (seekStart e.pos (e.pos + toInt64 e.size)) ts dur

/-- Model of `mkvParseInfo`: the cursor, `timestampScale` and `duration`. -/
def mkvParseInfo (rt : GoRuntime) (data : List Byte) (pos : Int) (size : Nat) (offset : Int) :
    Option (Int × Nat × rt.F) :=
  mkvInfoLoop rt data (offset + toInt64 size) (data.length + 1) (seekStart pos offset) 0
    (rt.ofUint 0)

/-- The loop of `mkvParseVideoInfo`: fuel, cursor, width, height. -/
def mkvVideoLoop (data : List Byte) (endPos : Int) : Nat → Int → Int → Int → Option (Int × Int × Int)
  | 0, _, _, _ => none
  | fuel + 1, pos, width, height =>
    if pos ≥ endPos then some (pos, width, height)
    else
      let e := ebmlReadElement data pos
      match e.err with
      | some _ => some (e.pos, width, height)
      | none =>
        if e.id = ebmlPixelWidth then
          let r := ebmlReadUint data e.pos e.size
          mkvVideoLoop data endPos fuel (seekStart r.pos (e.pos + toInt64 e.size))
            (match r.err with | none => toInt64 r.val | some _ => width) height
        else if e.id = ebmlPixelHeight then
          let r := ebmlReadUint data e.pos e.size
          mkvVideoLoop data endPos fuel (seekStart r.pos (e.pos + toInt64 e.size)) width
            (match r.err with | none => toInt64 r.val | some _ => height)
        else mkvVideoLoop data endPos fuel (seekStart e.pos (e.pos + toInt64 e.size)) width height

/-- Model of `mkvParseVideoInfo`: the cursor, width and height. -/
def mkvParseVideoInfo (data : List Byte) (pos : Int) (size : Nat) (offset : Int) :
    Option (Int × Int × Int) :=
  mkvVideoLoop data (offset + toInt64 size) (data.length + 1) (seekStart pos offset) 0 0

/-- The local variables of `mkvParseTrackEntry`. -/
structure TrackVars where
  trackType : Nat
  codecID : GoString
  width : Int
  height : Int
  defaultDuration : Nat
  deriving DecidableEq, Repr

/-- The loop of `mkvParseTrackEntry`: fuel, cursor, local variables. -/
def mkvTrackEntryLoop (data : List Byte) (endPos : Int) :
    Nat → Int → TrackVars → Run (Int × TrackVars)
  | 0, _, _ => Run.outOfFuel
  | fuel + 1, pos, v =>
    if pos ≥ endPos then Run.done (pos, v)
    else
      let e := ebmlReadElement data pos
      match e.err with
      | some _ => Run.done (e.pos, v)
      | none =>
        if e.id = ebmlTrackType then
          let r := ebmlReadUint data e.pos e.size
          mkvTrackEntryLoop data endPos fuel (seekStart r.pos (e.pos + toInt64 e.size))
            (match r.err with | none => { v with trackType := r.val } | some _ => v)
        else if e.id = ebmlCodecID then
          match ebmlReadString data e.pos e.size with
          | Except.error p => Run.panic p
          | Except.ok r =>
            mkvTrackEntryLoop data endPos fuel (seekStart r.pos (e.pos + toInt64 e.size))
              (match r.err with | none => { v with codecID := r.val } | some _ => v)
        else if e.id = ebmlDefaultDur then
          let r := ebmlReadUint data e.pos e.size
          mkvTrackEntryLoop data endPos fuel (seekStart r.pos (e.pos + toInt64 e.size))
            (match r.err with | none => { v with defaultDuration := r.val } | some _ => v)
        else if e.id = ebmlVideo then
          match mkvParseVideoInfo data e.pos e.size e.pos with
          | none => Run.outOfFuel
          | some r =>
            mkvTrackEntryLoop data endPos fuel (seekStart r.1 (e.pos + toInt64 e.size))
              { v with width := r.2.1, height := r.2.2 }
        else mkvTrackEntryLoop data endPos fuel (seekStart e.pos (e.pos + toInt64 e.size)) v

/-- The assignments to `info` at the end of `mkvParseTrackEntry` (source lines 364-376). -/
def mkvTrackCommit (rt : GoRuntime) (v : TrackVars) (info : FileInfo rt.F) : FileInfo rt.F :=
  let info1 :=
    if v.trackType = 1 ∧ info.Codec = [] then
      let base := { info with Codec := mkvCodecName rt v.codecID, Width := v.width,
                              Height := v.height }
      if v.defaultDuration > 0 then
        let perSecond := rt.div (rt.ofUint 1000000000) (rt.ofUint v.defaultDuration)
        { base with Framerate := rt.div (rt.round (rt.mul perSecond (rt.ofUint 100))) (rt.ofUint 100) }
      else base
    else info
  if v.trackType = 2 ∧ info1.AudioCodec = [] then
    { info1 with AudioCodec := mkvAudioCodecName rt v.codecID }
  else info1

/-- Model of `mkvParseTrackEntry`: the cursor and the updated record. -/
def mkvParseTrackEntry (rt : GoRuntime) (data : List Byte) (pos : Int) (size : Nat) (offset : Int)
    (info : FileInfo rt.F) : Run (Int × FileInfo rt.F) :=
  match mkvTrackEntryLoop data (offset + toInt64 size) (data.length + 1) (seekStart pos offset)
      ⟨0, [], 0, 0, 0⟩ with
  | Run.done r => Run.done (r.1, mkvTrackCommit rt r.2 info)
  | Run.panic p => Run.panic p
  | Run.outOfFuel => Run.outOfFuel

/-- The loop of `mkvParseTracks`: fuel, cursor, record. -/
def mkvTracksLoop (rt : GoRuntime) (data : List Byte) (endPos : Int) :
    Nat → Int → FileInfo rt.F → Run (Int × FileInfo rt.F)
  | 0, _, _ => Run.outOfFuel
  | fuel + 1, pos, info =>
    if pos ≥ endPos then Run.done (pos, info)
    else
      let e := ebmlReadElement data pos
      match e.err with
      | some _ => Run.done (e.pos, info)
      | none =>
        if e.id = ebmlTrackEntry then
          match mkvParseTrackEntry rt data e.pos e.size e.pos info with
          | Run.done r =>
            mkvTracksLoop rt data endPos fuel (seekStart r.1 (e.pos + toInt64 e.size)) r.2
          | Run.panic p => Run.panic p
          | Run.outOfFuel => Run.outOfFuel
        else mkvTracksLoop rt data endPos fuel (seekStart e.pos (e.pos + toInt64 e.size)) info

/-- Model of `mkvParseTracks`: the cursor and the updated record. -/
def mkvParseTracks (rt : GoRuntime) (data : List Byte) (pos : Int) (size : Nat) (offset : Int)
    (info : FileInfo rt.F) : Run (Int × FileInfo rt.F) :=
  mkvTracksLoop rt data (offset + toInt64 size) (data.length + 1) (seekStart pos offset) info

/-- The variables of the segment loop of `parseMKV`. -/
structure SegmentVars (F : Type) where
  timestampScale : Nat
  durationFloat : F
  info : FileInfo F

/-- The segment loop of `parseMKV` (source lines 74-101): fuel, cursor, variables. -/
def mkvSegmentLoop (rt : GoRuntime) (data : List Byte) (parseLimit : Int) :
    Nat → Int → SegmentVars rt.F → Run (Int × SegmentVars rt.F)
  | 0, _, _ => Run.outOfFuel
  | fuel + 1, pos, v =>
    if pos ≥ parseLimit then Run.done (pos, v)
    else
      let e := ebmlReadElement data pos
      match e.err with
      | some _ => Run.done (e.pos, v)
      | none =>
        if e.id = ebmlInfo then
          match mkvParseInfo rt data e.pos e.size e.pos with
          | none => Run.outOfFuel
          | some r =>
            mkvSegmentLoop rt data parseLimit fuel (seekStart r.1 (e.pos + toInt64 e.size))
              ⟨if r.2.1 > 0 then r.2.1 else v.timestampScale, r.2.2, v.info⟩
        else if e.id = ebmlTracks then
          match mkvParseTracks rt data e.pos e.size e.pos v.info with
          | Run.done r =>
            mkvSegmentLoop rt data parseLimit fuel (seekStart r.1 (e.pos + toInt64 e.size))
              { v with info := r.2 }
          | Run.panic p => Run.panic p
          | Run.outOfFuel => Run.outOfFuel
        else mkvSegmentLoop rt data parseLimit fuel (seekStart e.pos (e.pos + toInt64 e.size)) v

/-- The tail of `parseMKV` after the segment loop (source lines 103-114). -/
def mkvFinish (rt : GoRuntime) (v : SegmentVars rt.F) : Except GoError (FileInfo rt.F) :=
  let info :=
    if rt.lt (rt.ofUint 0) v.durationFloat ∧ v.timestampScale > 0 then
      let durationSec :=
        rt.div (rt.mul v.durationFloat (rt.ofUint v.timestampScale)) (rt.ofUint 1000000000)
      { v.info with DurationSeconds := durationSec, Duration := formatDuration rt durationSec }
    else v.info
  if info.Codec = [] then Except.error (GoError.msg "no video track found")
  else Except.ok info

/-- Model of `parseMKV` on an opened file with contents `data`. -/
def parseMKV (rt : GoRuntime) (path : GoString) (data : List Byte) :
    Run (Except GoError (FileInfo rt.F)) :=
  let header := ebmlReadElement data 0
  if header.err ≠ none ∨ header.id ≠ ebmlHeader then
    Run.done (Except.error (GoError.msg "not a valid EBML file"))
  else
    let seg := ebmlReadElement data (seekCurrent header.pos (toInt64 header.size))
    if seg.err ≠ none ∨ seg.id ≠ ebmlSegment then
      Run.done (Except.error (GoError.msg "no Segment element found"))
    else
      let segStart := seg.pos
      let segEnd := segStart + toInt64 seg.size
      let parseLimit := if segStart + 10 * 1024 * 1024 > segEnd then segEnd
        else segStart + 10 * 1024 * 1024
      match mkvSegmentLoop rt data parseLimit (data.length + 1) segStart
          ⟨1000000, rt.ofUint 0, newFileInfo rt path data.length⟩ with
      | Run.done r => Run.done (mkvFinish rt r.2)
      | Run.panic p => Run.panic p
      | Run.outOfFuel => Run.outOfFuel

/-! ## RIFF/AVI (`aviparser.go`) -/

/-- Model of `aviCodecName`. -/
def aviCodecName (rt : GoRuntime) (fourcc : GoString) : GoString :=
  let upper := toUpper rt fourcc
  if upper = str "H264" ∨ upper = str "X264" ∨ upper = str "AVC1" then str "h264"
  else if upper = str "HEVC" ∨ upper = str "H265" ∨ upper = str "X265" ∨ upper = str "HVC1" then
    str "hevc"
  else if upper = str "DIVX" ∨ upper = str "DX50" ∨ upper = str "XVID" ∨ upper = str "FMP4" ∨
      upper = str "MP4V" then str "mpeg4"
  else if upper = str "MJPG" ∨ upper = str "MJPEG" then str "mjpeg"
  else if upper = str "VP80" then str "vp8"
  else if upper = str "VP90" then str "vp9"
  else if upper = str "AV01" then str "av1"
  else if upper = str "WMV1" then str "wmv1"
  else if upper = str "WMV2" then str "wmv2"
  else if upper = str "WMV3" then str "wmv3"
  else if upper = str "MSVC" ∨ upper = str "CRAM" then str "msvideo1"
  else if fourcc ≠ [] then toLower rt fourcc
  else []

/-- Model of `aviAudioCodecName`. -/
def aviAudioCodecName (rt : GoRuntime) (handler : GoString) : GoString :=
  let upper := toUpper rt handler
  if upper = [0, 0, 0, 0] ∨ upper = [] ∨ upper = [0x01, 0x00] then str "pcm"
  else if upper = [0x55, 0x00] then str "mp3"
  else if upper = [0xFF, 0x00] then str "aac"
  else if handler ≠ [] then toLower rt (trimRightNul handler)
  else []

/-- Model of `aviParseMainHeader`: the cursor and the updated record. -/
def aviParseMainHeader (rt : GoRuntime) (data : List Byte) (pos : Int) (size offset : Int)
    (info : FileInfo rt.F) : Int × FileInfo rt.F :=
  if size < 56 then (seekStart pos offset, info)
  else
    let d := readFull data (seekStart pos offset) 56
    match d.err with
    | some _ => (d.pos, info)
    | none =>
      let microSecPerFrame := leUint (slice d.buf 0 4)
      let totalFrames := leUint (slice d.buf 24 28)
      let width := leUint (slice d.buf 32 36)
      let height := leUint (slice d.buf 36 40)
      let info1 := if info.Width = 0 ∧ width > 0 then { info with Width := (width : Int) } else info
      let info2 :=
        if info1.Height = 0 ∧ height > 0 then { info1 with Height := (height : Int) } else info1
      if microSecPerFrame > 0 ∧ totalFrames > 0 then
        let fps := rt.div (rt.ofUint 1000000) (rt.ofUint microSecPerFrame)
        let durationSec := rt.div (rt.ofUint totalFrames) fps
        let info3 := { info2 with DurationSeconds := durationSec,
                                  Duration := formatDuration rt durationSec }
        if rt.eq info3.Framerate (rt.ofUint 0) then
          (d.pos, { info3 with
            Framerate := rt.div (rt.round (rt.mul fps (rt.ofUint 100))) (rt.ofUint 100) })
        else (d.pos, info3)
      else (d.pos, info2)

/-- The variables of the loop of `aviParseStreamList`. -/
structure StreamVars (F : Type) where
  streamType : GoString
  codecFourCC : GoString
  info : FileInfo F

/-- Case `"strh"` of `aviParseStreamList` (source lines 180-217) for a chunk
whose data starts at the cursor `dataPos`. -/
def aviStrh (rt : GoRuntime) (data : List Byte) (dataPos chunkSize : Int)
    (v : StreamVars rt.F) : Int × StreamVars rt.F :=
  if chunkSize ≥ 8 then
    let n : Nat := if chunkSize > 56 then 56 else chunkSize.toNat
    let rd := readFull data dataPos n
    match rd.err with
    | some _ => (rd.pos, v)
    | none =>
      let strh := rd.buf ++ List.replicate (56 - n) 0
      let streamType := trimRightNul (slice strh 0 4)
      let codecFourCC := trimRightNul (slice strh 4 8)
      let dwScale := leUint (slice strh 20 24)
      let dwRate := leUint (slice strh 24 28)
      let dwLength := leUint (slice strh 32 36)
      let info1 :=
        if n ≥ 28 ∧ dwScale > 0 ∧ dwRate > 0 ∧ streamType = str "vids" ∧
            rt.eq v.info.Framerate (rt.ofUint 0) then
          let fps := rt.div (rt.ofUint dwRate) (rt.ofUint dwScale)
          { v.info with
            Framerate := rt.div (rt.round (rt.mul fps (rt.ofUint 100))) (rt.ofUint 100) }
        else v.info
      let durationSec := rt.div (rt.mul (rt.ofUint dwLength) (rt.ofUint dwScale)) (rt.ofUint dwRate)
      let info2 :=
        if n ≥ 36 ∧ dwScale > 0 ∧ dwRate > 0 ∧ dwLength > 0 ∧ streamType = str "vids" ∧
            rt.lt (rt.ofUint 0) durationSec then
          { info1 with DurationSeconds := durationSec, Duration := formatDuration rt durationSec }
        else info1
      (rd.pos, ⟨streamType, codecFourCC, info2⟩)
  else (dataPos, v)

/-- Case `"strf"` of `aviParseStreamList` (source lines 218-235). -/
def aviStrf (rt : GoRuntime) (data : List Byte) (dataPos chunkSize : Int)
    (v : StreamVars rt.F) : Int × StreamVars rt.F :=
  if v.streamType = str "vids" ∧ chunkSize ≥ 40 then
    let bih := readFull data dataPos 40
    match bih.err with
    | some _ => (bih.pos, v)
    | none =>
      let w : Int := toInt64 (leUint (slice bih.buf 4 8))
      let h0 : Int := toInt64 (leUint (slice bih.buf 8 12))
      let h : Int := if h0 < 0 then -h0 else h0
      let info1 := if w > 0 then { v.info with Width := w } else v.info
      let info2 := if h > 0 then { info1 with Height := h } else info1
      (bih.pos, { v with info := info2 })
  else (dataPos, v)

/-- Word alignment of the next chunk position (source lines 108-112, 238-242). -/
def aviAlign (nextPos : Int) : Int := if Int.tmod nextPos 2 ≠ 0 then nextPos + 1 else nextPos

/-- The loop of `aviParseStreamList`: fuel, cursor, variables. -/
def aviStreamLoop (rt : GoRuntime) (data : List Byte) (endPos : Int) :
    Nat → Int → StreamVars rt.F → Option (Int × StreamVars rt.F)
  | 0, _, _ => none
  | fuel + 1, pos, v =>
    if pos + 8 > endPos then some (pos, v)
    else
      let chunkHeader := readFull data pos 8
      match chunkHeader.err with
      | some _ => some (chunkHeader.pos, v)
      | none =>
        let chunkID := slice chunkHeader.buf 0 4
        let chunkSize : Int := leUint (slice chunkHeader.buf 4 8)
        let dataPos := chunkHeader.pos
        let r :=
          if chunkID = str "strh" then aviStrh rt data dataPos chunkSize v
          else if chunkID = str "strf" then aviStrf rt data dataPos chunkSize v
          else (dataPos, v)
        aviStreamLoop rt data endPos fuel (seekStart r.1 (aviAlign (dataPos + chunkSize))) r.2

/-- The assignments to `info` at the end of `aviParseStreamList` (source lines 246-252). -/
def aviStreamCommit (rt : GoRuntime) (v : StreamVars rt.F) : FileInfo rt.F :=
  let info1 :=
    if v.streamType = str "vids" ∧ v.info.Codec = [] then
      { v.info with Codec := aviCodecName rt v.codecFourCC }
    else v.info
  if v.streamType = str "auds" ∧ info1.AudioCodec = [] then
    { info1 with AudioCodec := aviAudioCodecName rt v.codecFourCC }
  else info1

/-- Model of `aviParseStreamList`: the cursor and the updated record. -/
def aviParseStreamList (rt : GoRuntime) (data : List Byte) (pos : Int) (startPos endPos : Int)
    (info : FileInfo rt.F) : Option (Int × FileInfo rt.F) :=
  match aviStreamLoop rt data endPos (data.length + 1) (seekStart pos startPos) ⟨[], [], info⟩ with
  | none => none
  | some r => some (r.1, aviStreamCommit rt r.2)

/-- Model of `aviIterateChunks(r, startPos, endPos, info)` with the cursor at
`pos`.  One unit of fuel pays for one loop iteration; the `Seek` that ends an
iteration is the `Seek` that opens the call for the rest of the loop, and the
call for a nested `hdrl` list gets the fuel that is left. -/
def aviIterateChunks (rt : GoRuntime) (data : List Byte) :
    Nat → Int → Int → Int → FileInfo rt.F → Option (Walk (FileInfo rt.F))
  | 0, _, _, _, _ => none
  | fuel + 1, pos, startPos, endPos, info =>
    if seekStart pos startPos + 8 > endPos then some ⟨seekStart pos startPos, info, none⟩
    else
      let chunkHeader := readFull data (seekStart pos startPos) 8
      match chunkHeader.err with
      | some _ => some ⟨chunkHeader.pos, info, none⟩
      | none =>
        let chunkID := slice chunkHeader.buf 0 4
        let chunkSize : Int := leUint (slice chunkHeader.buf 4 8)
        let dataPos := chunkHeader.pos
        let nextPos := aviAlign (dataPos + chunkSize)
        if chunkID = str "LIST" then
          let listType := readFull data dataPos 4
          match listType.err with
          | some _ => aviIterateChunks rt data fuel listType.pos nextPos endPos info
          | none =>
            if listType.buf = str "hdrl" then
              match aviIterateChunks rt data fuel listType.pos listType.pos (dataPos + chunkSize)
                  info with
              | none => none
              | some w => aviIterateChunks rt data fuel w.pos nextPos endPos w.st
            else if listType.buf = str "strl" then
              match aviParseStreamList rt data listType.pos listType.pos (dataPos + chunkSize)
                  info with
              | none => none
              | some r => aviIterateChunks rt data fuel r.1 nextPos endPos r.2
            else aviIterateChunks rt data fuel listType.pos nextPos endPos info
        else if chunkID = str "avih" then
          let r := aviParseMainHeader rt data dataPos chunkSize dataPos info
          aviIterateChunks rt data fuel r.1 nextPos endPos r.2
        else aviIterateChunks rt data fuel dataPos nextPos endPos info

/-- The end of the region `parseAVI` walks (source lines 45-53): the declared
RIFF size after the 12 header bytes, capped by the file size and by 1 MiB. -/
def aviParseLimit (riffSize fileSize : Int) : Int :=
  let parseLimit := if 12 + riffSize > fileSize then fileSize else 12 + riffSize
  if parseLimit > 1 * 1024 * 1024 then 1 * 1024 * 1024 else parseLimit

/-- Model of `parseAVI` on an opened file with contents `data`. -/
def parseAVI (rt : GoRuntime) (path : GoString) (data : List Byte) :
    Option (Except GoError (FileInfo rt.F)) :=
  let riffHeader := readFull data 0 12
  match riffHeader.err with
  | some _ => some (Except.error (GoError.msg "not a valid RIFF file"))
  | none =>
    if slice riffHeader.buf 0 4 ≠ str "RIFF" ∨ slice riffHeader.buf 8 12 ≠ str "AVI " then
      some (Except.error (GoError.msg "not an AVI file"))
    else
      let riffSize : Int := leUint (slice riffHeader.buf 4 8)
      match aviIterateChunks rt data (data.length + 1) riffHeader.pos 12
          (aviParseLimit riffSize data.length) (newFileInfo rt path data.length) with
      | none => none
      | some w =>
        match w.err with
        | some e => some (Except.error e)
        | none =>
          if w.st.Codec = [] then some (Except.error (GoError.msg "no video stream found"))
          else some (Except.ok w.st)

/-! ## A runtime for evaluation -/

/-- A fraction `num / den`; `den = 0` stands for a value that is not a number. -/
structure Frac where
  num : Int
  den : Nat
  deriving DecidableEq, Repr

/-- Exact value of an IEEE-754 bit pattern with `e` exponent and `m` mantissa
bits that encodes a finite number; the patterns of the infinities and of NaN
all give the invalid fraction. -/
def Frac.ofBits (e m : Nat) (bits : Nat) : Frac :=
  let frac := bits % 2 ^ m
  let ex := (bits / 2 ^ m) % 2 ^ e
  let sign : Int := if (bits / 2 ^ (m + e)) % 2 = 1 then -1 else 1
  let bias := 2 ^ (e - 1) - 1
  if ex = 2 ^ e - 1 then ⟨0, 0⟩
  else if ex = 0 then ⟨sign * frac, 2 ^ (bias - 1 + m)⟩
  else if ex ≥ bias + m then ⟨sign * ((2 ^ m + frac) * 2 ^ (ex - bias - m) : Nat), 1⟩
  else ⟨sign * ((2 ^ m + frac : Nat) : Int), 2 ^ (bias + m - ex)⟩

/-- Rounding to the nearest integer, halves away from zero (`math.Round`). -/
def Frac.round (x : Frac) : Frac :=
  if x.den = 0 then x
  else if 0 ≤ x.num then ⟨(2 * x.num + x.den) / (2 * x.den), 1⟩
  else ⟨-((2 * (-x.num) + x.den) / (2 * x.den)), 1⟩

/-- Quotient of two fractions. -/
def Frac.div (x y : Frac) : Frac :=
  if y.num < 0 then ⟨-(x.num * y.den), x.den * y.num.natAbs⟩
  else ⟨x.num * y.den, x.den * y.num.natAbs⟩

/-- A runtime that computes with exact fractions where Go rounds to `float64`,
leaves non-ASCII strings unchanged under case mapping (Go maps non-ASCII
letters and replaces invalid UTF-8 by U+FFFD), and takes the text after the
last slash as base name.  It serves to run the parsers on concrete files with
ASCII strings and finite numbers. -/
def exactRuntime : GoRuntime where
  F := Frac
  ofUint n := ⟨n, 1⟩
  ofFloat32Bits bits := Frac.ofBits 8 23 bits
  ofFloat64Bits bits := Frac.ofBits 11 52 bits
  mul x y := ⟨x.num * y.num, x.den * y.den⟩
  div := Frac.div
  round := Frac.round
  lt x y := decide (x.den ≠ 0 ∧ y.den ≠ 0 ∧ x.num * y.den < y.num * x.den)
  eq x y := decide (x.den ≠ 0 ∧ y.den ≠ 0 ∧ x.num * y.den = y.num * x.den)
  toInt x := Int.tdiv x.num x.den
  mapLower s := s
  mapUpper s := s
  base path := (path.reverse.takeWhile (fun b => b ≠ 47)).reverse

/-! ## Specification vocabulary for the box walker -/

/-- One handler invocation: box type, `dataSize`, `dataOffset`. -/
abbrev BoxCall := GoString × Int × Int

/-- The handler `h` instrumented to record, in order, the arguments of every
invocation next to the variables it captures. -/
def traced {σ : Type} (h : BoxHandler σ) : BoxHandler (σ × List BoxCall) :=
  fun boxType dataSize dataOffset pos s =>
    match h boxType dataSize dataOffset pos s.1 with
    | none => none
    | some w => some ⟨w.pos, (w.st, s.2 ++ [(boxType, dataSize, dataOffset)]), w.err⟩

/-- A handler that does nothing and returns no error. -/
def idleHandler : BoxHandler Unit := fun _ _ _ pos s => some ⟨pos, s, none⟩

/-- Chain `BoxChain data endPos pos boxes stop`: from offset `pos` the container
ending at `endPos` holds the consecutive well-formed boxes `boxes` (each at
least as long as its header and inside the container), the last one ending at
offset `stop`. -/
inductive BoxChain (data : List Byte) (endPos : Int) : Int → List BoxCall → Int → Prop where
  | nil (pos : Int) : BoxChain data endPos pos [] pos
  | cons (pos p1 : Int) (hd : BoxHeader) (rest : List BoxCall) (stop : Int) :
      pos + 8 ≤ endPos → mp4ReadBoxHeader data pos endPos = (p1, some hd) →
      hd.headerSize ≤ hd.size → hd.size ≤ endPos - pos →
      BoxChain data endPos (pos + hd.size) rest stop →
      BoxChain data endPos pos ((hd.boxType, hd.size - hd.headerSize, p1) :: rest) stop

/-- A malformed box at offset `pos`: its header can be read, and its size is
below its header size or beyond the end of the container. -/
def MalformedBoxAt (data : List Byte) (endPos pos : Int) : Prop :=
  pos + 8 ≤ endPos ∧ ∃ p1 hd, mp4ReadBoxHeader data pos endPos = (p1, some hd) ∧
    (hd.size < hd.headerSize ∨ hd.size > endPos - pos)

/-- The bounds every delivered box satisfies (container starting at `c0`). -/
def BoxInside (c0 endPos : Int) (c : BoxCall) : Prop :=
  0 ≤ c.2.1 ∧ c0 + 8 ≤ c.2.2 ∧ c.2.2 + c.2.1 ≤ endPos

/-- A file of two boxes: `free` of size 12 with four data bytes, then `skip` of size 8. -/
def twoBoxes : List Byte :=
  [0, 0, 0, 12] ++ str "free" ++ [1, 2, 3, 4] ++ [0, 0, 0, 8] ++ str "skip"

/-- A file of one well-formed box (`free`, size 8) followed by a box that
declares size 4, less than its header. -/
def goodThenBad : List Byte := [0, 0, 0, 8] ++ str "free" ++ [0, 0, 0, 4] ++ str "bad!"

/-- One iteration of a loop at cursor `pos` either ends the loop, with a
result that does not depend on the fuel that is left, or continues at a
strictly greater cursor. -/
def Advances {α β : Type} (loop : Nat → Int → α → β) (pos : Int) (st : α) : Prop :=
  (∃ r, ∀ fuel, loop (fuel + 1) pos st = r) ∨
    (∃ pos' st', pos < pos' ∧ ∀ fuel, loop (fuel + 1) pos st = loop fuel pos' st')

/-- One iteration of `aviIterateChunks`, which starts at the cursor
`seekStart pos startPos`, either ends the walk with a result that does not
depend on the fuel that is left, or hands the rest of the walk (unless a nested
walk ran out of fuel) to a call that starts at a strictly greater offset `next`. -/
def AviAdvances (rt : GoRuntime) (data : List Byte) (pos startPos endPos : Int)
    (info : FileInfo rt.F) : Prop :=
  (∃ r, ∀ fuel, aviIterateChunks rt data (fuel + 1) pos startPos endPos info = some r) ∨
    (∃ next, seekStart pos startPos < next ∧ ∀ fuel,
      aviIterateChunks rt data (fuel + 1) pos startPos endPos info = none ∨
      ∃ cur info', seekStart cur next = next ∧
        aviIterateChunks rt data (fuel + 1) pos startPos endPos info =
          aviIterateChunks rt data fuel cur next endPos info')

/-- An MKV file whose only track entry holds a CodecID element that declares
the size `2^56 - 1` (size bytes `01 FF FF FF FF FF FF FF`) and no payload. -/
def mkvHugeCodecID : List Byte :=
  [0x1A, 0x45, 0xDF, 0xA3, 0x80,
   0x18, 0x53, 0x80, 0x67, 0x90,
   0x16, 0x54, 0xAE, 0x6B, 0x8B,
   0xAE, 0x89,
   0x86, 0x01, 0xFF, 0xFF, 0xFF, 0xFF, 0xFF, 0xFF, 0xFF]

/-- A well-formed MKV file with one video track entry of codec `V_VP8`. -/
def mkvSample : List Byte :=
  [0x1A, 0x45, 0xDF, 0xA3, 0x80,
   0x18, 0x53, 0x80, 0x67, 0x91,
   0x16, 0x54, 0xAE, 0x6B, 0x8C,
   0xAE, 0x8A,
   0x83, 0x81, 0x01,
   0x86, 0x85] ++ str "V_VP8"

/-- The loop of `mkvParseInfo` with its two variables as one state. -/
def mkvInfoLoopS (rt : GoRuntime) (data : List Byte) (endPos : Int) (fuel : Nat) (pos : Int)
    (st : Nat × rt.F) : Option (Int × Nat × rt.F) :=
  mkvInfoLoop rt data endPos fuel pos st.1 st.2

/-- The loop of `mkvParseVideoInfo` with its two variables as one state. -/
def mkvVideoLoopS (data : List Byte) (endPos : Int) (fuel : Nat) (pos : Int)
    (st : Int × Int) : Option (Int × Int × Int) :=
  mkvVideoLoop data endPos fuel pos st.1 st.2

/-- Offset of the width field in a `tkhd` payload, by the version byte that
starts the payload: 76 for version 0, 88 otherwise (the height follows at +4). -/
def tkhdDimsOffset (payload : List Byte) : Nat := if payload.headD 0 = 0 then 76 else 88

/-- Big-endian encoding of a number in four bytes. -/
def be32 (n : Nat) : List Byte :=
  [Fin.ofNat (n / 2 ^ 24), Fin.ofNat (n / 2 ^ 16), Fin.ofNat (n / 2 ^ 8), Fin.ofNat n]

/-- Little-endian encoding of a number in four bytes. -/
def le32 (n : Nat) : List Byte := (be32 n).reverse

/-- A run of `n` zero bytes. -/
def zeros (n : Nat) : List Byte := List.replicate n 0

/-- An ISO-BMFF box with a 32-bit size field. -/
def mp4Box (boxType : String) (body : List Byte) : List Byte :=
  be32 (8 + body.length) ++ str boxType ++ body

/-- A RIFF chunk: identifier, little-endian size, body. -/
def riffChunk (chunkID : String) (body : List Byte) : List Byte :=
  str chunkID ++ le32 body.length ++ body

/-- An EBML element with a one-byte size (body shorter than 127 bytes). -/
def ebmlElem (idBytes : List Byte) (body : List Byte) : List Byte :=
  idBytes ++ [Fin.ofNat (0x80 + body.length)] ++ body

/-- The 56-byte payload of an `avih` chunk (AVIMAINHEADER) with 40000
microseconds per frame, `dwTotalFrames = 100` at offset 16, `dwStreams = 2` at
offset 24, width 320 and height 240. -/
def avihPayload : List Byte :=
  le32 40000 ++ zeros 12 ++ le32 100 ++ zeros 4 ++ le32 2 ++ zeros 4 ++ le32 320 ++ le32 240 ++
    zeros 16

/-- A stream list body: a `vids` stream header with FourCC `H264` and a
BITMAPINFOHEADER of width 320 whose `biHeight` is the two's-complement encoding
of `-240` (a top-down bitmap). -/
def strlTopDown : List Byte :=
  riffChunk "strh" (str "vids" ++ str "H264" ++ zeros 48) ++
    riffChunk "strf" (le32 40 ++ le32 320 ++ le32 (2 ^ 32 - 240) ++ zeros 28)

/-- Two files agree on every byte of the range `[lo, hi)` (a byte that one
file lacks is lacking in the other, too). -/
def AgreeOn (d₁ d₂ : List Byte) (lo hi : Int) : Prop :=
  ∀ i : Nat, lo ≤ (i : Int) → (i : Int) < hi → d₁[i]? = d₂[i]?

/-- An `stts` box of size 16 (version/flags, `entry_count = 1`, no entry in the
box) followed by a `free` box whose size field is 16. -/
def sttsThenFree16 : List Byte :=
  mp4Box "stts" (zeros 4 ++ be32 1) ++ mp4Box "free" (zeros 8)

/-- The same `stts` box followed by a `free` box whose size field is 24. -/
def sttsThenFree24 : List Byte :=
  mp4Box "stts" (zeros 4 ++ be32 1) ++ mp4Box "free" (zeros 16)

/-- A TrackType element (value 1) followed by a CodecID element `V_VP8`: the
CodecID header occupies offsets 3 and 4, its payload offsets 5 to 9. -/
def trackTypeThenCodec : List Byte :=
  ebmlElem [0x83] [0x01] ++ ebmlElem [0x86] (str "V_VP8")

/-- An `hdlr`-only video track with a 640x480 track header and no sample
description. -/
def trakNoCodec : List Byte :=
  mp4Box "trak" (mp4Box "tkhd" (zeros 76 ++ be32 (640 * 65536) ++ be32 (480 * 65536)) ++
    mp4Box "mdia" (mp4Box "hdlr" (zeros 8 ++ str "vide")))

/-- A video track with a 320x240 track header and sample description `avc1`. -/
def trakAvc1 : List Byte :=
  mp4Box "trak" (mp4Box "tkhd" (zeros 76 ++ be32 (320 * 65536) ++ be32 (240 * 65536)) ++
    mp4Box "mdia" (mp4Box "hdlr" (zeros 8 ++ str "vide") ++
      mp4Box "minf" (mp4Box "stbl" (mp4Box "stsd" (zeros 8 ++ be32 0 ++ str "avc1")))))

/-- A file whose `moov` holds the two video tracks `trakNoCodec`, `trakAvc1`. -/
def mp4TwoVideoTracks : List Byte := mp4Box "moov" (trakNoCodec ++ trakAvc1)

/-- The four video fields of a record. -/
def videoFields {F : Type} (info : FileInfo F) : GoString × Int × Int × F :=
  (info.Codec, info.Width, info.Height, info.Framerate)

/-- A record whose video codec is already known: 1920x1080, `hevc`. -/
def recordWithCodec : FileInfo exactRuntime.F :=
  { newFileInfo exactRuntime (str "a.mp4") 0 with Codec := str "hevc", Width := 1920, Height := 1080 }

/-- The local variables of a `vide` track of 640x480 with sample entry `avc1`. -/
def videTrakVars : TrakVars := ⟨640, 480, str "vide", str "avc1", 0, 0, 0⟩

/-- A video `TrackEntry` of 640x480 without a `CodecID`: `TrackType` 1 and a
`Video` element with `PixelWidth` and `PixelHeight`. -/
def entryNoCodec : List Byte :=
  ebmlElem [0xAE] (ebmlElem [0x83] [0x01] ++
    ebmlElem [0xE0] (ebmlElem [0xB0] [0x02, 0x80] ++ ebmlElem [0xBA] [0x01, 0xE0]))

/-- A video `TrackEntry` of 320x240 with `CodecID` `V_VP8`. -/
def entryVp8 : List Byte :=
  ebmlElem [0xAE] (ebmlElem [0x83] [0x01] ++ ebmlElem [0x86] (str "V_VP8") ++
    ebmlElem [0xE0] (ebmlElem [0xB0] [0x01, 0x40] ++ ebmlElem [0xBA] [0x00, 0xF0]))

/-- An MKV file whose `Tracks` element holds `entryNoCodec` and then `entryVp8`. -/
def mkvTwoVideoEntries : List Byte :=
  ebmlElem [0x1A, 0x45, 0xDF, 0xA3] [] ++
  ebmlElem [0x18, 0x53, 0x80, 0x67] (ebmlElem [0x16, 0x54, 0xAE, 0x6B] (entryNoCodec ++ entryVp8))

/-- The local variables of a video entry of 640x480 with `CodecID` `V_VP9`. -/
def videoTrackVars : TrackVars := ⟨1, str "V_VP9", 640, 480, 0⟩

/-- A `LIST strl` chunk of a `vids` stream: a 56-byte stream header with the
given FourCC, `dwScale = 1`, `dwRate = 25` and the given `dwLength`, and a
BITMAPINFOHEADER of the given width and height. -/
def strlVids (fourcc : List Byte) (w h len : Nat) : List Byte :=
  riffChunk "LIST" (str "strl" ++
    riffChunk "strh" (str "vids" ++ fourcc ++ zeros 12 ++ le32 1 ++ le32 25 ++ zeros 4 ++
      le32 len ++ zeros 20) ++
    riffChunk "strf" (le32 40 ++ le32 w ++ le32 h ++ zeros 28))

/-- An AVI file whose `hdrl` list holds the given stream lists. -/
def aviFile (lists : List Byte) : List Byte :=
  str "RIFF" ++ le32 (4 + (riffChunk "LIST" (str "hdrl" ++ lists)).length) ++ str "AVI " ++
    riffChunk "LIST" (str "hdrl" ++ lists)

/-- An AVI file with two `vids` streams: `H264` 640x480 of 250 frames, then
`MJPG` 320x240 of 100 frames. -/
def aviTwoVideoStreams : List Byte :=
  aviFile (strlVids (str "H264") 640 480 250 ++ strlVids (str "MJPG") 320 240 100)

/-- The file `aviTwoVideoStreams` with its second `vids` stream list removed. -/
def aviFirstVideoStream : List Byte := aviFile (strlVids (str "H264") 640 480 250)

/-- A stream list names a video codec: the stream type left by its last `strh`
chunk read is `vids` and `aviCodecName` of its FourCC is not empty. -/
def NamesVideoCodec (rt : GoRuntime) (v : StreamVars rt.F) : Prop :=
  v.streamType = str "vids" ∧ aviCodecName rt v.codecFourCC ≠ []

instance (rt : GoRuntime) (v : StreamVars rt.F) : Decidable (NamesVideoCodec rt v) := by
  unfold NamesVideoCodec
  infer_instance

/-- The `strl` lists walked by `aviIterateChunks` from the same arguments, in
file order, each as the variables its `aviParseStreamList` loop ends with. -/
def aviStrlFinals (rt : GoRuntime) (data : List Byte) :
    Nat → Int → Int → Int → FileInfo rt.F → List (StreamVars rt.F)
  | 0, _, _, _, _ => []
  | fuel + 1, pos, startPos, endPos, info =>
    if seekStart pos startPos + 8 > endPos then []
    else
      let chunkHeader := readFull data (seekStart pos startPos) 8
      match chunkHeader.err with
      | some _ => []
      | none =>
        let chunkID := slice chunkHeader.buf 0 4
        let chunkSize : Int := leUint (slice chunkHeader.buf 4 8)
        let dataPos := chunkHeader.pos
        let nextPos := aviAlign (dataPos + chunkSize)
        if chunkID = str "LIST" then
          let listType := readFull data dataPos 4
          match listType.err with
          | some _ => aviStrlFinals rt data fuel listType.pos nextPos endPos info
          | none =>
            if listType.buf = str "hdrl" then
              match aviIterateChunks rt data fuel listType.pos listType.pos (dataPos + chunkSize)
                  info with
              | none => []
              | some w =>
                aviStrlFinals rt data fuel listType.pos listType.pos (dataPos + chunkSize) info ++
                  aviStrlFinals rt data fuel w.pos nextPos endPos w.st
            else if listType.buf = str "strl" then
              match aviStreamLoop rt data (dataPos + chunkSize) (data.length + 1)
                  (seekStart listType.pos listType.pos) ⟨[], [], info⟩ with
              | none => []
              | some r => r.2 :: aviStrlFinals rt data fuel r.1 nextPos endPos (aviStreamCommit rt r.2)
            else aviStrlFinals rt data fuel listType.pos nextPos endPos info
        else if chunkID = str "avih" then
          let r := aviParseMainHeader rt data dataPos chunkSize dataPos info
          aviStrlFinals rt data fuel r.1 nextPos endPos r.2
        else aviStrlFinals rt data fuel dataPos nextPos endPos info

/-- An AVI file with one `vids` stream of 640x480 whose FourCC is four NUL bytes. -/
def aviVidsNulFourCC : List Byte := aviFile (strlVids (zeros 4) 640 480 250)

/-- A version-0 header payload as `mvhd` and `mdhd` share it up to the
duration: version and flags, two timestamps, timescale 1000, duration 5000. -/
def headerV0 : List Byte := zeros 12 ++ be32 1000 ++ be32 5000

/-- The `sample_count` fields of the first `n` entries of an `stts` payload:
version and flags, `entry_count`, then 8-byte entries from payload offset 8. -/
def sttsSampleCounts (payload : List Byte) (n : Nat) : List Nat :=
  (List.range n).map (fun i => beUint ((payload.drop (8 + 8 * i)).take 4))

/-- An `stts` payload with two entries of `sample_count` 3 and 5. -/
def sttsThreeFive : List Byte :=
  zeros 4 ++ be32 2 ++ be32 3 ++ be32 1 ++ be32 5 ++ be32 1

/-- An `stts` payload with two entries of `sample_count` `2^31` each. -/
def sttsTwoHalves : List Byte :=
  zeros 4 ++ be32 2 ++ be32 (2 ^ 31) ++ be32 1 ++ be32 (2 ^ 31) ++ be32 1

/-- An MKV file whose Segment declares the size 5: a `Void` element (ID `0xEC`)
of five bytes fills it, and a `Tracks` element with a `V_VP8` video entry
follows at offset 15. -/
def mkvTracksBeyondSegment : List Byte :=
  ebmlElem [0x1A, 0x45, 0xDF, 0xA3] [] ++
  [0x18, 0x53, 0x80, 0x67, 0x85] ++
    (ebmlElem [0xEC] (zeros 3) ++
      ebmlElem [0x16, 0x54, 0xAE, 0x6B]
        (ebmlElem [0xAE] (ebmlElem [0x83] [0x01] ++ ebmlElem [0x86] (str "V_VP8"))))

/-- The offset right after the declared payload of the EBML header. -/
def mkvSegmentOffset (data : List Byte) : Int :=
  (ebmlReadElement data 0).pos + ((ebmlReadElement data 0).size : Int)

/-- The first four bytes are the EBML header ID and the four bytes right after
the header's declared payload are the Segment ID. -/
def MkvMagic (data : List Byte) : Prop :=
  data.take 4 = [0x1A, 0x45, 0xDF, 0xA3] ∧
    (bytesFrom data (mkvSegmentOffset data)).take 4 = [0x18, 0x53, 0x80, 0x67]

instance (data : List Byte) : Decidable (MkvMagic data) := by
  unfold MkvMagic
  infer_instance

/-- The string contains an upper-case ASCII letter. -/
def hasUpper (s : GoString) : Bool := s.any (fun b => decide (65 ≤ b.val ∧ b.val ≤ 90))

/-- Every byte of the string is ASCII. -/
def isAscii (s : GoString) : Bool := s.all (fun b => decide (b.val < 128))

/-- The entries of the table of `aviCodecName`. -/
def aviVideoTable : List GoString :=
  [str "H264", str "X264", str "AVC1", str "HEVC", str "H265", str "X265", str "HVC1",
    str "DIVX", str "DX50", str "XVID", str "FMP4", str "MP4V", str "MJPG", str "MJPEG",
    str "VP80", str "VP90", str "AV01", str "WMV1", str "WMV2", str "WMV3", str "MSVC",
    str "CRAM"]

/-- The entries of the table of `aviAudioCodecName`. -/
def aviAudioTable : List GoString :=
  [[0, 0, 0, 0], [], [0x01, 0x00], [0x55, 0x00], [0xFF, 0x00]]

/-! ## Dispatch and the batch check (`fileinfo.go`) -/

/-- What a call with results `(*FileInfo, error)` returns: the record (absent
for a nil pointer) and the error (absent for nil). -/
abbrev InfoResult (F : Type) := Option (FileInfo F) × Option GoError

/-- The functions that `GetFileInfo` calls, as parameters: the three native
parsers and the external probe, each from the path to its results, and
`os.IsPathSeparator`. -/
structure Probes (F : Type) where
  parseMP4 : GoString → InfoResult F
  parseMKV : GoString → InfoResult F
  parseAVI : GoString → InfoResult F
  getFileInfoFFprobe : GoString → InfoResult F
  isPathSeparator : Byte → Bool

/-- The loop of `filepath.Ext` from the last byte backwards: the bytes still to
scan (last one first) and the suffix already passed. -/
def extScan (isSep : Byte → Bool) : List Byte → List Byte → GoString
  | [], _ => []
  | b :: rest, suffix =>
    if isSep b then []
    else if b = 46 then b :: suffix
    else extScan isSep rest (b :: suffix)

/-- Function `filepath.Ext`: the suffix that starts at the last dot of the last
path element, empty if that element has no dot. -/
def filepathExt (isSep : Byte → Bool) (path : GoString) : GoString :=
  extScan isSep path.reverse []

/-- Model of `GetFileInfo` over the functions it calls. -/
def GetFileInfo (rt : GoRuntime) (env : Probes rt.F) (path : GoString) : InfoResult rt.F :=
  let ext := toLower rt (filepathExt env.isPathSeparator path)
  if ext = str ".mp4" ∨ ext = str ".mov" ∨ ext = str ".m4v" then
    let r := env.parseMP4 path
    if r.2 = none then (r.1, none) else env.getFileInfoFFprobe path
  else if ext = str ".mkv" ∨ ext = str ".webm" then
    let r := env.parseMKV path
    if r.2 = none then (r.1, none) else env.getFileInfoFFprobe path
  else if ext = str ".avi" then
    let r := env.parseAVI path
    if r.2 = none then (r.1, none) else env.getFileInfoFFprobe path
  else env.getFileInfoFFprobe path

/-- The native parser that the specification assigns to a lower-cased file
extension, if any. -/
def nativeParser {F : Type} (env : Probes F) (ext : GoString) : Option (GoString → InfoResult F) :=
  if ext ∈ [str ".mp4", str ".mov", str ".m4v"] then some env.parseMP4
  else if ext ∈ [str ".mkv", str ".webm"] then some env.parseMKV
  else if ext = str ".avi" then some env.parseAVI
  else none

/-- A record with the given codec and zero values elsewhere. -/
def recordOf (codec : String) : FileInfo exactRuntime.F :=
  { newFileInfo exactRuntime [] 0 with Codec := str codec }

/-- Stand-ins for the four functions: `parseMP4` succeeds, `parseMKV` and
`parseAVI` fail, the probe succeeds; the separator is the slash. -/
def sampleProbes : Probes exactRuntime.F where
  parseMP4 _ := (some (recordOf "h264"), none)
  parseMKV _ := (none, some (GoError.msg "no video track found"))
  parseAVI _ := (some (recordOf "partial"), some (GoError.msg "no video stream found"))
  getFileInfoFFprobe _ := (some (recordOf "probe"), none)
  isPathSeparator b := decide (b = 47)

/-- What `CheckDurationMismatch` and `formatDiff` use of `float64` beyond
`GoRuntime`: subtraction, `math.Abs`, the comparison `<=` and the verb `%.1f`
of `fmt.Sprintf`. -/
structure FloatOps (rt : GoRuntime) where
  sub : rt.F → rt.F → rt.F
  abs : rt.F → rt.F
  le : rt.F → rt.F → Bool
  sprintf1 : rt.F → GoString

/-- The record `DurationMismatchInfo` of `fileinfo.go`. -/
structure DurationMismatchInfo where
  Path : GoString
  Name : GoString
  Duration : GoString
  Diff : GoString
  deriving DecidableEq, Repr

/-- The record `DurationCheckResult` of `fileinfo.go`; the slice
`MismatchFiles` is `none` when nil. -/
structure DurationCheckResult (F : Type) where
  HasMismatch : Bool
  BaseDuration : GoString
  Tolerance : F
  MismatchFiles : Option (List DurationMismatchInfo)

/-- Model of `formatDiff`. -/
def formatDiff (rt : GoRuntime) (fo : FloatOps rt) (seconds : rt.F) : GoString :=
  if fo.le (rt.ofUint 0) seconds then str "+" ++ fo.sprintf1 seconds ++ str "s"
  else fo.sprintf1 seconds ++ str "s"

/-- The built-in `append(s, x)` on a slice that may be nil. -/
def goAppend {α : Type} (s : Option (List α)) (x : α) : Option (List α) :=
  some (s.getD [] ++ [x])

/-- The tolerance `CheckDurationMismatch` works with (source lines 208-210):
1.0 when the argument is `<= 0`. -/
def effectiveTolerance (rt : GoRuntime) (fo : FloatOps rt) (tolerance : rt.F) : rt.F :=
  if fo.le tolerance (rt.ofUint 0) then rt.ofUint 1 else tolerance

/-- The loop of `CheckDurationMismatch` (source lines 226-240) over the files
still to visit: the result record and the visited files with their flags as the
loop leaves them. -/
def checkLoop (rt : GoRuntime) (fo : FloatOps rt) (baseDuration tolerance : rt.F) :
    List (FileInfo rt.F) → DurationCheckResult rt.F →
      DurationCheckResult rt.F × List (FileInfo rt.F)
  | [], result => (result, [])
  | file :: rest, result =>
    let diff := fo.sub file.DurationSeconds baseDuration
    if rt.lt tolerance (fo.abs diff) then
      let r := checkLoop rt fo baseDuration tolerance rest
        { result with
          HasMismatch := true,
          MismatchFiles := goAppend result.MismatchFiles
            ⟨file.Path, file.Name, file.Duration, formatDiff rt fo diff⟩ }
      (r.1, { file with HasDurationMismatch := true } :: r.2)
    else
      let r := checkLoop rt fo baseDuration tolerance rest result
      (r.1, file :: r.2)

/-- Model of `CheckDurationMismatch` on a batch of non-nil records: the result
and the records as the call leaves them. -/
def CheckDurationMismatch (rt : GoRuntime) (fo : FloatOps rt) (files : List (FileInfo rt.F))
    (tolerance : rt.F) : DurationCheckResult rt.F × List (FileInfo rt.F) :=
  let tolerance := effectiveTolerance rt fo tolerance
  let result : DurationCheckResult rt.F := ⟨false, [], tolerance, some []⟩
  match files with
  | [] => (result, [])
  | first :: _ =>
    checkLoop rt fo first.DurationSeconds tolerance files
      { result with BaseDuration := first.Duration }

/-- The test `|d - d0| > t` of the loop for a file. -/
def exceedsTolerance (rt : GoRuntime) (fo : FloatOps rt) (d0 t : rt.F) (file : FileInfo rt.F) :
    Bool :=
  rt.lt t (fo.abs (fo.sub file.DurationSeconds d0))

/-- The descriptor `(Path, Name, Duration, formatDiff(d - d0))` of a file. -/
def mismatchDescriptor (rt : GoRuntime) (fo : FloatOps rt) (d0 : rt.F) (file : FileInfo rt.F) :
    DurationMismatchInfo :=
  ⟨file.Path, file.Name, file.Duration, formatDiff rt fo (fo.sub file.DurationSeconds d0)⟩

/-- The verb `%.1f` on an exact fraction: one decimal, rounded to nearest with
ties to even, `NaN` for a value that is not a number. -/
def Frac.format1 (x : Frac) : GoString :=
  if x.den = 0 then str "NaN"
  else
    let a := x.num.natAbs * 10
    let q := a / x.den
    let r := a % x.den
    let tenths := if 2 * r < x.den then q else if x.den < 2 * r then q + 1
      else if q % 2 = 0 then q else q + 1
    (if x.num < 0 then str "-" else []) ++ decimal (tenths / 10) ++ str "." ++
      decimal (tenths % 10)

/-- The operations of `FloatOps` on exact fractions. -/
def exactFloatOps : FloatOps exactRuntime where
  sub x y := ⟨x.num * y.den - y.num * x.den, x.den * y.den⟩
  abs x := ⟨x.num.natAbs, x.den⟩
  le x y := decide (x.den ≠ 0 ∧ y.den ≠ 0 ∧ x.num * y.den ≤ y.num * x.den)
  sprintf1 := Frac.format1

/-- A record with the given name, duration in tenths of a second, duration
text and mismatch flag. -/
def clip (name : String) (tenths : Int) (duration : String) (flag : Bool) :
    FileInfo exactRuntime.F :=
  { newFileInfo exactRuntime (str name) 0 with
    DurationSeconds := ⟨tenths, 10⟩, Duration := str duration, HasDurationMismatch := flag }

/-- The first 32 bytes of `aviBeyondCap`: the RIFF header, the header of a
`LIST hdrl` chunk of declared size 1048616, and the header of a `JUNK` chunk
of 1 MiB. -/
def aviCapHead : List Byte :=
  str "RIFF" ++ le32 1048628 ++ str "AVI " ++
    (str "LIST" ++ le32 1048616 ++ str "hdrl" ++ (str "JUNK" ++ le32 1048576))

/-- The last 28 bytes of `aviBeyondCap`: a `LIST strl` chunk that holds a
`strh` chunk of 8 bytes, stream type `vids` and FourCC `H264`. -/
def aviCapTail : List Byte :=
  str "LIST" ++ le32 20 ++ str "strl" ++ (str "strh" ++ le32 8 ++ (str "vids" ++ str "H264"))

/-- An AVI file of 1048636 bytes whose `hdrl` list starts at offset 12 and
declares a size that reaches the end of the file; a `JUNK` chunk of 1 MiB
fills offsets 32 to 1048607 and the only `strl` list starts at offset 1048608. -/
def aviBeyondCap : List Byte := aviCapHead ++ (zeros 1048576 ++ aviCapTail)

/-! ## Vocabulary for the duration text, header offsets and `Info` children -/

/-- The decimal rendering of a natural number, zero-padded to at least two digits. -/
def pad2 (k : Nat) : GoString :=
  if k < 10 then [Fin.ofNat 48, Fin.ofNat (48 + k)] else decimal k

/-- The byte is a decimal digit. -/
def isDigit (b : Byte) : Bool := decide (48 ≤ b.val ∧ b.val ≤ 57)

/-- The string has the form `HH:MM:SS`: eight characters, two-digit decimal
fields separated by colons. -/
def isHHMMSS (s : GoString) : Bool :=
  match s with
  | [a, b, c, d, e, f, g, h] =>
    isDigit a && isDigit b && decide (c = 58) && isDigit d && isDigit e && decide (f = 58) &&
      isDigit g && isDigit h
  | _ => false

/-- The two duration fields of a record agree: either both are at their zero
values (no duration was stored) or the display string is the formatting of the
stored seconds. -/
def DurationConsistent (rt : GoRuntime) (info : FileInfo rt.F) : Prop :=
  (info.Duration = [] ∧ info.DurationSeconds = rt.ofUint 0) ∨
    info.Duration = formatDuration rt info.DurationSeconds

/-- The file offsets at which the loop of `aviParseStreamList` starts the read
of a chunk header, in order (same walk as `aviStreamLoop`). -/
def aviStreamOffsets (rt : GoRuntime) (data : List Byte) (endPos : Int) :
    Nat → Int → StreamVars rt.F → List Int
  | 0, _, _ => []
  | fuel + 1, pos, v =>
    if pos + 8 > endPos then []
    else
      let chunkHeader := readFull data pos 8
      pos ::
      match chunkHeader.err with
      | some _ => []
      | none =>
        let chunkID := slice chunkHeader.buf 0 4
        let chunkSize : Int := leUint (slice chunkHeader.buf 4 8)
        let dataPos := chunkHeader.pos
        let r :=
          if chunkID = str "strh" then aviStrh rt data dataPos chunkSize v
          else if chunkID = str "strf" then aviStrf rt data dataPos chunkSize v
          else (dataPos, v)
        aviStreamOffsets rt data endPos fuel (seekStart r.1 (aviAlign (dataPos + chunkSize))) r.2

/-- The file offsets at which `aviIterateChunks`, its nested calls for `hdrl`
lists and the calls of `aviParseStreamList` for `strl` lists start the read of
a chunk header, in order (same walk as `aviIterateChunks`). -/
def aviHeaderOffsets (rt : GoRuntime) (data : List Byte) :
    Nat → Int → Int → Int → FileInfo rt.F → List Int
  | 0, _, _, _, _ => []
  | fuel + 1, pos, startPos, endPos, info =>
    if seekStart pos startPos + 8 > endPos then []
    else
      let chunkHeader := readFull data (seekStart pos startPos) 8
      seekStart pos startPos ::
      match chunkHeader.err with
      | some _ => []
      | none =>
        let chunkID := slice chunkHeader.buf 0 4
        let chunkSize : Int := leUint (slice chunkHeader.buf 4 8)
        let dataPos := chunkHeader.pos
        let nextPos := aviAlign (dataPos + chunkSize)
        if chunkID = str "LIST" then
          let listType := readFull data dataPos 4
          match listType.err with
          | some _ => aviHeaderOffsets rt data fuel listType.pos nextPos endPos info
          | none =>
            if listType.buf = str "hdrl" then
              aviHeaderOffsets rt data fuel listType.pos listType.pos (dataPos + chunkSize) info ++
              match aviIterateChunks rt data fuel listType.pos listType.pos (dataPos + chunkSize)
                  info with
              | none => []
              | some w => aviHeaderOffsets rt data fuel w.pos nextPos endPos w.st
            else if listType.buf = str "strl" then
              aviStreamOffsets rt data (dataPos + chunkSize) (data.length + 1)
                (seekStart listType.pos listType.pos) ⟨[], [], info⟩ ++
              match aviParseStreamList rt data listType.pos listType.pos (dataPos + chunkSize)
                  info with
              | none => []
              | some r => aviHeaderOffsets rt data fuel r.1 nextPos endPos r.2
            else aviHeaderOffsets rt data fuel listType.pos nextPos endPos info
        else if chunkID = str "avih" then
          let r := aviParseMainHeader rt data dataPos chunkSize dataPos info
          aviHeaderOffsets rt data fuel r.1 nextPos endPos r.2
        else aviHeaderOffsets rt data fuel dataPos nextPos endPos info

/-- An AVI file whose first chunk `JUNK` has three data bytes (it ends at the
odd offset 23) and one padding byte, followed by an `hdrl` list with one video
stream list. -/
def aviOddChunk : List Byte :=
  str "RIFF" ++ le32 148 ++ str "AVI " ++ riffChunk "JUNK" [1, 2, 3] ++ [0] ++
    riffChunk "LIST" (str "hdrl" ++ strlVids (str "H264") 640 480 250)

/-- The body of a stream list that holds one 56-byte `strh` chunk of an `auds`
stream whose handler field (bytes 4 to 8) is `tag` followed by NUL bytes up to
four bytes. -/
def strlAudsBody (tag : List Byte) : List Byte :=
  riffChunk "strh" (str "auds" ++ tag ++ zeros (4 - tag.length) ++ zeros 48)

/-- The values of the `TimestampScale` children among `cs` that `ebmlReadUint`
reads without error, in order. -/
def mkvInfoScales (data : List Byte) : List (Nat × Nat × Int) → List Nat
  | [] => []
  | c :: cs =>
    if c.1 = ebmlTimestampScale ∧ (ebmlReadUint data c.2.2 c.2.1).err = none then
      (ebmlReadUint data c.2.2 c.2.1).val :: mkvInfoScales data cs
    else mkvInfoScales data cs

/-- The values of the `Duration` children among `cs` that `ebmlReadFloat` reads
without error, in order. -/
def mkvInfoDurations (rt : GoRuntime) (data : List Byte) : List (Nat × Nat × Int) → List rt.F
  | [] => []
  | c :: cs =>
    if c.1 = ebmlDuration ∧ (ebmlReadFloat rt data c.2.2 c.2.1).err = none then
      (ebmlReadFloat rt data c.2.2 c.2.1).val :: mkvInfoDurations rt data cs
    else mkvInfoDurations rt data cs

/-- A `Tracks` element with one video entry of codec `V_VP8`. -/
def tracksVp8 : List Byte :=
  ebmlElem [0x16, 0x54, 0xAE, 0x6B]
    (ebmlElem [0xAE] (ebmlElem [0x83] [0x01] ++ ebmlElem [0x86] (str "V_VP8")))

/-- A `Duration` element holding the 4-byte float 5000.0. -/
def durationFiveThousand : List Byte := ebmlElem [0x44, 0x89] [0x45, 0x9C, 0x40, 0x00]

/-- An MKV file whose `Info` element holds only a `Duration` of 5000.0, followed
by a `Tracks` element with a VP8 video entry. -/
def mkvDurationOnly : List Byte :=
  ebmlElem [0x1A, 0x45, 0xDF, 0xA3] [] ++
  ebmlElem [0x18, 0x53, 0x80, 0x67]
    (ebmlElem [0x15, 0x49, 0xA9, 0x66] durationFiveThousand ++ tracksVp8)

/-- An MKV file whose `Info` element holds a `TimestampScale` of 500000 and a
`Duration` of 5000.0, followed by a `Tracks` element with a VP8 video entry. -/
def mkvDurationScaled : List Byte :=
  ebmlElem [0x1A, 0x45, 0xDF, 0xA3] [] ++
  ebmlElem [0x18, 0x53, 0x80, 0x67]
    (ebmlElem [0x15, 0x49, 0xA9, 0x66]
      (ebmlElem [0x2A, 0xD7, 0xB1] [0x07, 0xA1, 0x20] ++ durationFiveThousand) ++ tracksVp8)

/-! ## File sizes (`fileinfo.go`) -/

/-- Wrap-around of `int64` arithmetic. -/
def wrapInt64 (x : Int) : Int := (x + 2 ^ 63) % 2 ^ 64 - 2 ^ 63

/-- The verb `%d` of `fmt.Sprintf` on an integer. -/
def sprintfD (x : Int) : GoString :=
  if x < 0 then str "-" ++ decimal x.natAbs else decimal x.natAbs

/-- Outcome of `FormatFileSize`: the text, the run-time panic of an index
outside the string `KMGTPE`, or (in this model only) a loop out of fuel. -/
inductive SizeText where
  | text (s : GoString)
  | indexOutOfRange (index : Nat)
  | outOfFuel
  deriving DecidableEq, Repr

/-- The loop `for n := bytes / unit; n >= unit; n /= unit { div *= unit; exp++ }`
of `FormatFileSize`: fuel, `n`, `div`, `exp`; the result is `(div, exp)`. -/
def sizeLoop : Nat → Int → Int → Nat → Option (Int × Nat)
  | 0, _, _, _ => none
  | fuel + 1, n, div, exp =>
    if n ≥ 1024 then sizeLoop fuel (Int.tdiv n 1024) (wrapInt64 (div * 1024)) (exp + 1)
    else some (div, exp)

/-- Model of `FormatFileSize` on an `int64` value; `ofInt64` is the conversion
`float64(x)` and `fo.sprintf1` the verb `%.1f`. -/
def FormatFileSize (rt : GoRuntime) (fo : FloatOps rt) (ofInt64 : Int → rt.F) (bytes : Int) :
    SizeText :=
  if bytes < 1024 then SizeText.text (sprintfD bytes ++ str " B")
  else
    match sizeLoop 64 (Int.tdiv bytes 1024) 1024 0 with
    | none => SizeText.outOfFuel
    | some r =>
      match (str "KMGTPE")[r.2]? with
      | none => SizeText.indexOutOfRange r.2
      | some c =>
        SizeText.text (fo.sprintf1 (rt.div (ofInt64 bytes) (ofInt64 r.1)) ++ str " " ++ [c] ++
          str "B")

/-! ## Vocabulary for the tracks a parse commits -/

/-- The local variables `mp4ParseTrak` ends with for a `trak` box delivered as
`(dataSize, dataOffset)` at cursor `pos` (empty when the walk runs out of fuel). -/
def mp4TrakVarsAt (data : List Byte) (pos dataSize dataOffset : Int) : List TrakVars :=
  match mp4IterateBoxes data (seekStart pos dataOffset) dataSize dataOffset (mp4TrakHandler data)
      ⟨0, 0, [], [], 0, 0, 0⟩ with
  | none => []
  | some w => [w.st]

/-- The handler `mp4MoovHandler` instrumented to record, in order, the local
variables of every `trak` it parses. -/
def mp4MoovHandlerTraks (rt : GoRuntime) (data : List Byte) :
    BoxHandler (MoovVars rt.F × List TrakVars) :=
  fun boxType dataSize dataOffset pos s =>
    match mp4MoovHandler rt data boxType dataSize dataOffset pos s.1 with
    | none => none
    | some w =>
      some ⟨w.pos,
        (w.st, if boxType = str "trak" then s.2 ++ mp4TrakVarsAt data pos dataSize dataOffset
          else s.2), w.err⟩

/-- The handler `mp4TopHandler` instrumented in the same way: a `moov` box is
walked with `mp4MoovHandlerTraks`. -/
def mp4TopHandlerTraks (rt : GoRuntime) (data : List Byte) :
    BoxHandler (FileInfo rt.F × List TrakVars) :=
  fun boxType dataSize dataOffset pos s =>
    if boxType = str "moov" then
      match mp4IterateBoxes data (seekStart pos dataOffset) dataSize dataOffset
          (mp4MoovHandlerTraks rt data) (⟨0, 0, s.1⟩, s.2) with
      | none => none
      | some w => some ⟨w.pos, (w.st.1.info, w.st.2), w.err⟩
    else some ⟨pos, s, none⟩

/-- The local variables of the `trak` boxes that `parseMP4` parses, in the
order in which it commits them to the record. -/
def mp4Traks (rt : GoRuntime) (path : GoString) (data : List Byte) : List TrakVars :=
  match mp4IterateBoxes data 0 data.length 0 (mp4TopHandlerTraks rt data)
      (newFileInfo rt path data.length, []) with
  | none => []
  | some w => w.st.2

/-- The `Framerate` a `vide` track leaves when it is committed to a record
without codec whose `Framerate` is `prev` (source lines 214-220): its own
value when media timescale, sample count and media duration are positive and
the duration in seconds is positive, `prev` otherwise. -/
def mp4TrakFramerate (rt : GoRuntime) (v : TrakVars) (prev : rt.F) : rt.F :=
  if v.mediaTimescale > 0 ∧ v.sampleCount > 0 ∧ v.mediaDuration > 0 ∧
      rt.lt (rt.ofUint 0) (rt.div (rt.ofUint v.mediaDuration) (rt.ofUint v.mediaTimescale)) = true
  then
    rt.div (rt.round (rt.mul
      (rt.div (rt.ofUint v.sampleCount)
        (rt.div (rt.ofUint v.mediaDuration) (rt.ofUint v.mediaTimescale)))
      (rt.ofUint 100))) (rt.ofUint 100)
  else prev

/-- The `Framerate` left by a run of tracks none of which has both the handler
`vide` and a FourCC, starting from `prev`. -/
def mp4FramerateLeft (rt : GoRuntime) (pre : List TrakVars) (prev : rt.F) : rt.F :=
  pre.foldl (fun f p => if p.handlerType = str "vide" then mp4TrakFramerate rt p f else f) prev

/-- A `vide` track with media header and sample table (timescale 1000,
duration 2000, one `stts` entry of 50 samples) and no sample description. -/
def trakTimedNoCodec : List Byte :=
  mp4Box "trak" (mp4Box "tkhd" (zeros 76 ++ be32 (640 * 65536) ++ be32 (480 * 65536)) ++
    mp4Box "mdia" (mp4Box "mdhd" (zeros 12 ++ be32 1000 ++ be32 2000) ++
      mp4Box "hdlr" (zeros 8 ++ str "vide") ++
      mp4Box "minf" (mp4Box "stbl" (mp4Box "stts" (zeros 4 ++ be32 1 ++ be32 50 ++ be32 40)))))

/-- A file whose `moov` holds `trakTimedNoCodec` and then `trakAvc1`, which has
no media header and no sample table. -/
def mp4FramerateFromFirst : List Byte := mp4Box "moov" (trakTimedNoCodec ++ trakAvc1)

/-! ## Matroska on a host with limits (`mkvparser.go`) -/

/-- The machine a parse runs on, as far as it shows in the parsers: the largest
file offset the file system accepts in a `Seek` (a target beyond it is refused
with `EINVAL`; ext4 with 4 KiB blocks has `2^44 - 4096`), and whether an
allocation `make([]byte, n)` of `n <= maxAlloc` bytes finds memory (when it
does not, the Go runtime ends the process with a fatal out-of-memory error). -/
structure Host where
  maxOffset : Int
  allocOk : Nat → Bool

namespace hosted

/-- Outcome of a run on a host: the result, a run-time panic, the fatal
out-of-memory error, or (in this model only) a loop that ran out of fuel. -/
inductive Outcome (α : Type) where
  | done (a : α)
  | panic (p : GoPanic)
  | outOfMemory
  | outOfFuel

/-- Cursor after `r.Seek(off, io.SeekStart)` on the host: a negative target
and a target beyond the largest offset of the file system are refused, and
the cursor stays where it is. -/
def seekStart (h : Host) (pos off : Int) : Int :=
  if off < 0 ∨ h.maxOffset < off then pos else off

/-- Cursor after `r.Seek(delta, io.SeekCurrent)` on the host. -/
def seekCurrent (h : Host) (pos delta : Int) : Int := seekStart h pos (pos + delta)

/-- Model of `ebmlReadString` on the host: `make([]byte, size)` comes first; it
panics for a length beyond `maxAlloc` and ends the process when the host has
no memory for it. -/
def ebmlReadString (h : Host) (data : List Byte) (pos : Int) (size : Nat) :
    Outcome StringResult :=
  if size > maxAlloc then Outcome.panic GoPanic.makesliceLenOutOfRange
  else if h.allocOk size = false then Outcome.outOfMemory
  else
    let d := readFull data pos size
    match d.err with
    | some e => Outcome.done ⟨d.pos, [], some e⟩
    | none => Outcome.done ⟨d.pos, trimRightNul d.buf, none⟩

/-- The loop of `mkvParseInfo` on the host: fuel, cursor, `timestampScale`,
`duration`.  The result of the `Seek` that ends an iteration is dropped, so
after a refused `Seek` the next element is read where the cursor stands. -/
def mkvInfoLoop (h : Host) (rt : GoRuntime) (data : List Byte) (endPos : Int) :
    Nat → Int → Nat → rt.F → Option (Int × Nat × rt.F)
  | 0, _, _, _ => none
  | fuel + 1, pos, ts, dur =>
    if pos ≥ endPos then some (pos, ts, dur)
    else
      let e := ebmlReadElement data pos
      match e.err with
      | some _ => some (e.pos, ts, dur)
      | none =>
        if e.id = ebmlTimestampScale then
          let r := ebmlReadUint data e.pos e.size
          mkvInfoLoop h rt data endPos fuel (seekStart h r.pos (e.pos + toInt64 e.size))
            (match r.err with | none => r.val | some _ => ts) dur
        else if e.id = ebmlDuration then
          let r := ebmlReadFloat rt data e.pos e.size
          mkvInfoLoop h rt data endPos fuel (seekStart h r.pos (e.pos + toInt64 e.size)) ts
            (match r.err with | none => r.val | some _ => dur)
        else mkvInfoLoop h rt data endPos fuel (seekStart h e.pos (e.pos + toInt64 e.size)) ts dur

/-- Model of `mkvParseInfo` on the host: the cursor, `timestampScale` and `duration`. -/
def mkvParseInfo (h : Host) (rt : GoRuntime) (data : List Byte) (pos : Int) (size : Nat)
    (offset : Int) : Option (Int × Nat × rt.F) :=
  mkvInfoLoop h rt data (offset + toInt64 size) (data.length + 1) (seekStart h pos offset) 0
    (rt.ofUint 0)

/-- The loop of `mkvParseVideoInfo` on the host: fuel, cursor, width, height. -/
def mkvVideoLoop (h : Host) (data : List Byte) (endPos : Int) :
    Nat → Int → Int → Int → Option (Int × Int × Int)
  | 0, _, _, _ => none
  | fuel + 1, pos, width, height =>
    if pos ≥ endPos then some (pos, width, height)
    else
      let e := ebmlReadElement data pos
      match e.err with
      | some _ => some (e.pos, width, height)
      | none =>
        if e.id = ebmlPixelWidth then
          let r := ebmlReadUint data e.pos e.size
          mkvVideoLoop h data endPos fuel (seekStart h r.pos (e.pos + toInt64 e.size))
            (match r.err with | none => toInt64 r.val | some _ => width) height
        else if e.id = ebmlPixelHeight then
          let r := ebmlReadUint data e.pos e.size
          mkvVideoLoop h data endPos fuel (seekStart h r.pos (e.pos + toInt64 e.size)) width
            (match r.err with | none => toInt64 r.val | some _ => height)
        else mkvVideoLoop h data endPos fuel (seekStart h e.pos (e.pos + toInt64 e.size)) width
          height

/-- Model of `mkvParseVideoInfo` on the host: the cursor, width and height. -/
def mkvParseVideoInfo (h : Host) (data : List Byte) (pos : Int) (size : Nat) (offset : Int) :
    Option (Int × Int × Int) :=
  mkvVideoLoop h data (offset + toInt64 size) (data.length + 1) (seekStart h pos offset) 0 0

/-- The loop of `mkvParseTrackEntry` on the host: fuel, cursor, local variables. -/
def mkvTrackEntryLoop (h : Host) (data : List Byte) (endPos : Int) :
    Nat → Int → TrackVars → Outcome (Int × TrackVars)
  | 0, _, _ => Outcome.outOfFuel
  | fuel + 1, pos, v =>
    if pos ≥ endPos then Outcome.done (pos, v)
    else
      let e := ebmlReadElement data pos
      match e.err with
      | some _ => Outcome.done (e.pos, v)
      | none =>
        if e.id = ebmlTrackType then
          let r := ebmlReadUint data e.pos e.size
          mkvTrackEntryLoop h data endPos fuel (seekStart h r.pos (e.pos + toInt64 e.size))
            (match r.err with | none => { v with trackType := r.val } | some _ => v)
        else if e.id = ebmlCodecID then
          match ebmlReadString h data e.pos e.size with
          | Outcome.done r =>
            mkvTrackEntryLoop h data endPos fuel (seekStart h r.pos (e.pos + toInt64 e.size))
              (match r.err with | none => { v with codecID := r.val } | some _ => v)
          | Outcome.panic p => Outcome.panic p
          | Outcome.outOfMemory => Outcome.outOfMemory
          | Outcome.outOfFuel => Outcome.outOfFuel
        else if e.id = ebmlDefaultDur then
          let r := ebmlReadUint data e.pos e.size
          mkvTrackEntryLoop h data endPos fuel (seekStart h r.pos (e.pos + toInt64 e.size))
            (match r.err with | none => { v with defaultDuration := r.val } | some _ => v)
        else if e.id = ebmlVideo then
          match mkvParseVideoInfo h data e.pos e.size e.pos with
          | none => Outcome.outOfFuel
          | some r =>
            mkvTrackEntryLoop h data endPos fuel (seekStart h r.1 (e.pos + toInt64 e.size))
              { v with width := r.2.1, height := r.2.2 }
        else mkvTrackEntryLoop h data endPos fuel (seekStart h e.pos (e.pos + toInt64 e.size)) v

/-- Model of `mkvParseTrackEntry` on the host: the cursor and the updated record. -/
def mkvParseTrackEntry (h : Host) (rt : GoRuntime) (data : List Byte) (pos : Int) (size : Nat)
    (offset : Int) (info : FileInfo rt.F) : Outcome (Int × FileInfo rt.F) :=
  match mkvTrackEntryLoop h data (offset + toInt64 size) (data.length + 1)
      (seekStart h pos offset) ⟨0, [], 0, 0, 0⟩ with
  | Outcome.done r => Outcome.done (r.1, mkvTrackCommit rt r.2 info)
  | Outcome.panic p => Outcome.panic p
  | Outcome.outOfMemory => Outcome.outOfMemory
  | Outcome.outOfFuel => Outcome.outOfFuel

/-- The loop of `mkvParseTracks` on the host: fuel, cursor, record. -/
def mkvTracksLoop (h : Host) (rt : GoRuntime) (data : List Byte) (endPos : Int) :
    Nat → Int → FileInfo rt.F → Outcome (Int × FileInfo rt.F)
  | 0, _, _ => Outcome.outOfFuel
  | fuel + 1, pos, info =>
    if pos ≥ endPos then Outcome.done (pos, info)
    else
      let e := ebmlReadElement data pos
      match e.err with
      | some _ => Outcome.done (e.pos, info)
      | none =>
        if e.id = ebmlTrackEntry then
          match mkvParseTrackEntry h rt data e.pos e.size e.pos info with
          | Outcome.done r =>
            mkvTracksLoop h rt data endPos fuel (seekStart h r.1 (e.pos + toInt64 e.size)) r.2
          | Outcome.panic p => Outcome.panic p
          | Outcome.outOfMemory => Outcome.outOfMemory
          | Outcome.outOfFuel => Outcome.outOfFuel
        else mkvTracksLoop h rt data endPos fuel (seekStart h e.pos (e.pos + toInt64 e.size)) info

/-- Model of `mkvParseTracks` on the host: the cursor and the updated record. -/
def mkvParseTracks (h : Host) (rt : GoRuntime) (data : List Byte) (pos : Int) (size : Nat)
    (offset : Int) (info : FileInfo rt.F) : Outcome (Int × FileInfo rt.F) :=
  mkvTracksLoop h rt data (offset + toInt64 size) (data.length + 1) (seekStart h pos offset) info

/-- The segment loop of `parseMKV` on the host (source lines 74-101): fuel,
cursor, variables. -/
def mkvSegmentLoop (h : Host) (rt : GoRuntime) (data : List Byte) (parseLimit : Int) :
    Nat → Int → SegmentVars rt.F → Outcome (Int × SegmentVars rt.F)
  | 0, _, _ => Outcome.outOfFuel
  | fuel + 1, pos, v =>
    if pos ≥ parseLimit then Outcome.done (pos, v)
    else
      let e := ebmlReadElement data pos
      match e.err with
      | some _ => Outcome.done (e.pos, v)
      | none =>
        if e.id = ebmlInfo then
          match mkvParseInfo h rt data e.pos e.size e.pos with
          | none => Outcome.outOfFuel
          | some r =>
            mkvSegmentLoop h rt data parseLimit fuel (seekStart h r.1 (e.pos + toInt64 e.size))
              ⟨if r.2.1 > 0 then r.2.1 else v.timestampScale, r.2.2, v.info⟩
        else if e.id = ebmlTracks then
          match mkvParseTracks h rt data e.pos e.size e.pos v.info with
          | Outcome.done r =>
            mkvSegmentLoop h rt data parseLimit fuel (seekStart h r.1 (e.pos + toInt64 e.size))
              { v with info := r.2 }
          | Outcome.panic p => Outcome.panic p
          | Outcome.outOfMemory => Outcome.outOfMemory
          | Outcome.outOfFuel => Outcome.outOfFuel
        else mkvSegmentLoop h rt data parseLimit fuel
          (seekStart h e.pos (e.pos + toInt64 e.size)) v

/-- Model of `parseMKV` on the host, for an opened file with contents `data`. -/
def parseMKV (h : Host) (rt : GoRuntime) (path : GoString) (data : List Byte) :
    Outcome (Except GoError (FileInfo rt.F)) :=
  let header := ebmlReadElement data 0
  if header.err ≠ none ∨ header.id ≠ ebmlHeader then
    Outcome.done (Except.error (GoError.msg "not a valid EBML file"))
  else
    let seg := ebmlReadElement data (seekCurrent h header.pos (toInt64 header.size))
    if seg.err ≠ none ∨ seg.id ≠ ebmlSegment then
      Outcome.done (Except.error (GoError.msg "no Segment element found"))
    else
      let segStart := seg.pos
      let segEnd := segStart + toInt64 seg.size
      let parseLimit := if segStart + 10 * 1024 * 1024 > segEnd then segEnd
        else segStart + 10 * 1024 * 1024
      match mkvSegmentLoop h rt data parseLimit (data.length + 1) segStart
          ⟨1000000, rt.ofUint 0, newFileInfo rt path data.length⟩ with
      | Outcome.done r => Outcome.done (mkvFinish rt r.2)
      | Outcome.panic p => Outcome.panic p
      | Outcome.outOfMemory => Outcome.outOfMemory
      | Outcome.outOfFuel => Outcome.outOfFuel

/-- A host with an ext4 file system (largest offset `2^44 - 4096`) that finds
memory for allocations of up to 4 GiB. -/
def ext4Host : Host := ⟨2 ^ 44 - 4096, fun n => decide (n ≤ 2 ^ 32)⟩

/-- The read of the Segment header in `parseMKV` on the host: the element at
the cursor that the `Seek` over the payload of the EBML header leaves. -/
def mkvSegmentHeader (h : Host) (data : List Byte) : ElemResult :=
  ebmlReadElement data
    (seekCurrent h (ebmlReadElement data 0).pos (toInt64 (ebmlReadElement data 0).size))

/-- The value of `parseLimit` (source lines 62-69): `segStart + 10 MiB`,
lowered to `segEnd` when that is smaller. -/
def mkvParseLimit (h : Host) (data : List Byte) : Int :=
  if (mkvSegmentHeader h data).pos + 10 * 1024 * 1024 >
      (mkvSegmentHeader h data).pos + toInt64 (mkvSegmentHeader h data).size
  then (mkvSegmentHeader h data).pos + toInt64 (mkvSegmentHeader h data).size
  else (mkvSegmentHeader h data).pos + 10 * 1024 * 1024

/-- The variables of the segment loop when `parseMKV` enters it. -/
def mkvSegmentInit (rt : GoRuntime) (path : GoString) (data : List Byte) : SegmentVars rt.F :=
  ⟨1000000, rt.ofUint 0, newFileInfo rt path data.length⟩

/-- The top-level children that the segment loop reads on the host, in order:
the offset at which each header starts and the element ID.  It follows
`mkvSegmentLoop` step by step, so after a refused `Seek` the next child is the
element at the cursor that the parse of the previous one left; the walk ends
with a `Tracks` element whose parse does not return. -/
def mkvSegmentWalk (h : Host) (rt : GoRuntime) (data : List Byte) (parseLimit : Int) :
    Nat → Int → SegmentVars rt.F → List (Int × Nat)
  | 0, _, _ => []
  | fuel + 1, pos, v =>
    if pos ≥ parseLimit then []
    else
      let e := ebmlReadElement data pos
      match e.err with
      | some _ => []
      | none =>
        if e.id = ebmlInfo then
          match mkvParseInfo h rt data e.pos e.size e.pos with
          | none => [(pos, e.id)]
          | some r =>
            (pos, e.id) :: mkvSegmentWalk h rt data parseLimit fuel
              (seekStart h r.1 (e.pos + toInt64 e.size))
              ⟨if r.2.1 > 0 then r.2.1 else v.timestampScale, r.2.2, v.info⟩
        else if e.id = ebmlTracks then
          match mkvParseTracks h rt data e.pos e.size e.pos v.info with
          | Outcome.done r =>
            (pos, e.id) :: mkvSegmentWalk h rt data parseLimit fuel
              (seekStart h r.1 (e.pos + toInt64 e.size)) { v with info := r.2 }
          | Outcome.panic _ => [(pos, e.id)]
          | Outcome.outOfMemory => [(pos, e.id)]
          | Outcome.outOfFuel => [(pos, e.id)]
        else (pos, e.id) :: mkvSegmentWalk h rt data parseLimit fuel
          (seekStart h e.pos (e.pos + toInt64 e.size)) v

/-- The children of an `Info` element that the loop of `mkvParseInfo` reads on
the host, in order: identifier, declared size and offset of the data of each.
It follows `mkvInfoLoop` step by step. -/
def mkvInfoWalk (h : Host) (rt : GoRuntime) (data : List Byte) (endPos : Int) :
    Nat → Int → List (Nat × Nat × Int)
  | 0, _ => []
  | fuel + 1, pos =>
    if pos ≥ endPos then []
    else
      let e := ebmlReadElement data pos
      match e.err with
      | some _ => []
      | none =>
        if e.id = ebmlTimestampScale then
          (e.id, e.size, e.pos) :: mkvInfoWalk h rt data endPos fuel
            (seekStart h (ebmlReadUint data e.pos e.size).pos (e.pos + toInt64 e.size))
        else if e.id = ebmlDuration then
          (e.id, e.size, e.pos) :: mkvInfoWalk h rt data endPos fuel
            (seekStart h (ebmlReadFloat rt data e.pos e.size).pos (e.pos + toInt64 e.size))
        else (e.id, e.size, e.pos) :: mkvInfoWalk h rt data endPos fuel
          (seekStart h e.pos (e.pos + toInt64 e.size))

/-- The children that `mkvParseInfo` reads in the `Info` element whose header
starts at offset `p`. -/
def mkvInfoWalkAt (h : Host) (rt : GoRuntime) (data : List Byte) (p : Int) :
    List (Nat × Nat × Int) :=
  mkvInfoWalk h rt data
    ((ebmlReadElement data p).pos + toInt64 (ebmlReadElement data p).size) (data.length + 1)
    (seekStart h (ebmlReadElement data p).pos (ebmlReadElement data p).pos)

/-- The local variables with which the entries of a `Tracks` element are
committed on the host, in order.  It follows `mkvTracksLoop` step by step and
ends with an entry whose parse does not return. -/
def mkvTracksEntries (h : Host) (data : List Byte) (endPos : Int) : Nat → Int → List TrackVars
  | 0, _ => []
  | fuel + 1, pos =>
    if pos ≥ endPos then []
    else
      let e := ebmlReadElement data pos
      match e.err with
      | some _ => []
      | none =>
        if e.id = ebmlTrackEntry then
          match mkvTrackEntryLoop h data (e.pos + toInt64 e.size) (data.length + 1)
              (seekStart h e.pos e.pos) ⟨0, [], 0, 0, 0⟩ with
          | Outcome.done r =>
            r.2 :: mkvTracksEntries h data endPos fuel (seekStart h r.1 (e.pos + toInt64 e.size))
          | Outcome.panic _ => []
          | Outcome.outOfMemory => []
          | Outcome.outOfFuel => []
        else mkvTracksEntries h data endPos fuel (seekStart h e.pos (e.pos + toInt64 e.size))

/-- The local variables of the track entries that the segment loop commits on
the host, in order: those of every `Tracks` element on its walk. -/
def mkvSegmentEntries (h : Host) (rt : GoRuntime) (data : List Byte) (parseLimit : Int) :
    Nat → Int → SegmentVars rt.F → List TrackVars
  | 0, _, _ => []
  | fuel + 1, pos, v =>
    if pos ≥ parseLimit then []
    else
      let e := ebmlReadElement data pos
      match e.err with
      | some _ => []
      | none =>
        if e.id = ebmlInfo then
          match mkvParseInfo h rt data e.pos e.size e.pos with
          | none => []
          | some r =>
            mkvSegmentEntries h rt data parseLimit fuel (seekStart h r.1 (e.pos + toInt64 e.size))
              ⟨if r.2.1 > 0 then r.2.1 else v.timestampScale, r.2.2, v.info⟩
        else if e.id = ebmlTracks then
          mkvTracksEntries h data (e.pos + toInt64 e.size) (data.length + 1)
              (seekStart h e.pos e.pos) ++
            match mkvParseTracks h rt data e.pos e.size e.pos v.info with
            | Outcome.done r =>
              mkvSegmentEntries h rt data parseLimit fuel
                (seekStart h r.1 (e.pos + toInt64 e.size)) { v with info := r.2 }
            | Outcome.panic _ => []
            | Outcome.outOfMemory => []
            | Outcome.outOfFuel => []
        else mkvSegmentEntries h rt data parseLimit fuel
          (seekStart h e.pos (e.pos + toInt64 e.size)) v

/-- The local variables of the track entries that `parseMKV` commits to the
record on the host, in order. -/
def mkvEntries (h : Host) (rt : GoRuntime) (path : GoString) (data : List Byte) :
    List TrackVars :=
  mkvSegmentEntries h rt data (mkvParseLimit h data) (data.length + 1)
    (mkvSegmentHeader h data).pos (mkvSegmentInit rt path data)

/-- The `Framerate` a video entry leaves when it is committed to a record
without codec whose `Framerate` is `prev` (source lines 368-370): its own value
when `DefaultDuration` is positive, `prev` otherwise. -/
def mkvTrackFramerate (rt : GoRuntime) (v : TrackVars) (prev : rt.F) : rt.F :=
  if v.defaultDuration > 0 then
    rt.div (rt.round (rt.mul (rt.div (rt.ofUint 1000000000) (rt.ofUint v.defaultDuration))
      (rt.ofUint 100))) (rt.ofUint 100)
  else prev

/-- The `Framerate` left by a run of entries none of which is a video entry
with a codec name, starting from `prev`. -/
def mkvFramerateLeft (rt : GoRuntime) (pre : List TrackVars) (prev : rt.F) : rt.F :=
  pre.foldl (fun f p => if p.trackType = 1 then mkvTrackFramerate rt p f else f) prev

/-- The eight bytes of an element size that declare `2^56 - 1` bytes. -/
def sizePastOffsets : List Byte := [0x01, 0xFF, 0xFF, 0xFF, 0xFF, 0xFF, 0xFF, 0xFF]

/-- An MKV file of 43 bytes: the Segment (declared size `2^56 - 1`) starts with
a `Void` element (ID `0xEC`) that declares `2^56 - 1` bytes, and the bytes that
follow its header at offset 26 are a `Tracks` element with a `V_VP8` video
entry. -/
def mkvVoidPastOffsets : List Byte :=
  ebmlElem [0x1A, 0x45, 0xDF, 0xA3] [] ++ [0x18, 0x53, 0x80, 0x67] ++ sizePastOffsets ++
    [0xEC] ++ sizePastOffsets ++ tracksVp8

/-- An MKV file whose EBML header declares a payload of `2^56 - 1` bytes: the
bytes that follow the header at offset 12 are a Segment with a `Tracks` element
that holds a `V_VP8` video entry. -/
def mkvHeaderPastOffsets : List Byte :=
  [0x1A, 0x45, 0xDF, 0xA3] ++ sizePastOffsets ++ ebmlElem [0x18, 0x53, 0x80, 0x67] tracksVp8

/-- A host without limits: every `Seek` to a non-negative `int64` offset is
accepted and every allocation finds memory. -/
def unboundedHost : Host := ⟨2 ^ 63 - 1, fun _ => true⟩

/-- A video `TrackEntry` of 640x480 with a `DefaultDuration` of 40000000 ns
(25 frames per second) and no `CodecID`. -/
def entryTimedNoCodec : List Byte :=
  ebmlElem [0xAE] (ebmlElem [0x83] [0x01] ++ ebmlElem [0x23, 0xE3, 0x83] [0x02, 0x62, 0x5A, 0x00] ++
    ebmlElem [0xE0] (ebmlElem [0xB0] [0x02, 0x80] ++ ebmlElem [0xBA] [0x01, 0xE0]))

/-- An MKV file whose `Tracks` element holds `entryTimedNoCodec` and then
`entryVp8`, which has no `DefaultDuration`. -/
def mkvFramerateFromFirst : List Byte :=
  ebmlElem [0x1A, 0x45, 0xDF, 0xA3] [] ++
  ebmlElem [0x18, 0x53, 0x80, 0x67]
    (ebmlElem [0x16, 0x54, 0xAE, 0x6B] (entryTimedNoCodec ++ entryVp8))

/-- A `Duration` element holding the 4-byte float 2500.0. -/
def durationTwentyFiveHundred : List Byte := ebmlElem [0x44, 0x89] [0x45, 0x1C, 0x40, 0x00]

/-- An MKV file whose Segment (declared size `2^56 - 1`) holds an `Info`
element with a `Duration` of 5000.0 at offset 17, a `Void` element at offset 29
that declares `2^56 - 1` bytes, and right after the header of that element, at
offset 38, a second `Info` element with a `Duration` of 2500.0 and a `Tracks`
element with a `V_VP8` video entry. -/
def mkvInfoBehindVoid : List Byte :=
  ebmlElem [0x1A, 0x45, 0xDF, 0xA3] [] ++ [0x18, 0x53, 0x80, 0x67] ++ sizePastOffsets ++
    ebmlElem [0x15, 0x49, 0xA9, 0x66] durationFiveThousand ++ [0xEC] ++ sizePastOffsets ++
    ebmlElem [0x15, 0x49, 0xA9, 0x66] durationTwentyFiveHundred ++ tracksVp8

end hosted

/-! ## Presets and FFmpeg arguments (`preset/preset.go`, `preset/types.go`) -/

namespace preset

/-- What `preset.go` uses of `float64` beyond `GoRuntime`: the conversion
`float64(x)` of an `int`, `math.Pow`, and the verb `%.3f`. -/
structure PresetOps (rt : GoRuntime) where
  ofInt64 : Int → rt.F
  pow : rt.F → rt.F → rt.F
  sprintf3 : rt.F → GoString

/-- The record `Preset` of `types.go`. -/
structure Preset (F : Type) where
  Name : GoString
  Resolution : GoString
  Framerate : GoString
  Width : Int
  Height : Int
  Level : GoString
  FPS : F
  UseSourceFPS : Bool
  UseSourceRes : Bool

/-- The record `FileInfo` of `preset.go`. -/
structure FileInfo (F : Type) where
  Width : Int
  Height : Int
  Framerate : F

/-- The record `EncodingSettings` of `types.go`. -/
structure EncodingSettings where
  Encoder : GoString
  EncoderPreset : GoString
  EncoderTune : GoString
  EncoderProfile : GoString
  Quality : Int
  AudioEncoder : GoString
  AudioBitrate : Int
  AudioMixdown : GoString
  Format : GoString
  MultiPass : Bool
  TurboFirstPass : Bool
  Decomb : Bool
  CFR : Bool
  deriving DecidableEq, Repr

/-- Model of `DefaultSettings`. -/
def DefaultSettings : EncodingSettings :=
  { Encoder := str "x265", EncoderPreset := str "fast", EncoderTune := str "fastdecode",
    EncoderProfile := str "main", Quality := 22, AudioEncoder := str "av_aac",
    AudioBitrate := 160, AudioMixdown := str "stereo", Format := str "av_mkv",
    MultiPass := false, TurboFirstPass := false, Decomb := true, CFR := true }

/-- The UTF-8 bytes of the name of the source-based preset. -/
def sourcePresetName : GoString :=
  [0xEC, 0x9B, 0x90, 0xEB, 0xB3, 0xB8, 0x20, 0xEC, 0x84, 0xA4, 0xEC, 0xA0, 0x95, 0x20,
   0xEC, 0x9C, 0xA0, 0xEC, 0xA7, 0x80]

/-- The `float64` constant `29.97`. -/
def fps2997 (rt : GoRuntime) : rt.F := rt.ofFloat64Bits 0x403DF851EB851EB8

/-- The `float64` constant `23.976`. -/
def fps23976 (rt : GoRuntime) : rt.F := rt.ofFloat64Bits 0x4037F9DB22D0E560

/-- Model of `GetAllPresets`. -/
def GetAllPresets (rt : GoRuntime) : List (Preset rt.F) :=
  [ { Name := sourcePresetName, Resolution := str "source", Framerate := str "source",
      Width := 0, Height := 0, Level := str "auto", FPS := rt.ofUint 0,
      UseSourceFPS := true, UseSourceRes := true },
    { Name := str "HEVC 4K|60p", Resolution := str "4K", Framerate := str "60",
      Width := 3840, Height := 2160, Level := str "5.1", FPS := rt.ofUint 60,
      UseSourceFPS := false, UseSourceRes := false },
    { Name := str "HEVC 4K|30p", Resolution := str "4K", Framerate := str "30",
      Width := 3840, Height := 2160, Level := str "5.0", FPS := rt.ofUint 30,
      UseSourceFPS := false, UseSourceRes := false },
    { Name := str "HEVC 4K|29.97p", Resolution := str "4K", Framerate := str "29.97",
      Width := 3840, Height := 2160, Level := str "5.0", FPS := fps2997 rt,
      UseSourceFPS := false, UseSourceRes := false },
    { Name := str "HEVC 4K|24p", Resolution := str "4K", Framerate := str "24",
      Width := 3840, Height := 2160, Level := str "5.0", FPS := rt.ofUint 24,
      UseSourceFPS := false, UseSourceRes := false },
    { Name := str "HEVC 4K|23.976p", Resolution := str "4K", Framerate := str "23.976",
      Width := 3840, Height := 2160, Level := str "5.0", FPS := fps23976 rt,
      UseSourceFPS := false, UseSourceRes := false },
    { Name := str "HEVC 1080p|60p", Resolution := str "1080p", Framerate := str "60",
      Width := 1920, Height := 1080, Level := str "4.1", FPS := rt.ofUint 60,
      UseSourceFPS := false, UseSourceRes := false },
    { Name := str "HEVC 1080p|30p", Resolution := str "1080p", Framerate := str "30",
      Width := 1920, Height := 1080, Level := str "4.1", FPS := rt.ofUint 30,
      UseSourceFPS := false, UseSourceRes := false },
    { Name := str "HEVC 1080p|29.97p", Resolution := str "1080p", Framerate := str "29.97",
      Width := 1920, Height := 1080, Level := str "4.1", FPS := fps2997 rt,
      UseSourceFPS := false, UseSourceRes := false },
    { Name := str "HEVC 1080p|24p", Resolution := str "1080p", Framerate := str "24",
      Width := 1920, Height := 1080, Level := str "4.1", FPS := rt.ofUint 24,
      UseSourceFPS := false, UseSourceRes := false },
    { Name := str "HEVC 1080p|23.976p", Resolution := str "1080p", Framerate := str "23.976",
      Width := 1920, Height := 1080, Level := str "4.1", FPS := fps23976 rt,
      UseSourceFPS := false, UseSourceRes := false } ]

/-- Model of `DetermineLevel`. -/
def DetermineLevel (rt : GoRuntime) (width height : Int) (fps : rt.F) : GoString :=
  let is4K := width > 1920 ∨ height > 1080
  let isHighFPS := rt.lt (rt.ofUint 30) fps = true
  if is4K ∧ isHighFPS then str "5.1"
  else if is4K then str "5.0"
  else str "4.1"

/-- Model of `mapNvencPreset`. -/
def mapNvencPreset (preset : GoString) : GoString :=
  if preset = str "ultrafast" ∨ preset = str "superfast" ∨ preset = str "veryfast" then str "p1"
  else if preset = str "faster" ∨ preset = str "fast" then str "p4"
  else if preset = str "medium" then str "p5"
  else if preset = str "slow" then str "p6"
  else if preset = str "slower" ∨ preset = str "veryslow" then str "p7"
  else str "p4"

/-- Model of `mapQsvPreset`. -/
def mapQsvPreset (preset : GoString) : GoString :=
  if preset = str "ultrafast" ∨ preset = str "superfast" ∨ preset = str "veryfast" then
    str "veryfast"
  else if preset = str "faster" ∨ preset = str "fast" then str "fast"
  else if preset = str "medium" then str "medium"
  else if preset = str "slow" ∨ preset = str "slower" ∨ preset = str "veryslow" then str "slow"
  else str "fast"

/-- Model of `mapAmfQuality`. -/
def mapAmfQuality (preset : GoString) : GoString :=
  if preset = str "ultrafast" ∨ preset = str "superfast" ∨ preset = str "veryfast" ∨
      preset = str "faster" ∨ preset = str "fast" then str "speed"
  else if preset = str "medium" then str "balanced"
  else if preset = str "slow" ∨ preset = str "slower" ∨ preset = str "veryslow" then
    str "quality"
  else str "balanced"

/-- Model of `getEncoderArgs`; `int` arithmetic wraps at 64 bits. -/
def getEncoderArgs (rt : GoRuntime) (ops : PresetOps rt) (encoderID : GoString)
    (settings : EncodingSettings) (level : GoString) (keyint width height : Int) :
    List GoString :=
  if encoderID = str "hevc_videotoolbox" then
    let pixels0 := wrapInt64 (width * height)
    let pixels := if pixels0 = 0 then 1920 * 1080 else pixels0
    let baseBitrateK :=
      rt.mul (rt.div (ops.ofInt64 pixels) (ops.ofInt64 (1920 * 1080))) (rt.ofUint 3000)
    let qualityFactor := ops.pow (rt.ofFloat64Bits 0x3FF1EB851EB851EC)
      (ops.ofInt64 (wrapInt64 (22 - settings.Quality)))
    let bitrateK0 := rt.toInt (rt.mul baseBitrateK qualityFactor)
    let bitrateK1 := if bitrateK0 < 500 then 500 else bitrateK0
    let bitrateK := if bitrateK1 > 50000 then 50000 else bitrateK1
    [str "-c:v", str "hevc_videotoolbox", str "-b:v", sprintfD bitrateK ++ str "k",
     str "-tag:v", str "hvc1", str "-allow_sw", str "1"]
  else if encoderID = str "hevc_nvenc" then
    [str "-c:v", str "hevc_nvenc", str "-rc", str "vbr", str "-cq", sprintfD settings.Quality,
     str "-preset", mapNvencPreset settings.EncoderPreset,
     str "-profile:v", settings.EncoderProfile, str "-level:v", level,
     str "-g", sprintfD keyint, str "-bf", str "3"]
  else if encoderID = str "hevc_qsv" then
    [str "-c:v", str "hevc_qsv", str "-global_quality", sprintfD settings.Quality,
     str "-preset", mapQsvPreset settings.EncoderPreset,
     str "-profile:v", settings.EncoderProfile, str "-level:v", level,
     str "-g", sprintfD keyint]
  else if encoderID = str "hevc_amf" then
    [str "-c:v", str "hevc_amf", str "-rc", str "cqp", str "-qp_i", sprintfD settings.Quality,
     str "-qp_p", sprintfD settings.Quality,
     str "-quality", mapAmfQuality settings.EncoderPreset,
     str "-profile:v", settings.EncoderProfile, str "-level:v", level,
     str "-gops_per_idr", str "1"]
  else if encoderID = str "hevc_vaapi" then
    [str "-c:v", str "hevc_vaapi", str "-qp", sprintfD settings.Quality,
     str "-profile:v", settings.EncoderProfile, str "-level:v", level,
     str "-g", sprintfD keyint]
  else
    let x265Params := str "keyint=" ++ sprintfD keyint ++ str ":min-keyint=" ++ sprintfD keyint ++
      str ":open-gop=0:scenecut=0:repeat-headers=1:ref=4:bframes=3:hrd=1"
    [str "-c:v", str "libx265", str "-crf", sprintfD settings.Quality,
     str "-preset", settings.EncoderPreset, str "-tune", settings.EncoderTune,
     str "-profile:v", settings.EncoderProfile, str "-level:v", level,
     str "-x265-params", x265Params]

/-- The loop of `ToFFmpegArgsWithEncoder` that prepends the deinterlace filter
(source lines 217-222): the element after the first `-vf` that has a successor
gets the text `yadif=mode=0:parity=-1:deint=1,` in front. -/
def prependYadif : List GoString → List GoString
  | [] => []
  | [a] => [a]
  | a :: b :: rest =>
    if a = str "-vf" then a :: (str "yadif=mode=0:parity=-1:deint=1," ++ b) :: rest
    else a :: prependYadif (b :: rest)

/-- Model of `ToFFmpegArgsWithEncoder`; a nil `sourceInfo` is `none`. -/
def ToFFmpegArgsWithEncoder (rt : GoRuntime) (ops : PresetOps rt) (p : Preset rt.F)
    (inputPath outputPath : GoString) (sourceInfo : Option (FileInfo rt.F))
    (encoderID : GoString) (quality : Int) : List GoString :=
  let settings :=
    if quality > 0 then { DefaultSettings with Quality := quality } else DefaultSettings
  let effectiveWidth :=
    match sourceInfo with
    | some s => if p.UseSourceRes then s.Width else p.Width
    | none => p.Width
  let effectiveHeight :=
    match sourceInfo with
    | some s => if p.UseSourceRes then s.Height else p.Height
    | none => p.Height
  let effectiveFPS :=
    match sourceInfo with
    | some s => if p.UseSourceFPS then s.Framerate else p.FPS
    | none => p.FPS
  let effectiveLevel :=
    if p.Level = str "auto" ∧ sourceInfo.isSome then
      DetermineLevel rt effectiveWidth effectiveHeight effectiveFPS
    else p.Level
  let keyint0 := rt.toInt (rt.round effectiveFPS)
  let keyint := if keyint0 ≤ 0 then 30 else keyint0
  let args0 := [str "-i", inputPath] ++
    getEncoderArgs rt ops encoderID settings effectiveLevel keyint effectiveWidth effectiveHeight
  let args1 :=
    if p.UseSourceRes = false ∧ p.Width > 0 ∧ p.Height > 0 then
      args0 ++ [str "-vf", str "scale=" ++ sprintfD p.Width ++ str ":" ++ sprintfD p.Height]
    else args0
  let args2 :=
    if p.UseSourceFPS = false ∧ rt.lt (rt.ofUint 0) p.FPS = true then
      args1 ++ [str "-r", ops.sprintf3 p.FPS]
    else args1
  let args3 := if settings.CFR then args2 ++ [str "-vsync", str "cfr"] else args2
  let args4 := args3 ++
    [str "-c:a", str "aac", str "-b:a", sprintfD settings.AudioBitrate ++ str "k", str "-ac",
     str "2"]
  let args5 :=
    if settings.Decomb then
      if p.UseSourceRes = false ∧ p.Width > 0 then prependYadif args4
      else args4 ++ [str "-vf", str "yadif=mode=0:parity=-1:deint=1"]
    else args4
  args5 ++ [str "-f", str "matroska"] ++ [outputPath]

/-- A preset that fixes a width of 1920 and leaves the height at 0, at the
source framerate. -/
def widthOnlyPreset (rt : GoRuntime) : Preset rt.F :=
  { Name := str "width only", Resolution := str "1080p", Framerate := str "source",
    Width := 1920, Height := 0, Level := str "4.1", FPS := rt.ofUint 0,
    UseSourceFPS := true, UseSourceRes := false }

/-- The preset `HEVC 1080p|30p` of `GetAllPresets` at the source framerate. -/
def fixedPreset (rt : GoRuntime) : Preset rt.F :=
  { Name := str "HEVC 1080p", Resolution := str "1080p", Framerate := str "source",
    Width := 1920, Height := 1080, Level := str "4.1", FPS := rt.ofUint 0,
    UseSourceFPS := true, UseSourceRes := false }

end preset

/-! ## Theorems -/

/-! ### Reading from the cursor -/

theorem bytesFrom_add (data : List Byte) (pos : Int) (h : 0 ≤ pos) (k : Nat) :
    bytesFrom data (pos + k) = (bytesFrom data pos).drop k := by
  unfold bytesFrom
  have : (pos + (k : Int)).toNat = pos.toNat + k := by omega
  rw [this, List.drop_drop, Nat.add_comm]

theorem readFull_ok (data : List Byte) (pos : Int) (n : Nat)
    (h : n ≤ (bytesFrom data pos).length) :
    readFull data pos n = ⟨pos + n, (bytesFrom data pos).take n, none⟩ := by
  unfold readFull
  simp [List.length_take, h]

theorem readFull_short (data : List Byte) (pos : Int) (n : Nat)
    (h : (bytesFrom data pos).length < n) :
    (readFull data pos n).err ≠ none ∧
      (readFull data pos n).pos = pos + (bytesFrom data pos).length := by
  have h1 : ((bytesFrom data pos).take n).length = (bytesFrom data pos).length := by
    simp [List.length_take]; omega
  have h2 : ¬ ((bytesFrom data pos).take n).length = n := by omega
  simp only [readFull]
  rw [if_neg h2]
  simp [h1]

theorem readFull_err_iff (data : List Byte) (pos : Int) (n : Nat) :
    (readFull data pos n).err = none ↔ n ≤ (bytesFrom data pos).length := by
  constructor
  · intro h
    by_contra hc
    exact (readFull_short data pos n (by omega)).1 h
  · intro h
    rw [readFull_ok data pos n h]

theorem readFull_buf_length (data : List Byte) (pos : Int) (n : Nat) :
    (readFull data pos n).buf.length = n := by
  simp only [readFull]
  split
  · assumption
  · simp [List.length_take]

theorem readFull_pos_ge (data : List Byte) (pos : Int) (n : Nat) :
    pos ≤ (readFull data pos n).pos := by
  simp only [readFull]
  split <;> simp

/-! ### Big-endian values -/

theorem beUint_concat (l : List Byte) (x : Byte) :
    beUint (l ++ [x]) = beUint l * 256 + x.val := by
  simp [beUint, List.foldl_append]

theorem beUint_lt (l : List Byte) : beUint l < 256 ^ l.length := by
  induction l using List.reverseRecOn with
  | nil => simp [beUint]
  | append_singleton l x ih =>
    rw [beUint_concat, List.length_append, List.length_singleton, pow_succ]
    have := x.isLt
    omega

theorem foldl_be (l : List Byte) (a : Nat) :
    l.foldl (fun acc b => acc * 256 + b.val) a = a * 256 ^ l.length + beUint l := by
  induction l using List.reverseRecOn generalizing a with
  | nil => simp [beUint]
  | append_singleton l x ih =>
    rw [List.foldl_append, beUint_concat, List.length_append, List.length_singleton, pow_succ]
    simp only [List.foldl_cons, List.foldl_nil]
    rw [ih]
    ring

theorem beUint_cons (x : Byte) (l : List Byte) :
    beUint (x :: l) = x.val * 256 ^ l.length + beUint l := by
  have := foldl_be l (0 * 256 + x.val)
  simpa [beUint] using this

theorem beUint_inj (l₁ l₂ : List Byte) (hl : l₁.length = l₂.length)
    (h : beUint l₁ = beUint l₂) : l₁ = l₂ := by
  induction l₁ using List.reverseRecOn generalizing l₂ with
  | nil =>
    simp at hl
    exact (List.length_eq_zero.mp hl.symm).symm
  | append_singleton l x ih =>
    rcases List.eq_nil_or_concat l₂ with h2 | ⟨l', y, h2⟩
    · subst h2; simp at hl
    · subst h2
      rw [List.concat_eq_append] at h hl ⊢
      rw [beUint_concat, beUint_concat] at h
      simp at hl
      have hx := x.isLt
      have hy := y.isLt
      have h1 : beUint l = beUint l' := by omega
      have h3 : x.val = y.val := by omega
      rw [ih l' hl h1, Fin.ext h3]

theorem shiftIn_eq (l : List Byte) (v : Nat) (h : (v + 1) * 256 ^ l.length ≤ 2 ^ 64) :
    shiftIn v l = v * 256 ^ l.length + beUint l := by
  induction l generalizing v with
  | nil => simp [shiftIn, beUint]
  | cons x t ih =>
    have hx := x.isLt
    have hpos : 0 < 256 ^ t.length := pow_pos (by norm_num) _
    rw [List.length_cons, pow_succ] at h
    have hv : v * 256 < 2 ^ 64 := by nlinarith
    have step : ((v <<< 8) % 2 ^ 64) ||| x.val = v * 256 + x.val := by
      rw [Nat.shiftLeft_eq, Nat.mod_eq_of_lt (by simp; exact hv)]
      have := Nat.mul_add_lt_is_or (i := 8) (b := x.val) (by simp) v
      rw [show (2:Nat) ^ 8 = 256 by norm_num] at this
      rw [Nat.mul_comm v 256, this]
    have hrec : shiftIn v (x :: t) = shiftIn (v * 256 + x.val) t := by
      simp only [shiftIn, List.foldl_cons]
      rw [step]
    rw [hrec, ih (v * 256 + x.val) (by nlinarith), beUint_cons, List.length_cons, pow_succ]
    ring

/-! ### The two VINT readers -/

theorem ebmlMarker_facts : ∀ b : Byte, b ≠ 0 →
    (ebmlMarker b).1 = vintLength b ∧ 1 ≤ vintLength b ∧ vintLength b ≤ 8 ∧
    (ebmlMarker b).2 ≤ b.val ∧
    b.val &&& ((ebmlMarker b).2 ^^^ 0xFF) = b.val - (ebmlMarker b).2 ∧
    (ebmlMarker b).2 * 256 ^ (vintLength b - 1) = 2 ^ (7 * vintLength b) ∧
    (b.val + 1) * 256 ^ (vintLength b - 1) ≤ 2 ^ (7 * vintLength b + 1) := by
  decide!

theorem readFull_one (data : List Byte) (pos : Int) (b : Byte) (rest : List Byte)
    (hs : bytesFrom data pos = b :: rest) :
    readFull data pos 1 = ⟨pos + 1, [b], none⟩ := by
  have := readFull_ok data pos 1 (by rw [hs]; simp)
  rw [this, hs]
  simp

theorem bytesFrom_succ (data : List Byte) (pos : Int) (h0 : 0 ≤ pos) (b : Byte)
    (rest : List Byte) (hs : bytesFrom data pos = b :: rest) :
    bytesFrom data (pos + 1) = rest := by
  have := bytesFrom_add data pos h0 1
  rw [hs] at this
  simpa using this

theorem pow_seven_le (L : Nat) (hL : L ≤ 8) : 2 ^ (7 * L + 1) ≤ 2 ^ 64 :=
  Nat.pow_le_pow_right (by norm_num) (by omega)

/-- Success of `ebmlReadVINT` on a stream that holds the whole integer. -/
theorem ebmlReadVINT_ok (data : List Byte) (pos : Int) (h0 : 0 ≤ pos) (b : Byte)
    (rest : List Byte) (hs : bytesFrom data pos = b :: rest) (hb : b ≠ 0)
    (hlen : vintLength b ≤ rest.length + 1) :
    ebmlReadVINT data pos =
      ⟨pos + vintLength b, beUint ((b :: rest).take (vintLength b)) - 2 ^ (7 * vintLength b),
        vintLength b, none⟩ := by
  obtain ⟨h1, h2, h3, h4, h5, h6, h7⟩ := ebmlMarker_facts b hb
  have hr1 := readFull_one data pos b rest hs
  have hs1 := bytesFrom_succ data pos h0 b rest hs
  simp only [ebmlReadVINT, hr1, List.headD_cons, if_neg hb, h1, h5]
  obtain ⟨k, hk⟩ : ∃ k, vintLength b = k + 1 := ⟨vintLength b - 1, by omega⟩
  rw [hk] at h6 h7 hlen ⊢
  simp only [Nat.add_sub_cancel] at h6 h7
  have htl : (rest.take k).length = k := by simp [List.length_take]; omega
  have hbe : beUint ((b :: rest).take (k + 1)) = b.val * 256 ^ k + beUint (rest.take k) := by
    rw [List.take_succ_cons, beUint_cons, htl]
  have hpos : 0 < 256 ^ k := pow_pos (by norm_num) _
  have hsub : (b.val - (ebmlMarker b).2) * 256 ^ k + 2 ^ (7 * (k + 1)) = b.val * 256 ^ k := by
    rw [← h6, ← Nat.add_mul, Nat.sub_add_cancel h4]
  by_cases hk1 : k + 1 > 1
  · have hr2 : readFull data (pos + 1) (k + 1 - 1) = ⟨pos + 1 + k, rest.take k, none⟩ := by
      have := readFull_ok data (pos + 1) k (by rw [hs1]; omega)
      rw [hs1] at this
      simpa using this
    simp only [if_pos hk1, hr2]
    have hbound : (b.val - (ebmlMarker b).2 + 1) * 256 ^ (rest.take k).length ≤ 2 ^ 64 := by
      rw [htl]
      have h8 := pow_seven_le (k + 1) (by omega)
      have : (b.val - (ebmlMarker b).2 + 1) * 256 ^ k ≤ (b.val + 1) * 256 ^ k :=
        Nat.mul_le_mul_right _ (by omega)
      omega
    rw [shiftIn_eq _ _ hbound, htl, hbe]
    congr 1
    · push_cast; ring
    · omega
  · have hk0 : k = 0 := by omega
    subst hk0
    have hnil : beUint ([] : List Byte) = 0 := rfl
    simp only [if_neg hk1]
    simp only [List.take_zero, hnil, pow_zero, Nat.mul_one, Nat.add_zero] at hbe h6
    rw [hbe, ← h6]
    simp

/-- Success of `ebmlReadElementID` on a stream that holds the whole ID. -/
theorem ebmlReadElementID_ok (data : List Byte) (pos : Int) (h0 : 0 ≤ pos) (b : Byte)
    (rest : List Byte) (hs : bytesFrom data pos = b :: rest) (hb : b ≠ 0)
    (hlen : vintLength b ≤ rest.length + 1) :
    ebmlReadElementID data pos =
      ⟨pos + vintLength b, beUint ((b :: rest).take (vintLength b)), vintLength b, none⟩ := by
  obtain ⟨h1, h2, h3, h4, h5, h6, h7⟩ := ebmlMarker_facts b hb
  have hr1 := readFull_one data pos b rest hs
  have hs1 := bytesFrom_succ data pos h0 b rest hs
  simp only [ebmlReadElementID, hr1, List.headD_cons, if_neg hb, h1]
  obtain ⟨k, hk⟩ : ∃ k, vintLength b = k + 1 := ⟨vintLength b - 1, by omega⟩
  rw [hk] at h6 h7 hlen ⊢
  simp only [Nat.add_sub_cancel] at h6 h7
  have htl : (rest.take k).length = k := by simp [List.length_take]; omega
  have hbe : beUint ((b :: rest).take (k + 1)) = b.val * 256 ^ k + beUint (rest.take k) := by
    rw [List.take_succ_cons, beUint_cons, htl]
  by_cases hk1 : k + 1 > 1
  · have hr2 : readFull data (pos + 1) (k + 1 - 1) = ⟨pos + 1 + k, rest.take k, none⟩ := by
      have := readFull_ok data (pos + 1) k (by rw [hs1]; omega)
      rw [hs1] at this
      simpa using this
    simp only [if_pos hk1, hr2]
    have hbound : (b.val + 1) * 256 ^ (rest.take k).length ≤ 2 ^ 64 := by
      rw [htl]
      have h8 := pow_seven_le (k + 1) (by omega)
      omega
    rw [shiftIn_eq _ _ hbound, htl, hbe]
    congr 1
    push_cast; ring
  · have hk0 : k = 0 := by omega
    subst hk0
    have hnil : beUint ([] : List Byte) = 0 := rfl
    simp only [if_neg hk1]
    simp only [List.take_zero, hnil, pow_zero, Nat.mul_one, Nat.add_zero] at hbe
    rw [hbe]
    simp

theorem readFull_err_some (data : List Byte) (pos : Int) (n : Nat)
    (h : (bytesFrom data pos).length < n) : ∃ e, (readFull data pos n).err = some e := by
  have := (readFull_short data pos n h).1
  cases hc : (readFull data pos n).err with
  | none => exact absurd hc this
  | some e => exact ⟨e, rfl⟩

/-- The four ways a call of `ebmlReadVINT` can go, by the bytes at the cursor. -/
theorem ebmlReadVINT_cases (data : List Byte) (pos : Int) (h0 : 0 ≤ pos) :
    (bytesFrom data pos = [] ∧ (ebmlReadVINT data pos).err ≠ none ∧
      (ebmlReadVINT data pos).value = 0 ∧ (ebmlReadVINT data pos).length = 0) ∨
    (∃ rest, bytesFrom data pos = 0 :: rest ∧ (ebmlReadVINT data pos).err ≠ none ∧
      (ebmlReadVINT data pos).value = 0 ∧ (ebmlReadVINT data pos).length = 0) ∨
    (∃ b rest, bytesFrom data pos = b :: rest ∧ b ≠ 0 ∧ rest.length + 1 < vintLength b ∧
      (ebmlReadVINT data pos).err ≠ none ∧
      (ebmlReadVINT data pos).value = 0 ∧ (ebmlReadVINT data pos).length = 0) ∨
    (∃ b rest, bytesFrom data pos = b :: rest ∧ b ≠ 0 ∧ vintLength b ≤ rest.length + 1 ∧
      ebmlReadVINT data pos =
        ⟨pos + vintLength b, beUint ((b :: rest).take (vintLength b)) - 2 ^ (7 * vintLength b),
          vintLength b, none⟩) := by
  cases hs : bytesFrom data pos with
  | nil =>
    left
    obtain ⟨e, he⟩ := readFull_err_some data pos 1 (by rw [hs]; simp)
    simp [ebmlReadVINT, he]
  | cons b rest =>
    right
    have hr1 := readFull_one data pos b rest hs
    by_cases hb : b = 0
    · left
      subst hb
      exact ⟨rest, rfl, by simp [ebmlReadVINT, hr1]⟩
    · right
      by_cases hlen : vintLength b ≤ rest.length + 1
      · right
        exact ⟨b, rest, rfl, hb, hlen, ebmlReadVINT_ok data pos h0 b rest hs hb hlen⟩
      · left
        obtain ⟨h1, h2, h3, -⟩ := ebmlMarker_facts b hb
        have hs1 := bytesFrom_succ data pos h0 b rest hs
        obtain ⟨e, he⟩ := readFull_err_some data (pos + 1) (vintLength b - 1)
          (by rw [hs1]; omega)
        have hgt : vintLength b > 1 := by omega
        refine ⟨b, rest, rfl, hb, by omega, ?_⟩
        simp [ebmlReadVINT, hr1, hb, h1, hgt, he]

/-- The four ways a call of `ebmlReadElementID` can go, by the bytes at the cursor. -/
theorem ebmlReadElementID_cases (data : List Byte) (pos : Int) (h0 : 0 ≤ pos) :
    (bytesFrom data pos = [] ∧ (ebmlReadElementID data pos).err ≠ none ∧
      (ebmlReadElementID data pos).value = 0 ∧ (ebmlReadElementID data pos).length = 0) ∨
    (∃ rest, bytesFrom data pos = 0 :: rest ∧ (ebmlReadElementID data pos).err ≠ none ∧
      (ebmlReadElementID data pos).value = 0 ∧ (ebmlReadElementID data pos).length = 0) ∨
    (∃ b rest, bytesFrom data pos = b :: rest ∧ b ≠ 0 ∧ rest.length + 1 < vintLength b ∧
      (ebmlReadElementID data pos).err ≠ none ∧
      (ebmlReadElementID data pos).value = 0 ∧ (ebmlReadElementID data pos).length = 0) ∨
    (∃ b rest, bytesFrom data pos = b :: rest ∧ b ≠ 0 ∧ vintLength b ≤ rest.length + 1 ∧
      ebmlReadElementID data pos =
        ⟨pos + vintLength b, beUint ((b :: rest).take (vintLength b)), vintLength b, none⟩) := by
  cases hs : bytesFrom data pos with
  | nil =>
    left
    obtain ⟨e, he⟩ := readFull_err_some data pos 1 (by rw [hs]; simp)
    simp [ebmlReadElementID, he]
  | cons b rest =>
    right
    have hr1 := readFull_one data pos b rest hs
    by_cases hb : b = 0
    · left
      subst hb
      exact ⟨rest, rfl, by simp [ebmlReadElementID, hr1]⟩
    · right
      by_cases hlen : vintLength b ≤ rest.length + 1
      · right
        exact ⟨b, rest, rfl, hb, hlen, ebmlReadElementID_ok data pos h0 b rest hs hb hlen⟩
      · left
        obtain ⟨h1, h2, h3, -⟩ := ebmlMarker_facts b hb
        have hs1 := bytesFrom_succ data pos h0 b rest hs
        obtain ⟨e, he⟩ := readFull_err_some data (pos + 1) (vintLength b - 1)
          (by rw [hs1]; omega)
        have hgt : vintLength b > 1 := by omega
        refine ⟨b, rest, rfl, hb, by omega, ?_⟩
        simp [ebmlReadElementID, hr1, hb, h1, hgt, he]

theorem bytesFrom_natCast (data : List Byte) (off : Nat) :
    bytesFrom data (off : Int) = data.drop off := by
  simp [bytesFrom]

/-- The raw big-endian value of a complete VINT of length `L` lies in
`[2^(7L), 2^(7L+1))`: its top set bit is the marker. -/
theorem vint_raw_bounds (b : Byte) (hb : b ≠ 0) (rest : List Byte)
    (hlen : vintLength b ≤ rest.length + 1) :
    2 ^ (7 * vintLength b) ≤ beUint ((b :: rest).take (vintLength b)) ∧
      beUint ((b :: rest).take (vintLength b)) < 2 ^ (7 * vintLength b + 1) := by
  obtain ⟨h1, h2, h3, h4, h5, h6, h7⟩ := ebmlMarker_facts b hb
  obtain ⟨k, hk⟩ : ∃ k, vintLength b = k + 1 := ⟨vintLength b - 1, by omega⟩
  rw [hk] at h6 h7 hlen ⊢
  simp only [Nat.add_sub_cancel] at h6 h7
  have htl : (rest.take k).length = k := by simp [List.length_take]; omega
  have hlt := beUint_lt (rest.take k)
  rw [htl] at hlt
  rw [List.take_succ_cons, beUint_cons, htl]
  have hmul : (ebmlMarker b).2 * 256 ^ k ≤ b.val * 256 ^ k := Nat.mul_le_mul_right _ h4
  have hexp : (b.val + 1) * 256 ^ k = b.val * 256 ^ k + 256 ^ k := by ring
  constructor <;> omega

/-- C7: on a stream whose first byte `b` is non-zero and that holds at least
`L = 1 + leadingZeros b` bytes, `ebmlReadVINT` succeeds, returns length `L` and
the value `N - 2^(7L)` (with `2^(7L) ≤ N`), where `N` is the big-endian
unsigned integer of the first `L` bytes, and moves the cursor by exactly `L`. -/
theorem ebmlReadVINT_value (data : List Byte) (off : Nat) (b : Byte) (rest : List Byte)
    (hs : data.drop off = b :: rest) (hb : b ≠ 0)
    (hlen : 1 + leadingZeros b ≤ (b :: rest).length) :
    ebmlReadVINT data off =
        ⟨off + (1 + leadingZeros b : Nat),
          beUint ((b :: rest).take (1 + leadingZeros b)) - 2 ^ (7 * (1 + leadingZeros b)),
          1 + leadingZeros b, none⟩ ∧
      2 ^ (7 * (1 + leadingZeros b)) ≤ beUint ((b :: rest).take (1 + leadingZeros b)) := by
  have hs' : bytesFrom data (off : Int) = b :: rest := by rw [bytesFrom_natCast, hs]
  have hlen' : vintLength b ≤ rest.length + 1 := by simpa [vintLength] using hlen
  exact ⟨ebmlReadVINT_ok data off (by omega) b rest hs' hb hlen',
    (vint_raw_bounds b hb rest hlen').1⟩

theorem ebmlReadVINT_value_witness :
    ebmlReadVINT [0x1A, 0x45, 0xDF, 0xA3, 0x9F] ((0 : Nat) : Int) = ⟨4, 0x0A45DFA3, 4, none⟩ := by
  rw [(ebmlReadVINT_value [0x1A, 0x45, 0xDF, 0xA3, 0x9F] 0 0x1A [0x45, 0xDF, 0xA3, 0x9F]
    rfl (by decide) (by decide)).1]
  decide

/-- C8: `ebmlReadVINT` returns an error exactly when the stream is empty, its
first byte is 0x00, or it holds fewer than `L` bytes (`L` fixed by the leading
set bit of the first byte); in every error case value and length are both 0. -/
theorem ebmlReadVINT_error_iff (data : List Byte) (off : Nat) :
    ((ebmlReadVINT data off).err ≠ none ↔
      (data.drop off = [] ∨ (data.drop off).head? = some 0 ∨
        ∃ b, (data.drop off).head? = some b ∧ (data.drop off).length < 1 + leadingZeros b)) ∧
    ((ebmlReadVINT data off).err ≠ none →
      (ebmlReadVINT data off).value = 0 ∧ (ebmlReadVINT data off).length = 0) := by
  have hc := ebmlReadVINT_cases data off (by omega)
  rw [bytesFrom_natCast] at hc
  rcases hc with ⟨hs, he, hv, hl⟩ | ⟨rest, hs, he, hv, hl⟩ | ⟨b, rest, hs, hb, hlen, he, hv, hl⟩ |
    ⟨b, rest, hs, hb, hlen, hr⟩
  · exact ⟨⟨fun _ => Or.inl hs, fun _ => he⟩, fun _ => ⟨hv, hl⟩⟩
  · exact ⟨⟨fun _ => Or.inr (Or.inl (by rw [hs]; rfl)), fun _ => he⟩, fun _ => ⟨hv, hl⟩⟩
  · refine ⟨⟨fun _ => Or.inr (Or.inr ⟨b, by rw [hs]; rfl, ?_⟩), fun _ => he⟩, fun _ => ⟨hv, hl⟩⟩
    rw [hs]
    simpa [vintLength] using hlen
  · have hne : (ebmlReadVINT data off).err = none := by rw [hr]
    refine ⟨⟨fun h => absurd hne h, ?_⟩, fun h => absurd hne h⟩
    rintro (h | h | ⟨b', hb', hlt⟩)
    · rw [hs] at h; cases h
    · rw [hs] at h
      simp only [List.head?_cons, Option.some.injEq] at h
      exact absurd h hb
    · rw [hs] at hb' hlt
      simp only [List.head?_cons, Option.some.injEq] at hb'
      subst hb'
      simp only [vintLength, List.length_cons] at hlen hlt
      omega

/-- C9: when `ebmlReadElementID` succeeds on a stream, `ebmlReadVINT` succeeds
on the same stream with the same length `L` and the same final cursor, the ID
is the big-endian value of the `L` raw bytes, and it equals the VINT value plus
the marker `2^(7L)`. -/
theorem ebmlReadElementID_marker (data : List Byte) (off : Nat)
    (h : (ebmlReadElementID data off).err = none) :
    (ebmlReadVINT data off).err = none ∧
      (ebmlReadVINT data off).length = (ebmlReadElementID data off).length ∧
      (ebmlReadVINT data off).pos = (ebmlReadElementID data off).pos ∧
      (ebmlReadElementID data off).value =
        beUint ((data.drop off).take (ebmlReadElementID data off).length) ∧
      (ebmlReadElementID data off).value =
        (ebmlReadVINT data off).value + 2 ^ (7 * (ebmlReadElementID data off).length) := by
  have hc := ebmlReadElementID_cases data off (by omega)
  rw [bytesFrom_natCast] at hc
  rcases hc with ⟨-, he, -⟩ | ⟨rest, -, he, -⟩ | ⟨b, rest, -, -, -, he, -⟩ |
    ⟨b, rest, hs, hb, hlen, hr⟩
  · exact absurd h he
  · exact absurd h he
  · exact absurd h he
  · have hs' : bytesFrom data (off : Int) = b :: rest := by rw [bytesFrom_natCast, hs]
    have hv := ebmlReadVINT_ok data off (by omega) b rest hs' hb hlen
    have hbd := (vint_raw_bounds b hb rest hlen).1
    rw [hr, hv, hs]
    simp only [true_and]
    omega

theorem ebmlReadElementID_marker_witness :
    (ebmlReadElementID [0x1A, 0x45, 0xDF, 0xA3] ((0 : Nat) : Int)).err = none ∧
      (ebmlReadElementID [0x1A, 0x45, 0xDF, 0xA3] ((0 : Nat) : Int)).value = 0x1A45DFA3 ∧
      (ebmlReadElementID [0x1A, 0x45, 0xDF, 0xA3] ((0 : Nat) : Int)).value =
        (ebmlReadVINT [0x1A, 0x45, 0xDF, 0xA3] ((0 : Nat) : Int)).value +
          2 ^ (7 * (ebmlReadElementID [0x1A, 0x45, 0xDF, 0xA3] ((0 : Nat) : Int)).length) :=
  ⟨by decide, by decide,
    (ebmlReadElementID_marker [0x1A, 0x45, 0xDF, 0xA3] 0 (by decide)).2.2.2.2⟩

/-- C10: `ebmlReadElementID` is injective on encodings: two successful decodes
with the same ID value consumed the same number `L` of bytes, and the first `L`
bytes of the two streams are identical. -/
theorem ebmlReadElementID_injective (d₁ d₂ : List Byte) (o₁ o₂ : Nat)
    (h₁ : (ebmlReadElementID d₁ o₁).err = none) (h₂ : (ebmlReadElementID d₂ o₂).err = none)
    (hv : (ebmlReadElementID d₁ o₁).value = (ebmlReadElementID d₂ o₂).value) :
    (ebmlReadElementID d₁ o₁).length = (ebmlReadElementID d₂ o₂).length ∧
      (ebmlReadElementID d₁ o₁).pos - o₁ = (ebmlReadElementID d₁ o₁).length ∧
      (ebmlReadElementID d₂ o₂).pos - o₂ = (ebmlReadElementID d₂ o₂).length ∧
      (d₁.drop o₁).take (ebmlReadElementID d₁ o₁).length =
        (d₂.drop o₂).take (ebmlReadElementID d₂ o₂).length := by
  have hc₁ := ebmlReadElementID_cases d₁ o₁ (by omega)
  have hc₂ := ebmlReadElementID_cases d₂ o₂ (by omega)
  rw [bytesFrom_natCast] at hc₁ hc₂
  rcases hc₁ with ⟨-, he, -⟩ | ⟨rest, -, he, -⟩ | ⟨b, rest, -, -, -, he, -⟩ |
    ⟨b₁, r₁, hs₁, hb₁, hl₁, hr₁⟩
  · exact absurd h₁ he
  · exact absurd h₁ he
  · exact absurd h₁ he
  rcases hc₂ with ⟨-, he, -⟩ | ⟨rest, -, he, -⟩ | ⟨b, rest, -, -, -, he, -⟩ |
    ⟨b₂, r₂, hs₂, hb₂, hl₂, hr₂⟩
  · exact absurd h₂ he
  · exact absurd h₂ he
  · exact absurd h₂ he
  rw [hr₁, hr₂] at hv
  simp only at hv
  obtain ⟨lo₁, hi₁⟩ := vint_raw_bounds b₁ hb₁ r₁ hl₁
  obtain ⟨lo₂, hi₂⟩ := vint_raw_bounds b₂ hb₂ r₂ hl₂
  rw [hv] at lo₁ hi₁
  have hL : vintLength b₁ = vintLength b₂ := by
    by_contra hne
    rcases Nat.lt_or_gt_of_ne hne with hlt | hlt
    · have : 2 ^ (7 * vintLength b₁ + 1) ≤ 2 ^ (7 * vintLength b₂) :=
        Nat.pow_le_pow_right (by norm_num) (by omega)
      omega
    · have : 2 ^ (7 * vintLength b₂ + 1) ≤ 2 ^ (7 * vintLength b₁) :=
        Nat.pow_le_pow_right (by norm_num) (by omega)
      omega
  rw [hr₁, hr₂, hs₁, hs₂]
  refine ⟨hL, by simp, by simp, ?_⟩
  apply beUint_inj
  · simp only [List.length_take, List.length_cons]
    omega
  · exact hv

theorem ebmlReadElementID_injective_witness :
    (ebmlReadElementID [0x42, 0x86, 0x01] ((0 : Nat) : Int)).value =
        (ebmlReadElementID [0xFF, 0x42, 0x86, 0x02] ((1 : Nat) : Int)).value ∧
      (ebmlReadElementID [0x42, 0x86, 0x01] ((0 : Nat) : Int)).length =
        (ebmlReadElementID [0xFF, 0x42, 0x86, 0x02] ((1 : Nat) : Int)).length :=
  ⟨by decide,
    (ebmlReadElementID_injective [0x42, 0x86, 0x01] [0xFF, 0x42, 0x86, 0x02] 0 1
      (by decide) (by decide) (by decide)).1⟩

/-! ### The box walker -/

theorem readFull_none_pos (data : List Byte) (pos : Int) (n : Nat)
    (h : (readFull data pos n).err = none) : (readFull data pos n).pos = pos + n := by
  have hn := (readFull_err_iff data pos n).mp h
  rw [readFull_ok data pos n hn]

theorem bytesFrom_length (data : List Byte) (pos : Int) (h0 : 0 ≤ pos) :
    ((bytesFrom data pos).length : Int) = max 0 (data.length - pos) := by
  simp only [bytesFrom, List.length_drop]
  omega

/-- A successful read of `n ≥ 1` bytes at a non-negative cursor ends inside the file. -/
theorem readFull_none_le (data : List Byte) (pos : Int) (n : Nat) (h0 : 0 ≤ pos)
    (h : (readFull data pos n).err = none) (hn : 0 < n) : pos + n ≤ data.length := by
  have h1 := (readFull_err_iff data pos n).mp h
  have h2 := bytesFrom_length data pos h0
  omega

theorem mp4ReadBoxHeader_some (data : List Byte) (pos endPos p1 : Int) (hd : BoxHeader)
    (h : mp4ReadBoxHeader data pos endPos = (p1, some hd)) :
    p1 = pos + hd.headerSize ∧ (hd.headerSize = 8 ∨ hd.headerSize = 16) ∧
      (readFull data pos 8).err = none := by
  simp only [mp4ReadBoxHeader] at h
  split at h
  · simp at h
  · rename_i hh
    have hp := readFull_none_pos data pos 8 hh
    split at h
    · split at h
      · simp at h
      · rename_i he
        have hp2 := readFull_none_pos data _ 8 he
        simp only [Prod.mk.injEq, Option.some.injEq] at h
        obtain ⟨h1, h2⟩ := h
        subst h2
        refine ⟨?_, Or.inr rfl, hh⟩
        rw [← h1, hp2, hp]
        simp
        ring
    · split at h
      · simp only [Prod.mk.injEq, Option.some.injEq] at h
        obtain ⟨h1, h2⟩ := h
        subst h2
        exact ⟨by rw [← h1, hp]; simp, Or.inl rfl, hh⟩
      · simp only [Prod.mk.injEq, Option.some.injEq] at h
        obtain ⟨h1, h2⟩ := h
        subst h2
        exact ⟨by rw [← h1, hp]; simp, Or.inl rfl, hh⟩

theorem mp4Loop_traced_bounds {σ : Type} (data : List Byte) (endPos c0 : Int)
    (h : BoxHandler σ) :
    ∀ (fuel : Nat) (pos : Int) (s : σ) (log : List BoxCall) (w : Walk (σ × List BoxCall)),
      c0 ≤ pos → (∀ c ∈ log, BoxInside c0 endPos c) →
      mp4Loop data endPos (traced h) fuel pos (s, log) = some w →
      ∀ c ∈ w.st.2, BoxInside c0 endPos c := by
  intro fuel
  induction fuel with
  | zero =>
    intro pos s log w _ _ hw
    simp [mp4Loop] at hw
  | succ fuel ih =>
    intro pos s log w hpos hlog hw
    rw [mp4Loop] at hw
    split at hw
    · cases hw; exact hlog
    · rename_i hend
      split at hw
      · cases hw; exact hlog
      · rename_i p1 hd hhd
        obtain ⟨hp1, hhs, -⟩ := mp4ReadBoxHeader_some data pos endPos p1 hd hhd
        split at hw
        · cases hw; exact hlog
        · rename_i hsz
          have hnew : BoxInside c0 endPos (hd.boxType, hd.size - hd.headerSize, p1) := by
            simp only [BoxInside]
            rcases hhs with h8 | h16 <;> omega
          simp only [traced] at hw
          cases hh : h hd.boxType (hd.size - hd.headerSize) p1 p1 s with
          | none => simp [hh] at hw
          | some w1 =>
            simp only [hh] at hw
            have hlog' : ∀ c ∈ log ++ [(hd.boxType, hd.size - hd.headerSize, p1)],
                BoxInside c0 endPos c := by
              intro c hc
              rcases List.mem_append.mp hc with hc | hc
              · exact hlog c hc
              · simp only [List.mem_singleton] at hc
                rw [hc]; exact hnew
            split at hw
            · cases hw; exact hlog'
            · split at hw
              · cases hw; exact hlog'
              · rename_i hseek
                have hge : 0 ≤ pos + hd.size := by
                  simp only [seekStartErr] at hseek
                  split at hseek
                  · simp at hseek
                  · omega
                refine ih _ _ _ w ?_ hlog' hw
                simp only [seekStart]
                rw [if_neg (by omega)]
                rcases hhs with h8 | h16 <;> omega

theorem seekStart_nonneg (pos off : Int) (h : 0 ≤ off) : seekStart pos off = off := by
  simp only [seekStart]
  rw [if_neg (by omega)]

theorem seekStartErr_nonneg (off : Int) (h : 0 ≤ off) : seekStartErr off = none := by
  simp only [seekStartErr]
  rw [if_neg (by omega)]

theorem seekStart_ge (pos off : Int) (h : 0 ≤ pos) : 0 ≤ seekStart pos off := by
  simp only [seekStart]
  split <;> omega

/-- One iteration of the box walker at a non-negative cursor either ends the
walk, whatever fuel is left, or continues at a strictly greater cursor. -/
theorem mp4Loop_progress {σ : Type} (data : List Byte) (endPos : Int) (h : BoxHandler σ)
    (pos : Int) (s : σ) (h0 : 0 ≤ pos) :
    (∃ r, ∀ fuel, mp4Loop data endPos h (fuel + 1) pos s = r) ∨
      (∃ pos' s', pos < pos' ∧ pos + 8 ≤ data.length ∧
        ∀ fuel, mp4Loop data endPos h (fuel + 1) pos s = mp4Loop data endPos h fuel pos' s') := by
  by_cases hend : pos + 8 > endPos
  · left
    exact ⟨some ⟨pos, s, none⟩, fun fuel => by rw [mp4Loop, if_pos hend]⟩
  · cases hhd : mp4ReadBoxHeader data pos endPos with
    | mk p1 o =>
      cases o with
      | none =>
        left
        exact ⟨some ⟨p1, s, none⟩, fun fuel => by rw [mp4Loop, if_neg hend, hhd]⟩
      | some hd =>
        obtain ⟨hp1, hhs, hrd⟩ := mp4ReadBoxHeader_some data pos endPos p1 hd hhd
        by_cases hsz : hd.size < hd.headerSize ∨ hd.size > endPos - pos
        · left
          exact ⟨some ⟨p1, s, none⟩, fun fuel => by
            rw [mp4Loop, if_neg hend, hhd]; simp only [if_pos hsz]⟩
        · cases hh : h hd.boxType (hd.size - hd.headerSize) p1 p1 s with
          | none =>
            left
            exact ⟨none, fun fuel => by
              rw [mp4Loop, if_neg hend, hhd]; simp only [if_neg hsz, hh]⟩
          | some w =>
            cases he : w.err with
            | some e =>
              left
              exact ⟨some ⟨w.pos, w.st, some e⟩, fun fuel => by
                rw [mp4Loop, if_neg hend, hhd]; simp only [if_neg hsz, hh, he]⟩
            | none =>
              right
              have hge : 0 ≤ pos + hd.size := by rcases hhs with h8 | h16 <;> omega
              refine ⟨pos + hd.size, w.st, by rcases hhs with h8 | h16 <;> omega,
                readFull_none_le data pos 8 h0 hrd (by norm_num), fun fuel => ?_⟩
              rw [mp4Loop, if_neg hend, hhd]
              simp only [if_neg hsz, hh, he, seekStartErr_nonneg _ hge, seekStart_nonneg _ _ hge]

/-- With a handler that always returns, the box walker ends before `len - pos + 1`
units of fuel are used. -/
theorem mp4Loop_terminates {σ : Type} (data : List Byte) (endPos : Int) (h : BoxHandler σ)
    (htot : ∀ t ds dof p s, 0 ≤ p → (h t ds dof p s).isSome) :
    ∀ (fuel : Nat) (pos : Int) (s : σ), 0 ≤ pos → (data.length - pos).toNat + 1 ≤ fuel →
      (mp4Loop data endPos h fuel pos s).isSome := by
  intro fuel
  induction fuel with
  | zero => intro pos s _ hf; omega
  | succ fuel ih =>
    intro pos s h0 hf
    by_cases hend : pos + 8 > endPos
    · rw [mp4Loop, if_pos hend]; rfl
    · cases hhd : mp4ReadBoxHeader data pos endPos with
      | mk p1 o =>
        cases o with
        | none => rw [mp4Loop, if_neg hend, hhd]; rfl
        | some hd =>
          obtain ⟨hp1, hhs, hrd⟩ := mp4ReadBoxHeader_some data pos endPos p1 hd hhd
          by_cases hsz : hd.size < hd.headerSize ∨ hd.size > endPos - pos
          · rw [mp4Loop, if_neg hend, hhd]; simp only [if_pos hsz]; rfl
          · have hp1' : 0 ≤ p1 := by rcases hhs with h8 | h16 <;> omega
            have := htot hd.boxType (hd.size - hd.headerSize) p1 p1 s hp1'
            cases hh : h hd.boxType (hd.size - hd.headerSize) p1 p1 s with
            | none => rw [hh] at this; cases this
            | some w =>
              cases he : w.err with
              | some e =>
                rw [mp4Loop, if_neg hend, hhd]; simp only [if_neg hsz, hh, he]; rfl
              | none =>
                have hge : 0 ≤ pos + hd.size := by rcases hhs with h8 | h16 <;> omega
                have hle := readFull_none_le data pos 8 h0 hrd (by norm_num)
                rw [mp4Loop, if_neg hend, hhd]
                simp only [if_neg hsz, hh, he, seekStartErr_nonneg _ hge,
                  seekStart_nonneg _ _ hge]
                apply ih _ _ hge
                rcases hhs with h8 | h16 <;> omega

theorem mp4IterateBoxes_terminates {σ : Type} (data : List Byte) (pos size offset : Int)
    (h : BoxHandler σ) (htot : ∀ t ds dof p s, 0 ≤ p → (h t ds dof p s).isSome) (s : σ)
    (h0 : 0 ≤ pos) : (mp4IterateBoxes data pos size offset h s).isSome := by
  apply mp4Loop_terminates data _ h htot _ _ _ h0
  omega

theorem traced_total {σ : Type} (h : BoxHandler σ)
    (htot : ∀ t ds dof p s, 0 ≤ p → (h t ds dof p s).isSome) :
    ∀ t ds dof p s, 0 ≤ p → (traced h t ds dof p s).isSome := by
  intro t ds dof p s hp
  have := htot t ds dof p s.1 hp
  simp only [traced]
  cases hh : h t ds dof p s.1 with
  | none => rw [hh] at this; cases this
  | some w => rfl

/-- C4: when a container `(containerOffset, containerSize)` is walked with the
cursor starting at `containerOffset`, the walk returns and every box
`(dataSize, dataOffset)` passed to the handler satisfies `dataSize ≥ 0`,
`dataOffset ≥ containerOffset + 8` and
`dataOffset + dataSize ≤ containerOffset + containerSize`. -/
theorem mp4IterateBoxes_delivers_inside {σ : Type} (data : List Byte)
    (containerSize containerOffset : Int) (h : BoxHandler σ) (s : σ)
    (h0 : 0 ≤ containerOffset)
    (htot : ∀ t ds dof p s, 0 ≤ p → (h t ds dof p s).isSome) :
    ∃ w, mp4IterateBoxes data containerOffset containerSize containerOffset (traced h) (s, [])
        = some w ∧
      ∀ c ∈ w.st.2, 0 ≤ c.2.1 ∧ containerOffset + 8 ≤ c.2.2 ∧
        c.2.2 + c.2.1 ≤ containerOffset + containerSize := by
  have ht := mp4IterateBoxes_terminates data containerOffset containerSize containerOffset
    (traced h) (traced_total h htot) (s, []) h0
  cases hw : mp4IterateBoxes data containerOffset containerSize containerOffset (traced h)
      (s, []) with
  | none => rw [hw] at ht; cases ht
  | some w =>
    refine ⟨w, rfl, ?_⟩
    exact mp4Loop_traced_bounds data _ containerOffset h _ containerOffset s [] w (le_refl _)
      (by simp) hw

theorem mp4IterateBoxes_delivers_inside_witness :
    ∃ w, mp4IterateBoxes twoBoxes 0 20 0 (traced idleHandler) ((), []) = some w ∧
      ∀ c ∈ w.st.2, 0 ≤ c.2.1 ∧ (0 : Int) + 8 ≤ c.2.2 ∧ c.2.2 + c.2.1 ≤ 0 + 20 :=
  mp4IterateBoxes_delivers_inside twoBoxes 20 0 idleHandler () (by decide)
    (fun _ _ _ _ _ _ => rfl)

theorem toInt64_of_nonneg (n : Nat) (hn : n < 2 ^ 64) (h : 0 ≤ toInt64 n) : toInt64 n = n := by
  simp only [toInt64] at h ⊢
  rw [Nat.mod_eq_of_lt hn] at h ⊢
  split
  · rfl
  · rw [if_neg (by assumption)] at h
    omega

theorem toInt64_small (n : Nat) (hn : n < 2 ^ 63) : toInt64 n = n := by
  simp only [toInt64]
  rw [Nat.mod_eq_of_lt (by omega), if_pos hn]

theorem readFull_append (data : List Byte) (pos : Int) (a rest : List Byte)
    (hs : bytesFrom data pos = a ++ rest) :
    readFull data pos a.length = ⟨pos + a.length, a, none⟩ := by
  rw [readFull_ok data pos a.length (by rw [hs]; simp), hs]
  simp

theorem bytesFrom_append (data : List Byte) (pos : Int) (h0 : 0 ≤ pos) (a rest : List Byte)
    (hs : bytesFrom data pos = a ++ rest) : bytesFrom data (pos + a.length) = rest := by
  rw [bytesFrom_add data pos h0, hs]
  simp

/-- The one-step unfolding of the walk at a well-formed box. -/
theorem mp4Loop_accept {σ : Type} (data : List Byte) (endPos pos p1 : Int) (hd : BoxHeader)
    (h0 : 0 ≤ pos) (hhd : mp4ReadBoxHeader data pos endPos = (p1, some hd))
    (hend : pos + 8 ≤ endPos) (hlo : hd.headerSize ≤ hd.size) (hhi : hd.size ≤ endPos - pos)
    (h : BoxHandler σ) (st : σ) (fuel : Nat) :
    mp4Loop data endPos h (fuel + 1) pos st =
      match h hd.boxType (hd.size - hd.headerSize) (pos + hd.headerSize) (pos + hd.headerSize)
          st with
      | none => none
      | some w =>
        match w.err with
        | some e => some ⟨w.pos, w.st, some e⟩
        | none => mp4Loop data endPos h fuel (pos + hd.size) w.st := by
  obtain ⟨hp1, hhs, -⟩ := mp4ReadBoxHeader_some data pos endPos p1 hd hhd
  have hge : 0 ≤ pos + hd.size := by rcases hhs with h8 | h16 <;> omega
  rw [mp4Loop, if_neg (by omega), hhd]
  simp only [if_neg (show ¬(hd.size < hd.headerSize ∨ hd.size > endPos - pos) by omega), hp1]
  cases h hd.boxType (hd.size - hd.headerSize) (pos + hd.headerSize) (pos + hd.headerSize) st with
  | none => rfl
  | some w =>
    cases he : w.err with
    | some e => simp only [he]
    | none => simp only [he, seekStartErr_nonneg _ hge, seekStart_nonneg _ _ hge]

/-- C5: the box header at `pos` with 32-bit size field `s` gives box size `s`
and an 8-byte header when `s` is neither 0 nor 1, box size `endPos - pos` and an
8-byte header when `s = 0`, and the following 64-bit big-endian integer (as
`int64`; equal to the unsigned value whenever it is not negative) with a
16-byte header when `s = 1`; for an accepted box the handler is called with the
four type bytes, `dataSize = size - headerSize` and
`dataOffset = pos + headerSize`, and the walk goes on at `pos + size`. -/
theorem mp4_box_header_rules {σ : Type} (data : List Byte) (pos endPos : Int)
    (hdr rest : List Byte) (h0 : 0 ≤ pos) (hs : bytesFrom data pos = hdr ++ rest)
    (hlen : hdr.length = 8) :
    (beUint (hdr.take 4) ≠ 0 → beUint (hdr.take 4) ≠ 1 →
      mp4ReadBoxHeader data pos endPos =
        (pos + 8, some ⟨hdr.drop 4, beUint (hdr.take 4), 8⟩)) ∧
    (beUint (hdr.take 4) = 0 →
      mp4ReadBoxHeader data pos endPos = (pos + 8, some ⟨hdr.drop 4, endPos - pos, 8⟩)) ∧
    (beUint (hdr.take 4) = 1 → ∀ ext tail : List Byte, rest = ext ++ tail → ext.length = 8 →
      mp4ReadBoxHeader data pos endPos =
          (pos + 16, some ⟨hdr.drop 4, toInt64 (beUint ext), 16⟩) ∧
        (0 ≤ toInt64 (beUint ext) → toInt64 (beUint ext) = beUint ext)) ∧
    (∀ p1 hd, mp4ReadBoxHeader data pos endPos = (p1, some hd) → pos + 8 ≤ endPos →
      hd.headerSize ≤ hd.size → hd.size ≤ endPos - pos →
      hd.boxType = hdr.drop 4 ∧
      ∀ (h : BoxHandler σ) (st : σ) (fuel : Nat),
        mp4Loop data endPos h (fuel + 1) pos st =
          match h hd.boxType (hd.size - hd.headerSize) (pos + hd.headerSize)
              (pos + hd.headerSize) st with
          | none => none
          | some w =>
            match w.err with
            | some e => some ⟨w.pos, w.st, some e⟩
            | none => mp4Loop data endPos h fuel (pos + hd.size) w.st) := by
  have hr := readFull_append data pos hdr rest hs
  rw [hlen] at hr
  have hsl1 : slice hdr 0 4 = hdr.take 4 := by simp [slice]
  have hsl2 : slice hdr 4 8 = hdr.drop 4 := by
    simp only [slice]
    rw [← hlen, List.take_length]
  have hcast : ∀ n : Nat, ((n : Int) = 1 ↔ n = 1) ∧ ((n : Int) = 0 ↔ n = 0) := by
    intro n; constructor <;> omega
  refine ⟨?_, ?_, ?_, ?_⟩
  · intro hne0 hne1
    simp only [mp4ReadBoxHeader, hr, hsl1, hsl2, (hcast _).1, (hcast _).2, if_neg hne0,
      if_neg hne1]
    simp
  · intro h0'
    simp only [mp4ReadBoxHeader, hr, hsl1, hsl2, (hcast _).1, (hcast _).2, h0']
    simp
  · intro h1 ext tail hrest hext
    have hs2 : bytesFrom data (pos + 8) = ext ++ tail := by
      have := bytesFrom_append data pos h0 hdr rest hs
      rw [hlen, hrest] at this
      exact this
    have hr2 := readFull_append data (pos + 8) ext tail hs2
    rw [hext] at hr2
    constructor
    · simp only [mp4ReadBoxHeader, hr, hsl1, hsl2, (hcast _).1, h1]
      simp only [Nat.cast_ofNat, if_true, hr2]
      simp
      ring
    · apply toInt64_of_nonneg
      have := beUint_lt ext
      rw [hext] at this
      norm_num at this ⊢
      exact this
  · intro p1 hd hhd hend hlo hhi
    constructor
    · simp only [mp4ReadBoxHeader, hr, hsl1, hsl2] at hhd
      split at hhd
      · split at hhd
        · simp at hhd
        · simp only [Prod.mk.injEq, Option.some.injEq] at hhd
          rw [← hhd.2]
      · split at hhd <;>
        · simp only [Prod.mk.injEq, Option.some.injEq] at hhd
          rw [← hhd.2]
    · intro h st fuel
      exact mp4Loop_accept data endPos pos p1 hd h0 hhd hend hlo hhi h st fuel

theorem mp4Loop_chain {σ : Type} (data : List Byte) (endPos : Int) (h : BoxHandler σ)
    (hh : ∀ t ds dof p s, ∃ w, h t ds dof p s = some w ∧ w.err = none)
    (pos : Int) (boxes : List BoxCall) (stop : Int)
    (hchain : BoxChain data endPos pos boxes stop) (hbad : MalformedBoxAt data endPos stop) :
    ∀ (fuel : Nat) (s : σ) (log : List BoxCall), 0 ≤ pos →
      (data.length - pos).toNat + 1 ≤ fuel →
      ∃ w, mp4Loop data endPos (traced h) fuel pos (s, log) = some w ∧ w.err = none ∧
        w.st.2 = log ++ boxes := by
  induction hchain with
  | nil pos =>
    intro fuel s log h0 hf
    obtain ⟨hend, p1, hd, hhd, hsz⟩ := hbad
    obtain ⟨f, rfl⟩ : ∃ f, fuel = f + 1 := ⟨fuel - 1, by omega⟩
    refine ⟨⟨p1, (s, log), none⟩, ?_, rfl, by simp⟩
    rw [mp4Loop, if_neg (by omega), hhd]
    simp only [if_pos hsz]
  | cons pos p1 hd rest stop hend hhd hlo hhi _ ih =>
    intro fuel s log h0 hf
    obtain ⟨f, rfl⟩ : ∃ f, fuel = f + 1 := ⟨fuel - 1, by omega⟩
    obtain ⟨hp1, hhs, hrd⟩ := mp4ReadBoxHeader_some data pos endPos p1 hd hhd
    have hle := readFull_none_le data pos 8 h0 hrd (by norm_num)
    have hge : 0 ≤ pos + hd.size := by rcases hhs with h8 | h16 <;> omega
    obtain ⟨w1, hw1, he1⟩ := hh hd.boxType (hd.size - hd.headerSize) p1 p1 s
    obtain ⟨w, hw, hwe, hwl⟩ := ih hbad f w1.st
      (log ++ [(hd.boxType, hd.size - hd.headerSize, p1)]) hge
      (by rcases hhs with h8 | h16 <;> omega)
    refine ⟨w, ?_, hwe, by rw [hwl]; simp⟩
    rw [mp4Loop, if_neg (by omega), hhd]
    simp only [if_neg (show ¬(hd.size < hd.headerSize ∨ hd.size > endPos - pos) by omega),
      traced, hw1, he1, seekStartErr_nonneg _ hge, seekStart_nonneg _ _ hge]
    exact hw

/-- C6: a malformed box is not reported as an error.  With a handler that
returns no error, when the container holds the well-formed boxes `boxes`
followed by a box whose size is below its header size or beyond the container
end, the walk returns `nil` after invoking the handler on exactly `boxes`, in
file order. -/
theorem mp4IterateBoxes_malformed_stops {σ : Type} (data : List Byte)
    (containerSize containerOffset : Int) (h : BoxHandler σ) (s : σ)
    (boxes : List BoxCall) (stop : Int) (h0 : 0 ≤ containerOffset)
    (hh : ∀ t ds dof p s, ∃ w, h t ds dof p s = some w ∧ w.err = none)
    (hchain : BoxChain data (containerOffset + containerSize) containerOffset boxes stop)
    (hbad : MalformedBoxAt data (containerOffset + containerSize) stop) :
    ∃ w, mp4IterateBoxes data containerOffset containerSize containerOffset (traced h) (s, [])
        = some w ∧ w.err = none ∧ w.st.2 = boxes := by
  have := mp4Loop_chain data (containerOffset + containerSize) h hh containerOffset boxes stop
    hchain hbad (data.length + 1) s [] h0 (by omega)
  simpa [mp4IterateBoxes] using this

theorem mp4IterateBoxes_malformed_stops_witness :
    ∃ w, mp4IterateBoxes goodThenBad 0 16 0 (traced idleHandler) ((), []) = some w ∧
      w.err = none ∧ w.st.2 = [(str "free", 0, 8)] :=
  mp4IterateBoxes_malformed_stops goodThenBad 16 0 idleHandler () [(str "free", 0, 8)] 8
    (by decide) (fun _ _ _ p s => ⟨⟨p, s, none⟩, rfl, rfl⟩)
    (BoxChain.cons 0 8 ⟨str "free", 8, 8⟩ [] 8 (by decide) (by decide) (by decide) (by decide)
      (BoxChain.nil 8))
    ⟨by decide, 16, ⟨str "bad!", 4, 8⟩, by decide, by decide⟩

theorem mp4Loop_advances {σ : Type} (data : List Byte) (endPos : Int) (h : BoxHandler σ)
    (pos : Int) (s : σ) (h0 : 0 ≤ pos) : Advances (mp4Loop data endPos h) pos s := by
  rcases mp4Loop_progress data endPos h pos s h0 with hl | ⟨pos', s', hlt, -, hr⟩
  · exact Or.inl hl
  · exact Or.inr ⟨pos', s', hlt, hr⟩

/-! ### Matroska elements -/

theorem ebmlReadVINT_ok_facts (data : List Byte) (pos : Int) (h0 : 0 ≤ pos)
    (h : (ebmlReadVINT data pos).err = none) :
    pos + 1 ≤ (ebmlReadVINT data pos).pos ∧ (ebmlReadVINT data pos).pos ≤ data.length ∧
      (ebmlReadVINT data pos).value < 2 ^ 56 := by
  rcases ebmlReadVINT_cases data pos h0 with ⟨-, he, -⟩ | ⟨rest, -, he, -⟩ |
    ⟨b, rest, -, -, -, he, -⟩ | ⟨b, rest, hs, hb, hlen, hr⟩
  · exact absurd h he
  · exact absurd h he
  · exact absurd h he
  · obtain ⟨-, h2, h3, -⟩ := ebmlMarker_facts b hb
    obtain ⟨-, hhi⟩ := vint_raw_bounds b hb rest hlen
    have hl := bytesFrom_length data pos h0
    rw [hs, List.length_cons] at hl
    rw [hr]
    simp only
    have hp : (2 : Nat) ^ (7 * vintLength b + 1) = 2 * 2 ^ (7 * vintLength b) := by
      rw [pow_succ]; ring
    have hp2 : (2 : Nat) ^ (7 * vintLength b) ≤ 2 ^ 56 :=
      Nat.pow_le_pow_right (by norm_num) (by omega)
    refine ⟨by omega, by omega, by omega⟩

theorem ebmlReadElementID_ok_facts (data : List Byte) (pos : Int) (h0 : 0 ≤ pos)
    (h : (ebmlReadElementID data pos).err = none) :
    pos + 1 ≤ (ebmlReadElementID data pos).pos ∧
      (ebmlReadElementID data pos).pos ≤ data.length := by
  rcases ebmlReadElementID_cases data pos h0 with ⟨-, he, -⟩ | ⟨rest, -, he, -⟩ |
    ⟨b, rest, -, -, -, he, -⟩ | ⟨b, rest, hs, hb, hlen, hr⟩
  · exact absurd h he
  · exact absurd h he
  · exact absurd h he
  · obtain ⟨-, h2, h3, -⟩ := ebmlMarker_facts b hb
    have hl := bytesFrom_length data pos h0
    rw [hs, List.length_cons] at hl
    rw [hr]
    simp only
    refine ⟨by omega, by omega⟩

/-- A successful `ebmlReadElement` consumed at least two bytes, ended inside
the file, and returned a size below `2^56`. -/
theorem ebmlReadElement_ok (data : List Byte) (pos : Int) (h0 : 0 ≤ pos)
    (h : (ebmlReadElement data pos).err = none) :
    pos + 2 ≤ (ebmlReadElement data pos).pos ∧ (ebmlReadElement data pos).pos ≤ data.length ∧
      (ebmlReadElement data pos).size < 2 ^ 56 := by
  simp only [ebmlReadElement] at h ⊢
  cases hid : (ebmlReadElementID data pos).err with
  | some e => simp [hid] at h
  | none =>
    obtain ⟨hi1, hi2⟩ := ebmlReadElementID_ok_facts data pos h0 hid
    simp only [hid] at h ⊢
    cases hsz : (ebmlReadVINT data (ebmlReadElementID data pos).pos).err with
    | some e => simp [hsz] at h
    | none =>
      obtain ⟨hv1, hv2, hv3⟩ := ebmlReadVINT_ok_facts data _ (by omega) hsz
      simp only [hsz]
      refine ⟨by omega, hv2, hv3⟩

/-- After a successfully read element the loops seek to `dataPos + size`, a
position at least two bytes past the start of the element. -/
theorem mkv_next (data : List Byte) (pos : Int) (h0 : 0 ≤ pos)
    (h : (ebmlReadElement data pos).err = none) (cur : Int) :
    seekStart cur ((ebmlReadElement data pos).pos + toInt64 (ebmlReadElement data pos).size) =
        (ebmlReadElement data pos).pos + (ebmlReadElement data pos).size ∧
      pos + 2 ≤ (ebmlReadElement data pos).pos + (ebmlReadElement data pos).size ∧
      0 ≤ (ebmlReadElement data pos).pos ∧ pos + 2 ≤ data.length := by
  obtain ⟨h1, h2, h3⟩ := ebmlReadElement_ok data pos h0 h
  rw [toInt64_small _ (by omega), seekStart_nonneg _ _ (by omega)]
  omega

theorem mkvVideoLoop_step (data : List Byte) (endPos pos width height : Int) (h0 : 0 ≤ pos) :
    (∃ r, ∀ fuel, mkvVideoLoop data endPos (fuel + 1) pos width height = some r) ∨
      (∃ pos' w' h', pos < pos' ∧ pos + 2 ≤ data.length ∧
        ∀ fuel, mkvVideoLoop data endPos (fuel + 1) pos width height =
          mkvVideoLoop data endPos fuel pos' w' h') := by
  by_cases hend : pos ≥ endPos
  · exact Or.inl ⟨_, fun fuel => by rw [mkvVideoLoop, if_pos hend]⟩
  · cases he : (ebmlReadElement data pos).err with
    | some e => exact Or.inl ⟨_, fun fuel => by simp only [mkvVideoLoop, if_neg hend, he]; rfl⟩
    | none =>
      right
      have hn := fun cur => (mkv_next data pos h0 he cur).1
      obtain ⟨-, h2, h3, h4⟩ := mkv_next data pos h0 he 0
      by_cases c1 : (ebmlReadElement data pos).id = ebmlPixelWidth
      · exact ⟨(ebmlReadElement data pos).pos + (ebmlReadElement data pos).size, _, _,
          by omega, h4, fun fuel => by
          simp only [mkvVideoLoop, if_neg hend, he, if_pos c1, hn]; rfl⟩
      · by_cases c2 : (ebmlReadElement data pos).id = ebmlPixelHeight
        · exact ⟨(ebmlReadElement data pos).pos + (ebmlReadElement data pos).size, _, _,
          by omega, h4, fun fuel => by
            simp only [mkvVideoLoop, if_neg hend, he, if_neg c1, if_pos c2, hn]; rfl⟩
        · exact ⟨(ebmlReadElement data pos).pos + (ebmlReadElement data pos).size, _, _,
          by omega, h4, fun fuel => by
            simp only [mkvVideoLoop, if_neg hend, he, if_neg c1, if_neg c2, hn]; rfl⟩

theorem mkvVideoLoop_terminates (data : List Byte) (endPos : Int) :
    ∀ (fuel : Nat) (pos width height : Int), 0 ≤ pos → (data.length - pos).toNat + 1 ≤ fuel →
      (mkvVideoLoop data endPos fuel pos width height).isSome := by
  intro fuel
  induction fuel with
  | zero => intro pos _ _ _ hf; omega
  | succ fuel ih =>
    intro pos width height h0 hf
    rcases mkvVideoLoop_step data endPos pos width height h0 with ⟨r, hr⟩ |
      ⟨pos', w', h', hlt, hle, hr⟩
    · rw [hr]; rfl
    · rw [hr]
      exact ih pos' w' h' (by omega) (by omega)

theorem mkvParseVideoInfo_terminates (data : List Byte) (pos : Int) (size : Nat) (offset : Int)
    (h0 : 0 ≤ pos) : (mkvParseVideoInfo data pos size offset).isSome := by
  have := seekStart_ge pos offset h0
  exact mkvVideoLoop_terminates data _ _ _ _ _ this (by omega)

theorem mkvInfoLoop_step (rt : GoRuntime) (data : List Byte) (endPos pos : Int) (ts : Nat)
    (dur : rt.F) (h0 : 0 ≤ pos) :
    (∃ r, ∀ fuel, mkvInfoLoop rt data endPos (fuel + 1) pos ts dur = some r) ∨
      (∃ pos' ts' dur', pos < pos' ∧ pos + 2 ≤ data.length ∧
        ∀ fuel, mkvInfoLoop rt data endPos (fuel + 1) pos ts dur =
          mkvInfoLoop rt data endPos fuel pos' ts' dur') := by
  by_cases hend : pos ≥ endPos
  · exact Or.inl ⟨_, fun fuel => by rw [mkvInfoLoop, if_pos hend]⟩
  · cases he : (ebmlReadElement data pos).err with
    | some e => exact Or.inl ⟨_, fun fuel => by simp only [mkvInfoLoop, if_neg hend, he]; rfl⟩
    | none =>
      right
      have hn := fun cur => (mkv_next data pos h0 he cur).1
      obtain ⟨-, h2, h3, h4⟩ := mkv_next data pos h0 he 0
      by_cases c1 : (ebmlReadElement data pos).id = ebmlTimestampScale
      · exact ⟨(ebmlReadElement data pos).pos + (ebmlReadElement data pos).size, _, _,
          by omega, h4, fun fuel => by
          simp only [mkvInfoLoop, if_neg hend, he, if_pos c1, hn]; rfl⟩
      · by_cases c2 : (ebmlReadElement data pos).id = ebmlDuration
        · exact ⟨(ebmlReadElement data pos).pos + (ebmlReadElement data pos).size, _, _,
          by omega, h4, fun fuel => by
            simp only [mkvInfoLoop, if_neg hend, he, if_neg c1, if_pos c2, hn]; rfl⟩
        · exact ⟨(ebmlReadElement data pos).pos + (ebmlReadElement data pos).size, _, _,
          by omega, h4, fun fuel => by
            simp only [mkvInfoLoop, if_neg hend, he, if_neg c1, if_neg c2, hn]; rfl⟩

theorem mkvInfoLoop_terminates (rt : GoRuntime) (data : List Byte) (endPos : Int) :
    ∀ (fuel : Nat) (pos : Int) (ts : Nat) (dur : rt.F), 0 ≤ pos →
      (data.length - pos).toNat + 1 ≤ fuel →
      (mkvInfoLoop rt data endPos fuel pos ts dur).isSome := by
  intro fuel
  induction fuel with
  | zero => intro pos _ _ _ hf; omega
  | succ fuel ih =>
    intro pos ts dur h0 hf
    rcases mkvInfoLoop_step rt data endPos pos ts dur h0 with ⟨r, hr⟩ |
      ⟨pos', w', h', hlt, hle, hr⟩
    · rw [hr]; rfl
    · rw [hr]
      exact ih pos' w' h' (by omega) (by omega)

theorem mkvParseInfo_terminates (rt : GoRuntime) (data : List Byte) (pos : Int) (size : Nat)
    (offset : Int) (h0 : 0 ≤ pos) : (mkvParseInfo rt data pos size offset).isSome := by
  have := seekStart_ge pos offset h0
  exact mkvInfoLoop_terminates rt data _ _ _ _ _ this (by omega)

theorem mkvTrackEntryLoop_step (data : List Byte) (endPos pos : Int) (v : TrackVars)
    (h0 : 0 ≤ pos) :
    (∃ r, r ≠ Run.outOfFuel ∧ ∀ fuel, mkvTrackEntryLoop data endPos (fuel + 1) pos v = r) ∨
      (∃ pos' v', pos < pos' ∧ pos + 2 ≤ data.length ∧
        ∀ fuel, mkvTrackEntryLoop data endPos (fuel + 1) pos v =
          mkvTrackEntryLoop data endPos fuel pos' v') := by
  by_cases hend : pos ≥ endPos
  · exact Or.inl ⟨Run.done (pos, v), by simp, fun fuel => by rw [mkvTrackEntryLoop, if_pos hend]⟩
  · cases he : (ebmlReadElement data pos).err with
    | some e =>
      exact Or.inl ⟨Run.done ((ebmlReadElement data pos).pos, v), by simp, fun fuel => by
        simp only [mkvTrackEntryLoop, if_neg hend, he]⟩
    | none =>
      have hn := fun cur => (mkv_next data pos h0 he cur).1
      obtain ⟨-, h2, h3, h4⟩ := mkv_next data pos h0 he 0
      by_cases c1 : (ebmlReadElement data pos).id = ebmlTrackType
      · exact Or.inr ⟨(ebmlReadElement data pos).pos + (ebmlReadElement data pos).size, _,
          by omega, h4, fun fuel => by
          simp only [mkvTrackEntryLoop, if_neg hend, he, if_pos c1, hn]; rfl⟩
      · by_cases c2 : (ebmlReadElement data pos).id = ebmlCodecID
        · cases hs : ebmlReadString data (ebmlReadElement data pos).pos
            (ebmlReadElement data pos).size with
          | error p =>
            exact Or.inl ⟨Run.panic p, by simp, fun fuel => by
              simp only [mkvTrackEntryLoop, if_neg hend, he, if_neg c1, if_pos c2, hs]⟩
          | ok r =>
            exact Or.inr ⟨(ebmlReadElement data pos).pos + (ebmlReadElement data pos).size, _,
              by omega, h4, fun fuel => by
              simp only [mkvTrackEntryLoop, if_neg hend, he, if_neg c1, if_pos c2, hs, hn]; rfl⟩
        · by_cases c3 : (ebmlReadElement data pos).id = ebmlDefaultDur
          · exact Or.inr ⟨(ebmlReadElement data pos).pos + (ebmlReadElement data pos).size, _,
              by omega, h4, fun fuel => by
              simp only [mkvTrackEntryLoop, if_neg hend, he, if_neg c1, if_neg c2, if_pos c3, hn]
              rfl⟩
          · by_cases c4 : (ebmlReadElement data pos).id = ebmlVideo
            · have ht := mkvParseVideoInfo_terminates data (ebmlReadElement data pos).pos
                (ebmlReadElement data pos).size (ebmlReadElement data pos).pos h3
              cases hv : mkvParseVideoInfo data (ebmlReadElement data pos).pos
                  (ebmlReadElement data pos).size (ebmlReadElement data pos).pos with
              | none => rw [hv] at ht; cases ht
              | some r =>
                exact Or.inr ⟨(ebmlReadElement data pos).pos + (ebmlReadElement data pos).size, _,
                  by omega, h4, fun fuel => by
                  simp only [mkvTrackEntryLoop, if_neg hend, he, if_neg c1, if_neg c2, if_neg c3,
                    if_pos c4, hv, hn]
                  rfl⟩
            · exact Or.inr ⟨(ebmlReadElement data pos).pos + (ebmlReadElement data pos).size, _,
                by omega, h4, fun fuel => by
                simp only [mkvTrackEntryLoop, if_neg hend, he, if_neg c1, if_neg c2, if_neg c3,
                  if_neg c4, hn]
                rfl⟩

theorem mkvTrackEntryLoop_terminates (data : List Byte) (endPos : Int) :
    ∀ (fuel : Nat) (pos : Int) (v : TrackVars), 0 ≤ pos → (data.length - pos).toNat + 1 ≤ fuel →
      mkvTrackEntryLoop data endPos fuel pos v ≠ Run.outOfFuel := by
  intro fuel
  induction fuel with
  | zero => intro pos _ _ hf; omega
  | succ fuel ih =>
    intro pos v h0 hf
    rcases mkvTrackEntryLoop_step data endPos pos v h0 with ⟨r, hne, hr⟩ |
      ⟨pos', v', hlt, hle, hr⟩
    · rw [hr]; exact hne
    · rw [hr]
      exact ih pos' v' (by omega) (by omega)

theorem mkvParseTrackEntry_terminates (rt : GoRuntime) (data : List Byte) (pos : Int)
    (size : Nat) (offset : Int) (info : FileInfo rt.F) (h0 : 0 ≤ pos) :
    mkvParseTrackEntry rt data pos size offset info ≠ Run.outOfFuel := by
  have h1 := seekStart_ge pos offset h0
  have := mkvTrackEntryLoop_terminates data (offset + toInt64 size) (data.length + 1)
    (seekStart pos offset) ⟨0, [], 0, 0, 0⟩ h1 (by omega)
  simp only [mkvParseTrackEntry]
  split
  · simp
  · simp
  · rename_i heq
    exact absurd heq this

theorem mkvTracksLoop_step (rt : GoRuntime) (data : List Byte) (endPos pos : Int)
    (info : FileInfo rt.F) (h0 : 0 ≤ pos) :
    (∃ r, r ≠ Run.outOfFuel ∧ ∀ fuel, mkvTracksLoop rt data endPos (fuel + 1) pos info = r) ∨
      (∃ pos' info', pos < pos' ∧ pos + 2 ≤ data.length ∧
        ∀ fuel, mkvTracksLoop rt data endPos (fuel + 1) pos info =
          mkvTracksLoop rt data endPos fuel pos' info') := by
  by_cases hend : pos ≥ endPos
  · exact Or.inl ⟨Run.done (pos, info), by simp, fun fuel => by
      rw [mkvTracksLoop, if_pos hend]⟩
  · cases he : (ebmlReadElement data pos).err with
    | some e =>
      exact Or.inl ⟨Run.done ((ebmlReadElement data pos).pos, info), by simp, fun fuel => by
        simp only [mkvTracksLoop, if_neg hend, he]⟩
    | none =>
      have hn := fun cur => (mkv_next data pos h0 he cur).1
      obtain ⟨-, h2, h3, h4⟩ := mkv_next data pos h0 he 0
      by_cases c1 : (ebmlReadElement data pos).id = ebmlTrackEntry
      · have ht := mkvParseTrackEntry_terminates rt data (ebmlReadElement data pos).pos
          (ebmlReadElement data pos).size (ebmlReadElement data pos).pos info h3
        cases hv : mkvParseTrackEntry rt data (ebmlReadElement data pos).pos
            (ebmlReadElement data pos).size (ebmlReadElement data pos).pos info with
        | outOfFuel => exact absurd hv ht
        | panic p =>
          exact Or.inl ⟨Run.panic p, by simp, fun fuel => by
            simp only [mkvTracksLoop, if_neg hend, he, if_pos c1, hv]⟩
        | done r =>
          exact Or.inr ⟨(ebmlReadElement data pos).pos + (ebmlReadElement data pos).size, _,
            by omega, h4, fun fuel => by
            simp only [mkvTracksLoop, if_neg hend, he, if_pos c1, hv, hn]; rfl⟩
      · exact Or.inr ⟨(ebmlReadElement data pos).pos + (ebmlReadElement data pos).size, _,
          by omega, h4, fun fuel => by
          simp only [mkvTracksLoop, if_neg hend, he, if_neg c1, hn]; rfl⟩

theorem mkvTracksLoop_terminates (rt : GoRuntime) (data : List Byte) (endPos : Int) :
    ∀ (fuel : Nat) (pos : Int) (info : FileInfo rt.F), 0 ≤ pos →
      (data.length - pos).toNat + 1 ≤ fuel →
      mkvTracksLoop rt data endPos fuel pos info ≠ Run.outOfFuel := by
  intro fuel
  induction fuel with
  | zero => intro pos _ _ hf; omega
  | succ fuel ih =>
    intro pos v h0 hf
    rcases mkvTracksLoop_step rt data endPos pos v h0 with ⟨r, hne, hr⟩ |
      ⟨pos', v', hlt, hle, hr⟩
    · rw [hr]; exact hne
    · rw [hr]
      exact ih pos' v' (by omega) (by omega)

theorem mkvParseTracks_terminates (rt : GoRuntime) (data : List Byte) (pos : Int)
    (size : Nat) (offset : Int) (info : FileInfo rt.F) (h0 : 0 ≤ pos) :
    mkvParseTracks rt data pos size offset info ≠ Run.outOfFuel := by
  have h1 := seekStart_ge pos offset h0
  exact mkvTracksLoop_terminates rt data _ _ _ _ h1 (by omega)

theorem mkvSegmentLoop_step (rt : GoRuntime) (data : List Byte) (parseLimit pos : Int)
    (v : SegmentVars rt.F) (h0 : 0 ≤ pos) :
    (∃ r, r ≠ Run.outOfFuel ∧
        ∀ fuel, mkvSegmentLoop rt data parseLimit (fuel + 1) pos v = r) ∨
      (∃ pos' v', pos < pos' ∧ pos + 2 ≤ data.length ∧
        ∀ fuel, mkvSegmentLoop rt data parseLimit (fuel + 1) pos v =
          mkvSegmentLoop rt data parseLimit fuel pos' v') := by
  by_cases hend : pos ≥ parseLimit
  · exact Or.inl ⟨Run.done (pos, v), by simp, fun fuel => by
      rw [mkvSegmentLoop, if_pos hend]⟩
  · cases he : (ebmlReadElement data pos).err with
    | some e =>
      exact Or.inl ⟨Run.done ((ebmlReadElement data pos).pos, v), by simp, fun fuel => by
        simp only [mkvSegmentLoop, if_neg hend, he]⟩
    | none =>
      have hn := fun cur => (mkv_next data pos h0 he cur).1
      obtain ⟨-, h2, h3, h4⟩ := mkv_next data pos h0 he 0
      by_cases c1 : (ebmlReadElement data pos).id = ebmlInfo
      · have ht := mkvParseInfo_terminates rt data (ebmlReadElement data pos).pos
          (ebmlReadElement data pos).size (ebmlReadElement data pos).pos h3
        cases hv : mkvParseInfo rt data (ebmlReadElement data pos).pos
            (ebmlReadElement data pos).size (ebmlReadElement data pos).pos with
        | none => rw [hv] at ht; cases ht
        | some r =>
          exact Or.inr ⟨(ebmlReadElement data pos).pos + (ebmlReadElement data pos).size, _,
            by omega, h4, fun fuel => by
            simp only [mkvSegmentLoop, if_neg hend, he, if_pos c1, hv, hn]; rfl⟩
      · by_cases c2 : (ebmlReadElement data pos).id = ebmlTracks
        · have ht := mkvParseTracks_terminates rt data (ebmlReadElement data pos).pos
            (ebmlReadElement data pos).size (ebmlReadElement data pos).pos v.info h3
          cases hv : mkvParseTracks rt data (ebmlReadElement data pos).pos
              (ebmlReadElement data pos).size (ebmlReadElement data pos).pos v.info with
          | outOfFuel => exact absurd hv ht
          | panic p =>
            exact Or.inl ⟨Run.panic p, by simp, fun fuel => by
              simp only [mkvSegmentLoop, if_neg hend, he, if_neg c1, if_pos c2, hv]⟩
          | done r =>
            exact Or.inr ⟨(ebmlReadElement data pos).pos + (ebmlReadElement data pos).size, _,
              by omega, h4, fun fuel => by
              simp only [mkvSegmentLoop, if_neg hend, he, if_neg c1, if_pos c2, hv, hn]; rfl⟩
        · exact Or.inr ⟨(ebmlReadElement data pos).pos + (ebmlReadElement data pos).size, _,
            by omega, h4, fun fuel => by
            simp only [mkvSegmentLoop, if_neg hend, he, if_neg c1, if_neg c2, hn]; rfl⟩

theorem mkvSegmentLoop_terminates (rt : GoRuntime) (data : List Byte) (parseLimit : Int) :
    ∀ (fuel : Nat) (pos : Int) (v : SegmentVars rt.F), 0 ≤ pos →
      (data.length - pos).toNat + 1 ≤ fuel →
      mkvSegmentLoop rt data parseLimit fuel pos v ≠ Run.outOfFuel := by
  intro fuel
  induction fuel with
  | zero => intro pos _ _ hf; omega
  | succ fuel ih =>
    intro pos v h0 hf
    rcases mkvSegmentLoop_step rt data parseLimit pos v h0 with ⟨r, hne, hr⟩ |
      ⟨pos', v', hlt, hle, hr⟩
    · rw [hr]; exact hne
    · rw [hr]
      exact ih pos' v' (by omega) (by omega)

theorem parseMKV_terminates (rt : GoRuntime) (path : GoString) (data : List Byte) :
    parseMKV rt path data ≠ Run.outOfFuel := by
  simp only [parseMKV]
  split
  · simp
  · rename_i hhdr
    split
    · simp
    · rename_i hseg
      have hseg' : (ebmlReadElement data
          (seekCurrent (ebmlReadElement data 0).pos (toInt64 (ebmlReadElement data 0).size))).err
          = none := by
        by_contra hc
        exact hseg (Or.inl hc)
      have hhdr' : (ebmlReadElement data 0).err = none := by
        by_contra hc
        exact hhdr (Or.inl hc)
      obtain ⟨a1, a2, a3⟩ := ebmlReadElement_ok data 0 (le_refl _) hhdr'
      have hcur : 0 ≤ seekCurrent (ebmlReadElement data 0).pos
          (toInt64 (ebmlReadElement data 0).size) := by
        simp only [seekCurrent]
        exact seekStart_ge _ _ (by omega)
      obtain ⟨b1, b2, b3⟩ := ebmlReadElement_ok data _ hcur hseg'
      have := mkvSegmentLoop_terminates rt data
        (if (ebmlReadElement data (seekCurrent (ebmlReadElement data 0).pos
              (toInt64 (ebmlReadElement data 0).size))).pos + 10 * 1024 * 1024 >
            (ebmlReadElement data (seekCurrent (ebmlReadElement data 0).pos
              (toInt64 (ebmlReadElement data 0).size))).pos +
              toInt64 (ebmlReadElement data (seekCurrent (ebmlReadElement data 0).pos
              (toInt64 (ebmlReadElement data 0).size))).size
          then (ebmlReadElement data (seekCurrent (ebmlReadElement data 0).pos
              (toInt64 (ebmlReadElement data 0).size))).pos +
              toInt64 (ebmlReadElement data (seekCurrent (ebmlReadElement data 0).pos
              (toInt64 (ebmlReadElement data 0).size))).size
          else (ebmlReadElement data (seekCurrent (ebmlReadElement data 0).pos
              (toInt64 (ebmlReadElement data 0).size))).pos + 10 * 1024 * 1024)
        (data.length + 1) _ ⟨1000000, rt.ofUint 0, newFileInfo rt path data.length⟩
        (by omega : 0 ≤ (ebmlReadElement data (seekCurrent (ebmlReadElement data 0).pos
              (toInt64 (ebmlReadElement data 0).size))).pos) (by omega)
      split
      · simp
      · simp
      · rename_i heq
        exact absurd heq this

/-! ### Termination of `parseMP4` -/

theorem mp4StblHandler_total (data : List Byte) :
    ∀ t ds dof p s, 0 ≤ p → (mp4StblHandler data t ds dof p s).isSome := by
  intro t ds dof p s _
  simp only [mp4StblHandler]
  split_ifs <;> rfl

theorem mp4MinfHandler_total (data : List Byte) :
    ∀ t ds dof p s, 0 ≤ p → (mp4MinfHandler data t ds dof p s).isSome := by
  intro t ds dof p s hp
  simp only [mp4MinfHandler]
  split_ifs
  · have ht := mp4IterateBoxes_terminates data (seekStart p dof) ds dof (mp4StblHandler data)
      (mp4StblHandler_total data) s (seekStart_ge p dof hp)
    cases hw : mp4IterateBoxes data (seekStart p dof) ds dof (mp4StblHandler data) s with
    | none => rw [hw] at ht; cases ht
    | some w => rfl
  · rfl

theorem mp4MdiaHandler_total (data : List Byte) :
    ∀ t ds dof p s, 0 ≤ p → (mp4MdiaHandler data t ds dof p s).isSome := by
  intro t ds dof p s hp
  simp only [mp4MdiaHandler]
  split_ifs
  · rfl
  · rfl
  · have ht := mp4IterateBoxes_terminates data (seekStart p dof) ds dof (mp4MinfHandler data)
      (mp4MinfHandler_total data) s (seekStart_ge p dof hp)
    cases hw : mp4IterateBoxes data (seekStart p dof) ds dof (mp4MinfHandler data) s with
    | none => rw [hw] at ht; cases ht
    | some w => rfl
  · rfl

theorem mp4TrakHandler_total (data : List Byte) :
    ∀ t ds dof p s, 0 ≤ p → (mp4TrakHandler data t ds dof p s).isSome := by
  intro t ds dof p s hp
  simp only [mp4TrakHandler]
  split_ifs
  · rfl
  · have ht := mp4IterateBoxes_terminates data (seekStart p dof) ds dof (mp4MdiaHandler data)
      (mp4MdiaHandler_total data) s (seekStart_ge p dof hp)
    cases hw : mp4IterateBoxes data (seekStart p dof) ds dof (mp4MdiaHandler data) s with
    | none => rw [hw] at ht; cases ht
    | some w => rfl
  · rfl

theorem mp4ParseTrak_terminates (rt : GoRuntime) (data : List Byte) (pos size offset : Int)
    (info : FileInfo rt.F) (ts : Nat) (h0 : 0 ≤ pos) :
    (mp4ParseTrak rt data pos size offset info ts).isSome := by
  have ht := mp4IterateBoxes_terminates data (seekStart pos offset) size offset
    (mp4TrakHandler data) (mp4TrakHandler_total data) ⟨0, 0, [], [], 0, 0, 0⟩
    (seekStart_ge pos offset h0)
  simp only [mp4ParseTrak]
  cases hw : mp4IterateBoxes data (seekStart pos offset) size offset (mp4TrakHandler data)
      ⟨0, 0, [], [], 0, 0, 0⟩ with
  | none => rw [hw] at ht; cases ht
  | some w => rfl

theorem mp4MoovHandler_total (rt : GoRuntime) (data : List Byte) :
    ∀ t ds dof p s, 0 ≤ p → (mp4MoovHandler rt data t ds dof p s).isSome := by
  intro t ds dof p s hp
  simp only [mp4MoovHandler]
  by_cases c1 : t = str "mvhd"
  · simp only [if_pos c1]
    cases (mp4ParseMvhd data p ds dof).err with
    | some e => rfl
    | none =>
      simp only
      split_ifs <;> rfl
  · simp only [if_neg c1]
    by_cases c2 : t = str "trak"
    · simp only [if_pos c2]
      have ht := mp4ParseTrak_terminates rt data p ds dof s.info s.movieTimescale hp
      cases hw : mp4ParseTrak rt data p ds dof s.info s.movieTimescale with
      | none => rw [hw] at ht; cases ht
      | some w => rfl
    · simp only [if_neg c2]
      rfl

theorem mp4ParseMoov_terminates (rt : GoRuntime) (data : List Byte) (pos size offset : Int)
    (info : FileInfo rt.F) (h0 : 0 ≤ pos) :
    (mp4ParseMoov rt data pos size offset info).isSome := by
  have ht := mp4IterateBoxes_terminates data (seekStart pos offset) size offset
    (mp4MoovHandler rt data) (mp4MoovHandler_total rt data) ⟨0, 0, info⟩
    (seekStart_ge pos offset h0)
  simp only [mp4ParseMoov]
  cases hw : mp4IterateBoxes data (seekStart pos offset) size offset (mp4MoovHandler rt data)
      ⟨0, 0, info⟩ with
  | none => rw [hw] at ht; cases ht
  | some w => rfl

theorem mp4TopHandler_total (rt : GoRuntime) (data : List Byte) :
    ∀ t ds dof p s, 0 ≤ p → (mp4TopHandler rt data t ds dof p s).isSome := by
  intro t ds dof p s hp
  simp only [mp4TopHandler]
  split_ifs
  · exact mp4ParseMoov_terminates rt data p ds dof s hp
  · rfl

theorem parseMP4_terminates (rt : GoRuntime) (path : GoString) (data : List Byte) :
    (parseMP4 rt path data).isSome := by
  have ht := mp4IterateBoxes_terminates data 0 data.length 0 (mp4TopHandler rt data)
    (mp4TopHandler_total rt data) (newFileInfo rt path data.length) (le_refl _)
  simp only [parseMP4]
  cases hw : mp4IterateBoxes data 0 data.length 0 (mp4TopHandler rt data)
      (newFileInfo rt path data.length) with
  | none => rw [hw] at ht; cases ht
  | some w =>
    simp only
    split
    · rfl
    · split_ifs <;> rfl

/-! ### The RIFF walkers -/

theorem aviAlign_ge (x : Int) : x ≤ aviAlign x := by
  simp only [aviAlign]
  split <;> omega

/-- After a chunk header read at `pos ≥ 0`, the `Seek` to the aligned end of
the chunk lands at least 8 bytes further on. -/
theorem avi_next (data : List Byte) (pos : Int) (h0 : 0 ≤ pos)
    (h : (readFull data pos 8).err = none) (size : Nat) (cur : Int) :
    seekStart cur (aviAlign ((readFull data pos 8).pos + size)) =
        aviAlign ((readFull data pos 8).pos + size) ∧
      pos + 8 ≤ aviAlign ((readFull data pos 8).pos + size) ∧
      (readFull data pos 8).pos = pos + 8 ∧ pos + 8 ≤ data.length := by
  have hp := readFull_none_pos data pos 8 h
  have hl := readFull_none_le data pos 8 h0 h (by norm_num)
  have ha := aviAlign_ge ((readFull data pos 8).pos + size)
  rw [seekStart_nonneg _ _ (by omega)]
  refine ⟨rfl, by omega, by omega, by omega⟩

theorem aviStreamLoop_step (rt : GoRuntime) (data : List Byte) (endPos pos : Int)
    (v : StreamVars rt.F) (h0 : 0 ≤ pos) :
    (∃ r, ∀ fuel, aviStreamLoop rt data endPos (fuel + 1) pos v = some r) ∨
      (∃ pos' v', pos < pos' ∧ pos + 8 ≤ data.length ∧
        ∀ fuel, aviStreamLoop rt data endPos (fuel + 1) pos v =
          aviStreamLoop rt data endPos fuel pos' v') := by
  by_cases hend : pos + 8 > endPos
  · exact Or.inl ⟨_, fun fuel => by rw [aviStreamLoop, if_pos hend]⟩
  · cases he : (readFull data pos 8).err with
    | some e => exact Or.inl ⟨_, fun fuel => by simp only [aviStreamLoop, if_neg hend, he]; rfl⟩
    | none =>
      have hn := fun cur => (avi_next data pos h0 he
        (leUint (slice (readFull data pos 8).buf 4 8)) cur).1
      obtain ⟨-, h2, h3, h4⟩ := avi_next data pos h0 he
        (leUint (slice (readFull data pos 8).buf 4 8)) 0
      exact Or.inr ⟨aviAlign ((readFull data pos 8).pos +
          (leUint (slice (readFull data pos 8).buf 4 8) : Nat)), _, by omega, h4, fun fuel => by
        simp only [aviStreamLoop, if_neg hend, he, hn]; rfl⟩

theorem aviStreamLoop_terminates (rt : GoRuntime) (data : List Byte) (endPos : Int) :
    ∀ (fuel : Nat) (pos : Int) (v : StreamVars rt.F), 0 ≤ pos →
      (data.length - pos).toNat + 1 ≤ fuel →
      (aviStreamLoop rt data endPos fuel pos v).isSome := by
  intro fuel
  induction fuel with
  | zero => intro pos _ _ hf; omega
  | succ fuel ih =>
    intro pos v h0 hf
    rcases aviStreamLoop_step rt data endPos pos v h0 with ⟨r, hr⟩ | ⟨pos', v', hlt, hle, hr⟩
    · rw [hr]; rfl
    · rw [hr]
      exact ih pos' v' (by omega) (by omega)

theorem aviParseStreamList_terminates (rt : GoRuntime) (data : List Byte)
    (pos startPos endPos : Int) (info : FileInfo rt.F) (h0 : 0 ≤ pos) :
    (aviParseStreamList rt data pos startPos endPos info).isSome := by
  have h1 := seekStart_ge pos startPos h0
  have ht := aviStreamLoop_terminates rt data endPos (data.length + 1) (seekStart pos startPos)
    ⟨[], [], info⟩ h1 (by omega)
  simp only [aviParseStreamList]
  cases hw : aviStreamLoop rt data endPos (data.length + 1) (seekStart pos startPos)
      ⟨[], [], info⟩ with
  | none => rw [hw] at ht; cases ht
  | some w => rfl

set_option maxHeartbeats 1000000 in

theorem aviIterateChunks_succ (rt : GoRuntime) (data : List Byte) (fuel : Nat)
    (pos startPos endPos : Int) (info : FileInfo rt.F) :
    aviIterateChunks rt data (fuel + 1) pos startPos endPos info =
    if seekStart pos startPos + 8 > endPos then some ⟨seekStart pos startPos, info, none⟩
    else
      match (readFull data (seekStart pos startPos) 8).err with
      | some _ => some ⟨(readFull data (seekStart pos startPos) 8).pos, info, none⟩
      | none =>
        if slice (readFull data (seekStart pos startPos) 8).buf 0 4 = str "LIST" then
          match (readFull data (readFull data (seekStart pos startPos) 8).pos 4).err with
          | some _ => aviIterateChunks rt data fuel
              (readFull data (readFull data (seekStart pos startPos) 8).pos 4).pos
              (aviAlign ((readFull data (seekStart pos startPos) 8).pos +
                (leUint (slice (readFull data (seekStart pos startPos) 8).buf 4 8) : Nat)))
              endPos info
          | none =>
            if (readFull data (readFull data (seekStart pos startPos) 8).pos 4).buf = str "hdrl"
            then
              match aviIterateChunks rt data fuel
                  (readFull data (readFull data (seekStart pos startPos) 8).pos 4).pos
                  (readFull data (readFull data (seekStart pos startPos) 8).pos 4).pos
                  ((readFull data (seekStart pos startPos) 8).pos +
                    (leUint (slice (readFull data (seekStart pos startPos) 8).buf 4 8) : Nat))
                  info with
              | none => none
              | some w => aviIterateChunks rt data fuel w.pos
                  (aviAlign ((readFull data (seekStart pos startPos) 8).pos +
                    (leUint (slice (readFull data (seekStart pos startPos) 8).buf 4 8) : Nat)))
                  endPos w.st
            else if (readFull data (readFull data (seekStart pos startPos) 8).pos 4).buf =
                str "strl" then
              match aviParseStreamList rt data
                  (readFull data (readFull data (seekStart pos startPos) 8).pos 4).pos
                  (readFull data (readFull data (seekStart pos startPos) 8).pos 4).pos
                  ((readFull data (seekStart pos startPos) 8).pos +
                    (leUint (slice (readFull data (seekStart pos startPos) 8).buf 4 8) : Nat))
                  info with
              | none => none
              | some r => aviIterateChunks rt data fuel r.1
                  (aviAlign ((readFull data (seekStart pos startPos) 8).pos +
                    (leUint (slice (readFull data (seekStart pos startPos) 8).buf 4 8) : Nat)))
                  endPos r.2
            else aviIterateChunks rt data fuel
              (readFull data (readFull data (seekStart pos startPos) 8).pos 4).pos
              (aviAlign ((readFull data (seekStart pos startPos) 8).pos +
                (leUint (slice (readFull data (seekStart pos startPos) 8).buf 4 8) : Nat)))
              endPos info
        else if slice (readFull data (seekStart pos startPos) 8).buf 0 4 = str "avih" then
          aviIterateChunks rt data fuel
            (aviParseMainHeader rt data (readFull data (seekStart pos startPos) 8).pos
              (leUint (slice (readFull data (seekStart pos startPos) 8).buf 4 8) : Nat)
              (readFull data (seekStart pos startPos) 8).pos info).1
            (aviAlign ((readFull data (seekStart pos startPos) 8).pos +
              (leUint (slice (readFull data (seekStart pos startPos) 8).buf 4 8) : Nat)))
            endPos
            (aviParseMainHeader rt data (readFull data (seekStart pos startPos) 8).pos
              (leUint (slice (readFull data (seekStart pos startPos) 8).buf 4 8) : Nat)
              (readFull data (seekStart pos startPos) 8).pos info).2
        else aviIterateChunks rt data fuel (readFull data (seekStart pos startPos) 8).pos
          (aviAlign ((readFull data (seekStart pos startPos) 8).pos +
            (leUint (slice (readFull data (seekStart pos startPos) 8).buf 4 8) : Nat)))
          endPos info := by
  rfl

/-- The walk `aviIterateChunks` returns when its fuel is at least the number
of bytes from the start position to the end of the file, plus one: every
iteration and every nested `hdrl` walk starts at a greater offset. -/
theorem aviIterateChunks_terminates (rt : GoRuntime) (data : List Byte) :
    ∀ (fuel : Nat) (pos startPos endPos : Int) (info : FileInfo rt.F),
      0 ≤ seekStart pos startPos → (data.length - seekStart pos startPos).toNat + 1 ≤ fuel →
      (aviIterateChunks rt data fuel pos startPos endPos info).isSome := by
  intro fuel
  induction fuel with
  | zero => intro pos _ _ _ _ hf; omega
  | succ fuel ih =>
    intro pos startPos endPos info h0 hf
    rw [aviIterateChunks_succ]
    by_cases hend : seekStart pos startPos + 8 > endPos
    · rw [if_pos hend]; rfl
    · rw [if_neg hend]
      cases he : (readFull data (seekStart pos startPos) 8).err with
      | some e => rfl
      | none =>
        obtain ⟨-, h2, h3, h4⟩ := avi_next data _ h0 he
          (leUint (slice (readFull data (seekStart pos startPos) 8).buf 4 8)) 0
        have hnext : ∀ cur info', (aviIterateChunks rt data fuel cur
            (aviAlign ((readFull data (seekStart pos startPos) 8).pos +
              (leUint (slice (readFull data (seekStart pos startPos) 8).buf 4 8) : Nat)))
            endPos info').isSome := by
          intro cur info'
          have hs := (avi_next data _ h0 he
            (leUint (slice (readFull data (seekStart pos startPos) 8).buf 4 8)) cur).1
          apply ih
          · rw [hs]; omega
          · rw [hs]; omega
        simp only
        by_cases c1 : slice (readFull data (seekStart pos startPos) 8).buf 0 4 = str "LIST"
        · rw [if_pos c1]
          cases hlt : (readFull data (readFull data (seekStart pos startPos) 8).pos 4).err with
          | some e => exact hnext _ _
          | none =>
            simp only
            have hlp := readFull_none_pos data _ 4 hlt
            by_cases d1 : (readFull data (readFull data (seekStart pos startPos) 8).pos 4).buf
                = str "hdrl"
            · rw [if_pos d1]
              have hnest := ih
                (readFull data (readFull data (seekStart pos startPos) 8).pos 4).pos
                (readFull data (readFull data (seekStart pos startPos) 8).pos 4).pos
                ((readFull data (seekStart pos startPos) 8).pos +
                  (leUint (slice (readFull data (seekStart pos startPos) 8).buf 4 8) : Nat))
                info
                (by rw [seekStart_nonneg _ _ (by omega)]; omega)
                (by rw [seekStart_nonneg _ _ (by omega)]; omega)
              split
              · rename_i heq
                rw [heq] at hnest
                cases hnest
              · exact hnext _ _
            · rw [if_neg d1]
              by_cases d2 : (readFull data (readFull data (seekStart pos startPos) 8).pos 4).buf
                  = str "strl"
              · rw [if_pos d2]
                have hsl := aviParseStreamList_terminates rt data
                  (readFull data (readFull data (seekStart pos startPos) 8).pos 4).pos
                  (readFull data (readFull data (seekStart pos startPos) 8).pos 4).pos
                  ((readFull data (seekStart pos startPos) 8).pos +
                    (leUint (slice (readFull data (seekStart pos startPos) 8).buf 4 8) : Nat))
                  info (by omega)
                split
                · rename_i heq
                  rw [heq] at hsl
                  cases hsl
                · exact hnext _ _
              · rw [if_neg d2]
                exact hnext _ _
        · rw [if_neg c1]
          split_ifs
          · exact hnext _ _
          · exact hnext _ _

theorem parseAVI_terminates (rt : GoRuntime) (path : GoString) (data : List Byte) :
    (parseAVI rt path data).isSome := by
  have key : ∀ limit : Int, ∃ w, aviIterateChunks rt data (data.length + 1)
      (readFull data 0 12).pos 12 limit (newFileInfo rt path data.length) = some w := by
    intro limit
    rw [← Option.isSome_iff_exists]
    apply aviIterateChunks_terminates
    · rw [seekStart_nonneg _ _ (by norm_num)]; norm_num
    · rw [seekStart_nonneg _ _ (by norm_num)]; omega
  simp only [parseAVI]
  cases hr : (readFull data 0 12).err with
  | some e => rfl
  | none =>
    simp only
    split
    · rfl
    · split
      · rename_i heq
        obtain ⟨w, hw⟩ := key _
        rw [heq] at hw
        cases hw
      · split
        · rfl
        · split <;> rfl

theorem aviIterateChunks_advances (rt : GoRuntime) (data : List Byte)
    (pos startPos endPos : Int) (info : FileInfo rt.F) (h0 : 0 ≤ seekStart pos startPos) :
    AviAdvances rt data pos startPos endPos info := by
  by_cases hend : seekStart pos startPos + 8 > endPos
  · exact Or.inl ⟨_, fun fuel => by rw [aviIterateChunks_succ, if_pos hend]⟩
  · cases he : (readFull data (seekStart pos startPos) 8).err with
    | some e =>
      exact Or.inl ⟨_, fun fuel => by rw [aviIterateChunks_succ, if_neg hend]; simp only [he]; rfl⟩
    | none =>
      obtain ⟨-, h2, h3, h4⟩ := avi_next data _ h0 he
        (leUint (slice (readFull data (seekStart pos startPos) 8).buf 4 8)) 0
      have hs := fun cur => (avi_next data _ h0 he
        (leUint (slice (readFull data (seekStart pos startPos) 8).buf 4 8)) cur).1
      refine Or.inr ⟨aviAlign ((readFull data (seekStart pos startPos) 8).pos +
        (leUint (slice (readFull data (seekStart pos startPos) 8).buf 4 8) : Nat)),
        by omega, fun fuel => ?_⟩
      rw [aviIterateChunks_succ, if_neg hend]
      simp only [he]
      by_cases c1 : slice (readFull data (seekStart pos startPos) 8).buf 0 4 = str "LIST"
      · rw [if_pos c1]
        cases hlt : (readFull data (readFull data (seekStart pos startPos) 8).pos 4).err with
        | some e => exact Or.inr ⟨_, _, hs _, rfl⟩
        | none =>
          simp only
          by_cases d1 : (readFull data (readFull data (seekStart pos startPos) 8).pos 4).buf
              = str "hdrl"
          · rw [if_pos d1]
            split
            · exact Or.inl rfl
            · exact Or.inr ⟨_, _, hs _, rfl⟩
          · rw [if_neg d1]
            by_cases d2 : (readFull data (readFull data (seekStart pos startPos) 8).pos 4).buf
                = str "strl"
            · rw [if_pos d2]
              split
              · exact Or.inl rfl
              · exact Or.inr ⟨_, _, hs _, rfl⟩
            · rw [if_neg d2]
              exact Or.inr ⟨_, _, hs _, rfl⟩
      · rw [if_neg c1]
        split_ifs
        · exact Or.inr ⟨_, _, hs _, rfl⟩
        · exact Or.inr ⟨_, _, hs _, rfl⟩

/-- The nested walk for an `hdrl` list found at offset `p` starts at `p + 12`,
with the fuel that is left. -/
theorem aviIterateChunks_hdrl (rt : GoRuntime) (data : List Byte) (fuel : Nat)
    (pos startPos endPos : Int) (info : FileInfo rt.F) (size rest : List Byte)
    (h0 : 0 ≤ seekStart pos startPos) (hend : seekStart pos startPos + 8 ≤ endPos)
    (hs : bytesFrom data (seekStart pos startPos) = str "LIST" ++ size ++ str "hdrl" ++ rest)
    (hsize : size.length = 4) :
    aviIterateChunks rt data (fuel + 1) pos startPos endPos info =
      match aviIterateChunks rt data fuel (seekStart pos startPos + 12)
          (seekStart pos startPos + 12) (seekStart pos startPos + 8 + leUint size) info with
      | none => none
      | some w => aviIterateChunks rt data fuel w.pos
          (aviAlign (seekStart pos startPos + 8 + leUint size)) endPos w.st := by
  have hr1 : readFull data (seekStart pos startPos) 8 =
      ⟨seekStart pos startPos + 8, str "LIST" ++ size, none⟩ := by
    have := readFull_append data (seekStart pos startPos) (str "LIST" ++ size)
      (str "hdrl" ++ rest) (by rw [hs]; simp)
    have hl : (str "LIST" ++ size).length = 8 := by
      rw [List.length_append, hsize]; rfl
    rw [hl] at this
    exact this
  have hs2 : bytesFrom data (seekStart pos startPos + 8) = str "hdrl" ++ rest := by
    have := bytesFrom_append data (seekStart pos startPos) h0 (str "LIST" ++ size)
      (str "hdrl" ++ rest) (by rw [hs]; simp)
    have hl : (str "LIST" ++ size).length = 8 := by
      rw [List.length_append, hsize]; rfl
    rw [hl] at this
    exact this
  have hr2 : readFull data (seekStart pos startPos + 8) 4 =
      ⟨seekStart pos startPos + 8 + 4, str "hdrl", none⟩ :=
    readFull_append data (seekStart pos startPos + 8) (str "hdrl") rest hs2
  have hid : slice (str "LIST" ++ size) 0 4 = str "LIST" := by
    simp only [slice, List.drop_zero]
    rw [List.take_append_of_le_length (by decide)]
    rfl
  have hsz : slice (str "LIST" ++ size) 4 8 = size := by
    simp only [slice]
    have hl : (str "LIST" ++ size).length = 8 := by
      rw [List.length_append, hsize]; rfl
    rw [← hl, List.take_length]
    exact List.drop_left' rfl
  have e12 : seekStart pos startPos + 8 + 4 = seekStart pos startPos + 12 := by ring
  rw [aviIterateChunks_succ, if_neg (by omega)]
  simp only [hr1, hr2, hid, hsz, if_true, e12]

/-! ### The claims on the whole parsers -/

theorem mkvFinish_codec (rt : GoRuntime) (v : SegmentVars rt.F) :
    (∀ info, mkvFinish rt v = Except.ok info → info.Codec ≠ []) ∧
      (v.info.Codec = [] → mkvFinish rt v = Except.error (GoError.msg "no video track found")) := by
  by_cases hd : (rt.lt (rt.ofUint 0) v.durationFloat = true ∧ v.timestampScale > 0)
  · by_cases hc : v.info.Codec = []
    · constructor
      · intro info h
        simp only [mkvFinish, if_pos hd, if_pos hc] at h
        cases h
      · intro _
        simp only [mkvFinish, if_pos hd, if_pos hc]
    · constructor
      · intro info h
        simp only [mkvFinish, if_pos hd, if_neg hc] at h
        cases h
        exact hc
      · intro h
        exact absurd h hc
  · by_cases hc : v.info.Codec = []
    · constructor
      · intro info h
        simp only [mkvFinish, if_neg hd, if_pos hc] at h
        cases h
      · intro _
        simp only [mkvFinish, if_neg hd, if_pos hc]
    · constructor
      · intro info h
        simp only [mkvFinish, if_neg hd, if_neg hc] at h
        cases h
        exact hc
      · intro h
        exact absurd h hc

/-- C1: a record returned by `parseMP4`, `parseMKV` or `parseAVI` has a
non-empty `Codec`; a walk that ends with an empty `Codec` makes the parser
return an error and no record. -/
theorem parsed_record_has_codec (rt : GoRuntime) (path : GoString) (data : List Byte) :
    (∀ info, parseMP4 rt path data = some (Except.ok info) → info.Codec ≠ []) ∧
    (∀ w, mp4IterateBoxes data 0 data.length 0 (mp4TopHandler rt data)
        (newFileInfo rt path data.length) = some w → w.st.Codec = [] →
      ∃ e, parseMP4 rt path data = some (Except.error e)) ∧
    (∀ info, parseMKV rt path data = Run.done (Except.ok info) → info.Codec ≠ []) ∧
    (∀ v : SegmentVars rt.F, v.info.Codec = [] →
      mkvFinish rt v = Except.error (GoError.msg "no video track found")) ∧
    (∀ info, parseAVI rt path data = some (Except.ok info) → info.Codec ≠ []) ∧
    (∀ w, aviIterateChunks rt data (data.length + 1) (readFull data 0 12).pos 12
        (aviParseLimit (leUint (slice (readFull data 0 12).buf 4 8)) data.length)
        (newFileInfo rt path data.length) = some w → w.st.Codec = [] →
      ∃ e, parseAVI rt path data = some (Except.error e)) := by
  refine ⟨?_, ?_, ?_, ?_, ?_, ?_⟩
  · intro info h
    simp only [parseMP4] at h
    split at h
    · cases h
    · split at h
      · cases h
      · split at h
        · cases h
        · rename_i hc
          simp only [Option.some.injEq, Except.ok.injEq] at h
          rw [← h]
          exact hc
  · intro w hw hc
    simp only [parseMP4, hw]
    cases he : w.err with
    | some e => exact ⟨e, rfl⟩
    | none => exact ⟨GoError.msg "no video track found", by simp only [if_pos hc]⟩
  · intro info h
    simp only [parseMKV] at h
    split at h
    · cases h
    · split at h
      · cases h
      · split at h
        · simp only [Run.done.injEq] at h
          exact (mkvFinish_codec rt _).1 info h
        · cases h
        · cases h
  · intro v hc
    exact (mkvFinish_codec rt v).2 hc
  · intro info h
    simp only [parseAVI] at h
    split at h
    · cases h
    · split at h
      · cases h
      · split at h
        · cases h
        · split at h
          · cases h
          · split at h
            · cases h
            · rename_i hc
              simp only [Option.some.injEq, Except.ok.injEq] at h
              rw [← h]
              exact hc
  · intro w hw hc
    simp only [parseAVI]
    cases hr : (readFull data 0 12).err with
    | some e => exact ⟨_, rfl⟩
    | none =>
      simp only
      split
      · exact ⟨_, rfl⟩
      · simp only [hw]
        cases he : w.err with
        | some e => exact ⟨e, rfl⟩
        | none => exact ⟨GoError.msg "no video stream found", by simp only [if_pos hc]⟩

theorem parsed_record_has_codec_witness :
    ∃ info, parseMKV exactRuntime (str "a.mkv") mkvSample = Run.done (Except.ok info) ∧
      info.Codec = str "vp8" ∧ info.Codec ≠ [] :=
  ⟨_, rfl, rfl, (parsed_record_has_codec exactRuntime (str "a.mkv") mkvSample).2.2.1 _ rfl⟩

/-- C3 (evaluation at the failing input): on a file whose CodecID element
declares the size `2^56 - 1`, `parseMKV` panics in `make([]byte, size)` of
`ebmlReadString` instead of returning a record or an error. -/
theorem parseMKV_panics_on_huge_codecID (rt : GoRuntime) (path : GoString) :
    parseMKV rt path mkvHugeCodecID = Run.panic GoPanic.makesliceLenOutOfRange := by
  rfl

theorem advances_of_step {α β : Type} (loop : Nat → Int → α → β) (pos : Int) (st : α)
    (P : β → Prop) (bound : Prop)
    (h : (∃ r, P r ∧ ∀ fuel, loop (fuel + 1) pos st = r) ∨
      (∃ pos' st', pos < pos' ∧ bound ∧ ∀ fuel, loop (fuel + 1) pos st = loop fuel pos' st')) :
    Advances loop pos st := by
  rcases h with ⟨r, -, hr⟩ | ⟨pos', st', hlt, -, hr⟩
  · exact Or.inl ⟨r, hr⟩
  · exact Or.inr ⟨pos', st', hlt, hr⟩

/-- C2: the three parsers terminate on every finite byte sequence (with a
record, an error or, for `parseMKV`, a panic), because in each of the eight
walker loops an iteration that does not end the loop starts the next one at a
strictly greater cursor, also for a chunk or element of declared size 0, and
the nested walk of `aviIterateChunks` for an `hdrl` list starts 12 bytes past
the chunk that holds it. -/
theorem parsers_terminate (rt : GoRuntime) (path : GoString) (data : List Byte) :
    (parseMP4 rt path data).isSome ∧ parseMKV rt path data ≠ Run.outOfFuel ∧
    (parseAVI rt path data).isSome ∧
    (∀ (σ : Type) (h : BoxHandler σ) (endPos pos : Int) (s : σ), 0 ≤ pos →
      Advances (mp4Loop data endPos h) pos s) ∧
    (∀ (endPos pos : Int) (v : StreamVars rt.F), 0 ≤ pos →
      Advances (aviStreamLoop rt data endPos) pos v) ∧
    (∀ (pos startPos endPos : Int) (info : FileInfo rt.F), 0 ≤ seekStart pos startPos →
      AviAdvances rt data pos startPos endPos info) ∧
    (∀ (fuel : Nat) (pos startPos endPos : Int) (info : FileInfo rt.F) (size rest : List Byte),
      0 ≤ seekStart pos startPos → seekStart pos startPos + 8 ≤ endPos →
      bytesFrom data (seekStart pos startPos) = str "LIST" ++ size ++ str "hdrl" ++ rest →
      size.length = 4 →
      aviIterateChunks rt data (fuel + 1) pos startPos endPos info =
        match aviIterateChunks rt data fuel (seekStart pos startPos + 12)
            (seekStart pos startPos + 12) (seekStart pos startPos + 8 + leUint size) info with
        | none => none
        | some w => aviIterateChunks rt data fuel w.pos
            (aviAlign (seekStart pos startPos + 8 + leUint size)) endPos w.st) ∧
    (∀ (fuel : Nat) (pos startPos endPos : Int) (info : FileInfo rt.F),
      0 ≤ seekStart pos startPos → (data.length - seekStart pos startPos).toNat + 1 ≤ fuel →
      (aviIterateChunks rt data fuel pos startPos endPos info).isSome) ∧
    (∀ (parseLimit pos : Int) (v : SegmentVars rt.F), 0 ≤ pos →
      Advances (mkvSegmentLoop rt data parseLimit) pos v) ∧
    (∀ (endPos pos : Int) (st : Nat × rt.F), 0 ≤ pos →
      Advances (mkvInfoLoopS rt data endPos) pos st) ∧
    (∀ (endPos pos : Int) (info : FileInfo rt.F), 0 ≤ pos →
      Advances (mkvTracksLoop rt data endPos) pos info) ∧
    (∀ (endPos pos : Int) (v : TrackVars), 0 ≤ pos →
      Advances (mkvTrackEntryLoop data endPos) pos v) ∧
    (∀ (endPos pos : Int) (st : Int × Int), 0 ≤ pos →
      Advances (mkvVideoLoopS data endPos) pos st) := by
  refine ⟨parseMP4_terminates rt path data, parseMKV_terminates rt path data,
    parseAVI_terminates rt path data, ?_, ?_, ?_, ?_, ?_, ?_, ?_, ?_, ?_, ?_⟩
  · intro σ h endPos pos s h0
    exact mp4Loop_advances data endPos h pos s h0
  · intro endPos pos v h0
    rcases aviStreamLoop_step rt data endPos pos v h0 with ⟨r, hr⟩ | ⟨pos', v', hlt, -, hr⟩
    · exact Or.inl ⟨_, hr⟩
    · exact Or.inr ⟨pos', v', hlt, hr⟩
  · intro pos startPos endPos info h0
    exact aviIterateChunks_advances rt data pos startPos endPos info h0
  · intro fuel pos startPos endPos info size rest h0 hend hs hsize
    exact aviIterateChunks_hdrl rt data fuel pos startPos endPos info size rest h0 hend hs hsize
  · exact aviIterateChunks_terminates rt data
  · intro parseLimit pos v h0
    exact advances_of_step _ pos v _ _ (mkvSegmentLoop_step rt data parseLimit pos v h0)
  · intro endPos pos st h0
    rcases mkvInfoLoop_step rt data endPos pos st.1 st.2 h0 with ⟨r, hr⟩ |
      ⟨pos', ts', dur', hlt, -, hr⟩
    · exact Or.inl ⟨_, hr⟩
    · exact Or.inr ⟨pos', (ts', dur'), hlt, hr⟩
  · intro endPos pos info h0
    exact advances_of_step _ pos info _ _ (mkvTracksLoop_step rt data endPos pos info h0)
  · intro endPos pos v h0
    exact advances_of_step _ pos v _ _ (mkvTrackEntryLoop_step data endPos pos v h0)
  · intro endPos pos st h0
    rcases mkvVideoLoop_step data endPos pos st.1 st.2 h0 with ⟨r, hr⟩ |
      ⟨pos', w', h', hlt, -, hr⟩
    · exact Or.inl ⟨_, hr⟩
    · exact Or.inr ⟨pos', (w', h'), hlt, hr⟩

theorem mp4_box_header_rules_witness :
    mp4ReadBoxHeader twoBoxes 0 20 = (8, some ⟨str "free", 12, 8⟩) :=
  ((@mp4_box_header_rules Unit twoBoxes 0 20 ([0, 0, 0, 12] ++ str "free")
    ([1, 2, 3, 4] ++ [0, 0, 0, 8] ++ str "skip") (by decide) (by decide) (by decide)).1
    (by decide) (by decide)).trans (by decide)

/-! ### Fixed-offset field extractors -/

theorem bytesFrom_payload (data : List Byte) (offset k : Nat) :
    bytesFrom data ((offset : Int) + (k : Int)) = (data.drop offset).drop k := by
  rw [bytesFrom_add data offset (by omega) k, bytesFrom_natCast]

theorem readFull_payload_ok (data : List Byte) (offset k n : Nat)
    (h : k + n ≤ (data.drop offset).length) :
    readFull data ((offset : Int) + (k : Int)) n =
      ⟨(offset : Int) + (k : Int) + n, ((data.drop offset).drop k).take n, none⟩ := by
  have := readFull_ok data ((offset : Int) + (k : Int)) n
    (by rw [bytesFrom_payload, List.length_drop]; omega)
  rw [this, bytesFrom_payload]

theorem readFull_payload_short (data : List Byte) (offset k n : Nat)
    (h : (data.drop offset).length < k + n) (hn : 0 < n) :
    ∃ e, (readFull data ((offset : Int) + (k : Int)) n).err = some e := by
  apply readFull_err_some
  rw [bytesFrom_payload, List.length_drop]
  omega

theorem readFull_version (data : List Byte) (offset : Nat) :
    (readFull data (offset : Int) 1).buf.headD 0 = (data.drop offset).headD 0 := by
  cases hs : data.drop offset with
  | nil =>
    have hb : bytesFrom data (offset : Int) = [] := by rw [bytesFrom_natCast, hs]
    simp [readFull, hb]
  | cons b rest =>
    have hb : bytesFrom data (offset : Int) = b :: rest := by rw [bytesFrom_natCast, hs]
    rw [readFull_one data offset b rest hb]
    rfl

theorem slice_take (l : List Byte) (lo hi n : Nat) (h : hi ≤ n) :
    slice (l.take n) lo hi = (l.drop lo).take (hi - lo) := by
  simp only [slice]
  rw [List.take_take, Nat.min_eq_left h, List.drop_take]

/-- C19: `mp4ParseTkhd` returns `(floor(W / 65536), floor(H / 65536))` for the
big-endian uint32 values `W`, `H` at payload offsets 76 and 80 when the version
byte is 0, at 88 and 92 for any other version byte, and `(0, 0)` when the
payload stream ends before those eight bytes. -/
theorem mp4ParseTkhd_dims (data : List Byte) (pos size : Int) (offset : Nat) :
    (mp4ParseTkhd data pos size offset).2 =
      if tkhdDimsOffset (data.drop offset) + 8 ≤ (data.drop offset).length then
        (((beUint (((data.drop offset).drop (tkhdDimsOffset (data.drop offset))).take 4) / 65536
            : Nat) : Int),
          ((beUint (((data.drop offset).drop (tkhdDimsOffset (data.drop offset) + 4)).take 4)
            / 65536 : Nat) : Int))
      else (0, 0) := by
  have hv := readFull_version data offset
  have hseek : seekStart pos (offset : Int) = offset := seekStart_nonneg _ _ (by omega)
  have hdp : ∀ cur, (if (data.drop offset).headD 0 = 0 then seekStart cur ((offset : Int) + 76)
      else seekStart cur ((offset : Int) + 88)) =
      (offset : Int) + ((tkhdDimsOffset (data.drop offset) : Nat) : Int) := by
    intro cur
    simp only [tkhdDimsOffset]
    split
    · rw [seekStart_nonneg _ _ (by omega)]; rfl
    · rw [seekStart_nonneg _ _ (by omega)]; rfl
  simp only [mp4ParseTkhd, hseek, hv, hdp]
  by_cases hlen : tkhdDimsOffset (data.drop offset) + 8 ≤ (data.drop offset).length
  · rw [if_pos hlen, readFull_payload_ok data offset _ 8 hlen]
    simp only
    rw [slice_take _ 0 4 8 (by norm_num), slice_take _ 4 8 8 (by norm_num)]
    simp only [List.drop_zero, List.drop_drop, Nat.shiftRight_eq_div_pow]
    norm_num
    rw [Nat.add_assoc]
  · rw [if_neg hlen]
    obtain ⟨e, he⟩ := readFull_payload_short data offset (tkhdDimsOffset (data.drop offset)) 8
      (by omega) (by norm_num)
    simp only [he]

theorem slice_take_drop (l : List Byte) (k lo hi n : Nat) (h : hi ≤ n) :
    slice ((l.drop k).take n) lo hi = (l.drop (k + lo)).take (hi - lo) := by
  rw [slice_take _ lo hi n h, List.drop_drop, Nat.add_comm]

theorem readFull_first (data : List Byte) (offset : Nat) (h : 0 < (data.drop offset).length) :
    readFull data (offset : Int) 1 = ⟨(offset : Int) + 1, [(data.drop offset).headD 0], none⟩ := by
  cases hs : data.drop offset with
  | nil => rw [hs] at h; simp at h
  | cons b rest =>
    have hb : bytesFrom data (offset : Int) = b :: rest := by rw [bytesFrom_natCast, hs]
    rw [readFull_one data offset b rest hb]
    rfl

/-- C20: on a payload long enough to hold the fields, `mp4ParseMvhd` and
`mp4ParseMdhd` return the same `(timescale, duration)`: with version byte 0 the
big-endian uint32 at payload offset 12 and the uint32 at offset 16, with any
other version byte the uint32 at offset 20 and the uint64 at offset 24;
`mp4ParseMvhd` returns an error when the stream ends before those fields. -/
theorem mvhd_mdhd_fields (data : List Byte) (pos size : Int) (offset : Nat) :
    ((data.drop offset).headD 0 = 0 →
      (20 ≤ (data.drop offset).length →
        (mp4ParseMvhd data pos size offset).err = none ∧
        (mp4ParseMvhd data pos size offset).timescale =
          beUint (((data.drop offset).drop 12).take 4) ∧
        (mp4ParseMvhd data pos size offset).duration =
          beUint (((data.drop offset).drop 16).take 4) ∧
        (mp4ParseMdhd data pos size offset).2 =
          ((mp4ParseMvhd data pos size offset).timescale,
            (mp4ParseMvhd data pos size offset).duration)) ∧
      ((data.drop offset).length < 20 → (mp4ParseMvhd data pos size offset).err ≠ none)) ∧
    ((data.drop offset).headD 0 ≠ 0 →
      (32 ≤ (data.drop offset).length →
        (mp4ParseMvhd data pos size offset).err = none ∧
        (mp4ParseMvhd data pos size offset).timescale =
          beUint (((data.drop offset).drop 20).take 4) ∧
        (mp4ParseMvhd data pos size offset).duration =
          beUint (((data.drop offset).drop 24).take 8) ∧
        (mp4ParseMdhd data pos size offset).2 =
          ((mp4ParseMvhd data pos size offset).timescale,
            (mp4ParseMvhd data pos size offset).duration)) ∧
      ((data.drop offset).length < 32 → (mp4ParseMvhd data pos size offset).err ≠ none)) := by
  have hseek : seekStart pos (offset : Int) = offset := seekStart_nonneg _ _ (by omega)
  have hs : ∀ cur (k : Nat), seekStart cur ((offset : Int) + (k : Int)) = (offset : Int) + k :=
    fun cur k => seekStart_nonneg _ _ (by omega)
  have hs4 := fun cur => hs cur 4
  have hs12 := fun cur => hs cur 12
  have hs20 := fun cur => hs cur 20
  simp only [Nat.cast_ofNat] at hs4 hs12 hs20
  have hv := readFull_version data offset
  constructor
  · intro hver
    constructor
    · intro hlen
      have h1 := readFull_first data offset (by omega)
      have h16 := readFull_payload_ok data offset 4 16 (by omega)
      have h8 := readFull_payload_ok data offset 12 8 (by omega)
      simp only [Nat.cast_ofNat] at h16 h8
      simp only [mp4ParseMvhd, mp4ParseMdhd, hseek, h1, hver, List.headD_cons, hs4, hs12,
        h16, h8, if_true, slice_take_drop _ _ _ _ _ (le_refl _),
        slice_take_drop _ 4 8 12 16 (by norm_num), slice_take_drop _ 12 0 4 8 (by norm_num)]
      simp
    · intro hlen
      by_cases h0 : 0 < (data.drop offset).length
      · have h1 := readFull_first data offset h0
        obtain ⟨e, he⟩ := readFull_payload_short data offset 4 16 (by omega) (by norm_num)
        simp only [Nat.cast_ofNat] at he
        simp only [mp4ParseMvhd, hseek, h1, hver, List.headD_cons, hs4, if_true, he]
        simp
      · obtain ⟨e, he⟩ := readFull_payload_short data offset 0 1 (by omega) (by norm_num)
        simp only [Nat.cast_zero, add_zero] at he
        simp only [mp4ParseMvhd, hseek, he]
        simp
  · intro hver
    have h0 : 0 < (data.drop offset).length := by
      by_contra hc
      have : data.drop offset = [] := List.length_eq_zero.mp (by omega)
      rw [this] at hver
      exact hver rfl
    have h1 := readFull_first data offset h0
    constructor
    · intro hlen
      have h28 := readFull_payload_ok data offset 4 28 (by omega)
      have h12 := readFull_payload_ok data offset 20 12 (by omega)
      simp only [Nat.cast_ofNat] at h28 h12
      simp only [mp4ParseMvhd, mp4ParseMdhd, hseek, h1, List.headD_cons, if_neg hver, hs4, hs20,
        h28, h12, slice_take_drop _ 4 16 20 28 (by norm_num),
        slice_take_drop _ 4 20 28 28 (by norm_num), slice_take_drop _ 20 0 4 12 (by norm_num),
        slice_take_drop _ 20 4 12 12 (by norm_num)]
      simp
    · intro hlen
      obtain ⟨e, he⟩ := readFull_payload_short data offset 4 28 (by omega) (by norm_num)
      simp only [Nat.cast_ofNat] at he
      simp only [mp4ParseMvhd, hseek, h1, List.headD_cons, if_neg hver, hs4, he]
      simp

/-! ## Builders for sample files -/

/-! ### Evaluations of the AVI extractors -/

/-- The total frame count `aviParseMainHeader` uses is the uint32 at payload
offset 24 (`dwStreams` in AVIMAINHEADER), not the one at offset 16. -/
theorem aviParseMainHeader_duration (rt : GoRuntime) (data : List Byte) (pos size : Int)
    (offset : Nat) (info : FileInfo rt.F) (hsize : 56 ≤ size)
    (hlen : 56 ≤ (data.drop offset).length)
    (husec : 0 < leUint ((data.drop offset).take 4))
    (hframes : 0 < leUint (((data.drop offset).drop 24).take 4)) :
    (aviParseMainHeader rt data pos size offset info).2.DurationSeconds =
      rt.div (rt.ofUint (leUint (((data.drop offset).drop 24).take 4)))
        (rt.div (rt.ofUint 1000000) (rt.ofUint (leUint ((data.drop offset).take 4)))) := by
  have hseek : seekStart pos (offset : Int) = offset := seekStart_nonneg _ _ (by omega)
  have hr := readFull_payload_ok data offset 0 56 (by omega)
  simp only [Nat.cast_zero, add_zero, List.drop_zero] at hr
  simp only [aviParseMainHeader, if_neg (show ¬ size < 56 by omega), hseek, hr]
  have e0 : slice ((data.drop offset).take 56) 0 4 = (data.drop offset).take 4 := by
    rw [slice_take _ 0 4 56 (by norm_num)]; rfl
  have e24 : slice ((data.drop offset).take 56) 24 28 = ((data.drop offset).drop 24).take 4 := by
    rw [slice_take _ 24 28 56 (by norm_num)]
  simp only [e0, e24, if_pos (show _ ∧ _ from ⟨husec, hframes⟩)]
  split_ifs <;> rfl

/-- C17 (evaluation at the failing input): for the header with
`dwTotalFrames = 100` and 40000 microseconds per frame the duration is 4
seconds; `aviParseMainHeader` computes `2 / (10^6 / 40000) = 0.08` seconds from
the stream count at offset 24. -/
theorem aviParseMainHeader_wrong_frames :
    (aviParseMainHeader exactRuntime avihPayload 0 56 0
        (newFileInfo exactRuntime (str "a.avi") 56)).2.DurationSeconds = ⟨2 * 40000, 1000000⟩ ∧
      (aviParseMainHeader exactRuntime avihPayload 0 56 0
        (newFileInfo exactRuntime (str "a.avi") 56)).2.Duration = str "00:00:00" ∧
      leUint ((avihPayload.drop 16).take 4) = 100 :=
  ⟨rfl, rfl, rfl⟩

/-- C18 (evaluation at the failing input): for a `vids` stream whose `biHeight`
encodes `-240`, `aviParseStreamList` stores `2^32 - 240` as `Height`, not 240. -/
theorem aviParseStreamList_top_down_height :
    (aviParseStreamList exactRuntime strlTopDown 0 0 strlTopDown.length
        (newFileInfo exactRuntime (str "a.avi") 0)).map (fun r => (r.2.Width, r.2.Height)) =
      some (320, 2 ^ 32 - 240) := by
  decide

/-! ### `mp4ParseStts` and the bytes it reads -/

theorem take_drop_agree (d₁ d₂ : List Byte) (p n : Nat)
    (h : ∀ i : Nat, p ≤ i → i < p + n → d₁[i]? = d₂[i]?) :
    (d₁.drop p).take n = (d₂.drop p).take n := by
  apply List.ext_getElem?
  intro i
  by_cases hi : i < n
  · simp only [List.getElem?_take, hi, if_true, List.getElem?_drop]
    exact h (p + i) (by omega) (by omega)
  · simp only [List.getElem?_take, hi, if_false]

theorem readFull_agree (d₁ d₂ : List Byte) (lo hi pos : Int) (n : Nat)
    (hag : AgreeOn d₁ d₂ lo hi) (h0 : 0 ≤ pos) (hlo : lo ≤ pos) (hhi : pos + n ≤ hi) :
    readFull d₁ pos n = readFull d₂ pos n := by
  have key : (bytesFrom d₁ pos).take n = (bytesFrom d₂ pos).take n := by
    simp only [bytesFrom]
    apply take_drop_agree
    intro i h1 h2
    exact hag i (by omega) (by omega)
  simp only [readFull, key]

theorem mp4SttsLoop_agree (d₁ d₂ : List Byte) (lo hi : Int) (hag : AgreeOn d₁ d₂ lo hi) :
    ∀ (n : Nat) (pos : Int) (total : Nat), 0 ≤ pos → lo ≤ pos → pos + 8 * (n : Int) ≤ hi →
      mp4SttsLoop d₁ n pos total = mp4SttsLoop d₂ n pos total := by
  intro n
  induction n with
  | zero => intro pos total _ _ _; rfl
  | succ n ih =>
    intro pos total h0 hlo hhi
    have hr := readFull_agree d₁ d₂ lo hi pos 8 hag h0 hlo (by push_cast at hhi ⊢; omega)
    simp only [mp4SttsLoop, hr]
    cases he : (readFull d₂ pos 8).err with
    | some e => rfl
    | none =>
      simp only
      have hp := readFull_none_pos d₂ pos 8 he
      apply ih
      · rw [hp]; omega
      · rw [hp]; omega
      · rw [hp]; push_cast at hhi ⊢; omega

/-- C11 (as amended): when the entries that the `entry_count` field declares
fit in the box (`8 + 8 * entry_count ≤ dataSize`), two files that agree on every
byte of the data range `[dataOffset, dataOffset + dataSize)` yield the same
sample count from `mp4ParseStts`. -/
theorem mp4ParseStts_reads_box (d₁ d₂ : List Byte) (pos₁ pos₂ dataSize : Int) (dataOffset : Nat)
    (hag : AgreeOn d₁ d₂ dataOffset (dataOffset + dataSize))
    (hfit : 8 + 8 * (beUint (((d₁.drop dataOffset).drop 4).take 4) : Int) ≤ dataSize) :
    (mp4ParseStts d₁ pos₁ dataSize dataOffset).2 =
      (mp4ParseStts d₂ pos₂ dataSize dataOffset).2 := by
  have hs : ∀ cur, seekStart cur ((dataOffset : Int) + 4) = (dataOffset : Int) + 4 :=
    fun cur => seekStart_nonneg _ _ (by omega)
  have hr := readFull_agree d₁ d₂ dataOffset (dataOffset + dataSize) ((dataOffset : Int) + 4) 4
    hag (by omega) (by omega) (by push_cast; omega)
  simp only [mp4ParseStts, hs, hr]
  cases he : (readFull d₂ ((dataOffset : Int) + 4) 4).err with
  | some e => rfl
  | none =>
    simp only
    have hp := readFull_none_pos d₂ _ 4 he
    have hbuf : (readFull d₂ ((dataOffset : Int) + 4) 4).buf =
        ((d₁.drop dataOffset).drop 4).take 4 := by
      rw [← hr]
      have hok := (readFull_err_iff d₁ ((dataOffset : Int) + 4) 4).mp (by rw [hr]; exact he)
      rw [readFull_ok d₁ _ 4 hok]
      have := bytesFrom_payload d₁ dataOffset 4
      simp only [Nat.cast_ofNat] at this
      rw [this]
    rw [hbuf]
    have := mp4SttsLoop_agree d₁ d₂ dataOffset (dataOffset + dataSize) hag
      (beUint (((d₁.drop dataOffset).drop 4).take 4))
      (readFull d₂ ((dataOffset : Int) + 4) 4).pos 0 (by rw [hp]; omega) (by rw [hp]; omega)
      (by rw [hp]; push_cast; omega)
    rw [this]

theorem mp4ParseStts_reads_box_witness :
    (mp4ParseStts (mp4Box "stts" (zeros 4 ++ be32 1 ++ be32 30 ++ be32 1) ++ [1, 2, 3]) 0 16 8).2 =
      (mp4ParseStts (mp4Box "stts" (zeros 4 ++ be32 1 ++ be32 30 ++ be32 1) ++ [4, 5]) 0 16 8).2 :=
  mp4ParseStts_reads_box _ _ 0 0 16 8 (by
    intro i h1 h2
    have h3 : i < 24 := by omega
    have h4 : 8 ≤ i := by omega
    interval_cases i <;> rfl) (by decide)

/-- C11 (counterexample): the two files agree on the data range `[8, 16)` of
the `stts` box, whose `entry_count` is 1 although no entry fits; `mp4ParseStts`
reads the eight bytes after the box as an entry and returns 16 for one file
and 24 for the other. -/
theorem mp4ParseStts_reads_past_box :
    (∀ i : Nat, i < 16 → 8 ≤ i → sttsThenFree16[i]? = sttsThenFree24[i]?) ∧
      (mp4ParseStts sttsThenFree16 0 8 8).2 = 16 ∧
      (mp4ParseStts sttsThenFree24 0 8 8).2 = 24 := by
  decide

/-! ### Children of Matroska master elements -/

/-- C12 (as amended): a child element that starts at or beyond the end
`offset + size` of its parent is not decoded: at a cursor at or beyond the end
the loops of `mkvParseTrackEntry`, `mkvParseInfo`, `mkvParseTracks` and
`mkvParseVideoInfo` return with their variables unchanged. -/
theorem mkv_loops_stop_at_end (rt : GoRuntime) (data : List Byte) (endPos pos : Int)
    (h : endPos ≤ pos) :
    (∀ fuel v, mkvTrackEntryLoop data endPos (fuel + 1) pos v = Run.done (pos, v)) ∧
    (∀ fuel ts dur, mkvInfoLoop rt data endPos (fuel + 1) pos ts dur = some (pos, ts, dur)) ∧
    (∀ fuel info, mkvTracksLoop rt data endPos (fuel + 1) pos info = Run.done (pos, info)) ∧
    (∀ fuel width height,
      mkvVideoLoop data endPos (fuel + 1) pos width height = some (pos, width, height)) := by
  have hge : pos ≥ endPos := h
  refine ⟨?_, ?_, ?_, ?_⟩
  · intro fuel v; rw [mkvTrackEntryLoop, if_pos hge]
  · intro fuel ts dur; rw [mkvInfoLoop, if_pos hge]
  · intro fuel info; rw [mkvTracksLoop, if_pos hge]
  · intro fuel width height; rw [mkvVideoLoop, if_pos hge]

theorem mkv_loops_stop_at_end_witness :
    mkvTrackEntryLoop trackTypeThenCodec 3 (0 + 1) 3 ⟨1, [], 0, 0, 0⟩ =
      Run.done (3, ⟨1, [], 0, 0, 0⟩) :=
  (mkv_loops_stop_at_end exactRuntime trackTypeThenCodec 3 3 (by decide)).1 0 _

/-- C12 (counterexample): in a TrackEntry with data range `[0, 4)` the CodecID
child starts at offset 3 and its header ends at 5; in one with data range
`[0, 5)` its payload extends to 10.  In both cases `mkvParseTrackEntry` decodes
it and takes the codec from it. -/
theorem mkvParseTrackEntry_decodes_overrun :
    (∃ r, mkvParseTrackEntry exactRuntime trackTypeThenCodec 0 4 0
        (newFileInfo exactRuntime (str "a.mkv") 10) = Run.done r ∧ r.2.Codec = str "vp8") ∧
    (∃ r, mkvParseTrackEntry exactRuntime trackTypeThenCodec 0 5 0
        (newFileInfo exactRuntime (str "a.mkv") 10) = Run.done r ∧ r.2.Codec = str "vp8") :=
  ⟨⟨_, rfl, rfl⟩, ⟨_, rfl, rfl⟩⟩

/-! ### The first video track -/

theorem mp4Loop_invariant {σ : Type} (data : List Byte) (endPos : Int) (h : BoxHandler σ)
    (I : σ → Prop)
    (hI : ∀ t ds dof p s w, I s → h t ds dof p s = some w → I w.st) :
    ∀ (fuel : Nat) (pos : Int) (s : σ) (w : Walk σ), I s →
      mp4Loop data endPos h fuel pos s = some w → I w.st := by
  intro fuel
  induction fuel with
  | zero => intro pos s w _ hw; simp [mp4Loop] at hw
  | succ fuel ih =>
    intro pos s w hs hw
    rw [mp4Loop] at hw
    split at hw
    · cases hw; exact hs
    · split at hw
      · cases hw; exact hs
      · split at hw
        · cases hw; exact hs
        · split at hw
          · cases hw
          · rename_i w1 hh
            have h1 := hI _ _ _ _ _ _ hs hh
            split at hw
            · cases hw; exact h1
            · split at hw
              · cases hw; exact h1
              · exact ih _ _ _ h1 hw

theorem mp4TrakCommit_keeps (rt : GoRuntime) (v : TrakVars) (info : FileInfo rt.F)
    (h : info.Codec ≠ [] ∨ v.handlerType ≠ str "vide") :
    videoFields (mp4TrakCommit rt v info) = videoFields info := by
  have hc : ¬(v.handlerType = str "vide" ∧ info.Codec = []) := by
    rintro ⟨h1, h2⟩
    rcases h with h | h
    · exact h h2
    · exact h h1
  simp only [mp4TrakCommit, if_neg hc]
  split <;> rfl

theorem mp4MoovHandler_keeps (rt : GoRuntime) (data : List Byte) (x : GoString × Int × Int × rt.F)
    (hx : x.1 ≠ []) :
    ∀ t ds dof p (s w : _), videoFields s.info = x →
      mp4MoovHandler rt data t ds dof p s = some w → videoFields w.st.info = x := by
  intro t ds dof p s w hs hw
  simp only [mp4MoovHandler] at hw
  by_cases c1 : t = str "mvhd"
  · simp only [if_pos c1] at hw
    split at hw
    · cases hw; exact hs
    · split at hw
      · cases hw; exact hs
      · cases hw; exact hs
  · simp only [if_neg c1] at hw
    by_cases c2 : t = str "trak"
    · simp only [if_pos c2] at hw
      simp only [mp4ParseTrak] at hw
      split at hw
      · cases hw
      · rename_i r hr
        split at hr
        · cases hr
        · cases hr
          cases hw
          simp only
          rw [mp4TrakCommit_keeps rt _ _ (Or.inl ?_)]
          · exact hs
          · have : s.info.Codec = x.1 := by rw [← hs]; rfl
            rw [this]; exact hx
    · simp only [if_neg c2] at hw
      cases hw; exact hs

theorem mp4CodecName_eq_nil (c : GoString) : mp4CodecName c = [] ↔ c = [] := by
  constructor
  · intro h
    by_contra hc
    simp only [mp4CodecName] at h
    split_ifs at h <;> first | exact absurd h (by decide) | exact hc h
  · intro h
    subst h
    decide

theorem mp4ParseMoov_keeps (rt : GoRuntime) (data : List Byte) (pos size offset : Int)
    (info : FileInfo rt.F) (w : Walk (FileInfo rt.F)) (hc : info.Codec ≠ [])
    (hw : mp4ParseMoov rt data pos size offset info = some w) :
    videoFields w.st = videoFields info := by
  simp only [mp4ParseMoov, mp4IterateBoxes] at hw
  split at hw
  · cases hw
  · rename_i w1 h1
    cases hw
    exact mp4Loop_invariant data _ (mp4MoovHandler rt data)
      (fun s => videoFields s.info = videoFields info)
      (mp4MoovHandler_keeps rt data (videoFields info) hc) _ _ _ w1 rfl h1

theorem mp4TopHandler_keeps (rt : GoRuntime) (data : List Byte) (x : GoString × Int × Int × rt.F)
    (hx : x.1 ≠ []) :
    ∀ t ds dof p (s : FileInfo rt.F) (w : _), videoFields s = x →
      mp4TopHandler rt data t ds dof p s = some w → videoFields w.st = x := by
  intro t ds dof p s w hs hw
  simp only [mp4TopHandler] at hw
  split at hw
  · rw [mp4ParseMoov_keeps rt data p ds dof s w ?_ hw, hs]
    have : s.Codec = x.1 := by rw [← hs]; rfl
    rw [this]; exact hx
  · cases hw; exact hs

theorem mp4Loop_proj {σ τ : Type} (data : List Byte) (endPos : Int) (h : BoxHandler σ)
    (hT : BoxHandler (σ × τ))
    (hsim : ∀ t ds dof p s, h t ds dof p s.1 =
      (hT t ds dof p s).map (fun w => (⟨w.pos, w.st.1, w.err⟩ : Walk σ))) :
    ∀ (fuel : Nat) (pos : Int) (s : σ × τ),
      mp4Loop data endPos h fuel pos s.1 =
        (mp4Loop data endPos hT fuel pos s).map (fun w => (⟨w.pos, w.st.1, w.err⟩ : Walk σ)) := by
  intro fuel
  induction fuel with
  | zero => intro pos s; rfl
  | succ fuel ih =>
    intro pos s
    rw [mp4Loop, mp4Loop]
    by_cases hend : pos + 8 > endPos
    · rw [if_pos hend, if_pos hend]; rfl
    · rw [if_neg hend, if_neg hend]
      rcases hb : mp4ReadBoxHeader data pos endPos with ⟨p1, _ | hd⟩
      · rfl
      · simp only
        by_cases hsz : hd.size < hd.headerSize ∨ hd.size > endPos - pos
        · rw [if_pos hsz, if_pos hsz]; rfl
        · rw [if_neg hsz, if_neg hsz, hsim]
          cases hh : hT hd.boxType (hd.size - hd.headerSize) p1 p1 s with
          | none => rfl
          | some w =>
            simp only [Option.map_some']
            cases he : w.err with
            | some e => rfl
            | none =>
              simp only
              cases hs : seekStartErr (pos + hd.size) with
              | some e => simp only [he]; rfl
              | none =>
                simp only
                exact ih _ w.st

theorem mp4TrakCommit_videoFields (rt : GoRuntime) (v : TrakVars) (a b : FileInfo rt.F)
    (h : videoFields a = videoFields b) :
    videoFields (mp4TrakCommit rt v a) = videoFields (mp4TrakCommit rt v b) := by
  simp only [videoFields, Prod.mk.injEq] at h
  obtain ⟨h1, h2, h3, h4⟩ := h
  simp only [mp4TrakCommit, h1]
  split_ifs <;> simp [videoFields, h1, h2, h3, h4]

theorem mp4MoovHandlerTraks_proj (rt : GoRuntime) (data : List Byte) :
    ∀ t ds dof p (s : MoovVars rt.F × List TrakVars), mp4MoovHandler rt data t ds dof p s.1 =
      (mp4MoovHandlerTraks rt data t ds dof p s).map
        (fun w => (⟨w.pos, w.st.1, w.err⟩ : Walk (MoovVars rt.F))) := by
  intro t ds dof p s
  simp only [mp4MoovHandlerTraks]
  cases mp4MoovHandler rt data t ds dof p s.1 <;> rfl

theorem mp4TopHandlerTraks_proj (rt : GoRuntime) (data : List Byte) :
    ∀ t ds dof p (s : FileInfo rt.F × List TrakVars), mp4TopHandler rt data t ds dof p s.1 =
      (mp4TopHandlerTraks rt data t ds dof p s).map
        (fun w => (⟨w.pos, w.st.1, w.err⟩ : Walk (FileInfo rt.F))) := by
  intro t ds dof p s
  simp only [mp4TopHandler, mp4TopHandlerTraks]
  by_cases c : t = str "moov"
  · rw [if_pos c, if_pos c]
    simp only [mp4ParseMoov, mp4IterateBoxes]
    have h := mp4Loop_proj data (dof + ds) (mp4MoovHandler rt data) (mp4MoovHandlerTraks rt data)
      (mp4MoovHandlerTraks_proj rt data) (data.length + 1) (seekStart p dof)
      ((⟨0, 0, s.1⟩ : MoovVars rt.F), s.2)
    simp only at h
    rw [h]
    cases mp4Loop data (dof + ds) (mp4MoovHandlerTraks rt data) (data.length + 1)
      (seekStart p dof) ((⟨0, 0, s.1⟩ : MoovVars rt.F), s.2) <;> rfl
  · rw [if_neg c, if_neg c]; rfl

theorem mp4MoovHandlerTraks_fold (rt : GoRuntime) (data : List Byte) (info0 : FileInfo rt.F) :
    ∀ t ds dof p (s w : _),
      videoFields s.1.info = videoFields (s.2.foldl (fun i v => mp4TrakCommit rt v i) info0) →
      mp4MoovHandlerTraks rt data t ds dof p s = some w →
      videoFields w.st.1.info =
        videoFields (w.st.2.foldl (fun i v => mp4TrakCommit rt v i) info0) := by
  intro t ds dof p s w hs hw
  simp only [mp4MoovHandlerTraks] at hw
  cases hh : mp4MoovHandler rt data t ds dof p s.1 with
  | none => rw [hh] at hw; cases hw
  | some w1 =>
    rw [hh] at hw
    simp only [Option.some.injEq] at hw
    subst hw
    simp only
    simp only [mp4MoovHandler] at hh
    by_cases c1 : t = str "mvhd"
    · have c2 : ¬ t = str "trak" := by rw [c1]; decide
      rw [if_neg c2]
      simp only [if_pos c1] at hh
      split at hh
      · cases hh; exact hs
      · split at hh
        · cases hh; exact hs
        · cases hh; exact hs
    · simp only [if_neg c1] at hh
      by_cases c2 : t = str "trak"
      · rw [if_pos c2]
        simp only [if_pos c2, mp4ParseTrak] at hh
        simp only [mp4TrakVarsAt]
        cases hi : mp4IterateBoxes data (seekStart p dof) ds dof (mp4TrakHandler data)
            ⟨0, 0, [], [], 0, 0, 0⟩ with
        | none => rw [hi] at hh; cases hh
        | some wt =>
          rw [hi] at hh
          simp only [Option.some.injEq] at hh
          subst hh
          simp only [List.foldl_append, List.foldl_cons, List.foldl_nil]
          exact mp4TrakCommit_videoFields rt wt.st _ _ hs
      · rw [if_neg c2]
        simp only [if_neg c2] at hh
        cases hh; exact hs

theorem mp4TopHandlerTraks_fold (rt : GoRuntime) (data : List Byte) (info0 : FileInfo rt.F) :
    ∀ t ds dof p (s w : _),
      videoFields s.1 = videoFields (s.2.foldl (fun i v => mp4TrakCommit rt v i) info0) →
      mp4TopHandlerTraks rt data t ds dof p s = some w →
      videoFields w.st.1 = videoFields (w.st.2.foldl (fun i v => mp4TrakCommit rt v i) info0) := by
  intro t ds dof p s w hs hw
  simp only [mp4TopHandlerTraks] at hw
  by_cases c : t = str "moov"
  · rw [if_pos c] at hw
    simp only [mp4IterateBoxes] at hw
    cases hl : mp4Loop data (dof + ds) (mp4MoovHandlerTraks rt data) (data.length + 1)
        (seekStart p dof) ((⟨0, 0, s.1⟩ : MoovVars rt.F), s.2) with
    | none => rw [hl] at hw; cases hw
    | some w1 =>
      rw [hl] at hw
      simp only [Option.some.injEq] at hw
      subst hw
      exact mp4Loop_invariant data _ (mp4MoovHandlerTraks rt data)
        (fun s => videoFields s.1.info =
          videoFields (s.2.foldl (fun i v => mp4TrakCommit rt v i) info0))
        (mp4MoovHandlerTraks_fold rt data info0) _ _ _ w1 hs hl
  · rw [if_neg c] at hw
    cases hw; exact hs

theorem parseMP4_fold (rt : GoRuntime) (path : GoString) (data : List Byte)
    (info : FileInfo rt.F) (h : parseMP4 rt path data = some (Except.ok info)) :
    videoFields info = videoFields ((mp4Traks rt path data).foldl
      (fun i v => mp4TrakCommit rt v i) (newFileInfo rt path data.length)) := by
  have hp := mp4Loop_proj data (0 + (data.length : Int)) (mp4TopHandler rt data)
    (mp4TopHandlerTraks rt data) (mp4TopHandlerTraks_proj rt data) (data.length + 1) 0
    (newFileInfo rt path data.length, [])
  simp only [parseMP4, mp4IterateBoxes] at h
  simp only [mp4Traks, mp4IterateBoxes]
  simp only at hp
  rw [hp] at h
  cases hl : mp4Loop data (0 + (data.length : Int)) (mp4TopHandlerTraks rt data) (data.length + 1) 0
      (newFileInfo rt path data.length, []) with
  | none => rw [hl] at h; cases h
  | some w =>
    rw [hl] at h
    simp only [Option.map_some'] at h
    have hinv := mp4Loop_invariant data _ (mp4TopHandlerTraks rt data)
      (fun s => videoFields s.1 = videoFields (s.2.foldl (fun i v => mp4TrakCommit rt v i)
        (newFileInfo rt path data.length)))
      (mp4TopHandlerTraks_fold rt data (newFileInfo rt path data.length)) _ _ _ w rfl hl
    split at h
    · cases h
    · split at h
      · cases h
      · cases h
        exact hinv

theorem mp4TrakCommit_vide (rt : GoRuntime) (v : TrakVars) (info : FileInfo rt.F)
    (hv : v.handlerType = str "vide") (hc : info.Codec = []) :
    (mp4TrakCommit rt v info).Codec = mp4CodecName v.codec ∧
    (mp4TrakCommit rt v info).Width = v.trackWidth ∧
    (mp4TrakCommit rt v info).Height = v.trackHeight ∧
    (mp4TrakCommit rt v info).Framerate = mp4TrakFramerate rt v info.Framerate := by
  have hcond : v.handlerType = str "vide" ∧ info.Codec = [] := ⟨hv, hc⟩
  have hne : ¬ (v.handlerType = str "soun") := by rw [hv]; decide
  simp only [mp4TrakCommit, if_pos hcond, mp4TrakFramerate]
  by_cases c1 : v.mediaTimescale > 0 ∧ v.sampleCount > 0 ∧ v.mediaDuration > 0
  · by_cases c2 : rt.lt (rt.ofUint 0)
        (rt.div (rt.ofUint v.mediaDuration) (rt.ofUint v.mediaTimescale)) = true
    · have c3 : v.mediaTimescale > 0 ∧ v.sampleCount > 0 ∧ v.mediaDuration > 0 ∧
          rt.lt (rt.ofUint 0)
            (rt.div (rt.ofUint v.mediaDuration) (rt.ofUint v.mediaTimescale)) = true :=
        ⟨c1.1, c1.2.1, c1.2.2, c2⟩
      simp only [if_pos c1, if_pos c2, if_pos c3]
      split_ifs <;> exact ⟨rfl, rfl, rfl, rfl⟩
    · have c3 : ¬ (v.mediaTimescale > 0 ∧ v.sampleCount > 0 ∧ v.mediaDuration > 0 ∧
          rt.lt (rt.ofUint 0)
            (rt.div (rt.ofUint v.mediaDuration) (rt.ofUint v.mediaTimescale)) = true) :=
        fun h => c2 h.2.2.2
      simp only [if_pos c1, if_neg c2, if_neg c3]
      split_ifs <;> exact ⟨rfl, rfl, rfl, rfl⟩
  · have c3 : ¬ (v.mediaTimescale > 0 ∧ v.sampleCount > 0 ∧ v.mediaDuration > 0 ∧
        rt.lt (rt.ofUint 0)
          (rt.div (rt.ofUint v.mediaDuration) (rt.ofUint v.mediaTimescale)) = true) :=
      fun h => c1 ⟨h.1, h.2.1, h.2.2.1⟩
    simp only [if_neg c1, if_neg c3]
    split_ifs <;> exact ⟨rfl, rfl, rfl, rfl⟩

theorem mp4Traks_before_codec (rt : GoRuntime) :
    ∀ (pre : List TrakVars) (info : FileInfo rt.F), info.Codec = [] →
      (∀ p ∈ pre, p.handlerType = str "vide" → p.codec = []) →
      (pre.foldl (fun i v => mp4TrakCommit rt v i) info).Codec = [] ∧
      (pre.foldl (fun i v => mp4TrakCommit rt v i) info).Framerate =
        mp4FramerateLeft rt pre info.Framerate := by
  intro pre
  induction pre with
  | nil => intro info hc _; exact ⟨hc, rfl⟩
  | cons p pre ih =>
    intro info hc hpre
    simp only [List.foldl_cons, mp4FramerateLeft]
    by_cases hv : p.handlerType = str "vide"
    · obtain ⟨k1, -, -, k4⟩ := mp4TrakCommit_vide rt p info hv hc
      have hpc : p.codec = [] := hpre p (List.mem_cons_self _ _) hv
      have hc2 : (mp4TrakCommit rt p info).Codec = [] := by rw [k1, hpc]; rfl
      obtain ⟨j1, j2⟩ := ih (mp4TrakCommit rt p info) hc2
        (fun q hq => hpre q (List.mem_cons_of_mem _ hq))
      refine ⟨j1, ?_⟩
      rw [j2, k4, if_pos hv]
      rfl
    · have hk := mp4TrakCommit_keeps rt p info (Or.inr hv)
      simp only [videoFields, Prod.mk.injEq] at hk
      have hc2 : (mp4TrakCommit rt p info).Codec = [] := by rw [hk.1]; exact hc
      obtain ⟨j1, j2⟩ := ih (mp4TrakCommit rt p info) hc2
        (fun q hq => hpre q (List.mem_cons_of_mem _ hq))
      refine ⟨j1, ?_⟩
      rw [j2, hk.2.2.2, if_neg hv]
      rfl

theorem mp4Traks_after_codec (rt : GoRuntime) :
    ∀ (post : List TrakVars) (info : FileInfo rt.F), info.Codec ≠ [] →
      videoFields (post.foldl (fun i v => mp4TrakCommit rt v i) info) = videoFields info := by
  intro post
  induction post with
  | nil => intro info _; rfl
  | cons p post ih =>
    intro info hc
    simp only [List.foldl_cons]
    have hk := mp4TrakCommit_keeps rt p info (Or.inl hc)
    have hc2 : (mp4TrakCommit rt p info).Codec ≠ [] := by
      have : (mp4TrakCommit rt p info).Codec = info.Codec := congrArg (fun x => x.1) hk
      rw [this]; exact hc
    rw [ih _ hc2, hk]

theorem mp4Traks_first_codec (rt : GoRuntime) :
    ∀ (l : List TrakVars) (info : FileInfo rt.F), info.Codec = [] →
      (l.foldl (fun i v => mp4TrakCommit rt v i) info).Codec ≠ [] →
      ∃ pre t post, l = pre ++ t :: post ∧
        (∀ p ∈ pre, p.handlerType = str "vide" → p.codec = []) ∧
        t.handlerType = str "vide" ∧ t.codec ≠ [] := by
  intro l
  induction l with
  | nil => intro info hc hne; exact absurd hc hne
  | cons v l ih =>
    intro info hc hne
    simp only [List.foldl_cons] at hne
    by_cases hP : v.handlerType = str "vide" ∧ v.codec ≠ []
    · exact ⟨[], v, l, rfl, ⟨fun p hp => absurd hp (List.not_mem_nil p), hP.1, hP.2⟩⟩
    · have hc2 : (mp4TrakCommit rt v info).Codec = [] := by
        by_cases hv : v.handlerType = str "vide"
        · have hvc : v.codec = [] := by
            by_contra hh; exact hP ⟨hv, hh⟩
          rw [(mp4TrakCommit_vide rt v info hv hc).1, hvc]; rfl
        · have hk := mp4TrakCommit_keeps rt v info (Or.inr hv)
          have : (mp4TrakCommit rt v info).Codec = info.Codec := congrArg (fun x => x.1) hk
          rw [this]; exact hc
      obtain ⟨pre, t, post, hl, hpre, ht1, ht2⟩ := ih _ hc2 hne
      refine ⟨v :: pre, t, post, by rw [hl]; rfl, ?_, ht1, ht2⟩
      intro p hp hpv
      rcases List.mem_cons.mp hp with rfl | hp
      · by_contra hh; exact hP ⟨hpv, hh⟩
      · exact hpre p hp hpv

theorem mp4Traks_fields (rt : GoRuntime) (pre post : List TrakVars) (t : TrakVars)
    (info : FileInfo rt.F) (hc : info.Codec = [])
    (hpre : ∀ p ∈ pre, p.handlerType = str "vide" → p.codec = [])
    (ht : t.handlerType = str "vide") (htc : t.codec ≠ []) :
    videoFields ((pre ++ t :: post).foldl (fun i v => mp4TrakCommit rt v i) info) =
      (mp4CodecName t.codec, t.trackWidth, t.trackHeight,
        mp4TrakFramerate rt t (mp4FramerateLeft rt pre info.Framerate)) := by
  obtain ⟨j1, j2⟩ := mp4Traks_before_codec rt pre info hc hpre
  obtain ⟨k1, k2, k3, k4⟩ := mp4TrakCommit_vide rt t _ ht j1
  have hne : (mp4TrakCommit rt t (pre.foldl (fun i v => mp4TrakCommit rt v i) info)).Codec ≠ [] := by
    rw [k1]
    intro h
    exact htc ((mp4CodecName_eq_nil t.codec).mp h)
  rw [List.foldl_append, List.foldl_cons, mp4Traks_after_codec rt post _ hne]
  simp only [videoFields, k1, k2, k3, k4, j2]

/-- C13 (as amended): when `parseMP4` returns a record, the tracks it parsed
contain a first `vide` track with a non-empty sample-entry FourCC; `Codec`,
`Width` and `Height` of the record are those of that track, and `Framerate` is
the value that track derives from its media header and sample table when it
derives one, otherwise the value left by the `vide` tracks without FourCC that
precede it.  A track that is not `vide`, and any track once `Codec` is
non-empty, leaves `Codec`, `Width`, `Height` and `Framerate` as they are; a
`vide` track met while `Codec` is empty sets `Codec`, `Width` and `Height` from
its own boxes and `Framerate` as `mp4TrakFramerate` says, and `Codec` stays
empty exactly when its FourCC is empty; from a record with a non-empty `Codec`
the walk of `moov` and the walk of the file change none of the four. -/
theorem mp4_first_codec_track_wins (rt : GoRuntime) (data : List Byte) :
    (∀ (v : TrakVars) (info : FileInfo rt.F),
      info.Codec ≠ [] ∨ v.handlerType ≠ str "vide" →
      videoFields (mp4TrakCommit rt v info) = videoFields info) ∧
    (∀ (v : TrakVars) (info : FileInfo rt.F), v.handlerType = str "vide" → info.Codec = [] →
      (mp4TrakCommit rt v info).Codec = mp4CodecName v.codec ∧
      (mp4TrakCommit rt v info).Width = v.trackWidth ∧
      (mp4TrakCommit rt v info).Height = v.trackHeight ∧
      (mp4TrakCommit rt v info).Framerate = mp4TrakFramerate rt v info.Framerate ∧
      ((mp4TrakCommit rt v info).Codec = [] ↔ v.codec = [])) ∧
    (∀ (endPos : Int) (fuel : Nat) (pos : Int) (v : MoovVars rt.F) (w : Walk (MoovVars rt.F)),
      v.info.Codec ≠ [] → mp4Loop data endPos (mp4MoovHandler rt data) fuel pos v = some w →
      videoFields w.st.info = videoFields v.info) ∧
    (∀ (endPos : Int) (fuel : Nat) (pos : Int) (info : FileInfo rt.F) (w : Walk (FileInfo rt.F)),
      info.Codec ≠ [] → mp4Loop data endPos (mp4TopHandler rt data) fuel pos info = some w →
      videoFields w.st = videoFields info) ∧
    (∀ (path : GoString) (info : FileInfo rt.F),
      parseMP4 rt path data = some (Except.ok info) →
      ∃ pre t post, mp4Traks rt path data = pre ++ t :: post ∧
        (∀ p ∈ pre, p.handlerType = str "vide" → p.codec = []) ∧
        t.handlerType = str "vide" ∧ t.codec ≠ [] ∧
        info.Codec = mp4CodecName t.codec ∧ info.Width = t.trackWidth ∧
        info.Height = t.trackHeight ∧
        info.Framerate = mp4TrakFramerate rt t (mp4FramerateLeft rt pre (rt.ofUint 0))) := by
  refine ⟨fun v info h => mp4TrakCommit_keeps rt v info h, ?_, ?_, ?_, ?_⟩
  · intro v info hv hc
    obtain ⟨k1, k2, k3, k4⟩ := mp4TrakCommit_vide rt v info hv hc
    refine ⟨k1, k2, k3, k4, ?_⟩
    rw [k1]
    exact mp4CodecName_eq_nil v.codec
  · intro endPos fuel pos v w hc hw
    exact mp4Loop_invariant data endPos (mp4MoovHandler rt data)
      (fun s => videoFields s.info = videoFields v.info)
      (mp4MoovHandler_keeps rt data (videoFields v.info) hc) fuel pos v w rfl hw
  · intro endPos fuel pos info w hc hw
    exact mp4Loop_invariant data endPos (mp4TopHandler rt data)
      (fun s => videoFields s = videoFields info)
      (mp4TopHandler_keeps rt data (videoFields info) hc) fuel pos info w rfl hw
  · intro path info hp
    have hf := parseMP4_fold rt path data info hp
    have hne : info.Codec ≠ [] := by
      simp only [parseMP4] at hp
      split at hp
      · cases hp
      · split at hp
        · cases hp
        · split at hp
          · cases hp
          · rename_i hc
            cases hp
            exact hc
    have hcf : ((mp4Traks rt path data).foldl (fun i v => mp4TrakCommit rt v i)
        (newFileInfo rt path data.length)).Codec ≠ [] := by
      have : info.Codec = ((mp4Traks rt path data).foldl (fun i v => mp4TrakCommit rt v i)
          (newFileInfo rt path data.length)).Codec := congrArg (fun x => x.1) hf
      rw [← this]; exact hne
    obtain ⟨pre, t, post, hl, hpre, ht1, ht2⟩ :=
      mp4Traks_first_codec rt _ (newFileInfo rt path data.length) rfl hcf
    refine ⟨pre, t, post, hl, hpre, ht1, ht2, ?_⟩
    rw [hl, mp4Traks_fields rt pre post t _ rfl hpre ht1 ht2] at hf
    simp only [videoFields, Prod.mk.injEq] at hf
    exact ⟨hf.1, hf.2.1, hf.2.2.1, hf.2.2.2⟩

set_option maxRecDepth 100000 in

theorem mp4_first_codec_track_wins_witness :
    videoFields (mp4TrakCommit exactRuntime videTrakVars recordWithCodec) =
      videoFields recordWithCodec ∧
    (mp4TrakCommit exactRuntime videTrakVars (newFileInfo exactRuntime (str "a.mp4") 0)).Codec =
      str "h264" ∧
    (∃ w, mp4Loop mp4TwoVideoTracks 264 (mp4TopHandler exactRuntime mp4TwoVideoTracks) 265 0
        recordWithCodec = some w ∧ videoFields w.st = videoFields recordWithCodec) ∧
    mp4Traks exactRuntime (str "a.mp4") mp4FramerateFromFirst =
      [⟨640, 480, str "vide", [], 1000, 50, 2000⟩, ⟨320, 240, str "vide", str "avc1", 0, 0, 0⟩] ∧
    (∃ info, parseMP4 exactRuntime (str "a.mp4") mp4FramerateFromFirst = some (Except.ok info) ∧
      info.Codec = str "h264" ∧ info.Width = 320 ∧ info.Height = 240 ∧
      info.Framerate = ⟨2500, 100⟩ ∧
      ∃ pre t post, mp4Traks exactRuntime (str "a.mp4") mp4FramerateFromFirst = pre ++ t :: post ∧
        (∀ p ∈ pre, p.handlerType = str "vide" → p.codec = []) ∧
        t.handlerType = str "vide" ∧ t.codec ≠ [] ∧
        info.Codec = mp4CodecName t.codec ∧ info.Width = t.trackWidth ∧
        info.Height = t.trackHeight ∧
        info.Framerate =
          mp4TrakFramerate exactRuntime t (mp4FramerateLeft exactRuntime pre
            (exactRuntime.ofUint 0))) :=
  ⟨(mp4_first_codec_track_wins exactRuntime []).1 videTrakVars recordWithCodec
      (Or.inl (by decide)),
    ((mp4_first_codec_track_wins exactRuntime []).2.1 videTrakVars
      (newFileInfo exactRuntime (str "a.mp4") 0) rfl rfl).1,
    ⟨_, rfl, (mp4_first_codec_track_wins exactRuntime mp4TwoVideoTracks).2.2.2.1 264 265 0
      recordWithCodec _ (by decide) rfl⟩,
    rfl,
    ⟨_, rfl, rfl, rfl, rfl, rfl,
      (mp4_first_codec_track_wins exactRuntime mp4FramerateFromFirst).2.2.2.2 (str "a.mp4") _
        rfl⟩⟩

set_option maxRecDepth 100000 in

/-- C13 (counterexample): `moov` holds two `vide` tracks.  The first (data
range `[16, 136)`) has a 640x480 track header and no sample description, so it
leaves `Codec` empty; the record of `parseMP4` has the width, height and codec
of the second track. -/
theorem parseMP4_second_video_track_sets :
    (∃ w, mp4IterateBoxes mp4TwoVideoTracks 16 120 16 (mp4TrakHandler mp4TwoVideoTracks)
        ⟨0, 0, [], [], 0, 0, 0⟩ = some w ∧ w.st.handlerType = str "vide" ∧
        w.st.trackWidth = 640 ∧ w.st.trackHeight = 480 ∧ w.st.codec = []) ∧
    (∃ info, parseMP4 exactRuntime (str "a.mp4") mp4TwoVideoTracks = some (Except.ok info) ∧
      info.Width = 320 ∧ info.Height = 240 ∧ info.Codec = str "h264") :=
  ⟨⟨_, rfl, rfl, rfl, rfl, rfl⟩, ⟨_, rfl, rfl, rfl, rfl⟩⟩

theorem mkvTrackCommit_keeps (rt : GoRuntime) (v : TrackVars) (info : FileInfo rt.F)
    (h : info.Codec ≠ [] ∨ v.trackType ≠ 1) :
    videoFields (mkvTrackCommit rt v info) = videoFields info := by
  have hc : ¬(v.trackType = 1 ∧ info.Codec = []) := by
    rintro ⟨h1, h2⟩
    rcases h with h | h
    · exact h h2
    · exact h h1
  simp only [mkvTrackCommit, if_neg hc]
  split <;> rfl

set_option maxRecDepth 100000 in

/-- C15 (evaluation at the failing input): for a file with the `vids` streams
`H264` 640x480 (250 frames at 25 fps) and `MJPG` 320x240 (100 frames),
`parseAVI` returns the codec and frame rate of the first stream but the width,
height and duration of the second; with the second stream list removed it
returns 640x480 and 10 seconds. -/
theorem parseAVI_second_video_stream_overwrites :
    ∃ a b, parseAVI exactRuntime (str "a.avi") aviTwoVideoStreams = some (Except.ok a) ∧
      parseAVI exactRuntime (str "a.avi") aviFirstVideoStream = some (Except.ok b) ∧
      a.Codec = str "h264" ∧ b.Codec = str "h264" ∧ a.Framerate = ⟨2500, 100⟩ ∧ b.Framerate = ⟨2500, 100⟩ ∧
      (a.Width, a.Height) = (320, 240) ∧ (b.Width, b.Height) = (640, 480) ∧
      a.DurationSeconds = ⟨100, 25⟩ ∧ b.DurationSeconds = ⟨250, 25⟩ ∧
      a.Duration = str "00:00:04" ∧ b.Duration = str "00:00:10" :=
  ⟨_, _, rfl, rfl, rfl, rfl, rfl, rfl, rfl, rfl, rfl, rfl, rfl, rfl⟩

theorem aviStrh_codec (rt : GoRuntime) (data : List Byte) (dataPos chunkSize : Int)
    (v : StreamVars rt.F) : (aviStrh rt data dataPos chunkSize v).2.info.Codec = v.info.Codec := by
  simp only [aviStrh]
  split
  · split
    · rfl
    · simp only
      split_ifs <;> rfl
  · rfl

theorem aviStrf_codec (rt : GoRuntime) (data : List Byte) (dataPos chunkSize : Int)
    (v : StreamVars rt.F) : (aviStrf rt data dataPos chunkSize v).2.info.Codec = v.info.Codec := by
  simp only [aviStrf]
  split
  · split
    · rfl
    · simp only
      split_ifs <;> rfl
  · rfl

theorem aviStreamLoop_codec (rt : GoRuntime) (data : List Byte) (endPos : Int) :
    ∀ (fuel : Nat) (pos : Int) (v : StreamVars rt.F) (r : Int × StreamVars rt.F),
      aviStreamLoop rt data endPos fuel pos v = some r → r.2.info.Codec = v.info.Codec := by
  intro fuel
  induction fuel with
  | zero => intro pos v r hr; simp [aviStreamLoop] at hr
  | succ fuel ih =>
    intro pos v r hr
    rw [aviStreamLoop] at hr
    split at hr
    · cases hr; rfl
    · simp only at hr
      split at hr
      · cases hr; rfl
      · rw [ih _ _ r hr]
        split_ifs
        · exact aviStrh_codec rt data _ _ v
        · exact aviStrf_codec rt data _ _ v
        · rfl

theorem aviParseMainHeader_codec (rt : GoRuntime) (data : List Byte) (pos size offset : Int)
    (info : FileInfo rt.F) :
    (aviParseMainHeader rt data pos size offset info).2.Codec = info.Codec := by
  simp only [aviParseMainHeader]
  split
  · rfl
  · split
    · rfl
    · split_ifs <;> rfl

theorem aviStreamCommit_codec_nil (rt : GoRuntime) (v : StreamVars rt.F) :
    (aviStreamCommit rt v).Codec = [] ↔ v.info.Codec = [] ∧ ¬ NamesVideoCodec rt v := by
  simp only [aviStreamCommit, NamesVideoCodec]
  by_cases h1 : v.streamType = str "vids" ∧ v.info.Codec = []
  · rw [if_pos h1]
    have hne : ¬ (v.streamType = str "auds") := by rw [h1.1]; decide
    rw [if_neg (fun h => hne h.1)]
    simp only [h1.1, h1.2, true_and, not_not]
  · rw [if_neg h1]
    have : (if v.streamType = str "auds" ∧ v.info.AudioCodec = [] then
        ({ v.info with AudioCodec := aviAudioCodecName rt v.codecFourCC } : FileInfo rt.F)
        else v.info).Codec = v.info.Codec := by
      split <;> rfl
    rw [this]
    constructor
    · intro hc
      exact ⟨hc, fun hv => h1 ⟨hv.1, hc⟩⟩
    · intro hc
      exact hc.1

set_option maxHeartbeats 1000000 in

theorem aviStrlFinals_succ (rt : GoRuntime) (data : List Byte) (fuel : Nat)
    (pos startPos endPos : Int) (info : FileInfo rt.F) :
    aviStrlFinals rt data (fuel + 1) pos startPos endPos info =
    if seekStart pos startPos + 8 > endPos then []
    else
      match (readFull data (seekStart pos startPos) 8).err with
      | some _ => []
      | none =>
        if slice (readFull data (seekStart pos startPos) 8).buf 0 4 = str "LIST" then
          match (readFull data (readFull data (seekStart pos startPos) 8).pos 4).err with
          | some _ => aviStrlFinals rt data fuel (readFull data (readFull data (seekStart pos startPos) 8).pos 4).pos (aviAlign ((readFull data (seekStart pos startPos) 8).pos + (leUint (slice (readFull data (seekStart pos startPos) 8).buf 4 8) : Nat))) endPos info
          | none =>
            if (readFull data (readFull data (seekStart pos startPos) 8).pos 4).buf = str "hdrl" then
              match aviIterateChunks rt data fuel (readFull data (readFull data (seekStart pos startPos) 8).pos 4).pos (readFull data (readFull data (seekStart pos startPos) 8).pos 4).pos ((readFull data (seekStart pos startPos) 8).pos + (leUint (slice (readFull data (seekStart pos startPos) 8).buf 4 8) : Nat)) info with
              | none => []
              | some w =>
                aviStrlFinals rt data fuel (readFull data (readFull data (seekStart pos startPos) 8).pos 4).pos (readFull data (readFull data (seekStart pos startPos) 8).pos 4).pos ((readFull data (seekStart pos startPos) 8).pos + (leUint (slice (readFull data (seekStart pos startPos) 8).buf 4 8) : Nat)) info ++
                  aviStrlFinals rt data fuel w.pos (aviAlign ((readFull data (seekStart pos startPos) 8).pos + (leUint (slice (readFull data (seekStart pos startPos) 8).buf 4 8) : Nat))) endPos w.st
            else if (readFull data (readFull data (seekStart pos startPos) 8).pos 4).buf = str "strl" then
              match aviStreamLoop rt data ((readFull data (seekStart pos startPos) 8).pos + (leUint (slice (readFull data (seekStart pos startPos) 8).buf 4 8) : Nat)) (data.length + 1)
                  (seekStart (readFull data (readFull data (seekStart pos startPos) 8).pos 4).pos (readFull data (readFull data (seekStart pos startPos) 8).pos 4).pos) ⟨[], [], info⟩ with
              | none => []
              | some r =>
                r.2 :: aviStrlFinals rt data fuel r.1 (aviAlign ((readFull data (seekStart pos startPos) 8).pos + (leUint (slice (readFull data (seekStart pos startPos) 8).buf 4 8) : Nat))) endPos (aviStreamCommit rt r.2)
            else aviStrlFinals rt data fuel (readFull data (readFull data (seekStart pos startPos) 8).pos 4).pos (aviAlign ((readFull data (seekStart pos startPos) 8).pos + (leUint (slice (readFull data (seekStart pos startPos) 8).buf 4 8) : Nat))) endPos info
        else if slice (readFull data (seekStart pos startPos) 8).buf 0 4 = str "avih" then
          aviStrlFinals rt data fuel (aviParseMainHeader rt data (readFull data (seekStart pos startPos) 8).pos (leUint (slice (readFull data (seekStart pos startPos) 8).buf 4 8) : Nat) (readFull data (seekStart pos startPos) 8).pos info).1 (aviAlign ((readFull data (seekStart pos startPos) 8).pos + (leUint (slice (readFull data (seekStart pos startPos) 8).buf 4 8) : Nat))) endPos (aviParseMainHeader rt data (readFull data (seekStart pos startPos) 8).pos (leUint (slice (readFull data (seekStart pos startPos) 8).buf 4 8) : Nat) (readFull data (seekStart pos startPos) 8).pos info).2
        else aviStrlFinals rt data fuel (readFull data (seekStart pos startPos) 8).pos (aviAlign ((readFull data (seekStart pos startPos) 8).pos + (leUint (slice (readFull data (seekStart pos startPos) 8).buf 4 8) : Nat))) endPos info := by
  rfl

theorem aviIterateChunks_codec_nil (rt : GoRuntime) (data : List Byte) :
    ∀ (fuel : Nat) (pos startPos endPos : Int) (info : FileInfo rt.F) (w : Walk (FileInfo rt.F)),
      aviIterateChunks rt data fuel pos startPos endPos info = some w →
      w.err = none ∧
      (w.st.Codec = [] ↔ info.Codec = [] ∧
        ∀ v ∈ aviStrlFinals rt data fuel pos startPos endPos info, ¬ NamesVideoCodec rt v) := by
  intro fuel
  induction fuel with
  | zero =>
    intro pos startPos endPos info w hw
    have h0 : aviIterateChunks rt data 0 pos startPos endPos info = none := rfl
    rw [h0] at hw
    cases hw
  | succ fuel ih =>
    intro pos startPos endPos info w hw
    rw [aviIterateChunks_succ] at hw
    rw [aviStrlFinals_succ]
    generalize readFull data (seekStart pos startPos) 8 = H at hw ⊢
    by_cases hend : seekStart pos startPos + 8 > endPos
    · rw [if_pos hend] at hw ⊢
      cases hw
      simp
    · rw [if_neg hend] at hw ⊢
      cases he : H.err with
      | some e =>
        simp only [he] at hw ⊢
        cases hw
        simp
      | none =>
        simp only [he] at hw ⊢
        generalize aviAlign (H.pos + (leUint (slice H.buf 4 8) : Nat)) = N at hw ⊢
        by_cases c1 : slice H.buf 0 4 = str "LIST"
        · rw [if_pos c1] at hw ⊢
          generalize readFull data H.pos 4 = L at hw ⊢
          cases hlt : L.err with
          | some e =>
            simp only [hlt] at hw ⊢
            exact ih _ _ _ _ w hw
          | none =>
            simp only [hlt] at hw ⊢
            by_cases d1 : L.buf = str "hdrl"
            · rw [if_pos d1] at hw ⊢
              cases hn : aviIterateChunks rt data fuel L.pos L.pos
                  (H.pos + (leUint (slice H.buf 4 8) : Nat)) info with
              | none => rw [hn] at hw; cases hw
              | some w1 =>
                rw [hn] at hw
                simp only at hw ⊢
                obtain ⟨-, k1⟩ := ih _ _ _ _ w1 hn
                obtain ⟨e2, k2⟩ := ih _ _ _ _ w hw
                refine ⟨e2, ?_⟩
                rw [k2, k1]
                simp only [List.mem_append]
                constructor
                · rintro ⟨⟨hc, h1⟩, h2⟩
                  exact ⟨hc, fun v hv => hv.elim (h1 v) (h2 v)⟩
                · rintro ⟨hc, h⟩
                  exact ⟨⟨hc, fun v hv => h v (Or.inl hv)⟩, fun v hv => h v (Or.inr hv)⟩
            · rw [if_neg d1] at hw ⊢
              by_cases d2 : L.buf = str "strl"
              · rw [if_pos d2] at hw ⊢
                simp only [aviParseStreamList] at hw
                cases hs : aviStreamLoop rt data (H.pos + (leUint (slice H.buf 4 8) : Nat))
                    (data.length + 1) (seekStart L.pos L.pos) ⟨[], [], info⟩ with
                | none => rw [hs] at hw; cases hw
                | some r =>
                  rw [hs] at hw
                  simp only at hw ⊢
                  obtain ⟨e2, k2⟩ := ih _ _ _ _ w hw
                  refine ⟨e2, ?_⟩
                  have hc := aviStreamLoop_codec rt data _ _ _ _ r hs
                  rw [k2, aviStreamCommit_codec_nil, hc]
                  simp only [List.mem_cons]
                  constructor
                  · rintro ⟨⟨hc, h1⟩, h2⟩
                    exact ⟨hc, fun v hv => hv.elim (fun e => e ▸ h1) (h2 v)⟩
                  · rintro ⟨hc, h⟩
                    exact ⟨⟨hc, h r.2 (Or.inl rfl)⟩, fun v hv => h v (Or.inr hv)⟩
              · rw [if_neg d2] at hw ⊢
                exact ih _ _ _ _ w hw
        · rw [if_neg c1] at hw ⊢
          by_cases c2 : slice H.buf 0 4 = str "avih"
          · rw [if_pos c2] at hw ⊢
            obtain ⟨e2, k2⟩ := ih _ _ _ _ w hw
            refine ⟨e2, ?_⟩
            rw [k2, aviParseMainHeader_codec]
          · rw [if_neg c2] at hw ⊢
            exact ih _ _ _ _ w hw

theorem list_length_four (l : List Byte) (h : l.length = 4) : ∃ a b c d, l = [a, b, c, d] := by
  match l, h with
  | [a, b, c, d], _ => exact ⟨a, b, c, d, rfl⟩

theorem readFull_riff_header (data size rest : List Byte) (hsize : size.length = 4)
    (hd : data = str "RIFF" ++ size ++ str "AVI " ++ rest) :
    readFull data 0 12 = ⟨12, str "RIFF" ++ size ++ str "AVI ", none⟩ := by
  have hb : bytesFrom data 0 = (str "RIFF" ++ size ++ str "AVI ") ++ rest := by
    rw [hd]; simp [bytesFrom]
  have hl : (str "RIFF" ++ size ++ str "AVI ").length = 12 := by
    simp only [List.length_append, hsize]; rfl
  have := readFull_append data 0 _ rest hb
  rw [hl] at this
  rw [this]
  rfl

theorem parseAVI_valid_header (rt : GoRuntime) (path : GoString) (data size rest : List Byte)
    (hsize : size.length = 4) (hd : data = str "RIFF" ++ size ++ str "AVI " ++ rest) :
    ∃ w, aviIterateChunks rt data (data.length + 1) 12 12
        (aviParseLimit (leUint size) data.length) (newFileInfo rt path data.length) = some w ∧
      w.err = none ∧
      parseAVI rt path data =
        if w.st.Codec = [] then some (Except.error (GoError.msg "no video stream found"))
        else some (Except.ok w.st) := by
  have hrd := readFull_riff_header data size rest hsize hd
  obtain ⟨a, b, c, d, rfl⟩ := list_length_four size hsize
  have ht := aviIterateChunks_terminates rt data (data.length + 1) 12 12
    (aviParseLimit (leUint [a, b, c, d]) data.length) (newFileInfo rt path data.length)
    (by rw [seekStart_nonneg _ _ (by norm_num)]; norm_num)
    (by rw [seekStart_nonneg _ _ (by norm_num)]; omega)
  obtain ⟨w, hw⟩ := Option.isSome_iff_exists.mp ht
  have herr := (aviIterateChunks_codec_nil rt data _ _ _ _ _ w hw).1
  refine ⟨w, hw, herr, ?_⟩
  have h1 : slice (str "RIFF" ++ [a, b, c, d] ++ str "AVI ") 0 4 = str "RIFF" := rfl
  have h2 : slice (str "RIFF" ++ [a, b, c, d] ++ str "AVI ") 8 12 = str "AVI " := rfl
  have h3 : slice (str "RIFF" ++ [a, b, c, d] ++ str "AVI ") 4 8 = [a, b, c, d] := rfl
  have hneg : ¬ (slice (str "RIFF" ++ [a, b, c, d] ++ str "AVI ") 0 4 ≠ str "RIFF" ∨
      slice (str "RIFF" ++ [a, b, c, d] ++ str "AVI ") 8 12 ≠ str "AVI ") := by
    rw [h1, h2]; simp
  simp only [parseAVI, hrd, if_neg hneg, h3, hw, herr]

/-- C16 (as amended): for a file that starts with `RIFF`, four size bytes and
`AVI `, `parseAVI` fails with 'no video stream found' if and only if no `strl`
list walked within the parse region names a video codec, that is, ends with
the stream type `vids` and a FourCC for which `aviCodecName` is not empty; when
some walked list does, `parseAVI` returns a record. -/
theorem parseAVI_no_video_stream_iff (rt : GoRuntime) (path : GoString)
    (data size rest : List Byte) (hsize : size.length = 4)
    (hd : data = str "RIFF" ++ size ++ str "AVI " ++ rest) :
    (parseAVI rt path data = some (Except.error (GoError.msg "no video stream found")) ↔
      ∀ v ∈ aviStrlFinals rt data (data.length + 1) 12 12
        (aviParseLimit (leUint size) data.length) (newFileInfo rt path data.length),
        ¬ NamesVideoCodec rt v) ∧
    ((∃ v ∈ aviStrlFinals rt data (data.length + 1) 12 12
        (aviParseLimit (leUint size) data.length) (newFileInfo rt path data.length),
        NamesVideoCodec rt v) →
      ∃ info, parseAVI rt path data = some (Except.ok info)) := by
  obtain ⟨w, hw, -, hp⟩ := parseAVI_valid_header rt path data size rest hsize hd
  have hk := (aviIterateChunks_codec_nil rt data _ _ _ _ _ w hw).2
  have hnew : (newFileInfo rt path data.length).Codec = [] := rfl
  simp only [hnew, true_and] at hk
  rw [hp, ← hk]
  constructor
  · by_cases hc : w.st.Codec = []
    · simp [hc]
    · simp [hc]
  · rintro ⟨v, hv, hn⟩
    have hc : w.st.Codec ≠ [] := fun hc => (hk.mp hc) v hv hn
    exact ⟨w.st, by rw [if_neg hc]⟩

set_option maxRecDepth 100000 in

theorem parseAVI_no_video_stream_iff_witness :
    parseAVI exactRuntime (str "a.avi") aviVidsNulFourCC =
      some (Except.error (GoError.msg "no video stream found")) ∧
    ∃ info, parseAVI exactRuntime (str "a.avi") aviFirstVideoStream = some (Except.ok info) :=
  ⟨(parseAVI_no_video_stream_iff exactRuntime (str "a.avi") aviVidsNulFourCC (le32 140)
      (riffChunk "LIST" (str "hdrl" ++ strlVids (zeros 4) 640 480 250)) rfl rfl).1.2
      (by decide),
    (parseAVI_no_video_stream_iff exactRuntime (str "a.avi") aviFirstVideoStream (le32 140)
      (riffChunk "LIST" (str "hdrl" ++ strlVids (str "H264") 640 480 250)) rfl rfl).2
      ⟨_, List.Mem.head _, by decide⟩⟩

set_option maxRecDepth 100000 in

/-- C16 (counterexample): the file has one `strl` list (data range
`[36, 148)`) whose `strh` chunk carries the stream-type tag `vids` at offset 44
and a FourCC of four NUL bytes; the list is walked and ends with stream type
`vids`, yet `parseAVI` fails with 'no video stream found'. -/
theorem parseAVI_fails_with_vids_tag :
    slice aviVidsNulFourCC 44 48 = str "vids" ∧
    (∃ r, aviStreamLoop exactRuntime aviVidsNulFourCC 148 (aviVidsNulFourCC.length + 1) 36
        ⟨[], [], newFileInfo exactRuntime (str "a.avi") aviVidsNulFourCC.length⟩ = some r ∧
      r.2.streamType = str "vids" ∧ r.2.codecFourCC = []) ∧
    parseAVI exactRuntime (str "a.avi") aviVidsNulFourCC =
      some (Except.error (GoError.msg "no video stream found")) :=
  ⟨rfl, ⟨_, rfl, rfl, rfl⟩, rfl⟩

theorem mvhd_mdhd_fields_witness :
    (mp4ParseMvhd headerV0 0 20 0).err = none ∧
    (mp4ParseMvhd headerV0 0 20 0).timescale = 1000 ∧
    (mp4ParseMvhd headerV0 0 20 0).duration = 5000 ∧
    (mp4ParseMdhd headerV0 0 20 0).2 = (1000, 5000) :=
  ⟨(((mvhd_mdhd_fields headerV0 0 20 0).1 rfl).1 (by decide)).1,
    (((mvhd_mdhd_fields headerV0 0 20 0).1 rfl).1 (by decide)).2.1.trans rfl,
    (((mvhd_mdhd_fields headerV0 0 20 0).1 rfl).1 (by decide)).2.2.1.trans rfl,
    (((mvhd_mdhd_fields headerV0 0 20 0).1 rfl).1 (by decide)).2.2.2.trans rfl⟩

theorem mp4SttsLoop_sum (data : List Byte) :
    ∀ (n p total : Nat), p + 8 * n ≤ data.length →
      (mp4SttsLoop data n (p : Int) total).2 % 2 ^ 32 =
        (total + ((List.range n).map
          (fun i => beUint ((data.drop (p + 8 * i)).take 4))).sum) % 2 ^ 32 ∧
      (total < 2 ^ 32 → (mp4SttsLoop data n (p : Int) total).2 < 2 ^ 32) := by
  intro n
  induction n with
  | zero =>
    intro p total _
    simp [mp4SttsLoop]
  | succ n ih =>
    intro p total hfit
    have hr : readFull data (p : Int) 8 = ⟨(p : Int) + 8, (data.drop p).take 8, none⟩ := by
      have := readFull_ok data (p : Int) 8
        (by rw [bytesFrom_natCast, List.length_drop]; omega)
      rw [this, bytesFrom_natCast]
      rfl
    have hsl : slice ((data.drop p).take 8) 0 4 = (data.drop p).take 4 := by
      rw [slice_take _ 0 4 8 (by norm_num)]
      rfl
    have hcast : (p : Int) + 8 = ((p + 8 : Nat) : Int) := by push_cast; rfl
    rw [mp4SttsLoop]
    simp only [hr, hsl, hcast]
    obtain ⟨h1, h2⟩ := ih (p + 8) ((total + beUint ((data.drop p).take 4)) % 2 ^ 32) (by omega)
    refine ⟨?_, fun _ => h2 (Nat.mod_lt _ (by norm_num))⟩
    rw [h1, List.range_succ_eq_map, List.map_cons, List.sum_cons, List.map_map]
    have hf : (fun i => beUint ((data.drop (p + 8 + 8 * i)).take 4)) =
        ((fun i => beUint ((data.drop (p + 8 * i)).take 4)) ∘ Nat.succ) := by
      funext i
      simp only [Function.comp, Nat.succ_eq_add_one]
      rw [show p + 8 * (i + 1) = p + 8 + 8 * i by ring]
    rw [hf]
    simp only [Nat.mul_zero, Nat.add_zero]
    rw [Nat.add_mod, Nat.mod_mod, ← Nat.add_mod, Nat.add_assoc]

/-- C21 (as amended): for an `stts` payload whose `entry_count` field is `n`
and that is followed by `n` complete 8-byte entries, `mp4ParseStts` returns the
sum of the `n` `sample_count` fields reduced modulo `2^32` (the total is a
`uint32`), hence the sum itself when it is below `2^32`. -/
theorem mp4ParseStts_sum_mod (data : List Byte) (pos size : Int) (offset : Nat)
    (hfit : 8 + 8 * beUint (((data.drop offset).drop 4).take 4) ≤ (data.drop offset).length) :
    (mp4ParseStts data pos size offset).2 =
      (sttsSampleCounts (data.drop offset)
        (beUint (((data.drop offset).drop 4).take 4))).sum % 2 ^ 32 ∧
    ((sttsSampleCounts (data.drop offset)
        (beUint (((data.drop offset).drop 4).take 4))).sum < 2 ^ 32 →
      (mp4ParseStts data pos size offset).2 =
        (sttsSampleCounts (data.drop offset)
          (beUint (((data.drop offset).drop 4).take 4))).sum) := by
  have hs : ∀ cur, seekStart cur ((offset : Int) + 4) = (offset : Int) + 4 :=
    fun cur => seekStart_nonneg _ _ (by omega)
  have hr := readFull_payload_ok data offset 4 4 (by omega)
  simp only [Nat.cast_ofNat] at hr
  have hlen : offset + 8 + 8 * beUint (((data.drop offset).drop 4).take 4) ≤ data.length := by
    rw [List.length_drop] at hfit
    omega
  have hcast : (offset : Int) + 4 + 4 = ((offset + 8 : Nat) : Int) := by
    push_cast; ring
  obtain ⟨h1, h2⟩ := mp4SttsLoop_sum data (beUint (((data.drop offset).drop 4).take 4))
    (offset + 8) 0 hlen
  have hsum : ((List.range (beUint (((data.drop offset).drop 4).take 4))).map
      (fun i => beUint ((data.drop (offset + 8 + 8 * i)).take 4))) =
      sttsSampleCounts (data.drop offset) (beUint (((data.drop offset).drop 4).take 4)) := by
    simp only [sttsSampleCounts, List.drop_drop]
    apply List.map_congr_left
    intro i _
    rw [show offset + 8 + 8 * i = offset + (8 + 8 * i) by ring]
  have key : (mp4ParseStts data pos size offset).2 =
      (sttsSampleCounts (data.drop offset)
        (beUint (((data.drop offset).drop 4).take 4))).sum % 2 ^ 32 := by
    simp only [mp4ParseStts, hs, hr, hcast]
    rw [← Nat.mod_eq_of_lt (h2 (by norm_num)), h1, Nat.zero_add, hsum]
  exact ⟨key, fun hlt => by rw [key, Nat.mod_eq_of_lt hlt]⟩

theorem mp4ParseStts_sum_mod_witness :
    (mp4ParseStts sttsThreeFive 0 24 0).2 = 8 :=
  ((mp4ParseStts_sum_mod sttsThreeFive 0 24 0 (by decide)).2 (by decide)).trans (by decide)

/-- C21 (counterexample): the payload holds two complete entries with
`sample_count` `2^31` each; their sum is `2^32`, and `mp4ParseStts` returns 0. -/
theorem mp4ParseStts_wraps :
    8 + 8 * beUint ((sttsTwoHalves.drop 4).take 4) ≤ sttsTwoHalves.length ∧
    (sttsSampleCounts sttsTwoHalves 2).sum = 2 ^ 32 ∧
    (mp4ParseStts sttsTwoHalves 0 24 0).2 = 0 := by
  decide

theorem take_four_eq (l : List Byte) (a b c d : Byte) (h : l.take 4 = [a, b, c, d]) :
    ∃ rest, l = a :: b :: c :: d :: rest := by
  match l, h with
  | x :: y :: z :: w :: rest, h =>
    simp only [List.take_succ_cons, List.take_zero, List.cons.injEq, and_true] at h
    obtain ⟨rfl, rfl, rfl, rfl⟩ := h
    exact ⟨rest, rfl⟩

/-- An ID read returns a given four-byte ID exactly when the four bytes at the
cursor are the bytes of that ID. -/
theorem ebmlReadElementID_four (data : List Byte) (pos : Int) (h0 : 0 ≤ pos)
    (a b c d : Byte) (ha : a ≠ 0) (hv : vintLength a = 4) :
    ((ebmlReadElementID data pos).err = none ∧
        (ebmlReadElementID data pos).value = beUint [a, b, c, d]) ↔
      (bytesFrom data pos).take 4 = [a, b, c, d] := by
  constructor
  · rintro ⟨he, hval⟩
    rcases ebmlReadElementID_cases data pos h0 with ⟨-, hn, -⟩ | ⟨rest, -, hn, -⟩ |
      ⟨x, rest, -, -, -, hn, -⟩ | ⟨x, rest, hs, hx, hlen, hr⟩
    · exact absurd he hn
    · exact absurd he hn
    · exact absurd he hn
    · rw [hr] at hval
      simp only at hval
      obtain ⟨l1, l2⟩ := vint_raw_bounds x hx rest hlen
      obtain ⟨t1, t2⟩ := vint_raw_bounds a ha [b, c, d] (by rw [hv]; simp)
      rw [hv] at t1 t2
      have tk : (a :: [b, c, d]).take 4 = [a, b, c, d] := rfl
      rw [tk] at t1 t2
      rw [hval] at l1 l2
      obtain ⟨-, g2, g3, -⟩ := ebmlMarker_facts x hx
      have hL : vintLength x = 4 := by
        generalize vintLength x = L at *
        interval_cases L <;> simp at l1 l2 t1 t2 <;> omega
      rw [hL] at hval hlen
      rw [hs]
      apply beUint_inj _ _ _ hval
      simp [List.length_take]
      omega
  · intro h
    obtain ⟨rest, hs⟩ := take_four_eq _ a b c d h
    have := ebmlReadElementID_ok data pos h0 a (b :: c :: d :: rest) hs ha (by rw [hv]; simp)
    rw [this, hv]
    exact ⟨rfl, rfl⟩

theorem ebmlReadElement_id (data : List Byte) (pos : Int)
    (h : (ebmlReadElement data pos).err = none) :
    (ebmlReadElementID data pos).err = none ∧
      (ebmlReadElement data pos).id = (ebmlReadElementID data pos).value := by
  simp only [ebmlReadElement] at h ⊢
  cases hid : (ebmlReadElementID data pos).err with
  | some e => simp [hid] at h
  | none =>
    simp only [hid] at h ⊢
    cases hsz : (ebmlReadVINT data (ebmlReadElementID data pos).pos).err with
    | some e => simp [hsz] at h
    | none => simp only [hsz]; trivial

theorem asciiLower_not_upper : ∀ b : Byte, ¬ (65 ≤ (asciiLower b).val ∧ (asciiLower b).val ≤ 90) := by
  decide!

theorem hasUpper_map_asciiLower (s : GoString) : hasUpper (s.map asciiLower) = false := by
  simp only [hasUpper, List.any_eq_false, List.mem_map, decide_eq_true_eq]
  rintro b ⟨a, -, rfl⟩
  exact asciiLower_not_upper a

theorem toLower_ascii (rt : GoRuntime) (s : GoString) (h : isAscii s = true) :
    toLower rt s = s.map asciiLower := by
  simp only [isAscii] at h
  simp only [toLower]
  rw [if_pos h]

theorem hasUpper_toLower (rt : GoRuntime) (s : GoString) (h : isAscii s = true) :
    hasUpper (toLower rt s) = false := by
  rw [toLower_ascii rt s h]
  exact hasUpper_map_asciiLower s

theorem hasUpper_ite (c : Prop) [Decidable c] (a b : GoString) (ha : hasUpper a = false)
    (hb : hasUpper b = false) : hasUpper (if c then a else b) = false := by
  split <;> assumption

theorem isAscii_of_sublist (s t : GoString) (hs : List.Sublist t s) (h : isAscii s = true) :
    isAscii t = true := by
  simp only [isAscii, List.all_eq_true] at h ⊢
  exact fun b hb => h b (hs.subset hb)

theorem isAscii_trimPrefixStr (s p : GoString) (h : isAscii s = true) :
    isAscii (trimPrefixStr s p) = true := by
  simp only [trimPrefixStr]
  split
  · exact isAscii_of_sublist s _ (List.drop_sublist _ _) h
  · exact h

theorem isAscii_trimRightNul (s : GoString) (h : isAscii s = true) :
    isAscii (trimRightNul s) = true :=
  isAscii_of_sublist s _ (List.rdropWhile_prefix _ _).sublist h

theorem mp4CodecName_cases (f : GoString) :
    mp4CodecName f = f ∨ hasUpper (mp4CodecName f) = false := by
  simp only [mp4CodecName]
  split_ifs with h1 h2 h3 h4 h5 h6 h7
  all_goals first
    | exact Or.inl rfl
    | exact Or.inr (by decide)

theorem mp4AudioCodecName_cases (f : GoString) :
    mp4AudioCodecName f = f ∨ hasUpper (mp4AudioCodecName f) = false := by
  simp only [mp4AudioCodecName]
  split_ifs with h1 h2 h3 h4 h5 h6 h7
  all_goals first
    | exact Or.inl rfl
    | exact Or.inr (by decide)

theorem mkvCodecName_cases (rt : GoRuntime) (c : GoString) (h : isAscii c = true) :
    (hasPrefixStr c (str "V_") = true → hasUpper (mkvCodecName rt c) = false) ∧
    (hasPrefixStr c (str "V_") = false → mkvCodecName rt c = c) := by
  constructor
  · intro hp
    unfold mkvCodecName
    iterate 8 refine hasUpper_ite _ _ _ rfl ?_
    rw [if_pos hp]
    exact hasUpper_toLower rt _ (isAscii_trimPrefixStr c _ h)
  · intro hp
    have hne : ∀ t, hasPrefixStr t (str "V_") = true → c ≠ t := by
      intro t ht hc
      rw [hc, ht] at hp
      cases hp
    unfold mkvCodecName
    rw [if_neg (hne (str "V_MPEG4/ISO/AVC") rfl), if_neg (hne (str "V_MPEGH/ISO/HEVC") rfl),
      if_neg (hne (str "V_VP8") rfl), if_neg (hne (str "V_VP9") rfl),
      if_neg (hne (str "V_AV1") rfl),
      if_neg (by
        rintro (h1 | h1 | h1)
        · exact hne (str "V_MPEG4/ISO/SP") rfl h1
        · exact hne (str "V_MPEG4/ISO/ASP") rfl h1
        · exact hne (str "V_MPEG4/ISO/AP") rfl h1),
      if_neg (hne (str "V_MPEG2") rfl), if_neg (hne (str "V_MPEG1") rfl),
      if_neg (by rw [hp]; exact Bool.false_ne_true)]

theorem mkvAudioCodecName_cases (rt : GoRuntime) (c : GoString) (h : isAscii c = true) :
    (hasPrefixStr c (str "A_") = true → hasUpper (mkvAudioCodecName rt c) = false) ∧
    (hasPrefixStr c (str "A_") = false → mkvAudioCodecName rt c = c) := by
  constructor
  · intro hp
    unfold mkvAudioCodecName
    iterate 10 refine hasUpper_ite _ _ _ rfl ?_
    rw [if_pos hp]
    exact hasUpper_toLower rt _ (isAscii_trimPrefixStr c _ h)
  · intro hp
    have hne : ∀ t, hasPrefixStr t (str "A_") = true → c ≠ t := by
      intro t ht hc
      rw [hc, ht] at hp
      cases hp
    unfold mkvAudioCodecName
    rw [if_neg (by
        rintro (h1 | h1 | h1)
        · exact hne (str "A_AAC") rfl h1
        · exact hne (str "A_AAC/MPEG2/LC") rfl h1
        · exact hne (str "A_AAC/MPEG4/LC") rfl h1),
      if_neg (hne (str "A_VORBIS") rfl), if_neg (hne (str "A_OPUS") rfl),
      if_neg (hne (str "A_AC3") rfl), if_neg (hne (str "A_EAC3") rfl),
      if_neg (hne (str "A_DTS") rfl), if_neg (hne (str "A_FLAC") rfl),
      if_neg (hne (str "A_MPEG/L3") rfl), if_neg (hne (str "A_MPEG/L2") rfl),
      if_neg (hne (str "A_PCM/INT/LIT") rfl),
      if_neg (by rw [hp]; exact Bool.false_ne_true)]

theorem aviCodecName_lower (rt : GoRuntime) (f : GoString) (h : isAscii f = true) :
    hasUpper (aviCodecName rt f) = false := by
  unfold aviCodecName
  dsimp only
  iterate 11 refine hasUpper_ite _ _ _ rfl ?_
  exact hasUpper_ite _ _ _ (hasUpper_toLower rt _ h) rfl

theorem aviAudioCodecName_lower (rt : GoRuntime) (t : GoString) (h : isAscii t = true) :
    hasUpper (aviAudioCodecName rt t) = false := by
  unfold aviAudioCodecName
  dsimp only
  iterate 3 refine hasUpper_ite _ _ _ rfl ?_
  exact hasUpper_ite _ _ _ (hasUpper_toLower rt _ (isAscii_trimRightNul t h)) rfl

/-- C25 (as amended): for every identifier of ASCII bytes, `aviCodecName` and
`aviAudioCodecName` return a string without upper-case ASCII letter, and so do
`mkvCodecName` and `mkvAudioCodecName` for an identifier that starts with `V_`,
respectively `A_`; without that prefix the Matroska resolvers return the
identifier unchanged, and `mp4CodecName` and `mp4AudioCodecName` return either
the identifier unchanged or a string without upper-case ASCII letter. -/
theorem codec_names_letter_case (rt : GoRuntime) (s : GoString) (h : isAscii s = true) :
    hasUpper (aviCodecName rt s) = false ∧ hasUpper (aviAudioCodecName rt s) = false ∧
    (hasPrefixStr s (str "V_") = true → hasUpper (mkvCodecName rt s) = false) ∧
    (hasPrefixStr s (str "V_") = false → mkvCodecName rt s = s) ∧
    (hasPrefixStr s (str "A_") = true → hasUpper (mkvAudioCodecName rt s) = false) ∧
    (hasPrefixStr s (str "A_") = false → mkvAudioCodecName rt s = s) ∧
    (mp4CodecName s = s ∨ hasUpper (mp4CodecName s) = false) ∧
    (mp4AudioCodecName s = s ∨ hasUpper (mp4AudioCodecName s) = false) :=
  ⟨aviCodecName_lower rt s h, aviAudioCodecName_lower rt s h,
    (mkvCodecName_cases rt s h).1, (mkvCodecName_cases rt s h).2,
    (mkvAudioCodecName_cases rt s h).1, (mkvAudioCodecName_cases rt s h).2,
    mp4CodecName_cases s, mp4AudioCodecName_cases s⟩

theorem codec_names_letter_case_witness :
    hasUpper (aviCodecName exactRuntime (str "XYZ9")) = false ∧
    hasUpper (mkvCodecName exactRuntime (str "V_THEORA")) = false ∧
    mkvAudioCodecName exactRuntime (str "V_THEORA") = str "V_THEORA" :=
  ⟨(codec_names_letter_case exactRuntime (str "XYZ9") (by decide)).1,
    (codec_names_letter_case exactRuntime (str "V_THEORA") (by decide)).2.2.1 (by decide),
    (codec_names_letter_case exactRuntime (str "V_THEORA") (by decide)).2.2.2.2.2.1 (by decide)⟩

/-- C25 (counterexample): the unrecognised FourCC `SVQ3` and the unrecognised
Matroska identifier `S_TEXT/UTF8` pass through the ISO-BMFF resolvers and the
Matroska resolvers with their upper-case letters. -/
theorem codec_names_keep_upper :
    mp4CodecName (str "SVQ3") = str "SVQ3" ∧ hasUpper (mp4CodecName (str "SVQ3")) = true ∧
    mp4AudioCodecName (str "SAMR") = str "SAMR" ∧
    hasUpper (mp4AudioCodecName (str "SAMR")) = true ∧
    (∀ rt : GoRuntime, mkvCodecName rt (str "S_TEXT/UTF8") = str "S_TEXT/UTF8" ∧
      mkvAudioCodecName rt (str "S_TEXT/UTF8") = str "S_TEXT/UTF8") ∧
    hasUpper (str "S_TEXT/UTF8") = true :=
  ⟨by decide, by decide, by decide, by decide, fun _ => ⟨rfl, rfl⟩, by decide⟩

theorem trimRightNul_of_last (s : GoString) (h : s.getLast? ≠ some 0) : trimRightNul s = s := by
  simp only [trimRightNul]
  induction s using List.reverseRecOn with
  | nil => rfl
  | append_singleton l x _ =>
    have hx : x ≠ 0 := by
      intro hx
      apply h
      simp [hx]
    rw [List.rdropWhile_concat]
    simp [hx]

/-- C26 (as amended): for every non-empty FourCC whose upper-cased form is no
entry of the table, `aviCodecName` returns the FourCC lower-cased; for every
non-empty tag whose upper-cased form is no entry of its table,
`aviAudioCodecName` returns the tag lower-cased after its trailing NUL bytes
are trimmed, which is the tag lower-cased when it does not end in a NUL byte. -/
theorem avi_unknown_codec_passes_lowercased (rt : GoRuntime) (s : GoString) (hne : s ≠ []) :
    (toUpper rt s ∉ aviVideoTable → aviCodecName rt s = toLower rt s) ∧
    (toUpper rt s ∉ aviAudioTable →
      aviAudioCodecName rt s = toLower rt (trimRightNul s) ∧
      (s.getLast? ≠ some 0 → aviAudioCodecName rt s = toLower rt s)) := by
  constructor
  · intro ht
    simp only [aviVideoTable, List.mem_cons, List.mem_singleton, not_or, List.mem_nil_iff,
      not_false_eq_true, and_true] at ht
    obtain ⟨h1, h2, h3, h4, h5, h6, h7, h8, h9, h10, h11, h12, h13, h14, h15, h16, h17, h18,
      h19, h20, h21, h22⟩ := ht
    unfold aviCodecName
    dsimp only
    rw [if_neg (by rintro (h | h | h) <;> contradiction),
      if_neg (by rintro (h | h | h | h) <;> contradiction),
      if_neg (by rintro (h | h | h | h | h) <;> contradiction),
      if_neg (by rintro (h | h) <;> contradiction),
      if_neg h15, if_neg h16, if_neg h17, if_neg h18, if_neg h19, if_neg h20,
      if_neg (by rintro (h | h) <;> contradiction), if_pos hne]
  · intro ht
    simp only [aviAudioTable, List.mem_cons, List.mem_singleton, not_or, List.mem_nil_iff,
      not_false_eq_true, and_true] at ht
    obtain ⟨h1, h2, h3, h4, h5⟩ := ht
    have key : aviAudioCodecName rt s = toLower rt (trimRightNul s) := by
      unfold aviAudioCodecName
      dsimp only
      rw [if_neg (by rintro (h | h | h) <;> contradiction), if_neg h4, if_neg h5, if_pos hne]
    exact ⟨key, fun hl => by rw [key, trimRightNul_of_last s hl]⟩

theorem avi_unknown_codec_passes_lowercased_witness :
    aviCodecName exactRuntime (str "XYZ9") = str "xyz9" ∧
    aviAudioCodecName exactRuntime (str "XYZ9") = str "xyz9" :=
  ⟨((avi_unknown_codec_passes_lowercased exactRuntime (str "XYZ9") (by decide)).1
      (by decide)).trans (by decide),
    (((avi_unknown_codec_passes_lowercased exactRuntime (str "XYZ9") (by decide)).2
      (by decide)).2 (by decide)).trans (by decide)⟩

/-- C26 (counterexample): the tag `XY` followed by two NUL bytes is not empty
and matches no table entry; `aviAudioCodecName` returns `xy`, which is not the
tag lower-cased. -/
theorem aviAudioCodecName_trims_nul :
    (str "XY" ++ [0, 0] : GoString) ≠ [] ∧
    toUpper exactRuntime (str "XY" ++ [0, 0]) ∉ aviAudioTable ∧
    aviAudioCodecName exactRuntime (str "XY" ++ [0, 0]) = str "xy" ∧
    toLower exactRuntime (str "XY" ++ [0, 0]) = str "xy" ++ [0, 0] := by
  decide

/-- C27: with `ext` the lower-cased `filepath.Ext` of the path, `GetFileInfo`
returns the results of the native parser assigned to `ext` when that parser
returns no error, and otherwise (the parser returns an error, or no parser is
assigned) exactly the results of `getFileInfoFFprobe`. -/
theorem GetFileInfo_dispatch (rt : GoRuntime) (env : Probes rt.F) (path : GoString) :
    (∀ p, nativeParser env (toLower rt (filepathExt env.isPathSeparator path)) = some p →
      (p path).2 = none → GetFileInfo rt env path = p path) ∧
    (∀ p, nativeParser env (toLower rt (filepathExt env.isPathSeparator path)) = some p →
      (p path).2 ≠ none → GetFileInfo rt env path = env.getFileInfoFFprobe path) ∧
    (nativeParser env (toLower rt (filepathExt env.isPathSeparator path)) = none →
      GetFileInfo rt env path = env.getFileInfoFFprobe path) := by
  have hpair : ∀ r : InfoResult rt.F, r.2 = none → (r.1, (none : Option GoError)) = r := by
    rintro ⟨a, b⟩ h
    simp only at h
    rw [h]
  simp only [nativeParser, GetFileInfo, List.mem_cons, List.mem_singleton, List.mem_nil_iff,
    or_false]
  by_cases c1 : toLower rt (filepathExt env.isPathSeparator path) = str ".mp4" ∨
      toLower rt (filepathExt env.isPathSeparator path) = str ".mov" ∨
      toLower rt (filepathExt env.isPathSeparator path) = str ".m4v"
  · simp only [if_pos c1]
    refine ⟨?_, ?_, ?_⟩
    · intro p hp he; cases hp; rw [if_pos he]; exact hpair _ he
    · intro p hp he; cases hp; rw [if_neg he]
    · intro h; cases h
  · simp only [if_neg c1]
    by_cases c2 : toLower rt (filepathExt env.isPathSeparator path) = str ".mkv" ∨
        toLower rt (filepathExt env.isPathSeparator path) = str ".webm"
    · simp only [if_pos c2]
      refine ⟨?_, ?_, ?_⟩
      · intro p hp he; cases hp; rw [if_pos he]; exact hpair _ he
      · intro p hp he; cases hp; rw [if_neg he]
      · intro h; cases h
    · simp only [if_neg c2]
      by_cases c3 : toLower rt (filepathExt env.isPathSeparator path) = str ".avi"
      · simp only [if_pos c3]
        refine ⟨?_, ?_, ?_⟩
        · intro p hp he; cases hp; rw [if_pos he]; exact hpair _ he
        · intro p hp he; cases hp; rw [if_neg he]
        · intro h; cases h
      · simp only [if_neg c3]
        refine ⟨?_, ?_, ?_⟩
        · intro p hp; cases hp
        · intro p hp; cases hp
        · intro _; trivial

theorem GetFileInfo_dispatch_witness :
    toLower exactRuntime (filepathExt sampleProbes.isPathSeparator (str "/v/clip.one/Take.MP4")) =
      str ".mp4" ∧
    GetFileInfo exactRuntime sampleProbes (str "/v/clip.one/Take.MP4") =
      (some (recordOf "h264"), none) ∧
    GetFileInfo exactRuntime sampleProbes (str "/v/take.avi") = (some (recordOf "probe"), none) ∧
    GetFileInfo exactRuntime sampleProbes (str "/v/take.d/notes") =
      (some (recordOf "probe"), none) :=
  ⟨by decide,
    (GetFileInfo_dispatch exactRuntime sampleProbes (str "/v/clip.one/Take.MP4")).1
      sampleProbes.parseMP4 rfl rfl,
    (GetFileInfo_dispatch exactRuntime sampleProbes (str "/v/take.avi")).2.1
      sampleProbes.parseAVI rfl (by decide),
    (GetFileInfo_dispatch exactRuntime sampleProbes (str "/v/take.d/notes")).2.2 rfl⟩

theorem checkLoop_eq (rt : GoRuntime) (fo : FloatOps rt) (d0 t : rt.F) :
    ∀ (files : List (FileInfo rt.F)) (result : DurationCheckResult rt.F),
      checkLoop rt fo d0 t files result =
        (⟨result.HasMismatch || (files.filter (exceedsTolerance rt fo d0 t)).length != 0,
            result.BaseDuration, result.Tolerance,
            if (files.filter (exceedsTolerance rt fo d0 t)).length = 0 then result.MismatchFiles
            else some (result.MismatchFiles.getD [] ++
              (files.filter (exceedsTolerance rt fo d0 t)).map (mismatchDescriptor rt fo d0))⟩,
          files.map (fun f => if exceedsTolerance rt fo d0 t f
            then { f with HasDurationMismatch := true } else f)) := by
  intro files
  induction files with
  | nil => intro result; simp [checkLoop]
  | cons file rest ih =>
    intro result
    rw [checkLoop]
    by_cases hx : rt.lt t (fo.abs (fo.sub file.DurationSeconds d0)) = true
    · have hx' : exceedsTolerance rt fo d0 t file = true := hx
      simp only [hx, if_true, ih, List.filter_cons, hx', List.map_cons, List.length_cons,
        goAppend, Option.getD_some]
      simp [mismatchDescriptor]
    · have hx' : exceedsTolerance rt fo d0 t file = false := by
        simpa [exceedsTolerance] using hx
      simp only [hx, ih, List.filter_cons, hx', List.map_cons]
      simp

theorem CheckDurationMismatch_eq (rt : GoRuntime) (fo : FloatOps rt) (first : FileInfo rt.F)
    (rest : List (FileInfo rt.F)) (tolerance : rt.F) :
    CheckDurationMismatch rt fo (first :: rest) tolerance =
      (⟨((first :: rest).filter (exceedsTolerance rt fo first.DurationSeconds
            (effectiveTolerance rt fo tolerance))).length != 0,
          first.Duration, effectiveTolerance rt fo tolerance,
          some (((first :: rest).filter (exceedsTolerance rt fo first.DurationSeconds
            (effectiveTolerance rt fo tolerance))).map
              (mismatchDescriptor rt fo first.DurationSeconds))⟩,
        (first :: rest).map (fun f => if exceedsTolerance rt fo first.DurationSeconds
            (effectiveTolerance rt fo tolerance) f
          then { f with HasDurationMismatch := true } else f)) := by
  simp only [CheckDurationMismatch, checkLoop_eq]
  congr 1
  by_cases hl : ((first :: rest).filter (exceedsTolerance rt fo first.DurationSeconds
      (effectiveTolerance rt fo tolerance))).length = 0
  · simp [hl, List.length_eq_zero.mp hl]
  · simp [hl]

/-- C28: for a non-empty batch and a tolerance that is not `<= 0` (as every
`t > 0`), `CheckDurationMismatch` returns as `MismatchFiles` the descriptors
`(Path, Name, Duration, formatDiff(d_i - d_0))`, in input order, of exactly the
files with `|d_i - d_0| > t`; `HasMismatch` is true exactly when that list is
not empty, `BaseDuration` is the first file's `Duration`, and `Tolerance` is `t`. -/
theorem CheckDurationMismatch_result (rt : GoRuntime) (fo : FloatOps rt) (first : FileInfo rt.F)
    (rest : List (FileInfo rt.F)) (t : rt.F) (ht : fo.le t (rt.ofUint 0) = false) :
    (CheckDurationMismatch rt fo (first :: rest) t).1.MismatchFiles =
      some (((first :: rest).filter (exceedsTolerance rt fo first.DurationSeconds t)).map
        (mismatchDescriptor rt fo first.DurationSeconds)) ∧
    ((CheckDurationMismatch rt fo (first :: rest) t).1.HasMismatch = true ↔
      (first :: rest).filter (exceedsTolerance rt fo first.DurationSeconds t) ≠ []) ∧
    (CheckDurationMismatch rt fo (first :: rest) t).1.BaseDuration = first.Duration ∧
    (CheckDurationMismatch rt fo (first :: rest) t).1.Tolerance = t := by
  have he : effectiveTolerance rt fo t = t := by
    simp only [effectiveTolerance, ht]
    rfl
  rw [CheckDurationMismatch_eq, he]
  refine ⟨rfl, ?_, rfl, rfl⟩
  simp only [bne_iff_ne, ne_eq, List.length_eq_zero]

theorem CheckDurationMismatch_result_witness :
    (CheckDurationMismatch exactRuntime exactFloatOps
      [clip "a.mp4" 100 "00:00:10" false, clip "b.mp4" 103 "00:00:10" false,
        clip "c.mp4" 150 "00:00:15" false] ⟨1, 1⟩).1.MismatchFiles =
      some [⟨str "c.mp4", str "c.mp4", str "00:00:15", str "+5.0s"⟩] ∧
    (CheckDurationMismatch exactRuntime exactFloatOps
      [clip "a.mp4" 100 "00:00:10" false, clip "b.mp4" 103 "00:00:10" false,
        clip "c.mp4" 150 "00:00:15" false] ⟨1, 1⟩).1.HasMismatch = true :=
  ⟨(CheckDurationMismatch_result exactRuntime exactFloatOps (clip "a.mp4" 100 "00:00:10" false)
      [clip "b.mp4" 103 "00:00:10" false, clip "c.mp4" 150 "00:00:15" false] ⟨1, 1⟩
      (by decide)).1.trans (by decide),
    (CheckDurationMismatch_result exactRuntime exactFloatOps (clip "a.mp4" 100 "00:00:10" false)
      [clip "b.mp4" 103 "00:00:10" false, clip "c.mp4" 150 "00:00:15" false] ⟨1, 1⟩
      (by decide)).2.1.mpr (fun h => absurd (congrArg List.length h) (by decide))⟩

/-- C29 (evaluation at the failing input): two files of 10.0 s, the second with
its flag set before the call, tolerance 1.0.  No file exceeds the tolerance
and the result reports no mismatch, yet the second file leaves the call with
`HasDurationMismatch = true`: the loop sets the flag and never clears it. -/
theorem CheckDurationMismatch_keeps_stale_flag :
    exceedsTolerance exactRuntime exactFloatOps ⟨100, 10⟩ ⟨1, 1⟩
      (clip "b.mp4" 100 "00:00:10" true) = false ∧
    (CheckDurationMismatch exactRuntime exactFloatOps
      [clip "a.mp4" 100 "00:00:10" false, clip "b.mp4" 100 "00:00:10" true] ⟨1, 1⟩).1.HasMismatch =
        false ∧
    (CheckDurationMismatch exactRuntime exactFloatOps
      [clip "a.mp4" 100 "00:00:10" false, clip "b.mp4" 100 "00:00:10" true] ⟨1, 1⟩).1.MismatchFiles =
        some [] ∧
    (CheckDurationMismatch exactRuntime exactFloatOps
      [clip "a.mp4" 100 "00:00:10" false, clip "b.mp4" 100 "00:00:10" true] ⟨1, 1⟩).2.map
        (fun f => f.HasDurationMismatch) = [false, true] := by
  decide

theorem exact_sub_self (x t : Frac)
    (h : exactRuntime.lt t (exactFloatOps.abs (exactFloatOps.sub x x)) = true) :
    exactRuntime.lt t (exactRuntime.ofUint 0) = true := by
  simp only [exactRuntime, exactFloatOps, decide_eq_true_eq] at h ⊢
  obtain ⟨h1, h2, h3⟩ := h
  refine ⟨h1, by norm_num, ?_⟩
  simp only [sub_self, Int.natAbs_zero, Nat.cast_zero, zero_mul, Nat.cast_mul] at h3
  have hd : (0 : Int) < (x.den : Int) * (x.den : Int) := by
    have : 0 < x.den * x.den := Nat.pos_of_ne_zero h2
    exact_mod_cast this
  have : t.num < 0 := by
    by_contra hc
    have := mul_nonneg (not_lt.mp hc) hd.le
    omega
  simpa using this

theorem exact_lt_le (t : Frac) (h : exactRuntime.lt t (exactRuntime.ofUint 0) = true) :
    exactFloatOps.le t (exactRuntime.ofUint 0) = true := by
  simp only [exactRuntime, exactFloatOps, decide_eq_true_eq] at h ⊢
  exact ⟨h.1, h.2.1, h.2.2.le⟩

/-- C30: on a runtime where `|x - x| > t` implies `t < 0` (the difference of a
value with itself is zero or not a number), `t < 0` implies `t <= 0`, and
`1 < 0` is false, `CheckDurationMismatch` never finds the first file beyond
the effective tolerance: the first file keeps its flag and `MismatchFiles`
holds descriptors of later files only; an empty batch and a batch of one file
yield `HasMismatch = false` and an empty, non-nil `MismatchFiles`, and leave
the files as they are. -/
theorem CheckDurationMismatch_first_file (rt : GoRuntime) (fo : FloatOps rt)
    (hself : ∀ x t, rt.lt t (fo.abs (fo.sub x x)) = true → rt.lt t (rt.ofUint 0) = true)
    (hlt : ∀ t, rt.lt t (rt.ofUint 0) = true → fo.le t (rt.ofUint 0) = true)
    (hone : rt.lt (rt.ofUint 1) (rt.ofUint 0) = false) (tolerance : rt.F) :
    (∀ first : FileInfo rt.F, exceedsTolerance rt fo first.DurationSeconds
      (effectiveTolerance rt fo tolerance) first = false) ∧
    (∀ (first : FileInfo rt.F) (rest : List (FileInfo rt.F)),
      (CheckDurationMismatch rt fo (first :: rest) tolerance).2.head? = some first ∧
      (CheckDurationMismatch rt fo (first :: rest) tolerance).1.MismatchFiles =
        some ((rest.filter (exceedsTolerance rt fo first.DurationSeconds
          (effectiveTolerance rt fo tolerance))).map
            (mismatchDescriptor rt fo first.DurationSeconds))) ∧
    CheckDurationMismatch rt fo [] tolerance =
      (⟨false, [], effectiveTolerance rt fo tolerance, some []⟩, []) ∧
    (∀ first : FileInfo rt.F, CheckDurationMismatch rt fo [first] tolerance =
      (⟨false, first.Duration, effectiveTolerance rt fo tolerance, some []⟩, [first])) := by
  have h1 : ∀ first : FileInfo rt.F, exceedsTolerance rt fo first.DurationSeconds
      (effectiveTolerance rt fo tolerance) first = false := by
    intro first
    by_contra hc
    have hx : rt.lt (effectiveTolerance rt fo tolerance)
        (fo.abs (fo.sub first.DurationSeconds first.DurationSeconds)) = true := by
      simpa [exceedsTolerance] using hc
    have h0 := hself _ _ hx
    simp only [effectiveTolerance] at h0
    by_cases hle : fo.le tolerance (rt.ofUint 0) = true
    · rw [if_pos hle, hone] at h0
      cases h0
    · rw [if_neg hle] at h0
      exact hle (hlt _ h0)
  refine ⟨h1, ?_, rfl, ?_⟩
  · intro first rest
    rw [CheckDurationMismatch_eq]
    simp only [List.filter_cons, h1 first, List.map_cons, List.head?_cons]
    exact ⟨rfl, rfl⟩
  · intro first
    rw [CheckDurationMismatch_eq]
    simp [List.filter_cons, h1 first]

theorem CheckDurationMismatch_first_file_witness :
    CheckDurationMismatch exactRuntime exactFloatOps [clip "a.mp4" 100 "00:00:10" false] ⟨0, 1⟩ =
      (⟨false, str "00:00:10", ⟨1, 1⟩, some []⟩, [clip "a.mp4" 100 "00:00:10" false]) :=
  (CheckDurationMismatch_first_file exactRuntime exactFloatOps exact_sub_self exact_lt_le rfl
    ⟨0, 1⟩).2.2.2 (clip "a.mp4" 100 "00:00:10" false)

theorem aviIterateChunks_stop (rt : GoRuntime) (data : List Byte) (fuel : Nat)
    (pos startPos endPos : Int) (info : FileInfo rt.F)
    (hend : seekStart pos startPos + 8 > endPos) :
    aviIterateChunks rt data (fuel + 1) pos startPos endPos info =
      some ⟨seekStart pos startPos, info, none⟩ := by
  rw [aviIterateChunks_succ, if_pos hend]

theorem riff_header_read (data : List Byte) (p : Int) (h0 : 0 ≤ p) (id size rest : List Byte)
    (hs : bytesFrom data p = id ++ size ++ rest) (hid : id.length = 4) (hsize : size.length = 4) :
    readFull data p 8 = ⟨p + 8, id ++ size, none⟩ ∧ bytesFrom data (p + 8) = rest ∧
      slice (id ++ size) 0 4 = id ∧ slice (id ++ size) 4 8 = size := by
  have hl : (id ++ size).length = 8 := by rw [List.length_append, hid, hsize]
  have hs' : bytesFrom data p = (id ++ size) ++ rest := hs
  have h1 := readFull_append data p (id ++ size) rest hs'
  have h2 := bytesFrom_append data p h0 (id ++ size) rest hs'
  rw [hl] at h1 h2
  refine ⟨h1, h2, ?_, ?_⟩
  · simp only [slice, List.drop_zero]
    rw [List.take_append_of_le_length (by omega), ← hid, List.take_length]
  · simp only [slice]
    rw [← hl, List.take_length]
    exact List.drop_left' hid

theorem aviIterateChunks_skip (rt : GoRuntime) (data : List Byte) (fuel : Nat)
    (pos startPos endPos : Int) (info : FileInfo rt.F) (id size rest : List Byte)
    (h0 : 0 ≤ seekStart pos startPos) (hend : seekStart pos startPos + 8 ≤ endPos)
    (hs : bytesFrom data (seekStart pos startPos) = id ++ size ++ rest)
    (hid : id.length = 4) (hsize : size.length = 4)
    (h1 : id ≠ str "LIST") (h2 : id ≠ str "avih") :
    aviIterateChunks rt data (fuel + 1) pos startPos endPos info =
      aviIterateChunks rt data fuel (seekStart pos startPos + 8)
        (aviAlign (seekStart pos startPos + 8 + leUint size)) endPos info := by
  obtain ⟨hr, -, hi, hz⟩ := riff_header_read data _ h0 id size rest hs hid hsize
  rw [aviIterateChunks_succ, if_neg (by omega)]
  simp only [hr, hi, hz, if_neg h1, if_neg h2]

theorem riff_list_read (data : List Byte) (pos startPos : Int) (size rest : List Byte)
    (kind : String) (h0 : 0 ≤ seekStart pos startPos)
    (hs : bytesFrom data (seekStart pos startPos) = str "LIST" ++ size ++ (str kind ++ rest))
    (hsize : size.length = 4) (hk : (str kind).length = 4) :
    readFull data (seekStart pos startPos) 8 =
        ⟨seekStart pos startPos + 8, str "LIST" ++ size, none⟩ ∧
      readFull data (seekStart pos startPos + 8) 4 =
        ⟨seekStart pos startPos + 12, str kind, none⟩ ∧
      slice (str "LIST" ++ size) 0 4 = str "LIST" ∧ slice (str "LIST" ++ size) 4 8 = size := by
  obtain ⟨hr, hb, hi, hz⟩ := riff_header_read data _ h0 (str "LIST") size (str kind ++ rest)
    hs rfl hsize
  have h2 := readFull_append data (seekStart pos startPos + 8) (str kind) rest hb
  rw [hk] at h2
  have e12 : seekStart pos startPos + 8 + ((4 : Nat) : Int) = seekStart pos startPos + 12 := by
    push_cast; ring
  rw [e12] at h2
  exact ⟨hr, h2, hi, hz⟩

theorem aviIterateChunks_enter_hdrl (rt : GoRuntime) (data : List Byte) (fuel : Nat)
    (pos startPos endPos : Int) (info : FileInfo rt.F) (size rest : List Byte)
    (h0 : 0 ≤ seekStart pos startPos) (hend : seekStart pos startPos + 8 ≤ endPos)
    (hs : bytesFrom data (seekStart pos startPos) = str "LIST" ++ size ++ (str "hdrl" ++ rest))
    (hsize : size.length = 4) (w : Walk (FileInfo rt.F))
    (hw : aviIterateChunks rt data fuel (seekStart pos startPos + 12)
      (seekStart pos startPos + 12) (seekStart pos startPos + 8 + leUint size) info = some w) :
    aviIterateChunks rt data (fuel + 1) pos startPos endPos info =
      aviIterateChunks rt data fuel w.pos
        (aviAlign (seekStart pos startPos + 8 + leUint size)) endPos w.st := by
  obtain ⟨hr1, hr2, hi, hz⟩ := riff_list_read data pos startPos size rest "hdrl" h0 hs
    hsize rfl
  rw [aviIterateChunks_succ, if_neg (by omega)]
  simp only [hr1, hr2, hi, hz, if_true, hw]

theorem aviIterateChunks_enter_strl (rt : GoRuntime) (data : List Byte) (fuel : Nat)
    (pos startPos endPos : Int) (info : FileInfo rt.F) (size rest : List Byte)
    (h0 : 0 ≤ seekStart pos startPos) (hend : seekStart pos startPos + 8 ≤ endPos)
    (hs : bytesFrom data (seekStart pos startPos) = str "LIST" ++ size ++ (str "strl" ++ rest))
    (hsize : size.length = 4) (r : Int × FileInfo rt.F)
    (hr : aviParseStreamList rt data (seekStart pos startPos + 12)
      (seekStart pos startPos + 12) (seekStart pos startPos + 8 + leUint size) info = some r) :
    aviIterateChunks rt data (fuel + 1) pos startPos endPos info =
      aviIterateChunks rt data fuel r.1
        (aviAlign (seekStart pos startPos + 8 + leUint size)) endPos r.2 := by
  obtain ⟨hr1, hr2, hi, hz⟩ := riff_list_read data pos startPos size rest "strl" h0 hs
    hsize rfl
  have hne : str "strl" ≠ str "hdrl" := by decide
  rw [aviIterateChunks_succ, if_neg (by omega)]
  simp only [hr1, hr2, hi, hz, if_true, if_neg hne, hr]

theorem aviStreamLoop_stop (rt : GoRuntime) (data : List Byte) (endPos : Int) (fuel : Nat)
    (pos : Int) (v : StreamVars rt.F) (hend : pos + 8 > endPos) :
    aviStreamLoop rt data endPos (fuel + 1) pos v = some (pos, v) := by
  rw [aviStreamLoop, if_pos hend]

/-- A stream list that holds one `strh` chunk of eight bytes, `vids` and
`H264`, read into a record without video codec. -/
theorem aviParseStreamList_vids_h264 (rt : GoRuntime) (data : List Byte) (cur p : Int)
    (h0 : 0 ≤ p) (info : FileInfo rt.F) (hc : info.Codec = [])
    (hs : bytesFrom data p = str "strh" ++ le32 8 ++ (str "vids" ++ str "H264")) :
    aviParseStreamList rt data cur p (p + 16) info =
      some (aviAlign (p + 16), { info with Codec := str "h264" }) := by
  obtain ⟨hr, hb, hi, hz⟩ := riff_header_read data p h0 (str "strh") (le32 8)
    (str "vids" ++ str "H264") hs rfl rfl
  have hr2 : readFull data (p + 8) 8 = ⟨p + 8 + 8, str "vids" ++ str "H264", none⟩ := by
    have := readFull_append data (p + 8) (str "vids" ++ str "H264") [] (by rw [hb]; simp)
    exact this
  have hlen : 1 ≤ data.length := by
    have := bytesFrom_length data p h0
    rw [hs] at this
    simp only [List.length_append] at this
    have h4 : (str "strh").length = 4 := rfl
    omega
  obtain ⟨k, hk⟩ : ∃ k, data.length = k + 1 := ⟨data.length - 1, by omega⟩
  have hz8 : ((leUint (le32 8) : Nat) : Int) = 8 := by decide
  have hstrh : aviStrh rt data (p + 8) 8 ⟨[], [], info⟩ =
      (p + 8 + 8, ⟨str "vids", str "H264", info⟩) := by
    have hn : (if (8 : Int) > 56 then 56 else Int.toNat 8) = 8 := rfl
    simp only [aviStrh, hn, hr2]
    rfl
  have ha := aviAlign_ge (p + 16)
  simp only [aviParseStreamList, seekStart_nonneg cur p h0]
  rw [aviStreamLoop, if_neg (by omega)]
  simp only [hr, hi, hz, hz8, if_true, hstrh]
  rw [show p + 8 + 8 = p + 16 by ring, seekStart_nonneg _ _ (by omega), hk,
    aviStreamLoop_stop rt data _ k _ _ (by omega)]
  simp only [aviStreamCommit, hc, and_self, if_true]
  rfl

theorem bytesFrom_past (a b : List Byte) (n : Nat) (h : a.length = n) :
    bytesFrom (a ++ b) (n : Int) = b := by
  simp only [bytesFrom, Int.toNat_ofNat]
  exact List.drop_left' h

/-- The walk of `parseAVI` on a file made of `aviCapHead`, 1 MiB of padding
and `aviCapTail`: the nested walk of `hdrl` runs to the declared end of the
list and reads the stream list behind the padding. -/
theorem aviIterateChunks_beyond_cap (rt : GoRuntime) (pad : List Byte)
    (hpad : pad.length = 1048576) (fuel : Nat) (info : FileInfo rt.F) (hc : info.Codec = []) :
    aviIterateChunks rt (aviCapHead ++ (pad ++ aviCapTail)) (fuel + 5) 12 12 1048576 info =
      some ⟨1048636, { info with Codec := str "h264" }, none⟩ := by
  have h12 : bytesFrom (aviCapHead ++ (pad ++ aviCapTail)) 12 =
      str "LIST" ++ le32 1048616 ++
        (str "hdrl" ++ (str "JUNK" ++ le32 1048576 ++ (pad ++ aviCapTail))) := rfl
  have h24 : bytesFrom (aviCapHead ++ (pad ++ aviCapTail)) 24 =
      str "JUNK" ++ le32 1048576 ++ (pad ++ aviCapTail) := rfl
  have ht : bytesFrom (aviCapHead ++ (pad ++ aviCapTail)) 1048608 =
      str "LIST" ++ le32 20 ++ (str "strl" ++ (str "strh" ++ le32 8 ++ (str "vids" ++ str "H264"))) := by
    rw [← List.append_assoc]
    have := bytesFrom_past (aviCapHead ++ pad) aviCapTail 1048608
      (by rw [List.length_append, hpad]; rfl)
    exact this
  have hs : bytesFrom (aviCapHead ++ (pad ++ aviCapTail)) 1048620 =
      str "strh" ++ le32 8 ++ (str "vids" ++ str "H264") := by
    have := bytesFrom_append (aviCapHead ++ (pad ++ aviCapTail)) 1048608 (by norm_num)
      (str "LIST" ++ le32 20 ++ str "strl") (str "strh" ++ le32 8 ++ (str "vids" ++ str "H264"))
      (by rw [ht]; simp)
    exact this
  have s12 : seekStart 12 12 = 12 := rfl
  have s24 : seekStart 24 24 = 24 := rfl
  have z1 : ((leUint (le32 1048616) : Nat) : Int) = 1048616 := by decide
  have z2 : ((leUint (le32 1048576) : Nat) : Int) = 1048576 := by decide
  have z3 : ((leUint (le32 20) : Nat) : Int) = 20 := by decide
  have a1 : aviAlign 1048608 = 1048608 := by decide
  have a2 : aviAlign 1048636 = 1048636 := by decide
  have hstream := aviParseStreamList_vids_h264 rt (aviCapHead ++ (pad ++ aviCapTail))
    1048620 1048620 (by norm_num) info hc hs
  have hnested : aviIterateChunks rt (aviCapHead ++ (pad ++ aviCapTail)) (fuel + 1 + 3) 24 24
      1048636 info = some ⟨1048636, { info with Codec := str "h264" }, none⟩ := by
    rw [aviIterateChunks_skip rt _ (fuel + 1 + 2) 24 24 1048636 info (str "JUNK")
      (le32 1048576) (pad ++ aviCapTail) (by rw [s24]; norm_num) (by rw [s24]; norm_num)
      (by rw [s24]; exact h24) rfl rfl (by decide) (by decide)]
    rw [s24, z2]
    norm_num
    rw [a1]
    have s2 : seekStart 32 1048608 = 1048608 := rfl
    rw [aviIterateChunks_enter_strl rt _ (fuel + 1 + 1) 32 1048608 1048636 info (le32 20)
      (str "strh" ++ le32 8 ++ (str "vids" ++ str "H264")) (by rw [s2]; norm_num)
      (by rw [s2]; norm_num) (by rw [s2]; exact ht) rfl
      (aviAlign (1048620 + 16), { info with Codec := str "h264" })
      (by rw [s2, z3]; norm_num; exact hstream)]
    rw [s2, z3]
    norm_num
    rw [a2]
    rw [aviIterateChunks_stop rt _ (fuel + 1) _ _ _ _ (by
      rw [seekStart_nonneg _ _ (by norm_num)]; norm_num)]
    rw [seekStart_nonneg _ _ (by norm_num)]
  rw [show fuel + 5 = (fuel + 1 + 3) + 1 by ring]
  rw [aviIterateChunks_enter_hdrl rt _ (fuel + 1 + 3) 12 12 1048576 info (le32 1048616)
    (str "JUNK" ++ le32 1048576 ++ (pad ++ aviCapTail)) (by rw [s12]; norm_num)
    (by rw [s12]; norm_num) (by rw [s12]; exact h12) rfl
    ⟨1048636, { info with Codec := str "h264" }, none⟩
    (by rw [s12, z1]; norm_num; exact hnested)]
  rw [s12, z1]
  norm_num
  rw [a2]
  rw [show fuel + 1 + 3 = (fuel + 3) + 1 by ring]
  rw [aviIterateChunks_stop rt _ (fuel + 3) _ _ _ _ (by
    rw [seekStart_nonneg _ _ (by norm_num)]; norm_num)]
  rw [seekStart_nonneg _ _ (by norm_num)]

theorem parseAVI_beyond_cap (rt : GoRuntime) (path : GoString) (pad : List Byte)
    (hpad : pad.length = 1048576) :
    ∃ info, parseAVI rt path (aviCapHead ++ (pad ++ aviCapTail)) = some (Except.ok info) ∧
      info.Codec = str "h264" := by
  have hlen : (aviCapHead ++ (pad ++ aviCapTail)).length = 1048636 := by
    rw [List.length_append, List.length_append, hpad]
    rfl
  have hd : aviCapHead ++ (pad ++ aviCapTail) = str "RIFF" ++ le32 1048628 ++ str "AVI " ++
      (str "LIST" ++ le32 1048616 ++ str "hdrl" ++ (str "JUNK" ++ le32 1048576) ++
        (pad ++ aviCapTail)) := rfl
  obtain ⟨w, hw, -, hp⟩ := parseAVI_valid_header rt path _ (le32 1048628) _ rfl hd
  rw [hlen] at hw
  have hlim : aviParseLimit (leUint (le32 1048628)) ((1048636 : Nat) : Int) = 1048576 := by
    decide
  rw [hlim, show (1048636 : Nat) + 1 = 1048632 + 5 from rfl,
    aviIterateChunks_beyond_cap rt pad hpad 1048632 _ rfl] at hw
  cases hw
  have hne : (str "h264" : GoString) ≠ [] := by decide
  exact ⟨_, hp.trans (if_neg hne), rfl⟩

/-- C23 (evaluation at the failing input): in `aviBeyondCap` the only stream
list starts at offset 1048608, beyond the cap of 1048576, and the file holds no
`avih` chunk; `parseAVI` returns a record with the codec of that stream. -/
theorem parseAVI_reads_beyond_cap :
    aviBeyondCap.length = 1048636 ∧
    bytesFrom aviBeyondCap 1048608 = aviCapTail ∧
    ∃ info, parseAVI exactRuntime (str "a.avi") aviBeyondCap = some (Except.ok info) ∧
      info.Codec = str "h264" := by
  refine ⟨?_, ?_, parseAVI_beyond_cap exactRuntime (str "a.avi") (zeros 1048576)
    (List.length_replicate _ _)⟩
  · simp only [aviBeyondCap, zeros, List.length_append, List.length_replicate]
    rfl
  · simp only [aviBeyondCap]
    rw [← List.append_assoc]
    exact bytesFrom_past (aviCapHead ++ zeros 1048576) aviCapTail 1048608
      (by simp only [zeros, List.length_append, List.length_replicate]; rfl)

theorem CheckDurationMismatch_tolerance (rt : GoRuntime) (fo : FloatOps rt)
    (files : List (FileInfo rt.F)) (t : rt.F) :
    (CheckDurationMismatch rt fo files t).1.Tolerance = effectiveTolerance rt fo t := by
  cases files with
  | nil => rfl
  | cons first rest => rw [CheckDurationMismatch_eq]

/-- C31: on a runtime where `1 <= 0` is false, a tolerance `t <= 0` gives the
same result, and leaves the files in the same state, as the tolerance 1.0, with
the `Tolerance` field equal to 1.0; a tolerance that is not `<= 0` (as every
`t > 0`) is returned in the `Tolerance` field. -/
theorem CheckDurationMismatch_default_tolerance (rt : GoRuntime) (fo : FloatOps rt)
    (hone : fo.le (rt.ofUint 1) (rt.ofUint 0) = false) (files : List (FileInfo rt.F)) (t : rt.F) :
    (fo.le t (rt.ofUint 0) = true →
      CheckDurationMismatch rt fo files t = CheckDurationMismatch rt fo files (rt.ofUint 1) ∧
      (CheckDurationMismatch rt fo files t).1.Tolerance = rt.ofUint 1) ∧
    (fo.le t (rt.ofUint 0) = false → (CheckDurationMismatch rt fo files t).1.Tolerance = t) := by
  have h1 : effectiveTolerance rt fo (rt.ofUint 1) = rt.ofUint 1 := by
    simp only [effectiveTolerance, hone]
    rfl
  constructor
  · intro ht
    have h2 : effectiveTolerance rt fo t = rt.ofUint 1 := by
      simp only [effectiveTolerance, ht, if_true]
    refine ⟨?_, by rw [CheckDurationMismatch_tolerance, h2]⟩
    simp only [CheckDurationMismatch, h1, h2]
  · intro ht
    rw [CheckDurationMismatch_tolerance]
    simp only [effectiveTolerance, ht]
    rfl

theorem CheckDurationMismatch_default_tolerance_witness :
    CheckDurationMismatch exactRuntime exactFloatOps
        [clip "a.mp4" 100 "00:00:10" false, clip "b.mp4" 115 "00:00:11" false] ⟨-3, 1⟩ =
      CheckDurationMismatch exactRuntime exactFloatOps
        [clip "a.mp4" 100 "00:00:10" false, clip "b.mp4" 115 "00:00:11" false] ⟨1, 1⟩ ∧
    (CheckDurationMismatch exactRuntime exactFloatOps
        [clip "a.mp4" 100 "00:00:10" false, clip "b.mp4" 115 "00:00:11" false]
        ⟨1, 2⟩).1.Tolerance = ⟨1, 2⟩ :=
  ⟨((CheckDurationMismatch_default_tolerance exactRuntime exactFloatOps (by decide)
      [clip "a.mp4" 100 "00:00:10" false, clip "b.mp4" 115 "00:00:11" false] ⟨-3, 1⟩).1 (by decide)).1,
    (CheckDurationMismatch_default_tolerance exactRuntime exactFloatOps (by decide)
      [clip "a.mp4" 100 "00:00:10" false, clip "b.mp4" 115 "00:00:11" false] ⟨1, 2⟩).2 (by decide)⟩

theorem toDigitsCore_length_ge (b : Nat) :
    ∀ (fuel n : Nat) (ds : List Char), ds.length ≤ (Nat.toDigitsCore b fuel n ds).length := by
  intro fuel
  induction fuel with
  | zero => intro n ds; simp [Nat.toDigitsCore]
  | succ fuel ih =>
    intro n ds
    simp only [Nat.toDigitsCore]
    split
    · simp
    · have := ih (n / b) (Nat.digitChar (n % b) :: ds)
      simp only [List.length_cons] at this
      omega

theorem decimal_length_ge_two (k : Nat) (h : 10 ≤ k) : 2 ≤ (decimal k).length := by
  have h1 : Nat.toDigits 10 k = Nat.toDigitsCore 10 k (k / 10) [Nat.digitChar (k % 10)] := by
    simp only [Nat.toDigits, Nat.toDigitsCore]
    rw [if_neg (by omega)]
  obtain ⟨f, rfl⟩ : ∃ f, k = f + 1 := ⟨k - 1, by omega⟩
  have h2 : 2 ≤ (Nat.toDigitsCore 10 (f + 1) ((f + 1) / 10)
      [Nat.digitChar ((f + 1) % 10)]).length := by
    rw [Nat.toDigitsCore]
    split
    · simp
    · exact le_trans (by simp) (toDigitsCore_length_ge 10 f _ _)
  simp only [decimal, List.length_map, h1]
  exact h2

theorem decimal_length_ge_three (k : Nat) (h : 100 ≤ k) : 3 ≤ (decimal k).length := by
  have h1 : Nat.toDigits 10 k = Nat.toDigitsCore 10 k (k / 10) [Nat.digitChar (k % 10)] := by
    simp only [Nat.toDigits, Nat.toDigitsCore]
    rw [if_neg (by omega)]
  obtain ⟨g, rfl⟩ : ∃ g, k = g + 1 + 1 := ⟨k - 2, by omega⟩
  have h2 : Nat.toDigitsCore 10 (g + 1 + 1) ((g + 1 + 1) / 10)
      [Nat.digitChar ((g + 1 + 1) % 10)] =
      Nat.toDigitsCore 10 (g + 1) ((g + 1 + 1) / 10 / 10)
        [Nat.digitChar ((g + 1 + 1) / 10 % 10), Nat.digitChar ((g + 1 + 1) % 10)] := by
    rw [Nat.toDigitsCore]
    rw [if_neg (by omega)]
  have h3 : 3 ≤ (Nat.toDigitsCore 10 (g + 1) ((g + 1 + 1) / 10 / 10)
      [Nat.digitChar ((g + 1 + 1) / 10 % 10), Nat.digitChar ((g + 1 + 1) % 10)]).length := by
    rw [Nat.toDigitsCore]
    split
    · simp
    · exact le_trans (by simp) (toDigitsCore_length_ge 10 g _ _)
  simp only [decimal, List.length_map, h1, h2]
  exact h3

theorem decimal_lt_ten : ∀ k : Fin 10, decimal k.val = [Fin.ofNat (48 + k.val)] := by
  decide

theorem sprintf02d_two_digits : ∀ k : Fin 100, sprintf02d ((k.val : Nat) : Int) =
    [Fin.ofNat (48 + k.val / 10), Fin.ofNat (48 + k.val % 10)] := by
  decide!

theorem two_digits_are_digits : ∀ k : Fin 100,
    isDigit (Fin.ofNat (48 + k.val / 10)) = true ∧ isDigit (Fin.ofNat (48 + k.val % 10)) = true := by
  decide

theorem sprintf02d_nat (k : Nat) : sprintf02d (k : Int) = pad2 k := by
  have hneg : ¬ ((k : Int) < 0) := by omega
  simp only [sprintf02d, if_neg hneg, Int.natAbs_ofNat, pad2]
  by_cases hk : k < 10
  · rw [if_pos hk, decimal_lt_ten ⟨k, hk⟩]
    rfl
  · rw [if_neg hk]
    have := decimal_length_ge_two k (by omega)
    rw [show 2 - (decimal k).length = 0 by omega]
    rfl

theorem formatDuration_nat (rt : GoRuntime) (seconds : rt.F) (n : Nat)
    (hn : rt.toInt seconds = (n : Int)) :
    formatDuration rt seconds =
      sprintf02d ((n / 3600 : Nat) : Int) ++ str ":" ++ sprintf02d ((n % 3600 / 60 : Nat) : Int) ++
        str ":" ++ sprintf02d ((n % 60 : Nat) : Int) := by
  simp only [formatDuration, hn]
  have h1 : Int.tdiv (n : Int) 3600 = ((n / 3600 : Nat) : Int) := by
    rw [Int.tdiv_eq_ediv (Int.ofNat_nonneg n) (by norm_num : (0 : Int) ≤ 3600)]; rfl
  have h2 : Int.tmod (n : Int) 3600 = ((n % 3600 : Nat) : Int) := by
    rw [Int.tmod_eq_emod (Int.ofNat_nonneg n) (by norm_num : (0 : Int) ≤ 3600)]; rfl
  have h3 : Int.tdiv ((n % 3600 : Nat) : Int) 60 = ((n % 3600 / 60 : Nat) : Int) := by
    rw [Int.tdiv_eq_ediv (Int.ofNat_nonneg _) (by norm_num : (0 : Int) ≤ 60)]; rfl
  have h4 : Int.tmod (n : Int) 60 = ((n % 60 : Nat) : Int) := by
    rw [Int.tmod_eq_emod (Int.ofNat_nonneg n) (by norm_num : (0 : Int) ≤ 60)]; rfl
  rw [h1, h2, h3, h4]

/-- C32: when the conversion `int(durationSeconds)` yields `n >= 0` (the floor
of a non-negative value below `2^63`), `formatDuration` renders the fields
`h = n / 3600`, `m = (n mod 3600) / 60` and `s = n mod 60`, each zero-padded to
at least two digits, separated by colons; `3600*h + 60*m + s = n`, `m < 60` and
`s < 60`; for `n = 0` the result is `00:00:00`. -/
theorem formatDuration_fields (rt : GoRuntime) (seconds : rt.F) (n : Nat)
    (hn : rt.toInt seconds = (n : Int)) :
    formatDuration rt seconds =
      pad2 (n / 3600) ++ str ":" ++ pad2 (n % 3600 / 60) ++ str ":" ++ pad2 (n % 60) ∧
    3600 * (n / 3600) + 60 * (n % 3600 / 60) + n % 60 = n ∧
    n % 3600 / 60 < 60 ∧ n % 60 < 60 ∧
    (n = 0 → formatDuration rt seconds = str "00:00:00") := by
  have key := formatDuration_nat rt seconds n hn
  refine ⟨by rw [key, sprintf02d_nat, sprintf02d_nat, sprintf02d_nat], by omega, by omega,
    by omega, ?_⟩
  intro h0
  subst h0
  rw [key]
  decide

theorem formatDuration_fields_witness :
    formatDuration exactRuntime ⟨7325 * 2 + 1, 2⟩ = str "02:02:05" ∧
    formatDuration exactRuntime ⟨0, 1⟩ = str "00:00:00" :=
  ⟨((formatDuration_fields exactRuntime ⟨7325 * 2 + 1, 2⟩ 7325 (by decide)).1).trans (by decide),
    (formatDuration_fields exactRuntime ⟨0, 1⟩ 0 (by decide)).2.2.2.2 rfl⟩

/-- C33 (as amended): when `int(durationSeconds)` yields `n` with
`0 <= n < 360000` (less than 100 hours), `formatDuration` returns a string of
exactly eight characters of the form `HH:MM:SS`; from 100 hours on the hours
field has more than two digits and the string more than eight characters. -/
theorem formatDuration_eight_chars (rt : GoRuntime) (seconds : rt.F) (n : Nat)
    (hn : rt.toInt seconds = (n : Int)) :
    (n < 360000 → isHHMMSS (formatDuration rt seconds) = true ∧
      (formatDuration rt seconds).length = 8) ∧
    (360000 ≤ n → 9 ≤ (formatDuration rt seconds).length) := by
  have key := formatDuration_nat rt seconds n hn
  constructor
  · intro hlt
    have hh : n / 3600 < 100 := by omega
    have hm : n % 3600 / 60 < 100 := by omega
    have hs : n % 60 < 100 := by omega
    rw [key, sprintf02d_two_digits ⟨_, hh⟩, sprintf02d_two_digits ⟨_, hm⟩,
      sprintf02d_two_digits ⟨_, hs⟩]
    obtain ⟨a1, a2⟩ := two_digits_are_digits ⟨_, hh⟩
    obtain ⟨b1, b2⟩ := two_digits_are_digits ⟨_, hm⟩
    obtain ⟨c1, c2⟩ := two_digits_are_digits ⟨_, hs⟩
    simp only at a1 a2 b1 b2 c1 c2
    refine ⟨?_, rfl⟩
    show isHHMMSS [_, _, 58, _, _, 58, _, _] = true
    simp only [isHHMMSS, a1, a2, b1, b2, c1, c2, decide_True, Bool.and_self]
  · intro hge
    rw [key, sprintf02d_nat, sprintf02d_nat, sprintf02d_nat]
    have h100 : 100 ≤ n / 3600 := by omega
    have hp : 3 ≤ (pad2 (n / 3600)).length := by
      simp only [pad2]
      rw [if_neg (by omega)]
      exact decimal_length_ge_three _ h100
    have hq : ∀ k : Nat, 2 ≤ (pad2 k).length := by
      intro k
      simp only [pad2]
      split
      · simp
      · exact decimal_length_ge_two k (by omega)
    have h2 := hq (n % 3600 / 60)
    have h3 := hq (n % 60)
    simp only [List.length_append]
    have hc : (str ":").length = 1 := rfl
    omega

theorem formatDuration_eight_chars_witness :
    isHHMMSS (formatDuration exactRuntime ⟨359999, 1⟩) = true ∧
    (formatDuration exactRuntime ⟨359999, 1⟩).length = 8 :=
  (formatDuration_eight_chars exactRuntime ⟨359999, 1⟩ 359999 (by decide)).1 (by decide)

/-- C33 (counterexample): 360000 seconds are 100 hours; `formatDuration`
returns `100:00:00`, nine characters. -/
theorem formatDuration_hundred_hours :
    exactRuntime.toInt ⟨360000, 1⟩ = 360000 ∧
    formatDuration exactRuntime ⟨360000, 1⟩ = str "100:00:00" ∧
    (formatDuration exactRuntime ⟨360000, 1⟩).length = 9 ∧
    isHHMMSS (formatDuration exactRuntime ⟨360000, 1⟩) = false := by
  decide

theorem durationConsistent_congr (rt : GoRuntime) (a b : FileInfo rt.F)
    (h1 : a.Duration = b.Duration) (h2 : a.DurationSeconds = b.DurationSeconds)
    (hb : DurationConsistent rt b) : DurationConsistent rt a := by
  simp only [DurationConsistent] at hb ⊢
  rw [h1, h2]; exact hb

theorem mp4TrakCommit_durations (rt : GoRuntime) (v : TrakVars) (info : FileInfo rt.F) :
    (mp4TrakCommit rt v info).Duration = info.Duration ∧
    (mp4TrakCommit rt v info).DurationSeconds = info.DurationSeconds := by
  simp only [mp4TrakCommit]
  split_ifs <;> exact ⟨rfl, rfl⟩

theorem mp4MoovHandler_durations (rt : GoRuntime) (data : List Byte) :
    ∀ t ds dof p (s w : _), DurationConsistent rt s.info →
      mp4MoovHandler rt data t ds dof p s = some w → DurationConsistent rt w.st.info := by
  intro t ds dof p s w hs hw
  simp only [mp4MoovHandler] at hw
  by_cases c1 : t = str "mvhd"
  · simp only [if_pos c1] at hw
    split at hw
    · cases hw; exact hs
    · split at hw
      · cases hw; exact Or.inr rfl
      · cases hw; exact hs
  · simp only [if_neg c1] at hw
    by_cases c2 : t = str "trak"
    · simp only [if_pos c2] at hw
      simp only [mp4ParseTrak] at hw
      split at hw
      · cases hw
      · rename_i r hr
        split at hr
        · cases hr
        · cases hr
          cases hw
          exact durationConsistent_congr rt _ _ (mp4TrakCommit_durations rt _ _).1
            (mp4TrakCommit_durations rt _ _).2 hs
    · simp only [if_neg c2] at hw
      cases hw; exact hs

theorem mp4TopHandler_durations (rt : GoRuntime) (data : List Byte) :
    ∀ t ds dof p (s : FileInfo rt.F) (w : _), DurationConsistent rt s →
      mp4TopHandler rt data t ds dof p s = some w → DurationConsistent rt w.st := by
  intro t ds dof p s w hs hw
  simp only [mp4TopHandler] at hw
  split at hw
  · simp only [mp4ParseMoov, mp4IterateBoxes] at hw
    split at hw
    · cases hw
    · rename_i w1 h1
      cases hw
      exact mp4Loop_invariant data _ (mp4MoovHandler rt data)
        (fun s => DurationConsistent rt s.info)
        (mp4MoovHandler_durations rt data) _ _ _ w1 hs h1
  · cases hw; exact hs

theorem newFileInfo_durations (rt : GoRuntime) (path : GoString) (size : Int) :
    DurationConsistent rt (newFileInfo rt path size) := Or.inl ⟨rfl, rfl⟩

theorem parseMP4_durations (rt : GoRuntime) (path : GoString) (data : List Byte)
    (info : FileInfo rt.F) (h : parseMP4 rt path data = some (Except.ok info)) :
    DurationConsistent rt info := by
  simp only [parseMP4, mp4IterateBoxes] at h
  split at h
  · cases h
  · rename_i w hw
    split at h
    · cases h
    · split at h
      · cases h
      · cases h
        exact mp4Loop_invariant data _ (mp4TopHandler rt data) (DurationConsistent rt)
          (mp4TopHandler_durations rt data) _ _ _ w (newFileInfo_durations rt path _) hw

theorem mkvTrackCommit_durations (rt : GoRuntime) (v : TrackVars) (info : FileInfo rt.F) :
    (mkvTrackCommit rt v info).Duration = info.Duration ∧
    (mkvTrackCommit rt v info).DurationSeconds = info.DurationSeconds := by
  simp only [mkvTrackCommit]
  split_ifs <;> exact ⟨rfl, rfl⟩

theorem mkvTracksLoop_durations (rt : GoRuntime) (data : List Byte) (endPos : Int) :
    ∀ (fuel : Nat) (pos : Int) (info : FileInfo rt.F) (r : Int × FileInfo rt.F),
      DurationConsistent rt info → mkvTracksLoop rt data endPos fuel pos info = Run.done r →
      DurationConsistent rt r.2 := by
  intro fuel
  induction fuel with
  | zero => intro pos info r _ hr; simp [mkvTracksLoop] at hr
  | succ fuel ih =>
    intro pos info r hc hr
    rw [mkvTracksLoop] at hr
    split at hr
    · cases hr; exact hc
    · simp only at hr
      split at hr
      · cases hr; exact hc
      · split at hr
        · simp only [mkvParseTrackEntry] at hr
          split at hr
          · rename_i r1 h1
            split at h1
            · rename_i r2 h2
              cases h1
              have hk := mkvTrackCommit_durations rt r2.2 info
              have h := ih _ _ r (durationConsistent_congr rt _ _ hk.1 hk.2 hc) hr
              exact h
            · cases h1
            · cases h1
          · cases hr
          · cases hr
        · exact ih _ _ r hc hr

theorem mkvSegmentLoop_durations (rt : GoRuntime) (data : List Byte) (parseLimit : Int) :
    ∀ (fuel : Nat) (pos : Int) (v : SegmentVars rt.F) (r : Int × SegmentVars rt.F),
      DurationConsistent rt v.info → mkvSegmentLoop rt data parseLimit fuel pos v = Run.done r →
      DurationConsistent rt r.2.info := by
  intro fuel
  induction fuel with
  | zero => intro pos v r _ hr; simp [mkvSegmentLoop] at hr
  | succ fuel ih =>
    intro pos v r hc hr
    rw [mkvSegmentLoop] at hr
    split at hr
    · cases hr; exact hc
    · simp only at hr
      split at hr
      · cases hr; exact hc
      · split at hr
        · split at hr
          · cases hr
          · have h := ih _ _ r (by exact hc) hr
            exact h
        · split at hr
          · split at hr
            · rename_i r1 h1
              have hk := mkvTracksLoop_durations rt data _ _ _ v.info r1 hc h1
              have h := ih _ _ r (by exact hk) hr
              exact h
            · cases hr
            · cases hr
          · exact ih _ _ r hc hr

theorem mkvFinish_durations (rt : GoRuntime) (v : SegmentVars rt.F) (info : FileInfo rt.F)
    (hv : DurationConsistent rt v.info) (h : mkvFinish rt v = Except.ok info) :
    DurationConsistent rt info := by
  simp only [mkvFinish] at h
  by_cases c : rt.lt (rt.ofUint 0) v.durationFloat ∧ v.timestampScale > 0
  · rw [if_pos c] at h
    split at h
    · cases h
    · cases h; exact Or.inr rfl
  · rw [if_neg c] at h
    split at h
    · cases h
    · cases h; exact hv

theorem parseMKV_durations (rt : GoRuntime) (path : GoString) (data : List Byte)
    (info : FileInfo rt.F) (h : parseMKV rt path data = Run.done (Except.ok info)) :
    DurationConsistent rt info := by
  simp only [parseMKV] at h
  split at h
  · cases h
  · split at h
    · cases h
    · split at h
      · rename_i r hr
        exact mkvFinish_durations rt r.2 info
          (mkvSegmentLoop_durations rt data _ _ _ _ r (newFileInfo_durations rt path _) hr)
          (Run.done.inj h)
      · cases h
      · cases h

theorem aviParseMainHeader_durations (rt : GoRuntime) (data : List Byte) (pos size offset : Int)
    (info : FileInfo rt.F) (hi : DurationConsistent rt info) :
    DurationConsistent rt (aviParseMainHeader rt data pos size offset info).2 := by
  simp only [aviParseMainHeader]
  split
  · exact hi
  · split
    · exact hi
    · split_ifs <;> first | exact Or.inr rfl | exact hi

theorem aviStrh_durations (rt : GoRuntime) (data : List Byte) (dataPos chunkSize : Int)
    (v : StreamVars rt.F) (hi : DurationConsistent rt v.info) :
    DurationConsistent rt (aviStrh rt data dataPos chunkSize v).2.info := by
  simp only [aviStrh]
  split
  · split
    · exact hi
    · simp only
      split_ifs <;> first | exact Or.inr rfl | exact hi
  · exact hi

theorem aviStrf_durations (rt : GoRuntime) (data : List Byte) (dataPos chunkSize : Int)
    (v : StreamVars rt.F) (hi : DurationConsistent rt v.info) :
    DurationConsistent rt (aviStrf rt data dataPos chunkSize v).2.info := by
  simp only [aviStrf]
  split
  · split
    · exact hi
    · simp only
      split_ifs <;> exact hi
  · exact hi

theorem aviStreamLoop_durations (rt : GoRuntime) (data : List Byte) (endPos : Int) :
    ∀ (fuel : Nat) (pos : Int) (v : StreamVars rt.F) (r : Int × StreamVars rt.F),
      DurationConsistent rt v.info → aviStreamLoop rt data endPos fuel pos v = some r →
      DurationConsistent rt r.2.info := by
  intro fuel
  induction fuel with
  | zero => intro pos v r _ hr; simp [aviStreamLoop] at hr
  | succ fuel ih =>
    intro pos v r hi hr
    rw [aviStreamLoop] at hr
    split at hr
    · cases hr; exact hi
    · simp only at hr
      split at hr
      · cases hr; exact hi
      · refine ih _ _ r ?_ hr
        split_ifs
        · exact aviStrh_durations rt data _ _ v hi
        · exact aviStrf_durations rt data _ _ v hi
        · exact hi

theorem aviStreamCommit_durations (rt : GoRuntime) (v : StreamVars rt.F)
    (hi : DurationConsistent rt v.info) : DurationConsistent rt (aviStreamCommit rt v) := by
  simp only [aviStreamCommit]
  split_ifs <;> exact hi

theorem aviIterateChunks_durations (rt : GoRuntime) (data : List Byte) :
    ∀ (fuel : Nat) (pos startPos endPos : Int) (info : FileInfo rt.F) (w : Walk (FileInfo rt.F)),
      DurationConsistent rt info →
      aviIterateChunks rt data fuel pos startPos endPos info = some w →
      DurationConsistent rt w.st := by
  intro fuel
  induction fuel with
  | zero =>
    intro pos startPos endPos info w _ hw
    have h0 : aviIterateChunks rt data 0 pos startPos endPos info = none := rfl
    rw [h0] at hw
    cases hw
  | succ fuel ih =>
    intro pos startPos endPos info w hi hw
    rw [aviIterateChunks_succ] at hw
    generalize readFull data (seekStart pos startPos) 8 = H at hw
    by_cases hend : seekStart pos startPos + 8 > endPos
    · rw [if_pos hend] at hw
      cases hw
      exact hi
    · rw [if_neg hend] at hw
      cases he : H.err with
      | some e =>
        simp only [he] at hw
        cases hw
        exact hi
      | none =>
        simp only [he] at hw
        generalize aviAlign (H.pos + (leUint (slice H.buf 4 8) : Nat)) = N at hw
        by_cases c1 : slice H.buf 0 4 = str "LIST"
        · rw [if_pos c1] at hw
          generalize readFull data H.pos 4 = L at hw
          cases hlt : L.err with
          | some e =>
            simp only [hlt] at hw
            exact ih _ _ _ _ w hi hw
          | none =>
            simp only [hlt] at hw
            by_cases d1 : L.buf = str "hdrl"
            · rw [if_pos d1] at hw
              cases hn : aviIterateChunks rt data fuel L.pos L.pos
                  (H.pos + (leUint (slice H.buf 4 8) : Nat)) info with
              | none => rw [hn] at hw; cases hw
              | some w1 =>
                rw [hn] at hw
                simp only at hw
                exact ih _ _ _ _ w (ih _ _ _ _ w1 hi hn) hw
            · rw [if_neg d1] at hw
              by_cases d2 : L.buf = str "strl"
              · rw [if_pos d2] at hw
                simp only [aviParseStreamList] at hw
                cases hs : aviStreamLoop rt data (H.pos + (leUint (slice H.buf 4 8) : Nat))
                    (data.length + 1) (seekStart L.pos L.pos) ⟨[], [], info⟩ with
                | none => rw [hs] at hw; cases hw
                | some r =>
                  rw [hs] at hw
                  simp only at hw
                  exact ih _ _ _ _ w (aviStreamCommit_durations rt r.2
                    (aviStreamLoop_durations rt data _ _ _ _ r hi hs)) hw
              · rw [if_neg d2] at hw
                exact ih _ _ _ _ w hi hw
        · rw [if_neg c1] at hw
          by_cases c2 : slice H.buf 0 4 = str "avih"
          · rw [if_pos c2] at hw
            exact ih _ _ _ _ w (aviParseMainHeader_durations rt data _ _ _ info hi) hw
          · rw [if_neg c2] at hw
            exact ih _ _ _ _ w hi hw

theorem parseAVI_durations (rt : GoRuntime) (path : GoString) (data : List Byte)
    (info : FileInfo rt.F) (h : parseAVI rt path data = some (Except.ok info)) :
    DurationConsistent rt info := by
  simp only [parseAVI] at h
  split at h
  · cases h
  · split at h
    · cases h
    · split at h
      · cases h
      · rename_i w hw
        split at h
        · cases h
        · split at h
          · cases h
          · cases h
            exact aviIterateChunks_durations rt data _ _ _ _ _ w (newFileInfo_durations rt path _) hw

/-- C34 (as amended): every record returned by `parseMP4`, `parseMKV` or
`parseAVI` has consistent duration fields: either the file yielded no duration
and the record keeps the zero values (`Duration` empty, `DurationSeconds` 0),
or `Duration` is `formatDuration` of the stored `DurationSeconds`. -/
theorem parsers_duration_consistent (rt : GoRuntime) (path : GoString) (data : List Byte)
    (info : FileInfo rt.F) :
    (parseMP4 rt path data = some (Except.ok info) → DurationConsistent rt info) ∧
    (parseMKV rt path data = Run.done (Except.ok info) → DurationConsistent rt info) ∧
    (parseAVI rt path data = some (Except.ok info) → DurationConsistent rt info) :=
  ⟨parseMP4_durations rt path data info, parseMKV_durations rt path data info,
    parseAVI_durations rt path data info⟩

set_option maxRecDepth 100000 in

theorem parsers_duration_consistent_witness :
    ∃ info, parseAVI exactRuntime (str "a.avi") aviFirstVideoStream = some (Except.ok info) ∧
      info.Duration = str "00:00:10" ∧ info.DurationSeconds = ⟨250, 25⟩ ∧
      DurationConsistent exactRuntime info :=
  ⟨_, rfl, rfl, rfl,
    (parsers_duration_consistent exactRuntime (str "a.avi") aviFirstVideoStream _).2.2 rfl⟩

/-- C34 (counterexample): `mkvSample` has a video track and no `Info`
element; `parseMKV` returns a record whose `Duration` is the empty string and
whose `DurationSeconds` is 0, while `formatDuration` of 0 is `00:00:00`. -/
theorem parseMKV_empty_durations :
    ∃ info, parseMKV exactRuntime (str "a.mkv") mkvSample = Run.done (Except.ok info) ∧
      info.Duration = [] ∧ info.DurationSeconds = exactRuntime.ofUint 0 ∧
      formatDuration exactRuntime info.DurationSeconds = str "00:00:00" ∧
      info.Duration ≠ formatDuration exactRuntime info.DurationSeconds :=
  ⟨_, rfl, rfl, rfl, rfl, by decide⟩

theorem aviAlign_even (x : Int) (h : 0 ≤ x) : 0 ≤ aviAlign x ∧ aviAlign x % 2 = 0 := by
  simp only [aviAlign]
  rw [Int.tmod_eq_emod h (by norm_num)]
  split <;> omega

theorem aviAlign_cases (x : Int) (h : 0 ≤ x) :
    (x % 2 = 1 → aviAlign x = x + 1) ∧ (x % 2 = 0 → aviAlign x = x) := by
  simp only [aviAlign]
  rw [Int.tmod_eq_emod h (by norm_num)]
  constructor
  · intro h1; rw [if_pos (by omega)]
  · intro h0; rw [if_neg (by omega)]

theorem aviStreamOffsets_even (rt : GoRuntime) (data : List Byte) (endPos : Int) :
    ∀ (fuel : Nat) (pos : Int) (v : StreamVars rt.F), 0 ≤ pos → pos % 2 = 0 →
      ∀ o ∈ aviStreamOffsets rt data endPos fuel pos v, o % 2 = 0 := by
  intro fuel
  induction fuel with
  | zero => intro pos v _ _ o ho; simp [aviStreamOffsets] at ho
  | succ fuel ih =>
    intro pos v h0 he o ho
    rw [aviStreamOffsets] at ho
    split at ho
    · cases ho
    · simp only [List.mem_cons] at ho
      rcases ho with ho | ho
      · rw [ho]; exact he
      · split at ho
        · cases ho
        · rename_i herr
          have hp := readFull_none_pos data pos 8 herr
          have ha := aviAlign_even ((readFull data pos 8).pos +
            ((leUint (slice (readFull data pos 8).buf 4 8) : Nat) : Int)) (by omega)
          rw [seekStart_nonneg _ _ ha.1] at ho
          exact ih _ _ ha.1 ha.2 o ho

set_option maxHeartbeats 1000000 in

theorem aviHeaderOffsets_succ (rt : GoRuntime) (data : List Byte) (fuel : Nat)
    (pos startPos endPos : Int) (info : FileInfo rt.F) :
    aviHeaderOffsets rt data (fuel + 1) pos startPos endPos info =
    if seekStart pos startPos + 8 > endPos then []
    else
      seekStart pos startPos ::
      match (readFull data (seekStart pos startPos) 8).err with
      | some _ => []
      | none =>
        if slice (readFull data (seekStart pos startPos) 8).buf 0 4 = str "LIST" then
          match (readFull data (readFull data (seekStart pos startPos) 8).pos 4).err with
          | some _ => aviHeaderOffsets rt data fuel (readFull data (readFull data (seekStart pos startPos) 8).pos 4).pos (aviAlign ((readFull data (seekStart pos startPos) 8).pos + (leUint (slice (readFull data (seekStart pos startPos) 8).buf 4 8) : Nat))) endPos info
          | none =>
            if (readFull data (readFull data (seekStart pos startPos) 8).pos 4).buf = str "hdrl" then
              aviHeaderOffsets rt data fuel (readFull data (readFull data (seekStart pos startPos) 8).pos 4).pos (readFull data (readFull data (seekStart pos startPos) 8).pos 4).pos ((readFull data (seekStart pos startPos) 8).pos + (leUint (slice (readFull data (seekStart pos startPos) 8).buf 4 8) : Nat)) info ++
              match aviIterateChunks rt data fuel (readFull data (readFull data (seekStart pos startPos) 8).pos 4).pos (readFull data (readFull data (seekStart pos startPos) 8).pos 4).pos ((readFull data (seekStart pos startPos) 8).pos + (leUint (slice (readFull data (seekStart pos startPos) 8).buf 4 8) : Nat)) info with
              | none => []
              | some w => aviHeaderOffsets rt data fuel w.pos (aviAlign ((readFull data (seekStart pos startPos) 8).pos + (leUint (slice (readFull data (seekStart pos startPos) 8).buf 4 8) : Nat))) endPos w.st
            else if (readFull data (readFull data (seekStart pos startPos) 8).pos 4).buf = str "strl" then
              aviStreamOffsets rt data ((readFull data (seekStart pos startPos) 8).pos + (leUint (slice (readFull data (seekStart pos startPos) 8).buf 4 8) : Nat)) (data.length + 1) (seekStart (readFull data (readFull data (seekStart pos startPos) 8).pos 4).pos (readFull data (readFull data (seekStart pos startPos) 8).pos 4).pos)
                ⟨[], [], info⟩ ++
              match aviParseStreamList rt data (readFull data (readFull data (seekStart pos startPos) 8).pos 4).pos (readFull data (readFull data (seekStart pos startPos) 8).pos 4).pos ((readFull data (seekStart pos startPos) 8).pos + (leUint (slice (readFull data (seekStart pos startPos) 8).buf 4 8) : Nat)) info with
              | none => []
              | some r => aviHeaderOffsets rt data fuel r.1 (aviAlign ((readFull data (seekStart pos startPos) 8).pos + (leUint (slice (readFull data (seekStart pos startPos) 8).buf 4 8) : Nat))) endPos r.2
            else aviHeaderOffsets rt data fuel (readFull data (readFull data (seekStart pos startPos) 8).pos 4).pos (aviAlign ((readFull data (seekStart pos startPos) 8).pos + (leUint (slice (readFull data (seekStart pos startPos) 8).buf 4 8) : Nat))) endPos info
        else if slice (readFull data (seekStart pos startPos) 8).buf 0 4 = str "avih" then
          aviHeaderOffsets rt data fuel (aviParseMainHeader rt data (readFull data (seekStart pos startPos) 8).pos (leUint (slice (readFull data (seekStart pos startPos) 8).buf 4 8) : Nat) (readFull data (seekStart pos startPos) 8).pos info).1 (aviAlign ((readFull data (seekStart pos startPos) 8).pos + (leUint (slice (readFull data (seekStart pos startPos) 8).buf 4 8) : Nat))) endPos (aviParseMainHeader rt data (readFull data (seekStart pos startPos) 8).pos (leUint (slice (readFull data (seekStart pos startPos) 8).buf 4 8) : Nat) (readFull data (seekStart pos startPos) 8).pos info).2
        else aviHeaderOffsets rt data fuel (readFull data (seekStart pos startPos) 8).pos (aviAlign ((readFull data (seekStart pos startPos) 8).pos + (leUint (slice (readFull data (seekStart pos startPos) 8).buf 4 8) : Nat))) endPos info := by
  rfl

theorem aviHeaderOffsets_even (rt : GoRuntime) (data : List Byte) :
    ∀ (fuel : Nat) (pos startPos endPos : Int) (info : FileInfo rt.F),
      0 ≤ startPos → startPos % 2 = 0 →
      ∀ o ∈ aviHeaderOffsets rt data fuel pos startPos endPos info, o % 2 = 0 := by
  intro fuel
  induction fuel with
  | zero =>
    intro pos startPos endPos info _ _ o ho
    have hz : aviHeaderOffsets rt data 0 pos startPos endPos info = [] := rfl
    rw [hz] at ho
    cases ho
  | succ fuel ih =>
    intro pos startPos endPos info h0 he o ho
    rw [aviHeaderOffsets_succ] at ho
    rw [seekStart_nonneg _ _ h0] at ho
    by_cases hend : startPos + 8 > endPos
    · rw [if_pos hend] at ho
      cases ho
    · rw [if_neg hend, List.mem_cons] at ho
      rcases ho with ho | ho
      · rw [ho]; exact he
      · cases herr : (readFull data startPos 8).err with
        | some e =>
          simp only [herr] at ho
          cases ho
        | none =>
          simp only [herr] at ho
          have hp := readFull_none_pos data startPos 8 herr
          have ha := aviAlign_even ((readFull data startPos 8).pos +
            ((leUint (slice (readFull data startPos 8).buf 4 8) : Nat) : Int)) (by omega)
          by_cases c1 : slice (readFull data startPos 8).buf 0 4 = str "LIST"
          · rw [if_pos c1] at ho
            cases hl : (readFull data (readFull data startPos 8).pos 4).err with
            | some e =>
              simp only [hl] at ho
              exact ih _ _ _ _ ha.1 ha.2 o ho
            | none =>
              simp only [hl] at ho
              have hq := readFull_none_pos data _ 4 hl
              have hl0 : 0 ≤ (readFull data (readFull data startPos 8).pos 4).pos := by omega
              have hle : (readFull data (readFull data startPos 8).pos 4).pos % 2 = 0 := by omega
              by_cases d1 : (readFull data (readFull data startPos 8).pos 4).buf = str "hdrl"
              · rw [if_pos d1, List.mem_append] at ho
                rcases ho with ho | ho
                · exact ih _ _ _ _ hl0 hle o ho
                · split at ho
                  · cases ho
                  · exact ih _ _ _ _ ha.1 ha.2 o ho
              · rw [if_neg d1] at ho
                by_cases d2 : (readFull data (readFull data startPos 8).pos 4).buf = str "strl"
                · rw [if_pos d2, List.mem_append] at ho
                  rcases ho with ho | ho
                  · rw [seekStart_nonneg _ _ hl0] at ho
                    exact aviStreamOffsets_even rt data _ _ _ _ hl0 hle o ho
                  · split at ho
                    · cases ho
                    · exact ih _ _ _ _ ha.1 ha.2 o ho
                · rw [if_neg d2] at ho
                  exact ih _ _ _ _ ha.1 ha.2 o ho
          · rw [if_neg c1] at ho
            by_cases c2 : slice (readFull data startPos 8).buf 0 4 = str "avih"
            · rw [if_pos c2] at ho
              exact ih _ _ _ _ ha.1 ha.2 o ho
            · rw [if_neg c2] at ho
              exact ih _ _ _ _ ha.1 ha.2 o ho

/-- C35: every chunk header that `aviIterateChunks` (with its nested calls for
`hdrl` lists) or `aviParseStreamList` reads during the walk `parseAVI` starts
at offset 12 begins at an even file offset, the first one at offset 12; the
position the cursor is moved to after a chunk is the end of its data when that
is even and one byte further when it is odd. -/
theorem parseAVI_header_offsets_even (rt : GoRuntime) (data : List Byte) (pos limit : Int)
    (info : FileInfo rt.F) :
    (∀ o ∈ aviHeaderOffsets rt data (data.length + 1) pos 12 limit info, o % 2 = 0) ∧
    (aviHeaderOffsets rt data (data.length + 1) pos 12 limit info).head? =
      (if 20 ≤ limit then some 12 else none) ∧
    (∀ x : Int, 0 ≤ x → (x % 2 = 1 → aviAlign x = x + 1) ∧ (x % 2 = 0 → aviAlign x = x)) := by
  refine ⟨aviHeaderOffsets_even rt data _ _ _ _ _ (by norm_num) (by norm_num), ?_,
    aviAlign_cases⟩
  rw [aviHeaderOffsets_succ]
  rw [seekStart_nonneg _ _ (by norm_num)]
  by_cases h : 20 ≤ limit
  · rw [if_neg (by omega), if_pos h]; rfl
  · rw [if_pos (by omega), if_neg h]; rfl

set_option maxRecDepth 100000 in

theorem parseAVI_header_offsets_even_witness :
    aviHeaderOffsets exactRuntime aviOddChunk (aviOddChunk.length + 1) 12 12 160
      (newFileInfo exactRuntime (str "a.avi") 160) = [12, 24, 36, 48, 112] ∧
    aviAlign 23 = 24 ∧
    (∃ info, parseAVI exactRuntime (str "a.avi") aviOddChunk = some (Except.ok info) ∧
      info.Codec = str "h264") ∧
    ∀ o ∈ aviHeaderOffsets exactRuntime aviOddChunk (aviOddChunk.length + 1) 12 12 160
      (newFileInfo exactRuntime (str "a.avi") 160), o % 2 = 0 :=
  ⟨rfl, ((parseAVI_header_offsets_even exactRuntime aviOddChunk 12 160
      (newFileInfo exactRuntime (str "a.avi") 160)).2.2 23 (by decide)).1 (by decide),
    ⟨_, rfl, rfl⟩,
    (parseAVI_header_offsets_even exactRuntime aviOddChunk 12 160
      (newFileInfo exactRuntime (str "a.avi") 160)).1⟩

theorem trimRightNul_last_ne (s : GoString) (t : GoString) (ht : t ≠ [])
    (hl : t.getLast? = some 0) : trimRightNul s ≠ t := by
  intro h
  have hne : List.rdropWhile (fun b => decide (b = (0 : Byte))) s ≠ [] := by
    have : trimRightNul s ≠ [] := by rw [h]; exact ht
    exact this
  have hlast := List.rdropWhile_last_not (fun b => decide (b = (0 : Byte))) s hne
  have h2 : (List.rdropWhile (fun b => decide (b = (0 : Byte))) s).getLast? = some 0 := by
    have : List.rdropWhile (fun b => decide (b = (0 : Byte))) s = t := h
    rw [this]; exact hl
  rw [List.getLast?_eq_getLast _ hne] at h2
  have h3 := Option.some.inj h2
  exact hlast (by simp [h3])

/-- C37: an `auds` stream header whose handler field is `01 00 00 00` gives
`AudioCodec` the single byte `01`, not `pcm`; the field `55 00 00 00` gives `u`,
not `mp3`; the field `FF 00 00 00` reaches the end of the stream list as the
single byte `FF`.  The handler is passed to `aviAudioCodecName` with its
trailing NUL bytes removed, so it never equals one of the two-byte tags of the
table. -/
theorem aviParseStreamList_audio_tag (rt : GoRuntime) (path : GoString) :
    aviAudioCodecName rt [0x01, 0x00] = str "pcm" ∧
    aviAudioCodecName rt [0x55, 0x00] = str "mp3" ∧
    (∃ r, aviParseStreamList rt (strlAudsBody [0x01, 0x00]) 0 0 64 (newFileInfo rt path 64) =
        some r ∧ r.2.AudioCodec = [0x01]) ∧
    (∃ r, aviParseStreamList rt (strlAudsBody [0x55, 0x00]) 0 0 64 (newFileInfo rt path 64) =
        some r ∧ r.2.AudioCodec = str "u") ∧
    (∃ r, aviStreamLoop rt (strlAudsBody [0xFF, 0x00]) 64 65 0 ⟨[], [], newFileInfo rt path 64⟩ =
        some r ∧ r.2.streamType = str "auds" ∧ r.2.codecFourCC = [0xFF]) ∧
    (∀ field : GoString, trimRightNul field ≠ [0x01, 0x00] ∧
      trimRightNul field ≠ [0x55, 0x00] ∧ trimRightNul field ≠ [0xFF, 0x00]) :=
  ⟨rfl, rfl, ⟨_, rfl, rfl⟩, ⟨_, rfl, rfl⟩, ⟨_, rfl, rfl, rfl⟩,
    fun field => ⟨trimRightNul_last_ne field _ (by decide) rfl,
      trimRightNul_last_ne field _ (by decide) rfl,
      trimRightNul_last_ne field _ (by decide) rfl⟩⟩

theorem getLast_cons_getD {α : Type} (x d : α) (l : List α) :
    ((x :: l).getLast?).getD d = (l.getLast?).getD x := by
  cases l with
  | nil => rfl
  | cons y l => rw [List.getLast?_cons_cons]; simp [List.getLast?_cons]

theorem mkvInfoScales_none (data : List Byte) (cs : List (Nat × Nat × Int))
    (h : ∀ c ∈ cs, c.1 ≠ ebmlTimestampScale) : mkvInfoScales data cs = [] := by
  induction cs with
  | nil => rfl
  | cons c cs ih =>
    rw [mkvInfoScales, if_neg (fun hc => h c (List.mem_cons_self _ _) hc.1)]
    exact ih (fun c hc => h c (List.mem_cons_of_mem _ hc))

theorem mkvInfoScales_hit (data : List Byte) (id size : Nat) (p : Int)
    (cs : List (Nat × Nat × Int)) (h1 : id = ebmlTimestampScale)
    (h2 : (ebmlReadUint data p size).err = none) :
    mkvInfoScales data ((id, size, p) :: cs) =
      (ebmlReadUint data p size).val :: mkvInfoScales data cs := by
  rw [mkvInfoScales, if_pos ⟨h1, h2⟩]

theorem mkvInfoScales_miss (data : List Byte) (id size : Nat) (p : Int)
    (cs : List (Nat × Nat × Int))
    (h : ¬(id = ebmlTimestampScale ∧ (ebmlReadUint data p size).err = none)) :
    mkvInfoScales data ((id, size, p) :: cs) = mkvInfoScales data cs := by
  rw [mkvInfoScales, if_neg h]

theorem mkvInfoDurations_hit (rt : GoRuntime) (data : List Byte) (id size : Nat) (p : Int)
    (cs : List (Nat × Nat × Int)) (h1 : id = ebmlDuration)
    (h2 : (ebmlReadFloat rt data p size).err = none) :
    mkvInfoDurations rt data ((id, size, p) :: cs) =
      (ebmlReadFloat rt data p size).val :: mkvInfoDurations rt data cs := by
  rw [mkvInfoDurations, if_pos ⟨h1, h2⟩]

theorem mkvInfoDurations_miss (rt : GoRuntime) (data : List Byte) (id size : Nat) (p : Int)
    (cs : List (Nat × Nat × Int))
    (h : ¬(id = ebmlDuration ∧ (ebmlReadFloat rt data p size).err = none)) :
    mkvInfoDurations rt data ((id, size, p) :: cs) = mkvInfoDurations rt data cs := by
  rw [mkvInfoDurations, if_neg h]

theorem mkvFinish_pos (rt : GoRuntime) (v : SegmentVars rt.F)
    (hc : rt.lt (rt.ofUint 0) v.durationFloat = true ∧ v.timestampScale > 0) :
    mkvFinish rt v =
      if v.info.Codec = [] then Except.error (GoError.msg "no video track found")
      else Except.ok { v.info with
        DurationSeconds :=
          rt.div (rt.mul v.durationFloat (rt.ofUint v.timestampScale)) (rt.ofUint 1000000000),
        Duration := formatDuration rt
          (rt.div (rt.mul v.durationFloat (rt.ofUint v.timestampScale)) (rt.ofUint 1000000000)) } := by
  simp only [mkvFinish, if_pos hc]

theorem wrapInt64_small (x : Int) (h0 : 0 ≤ x) (h : x < 2 ^ 63) : wrapInt64 x = x := by
  simp only [wrapInt64]
  rw [Int.emod_eq_of_lt (by omega) (by omega)]
  omega

theorem pow1024_lt (e b : Nat) (h : 1024 ^ (e + 1) ≤ b) (hb : b < 2 ^ 63) : e ≤ 5 := by
  by_contra hc
  have h7 : 1024 ^ 7 ≤ 1024 ^ (e + 1) := Nat.pow_le_pow_right (by norm_num) (by omega)
  have : (1024 : Nat) ^ 7 = 2 ^ 70 := by norm_num
  have h63 : (2 : Nat) ^ 63 < 2 ^ 70 := by norm_num
  omega

theorem sizeLoop_spec (b : Nat) (hb : b < 2 ^ 63) :
    ∀ (fuel e : Nat), 7 ≤ fuel + e → 1024 ^ (e + 1) ≤ b →
      ∃ exp, sizeLoop fuel ((b / 1024 ^ (e + 1) : Nat) : Int) ((1024 ^ (e + 1) : Nat) : Int) e =
          some (((1024 ^ (exp + 1) : Nat) : Int), exp) ∧
        1024 ^ (exp + 1) ≤ b ∧ b < 1024 ^ (exp + 2) := by
  intro fuel
  induction fuel with
  | zero =>
    intro e hf he
    have := pow1024_lt e b he hb
    omega
  | succ fuel ih =>
    intro e hf he
    rw [sizeLoop]
    by_cases hn : b / 1024 ^ (e + 1) ≥ 1024
    · have hn' : ((b / 1024 ^ (e + 1) : Nat) : Int) ≥ 1024 := by exact_mod_cast hn
      rw [if_pos hn']
      have hpos : 0 < 1024 ^ (e + 1) := Nat.pow_pos (by norm_num)
      have he2 : 1024 ^ (e + 1 + 1) ≤ b := by
        rw [pow_succ, Nat.mul_comm]
        exact (Nat.le_div_iff_mul_le hpos).mp hn
      have hlt : 1024 ^ (e + 1 + 1) < 2 ^ 63 := lt_of_le_of_lt he2 hb
      have hdiv : Int.tdiv ((b / 1024 ^ (e + 1) : Nat) : Int) 1024 =
          ((b / 1024 ^ (e + 1 + 1) : Nat) : Int) := by
        rw [Int.tdiv_eq_ediv (Int.ofNat_nonneg _) (by norm_num)]
        rw [pow_succ 1024 (e + 1), ← Nat.div_div_eq_div_mul]
        norm_cast
      have hmul : wrapInt64 (((1024 ^ (e + 1) : Nat) : Int) * 1024) =
          ((1024 ^ (e + 1 + 1) : Nat) : Int) := by
        have h1 : ((1024 ^ (e + 1) : Nat) : Int) * 1024 = ((1024 ^ (e + 1 + 1) : Nat) : Int) := by
          rw [pow_succ 1024 (e + 1)]; push_cast; ring
        rw [h1]
        exact wrapInt64_small _ (Int.ofNat_nonneg _) (by exact_mod_cast hlt)
      rw [hdiv, hmul]
      exact ih (e + 1) (by omega) he2
    · have hn' : ¬ ((b / 1024 ^ (e + 1) : Nat) : Int) ≥ 1024 := by
        intro h; exact hn (by exact_mod_cast h)
      rw [if_neg hn']
      refine ⟨e, rfl, he, ?_⟩
      have hpos : 0 < 1024 ^ (e + 1) := Nat.pow_pos (by norm_num)
      have : b / 1024 ^ (e + 1) < 1024 := by omega
      rw [Nat.div_lt_iff_lt_mul hpos] at this
      rw [show e + 2 = (e + 1) + 1 by rfl, pow_succ 1024 (e + 1)]
      first | exact this | (rw [Nat.mul_comm]; exact this)

theorem kmgtpe_index (exp : Nat) (h : exp ≤ 5) :
    ∃ c, (str "KMGTPE")[exp]? = some c := by
  interval_cases exp <;> exact ⟨_, rfl⟩

/-- C40: for an `int64` value `bytes >= 1024` the loop of `FormatFileSize` ends
with `div = 1024^(exp+1)` (no wrap-around) and an exponent `exp` such that
`1024^(exp+1) <= bytes < 1024^(exp+2)` and `exp <= 5`, so the index into
`KMGTPE` is in range and the function returns the text built from
`bytes / div` and the unit letter; for `0 <= bytes < 1024` it returns the
decimal byte count followed by ` B`. -/
theorem FormatFileSize_exponent (rt : GoRuntime) (fo : FloatOps rt) (ofInt64 : Int → rt.F)
    (bytes : Int) :
    (1024 ≤ bytes → bytes < 2 ^ 63 →
      ∃ exp c, sizeLoop 64 (Int.tdiv bytes 1024) 1024 0 = some ((1024 : Int) ^ (exp + 1), exp) ∧
        (1024 : Int) ^ (exp + 1) ≤ bytes ∧ bytes < (1024 : Int) ^ (exp + 2) ∧ exp ≤ 5 ∧
        (1024 : Int) ^ (exp + 1) < 2 ^ 63 ∧
        (str "KMGTPE")[exp]? = some c ∧
        FormatFileSize rt fo ofInt64 bytes =
          SizeText.text (fo.sprintf1 (rt.div (ofInt64 bytes) (ofInt64 ((1024 : Int) ^ (exp + 1)))) ++
            str " " ++ [c] ++ str "B")) ∧
    (0 ≤ bytes → bytes < 1024 →
      FormatFileSize rt fo ofInt64 bytes = SizeText.text (decimal bytes.toNat ++ str " B")) := by
  constructor
  · intro h1 h2
    obtain ⟨b, rfl⟩ := Int.eq_ofNat_of_zero_le (by omega : 0 ≤ bytes)
    have hb : b < 2 ^ 63 := by exact_mod_cast h2
    have hb1 : 1024 ^ (0 + 1) ≤ b := by
      have : (1024 : Int) ≤ b := h1
      simpa using (by exact_mod_cast this : 1024 ≤ b)
    obtain ⟨exp, hl, k1, k2⟩ := sizeLoop_spec b hb 64 0 (by norm_num) hb1
    have h5 := pow1024_lt exp b k1 hb
    obtain ⟨c, hc⟩ := kmgtpe_index exp h5
    have hstart : Int.tdiv (b : Int) 1024 = ((b / 1024 ^ (0 + 1) : Nat) : Int) := by
      rw [Int.tdiv_eq_ediv (Int.ofNat_nonneg _) (by norm_num)]
      have e1 : (1024 : Nat) ^ (0 + 1) = 1024 := by norm_num
      rw [e1, Int.natCast_div]
      rfl
    have hcast : ((1024 ^ (exp + 1) : Nat) : Int) = (1024 : Int) ^ (exp + 1) := by push_cast; rfl
    have hone : ((1024 ^ (0 + 1) : Nat) : Int) = 1024 := by norm_num
    rw [hone, ← hstart, hcast] at hl
    refine ⟨exp, c, hl, ?_, ?_, h5, ?_, hc, ?_⟩
    · exact_mod_cast k1
    · exact_mod_cast k2
    · have : 1024 ^ (exp + 1) < 2 ^ 63 := lt_of_le_of_lt k1 hb
      exact_mod_cast this
    · simp only [FormatFileSize]
      rw [if_neg (by omega), hl]
      simp only [hc]
  · intro h0 h1
    simp only [FormatFileSize]
    rw [if_pos h1]
    simp only [sprintfD]
    rw [if_neg (by omega)]
    obtain ⟨b, rfl⟩ := Int.eq_ofNat_of_zero_le h0
    rfl

theorem FormatFileSize_exponent_witness :
    FormatFileSize exactRuntime exactFloatOps (fun x => ⟨x, 1⟩) 1536 =
      SizeText.text (str "1.5 KB") ∧
    FormatFileSize exactRuntime exactFloatOps (fun x => ⟨x, 1⟩) (2 ^ 63 - 1) =
      SizeText.text (str "8.0 EB") ∧
    (∃ exp c, sizeLoop 64 (Int.tdiv (2 ^ 63 - 1) 1024) 1024 0 =
        some ((1024 : Int) ^ (exp + 1), exp) ∧
      (1024 : Int) ^ (exp + 1) ≤ 2 ^ 63 - 1 ∧ (2 ^ 63 - 1 : Int) < (1024 : Int) ^ (exp + 2) ∧
      exp ≤ 5 ∧ (1024 : Int) ^ (exp + 1) < 2 ^ 63 ∧ (str "KMGTPE")[exp]? = some c ∧
      FormatFileSize exactRuntime exactFloatOps (fun x => ⟨x, 1⟩) (2 ^ 63 - 1) =
        SizeText.text (exactFloatOps.sprintf1
          (exactRuntime.div ((fun x => ⟨x, 1⟩ : Int → Frac) (2 ^ 63 - 1))
            ((fun x => ⟨x, 1⟩ : Int → Frac) ((1024 : Int) ^ (exp + 1)))) ++ str " " ++ [c] ++
          str "B")) ∧
    FormatFileSize exactRuntime exactFloatOps (fun x => ⟨x, 1⟩) 1023 =
      SizeText.text (str "1023 B") :=
  ⟨by decide, by decide,
    (FormatFileSize_exponent exactRuntime exactFloatOps (fun x => ⟨x, 1⟩) (2 ^ 63 - 1)).1
      (by decide) (by decide),
    ((FormatFileSize_exponent exactRuntime exactFloatOps (fun x => ⟨x, 1⟩) 1023).2
      (by decide) (by decide)).trans (by decide)⟩

/-! ### Matroska on a host with limits -/

namespace hosted

theorem seekStart_ge_lo_hosted (h : Host) (cur target lo : Int) (h1 : lo ≤ cur) (h2 : lo ≤ target) :
    lo ≤ seekStart h cur target := by
  unfold seekStart
  split <;> assumption

theorem seekStart_cases_hosted (h : Host) (cur target : Int) :
    seekStart h cur target = cur ∨ seekStart h cur target = target := by
  unfold seekStart
  split
  · exact Or.inl rfl
  · exact Or.inr rfl

theorem seekStart_ok_hosted (h : Host) (cur target : Int) (h0 : 0 ≤ target)
    (h1 : target ≤ h.maxOffset) : seekStart h cur target = target := by
  unfold seekStart
  rw [if_neg (by omega)]

theorem seekStart_refused_hosted (h : Host) (cur target : Int) (h1 : h.maxOffset < target) :
    seekStart h cur target = cur := by
  unfold seekStart
  rw [if_pos (Or.inr h1)]

theorem ebmlReadUint_pos_ge_hosted (data : List Byte) (pos : Int) (size : Nat) :
    pos ≤ (ebmlReadUint data pos size).pos := by
  have := readFull_pos_ge data pos size
  simp only [ebmlReadUint]
  split
  · exact le_refl _
  · split <;> exact this

theorem ebmlReadFloat_pos_ge_hosted (rt : GoRuntime) (data : List Byte) (pos : Int) (size : Nat) :
    pos ≤ (ebmlReadFloat rt data pos size).pos := by
  have h4 := readFull_pos_ge data pos 4
  have h8 := readFull_pos_ge data pos 8
  simp only [ebmlReadFloat]
  split
  · split <;> exact h4
  · split
    · split <;> exact h8
    · exact le_refl _

theorem ebmlReadString_pos_ge_hosted (h : Host) (data : List Byte) (pos : Int) (size : Nat)
    (r : StringResult) (hr : ebmlReadString h data pos size = Outcome.done r) : pos ≤ r.pos := by
  have := readFull_pos_ge data pos size
  simp only [ebmlReadString] at hr
  split at hr
  · cases hr
  · split at hr
    · cases hr
    · split at hr <;> (cases hr; exact this)

theorem ebmlReadVINT_pos_ge_hosted (data : List Byte) (pos : Int) :
    pos ≤ (ebmlReadVINT data pos).pos := by
  have h1 := readFull_pos_ge data pos 1
  have h2 := fun n => readFull_pos_ge data (readFull data pos 1).pos n
  simp only [ebmlReadVINT]
  split
  · exact h1
  · split
    · exact h1
    · split
      · split
        · exact le_trans h1 (h2 _)
        · exact le_trans h1 (h2 _)
      · exact h1

theorem ebmlReadElementID_pos_ge_hosted (data : List Byte) (pos : Int) :
    pos ≤ (ebmlReadElementID data pos).pos := by
  have h1 := readFull_pos_ge data pos 1
  have h2 := fun n => readFull_pos_ge data (readFull data pos 1).pos n
  simp only [ebmlReadElementID]
  split
  · exact h1
  · split
    · exact h1
    · split
      · split
        · exact le_trans h1 (h2 _)
        · exact le_trans h1 (h2 _)
      · exact h1

theorem ebmlReadElement_pos_ge_hosted (data : List Byte) (pos : Int) :
    pos ≤ (ebmlReadElement data pos).pos := by
  have h1 := ebmlReadElementID_pos_ge_hosted data pos
  have h2 := ebmlReadVINT_pos_ge_hosted data (ebmlReadElementID data pos).pos
  simp only [ebmlReadElement]
  split
  · exact h1
  · split
    · exact le_trans h1 h2
    · exact le_trans h1 h2

/-- Facts about an element header read at a non-negative cursor: the data
starts at least two bytes further, inside the file, and the declared end is
not before the start of the data. -/
theorem elem_facts_hosted (data : List Byte) (pos : Int) (h0 : 0 ≤ pos)
    (he : (ebmlReadElement data pos).err = none) :
    pos + 2 ≤ (ebmlReadElement data pos).pos ∧ pos + 2 ≤ data.length ∧
      (ebmlReadElement data pos).pos ≤
        (ebmlReadElement data pos).pos + toInt64 (ebmlReadElement data pos).size ∧
      toInt64 (ebmlReadElement data pos).size = ((ebmlReadElement data pos).size : Int) := by
  obtain ⟨h1, h2, h3⟩ := ebmlReadElement_ok data pos h0 he
  have hs := toInt64_small (ebmlReadElement data pos).size (by omega)
  rw [hs]
  refine ⟨h1, by omega, by omega, rfl⟩

theorem mkvInfoLoop_step_hosted (h : Host) (rt : GoRuntime) (data : List Byte) (endPos pos : Int)
    (ts : Nat) (dur : rt.F) (h0 : 0 ≤ pos) :
    (∃ r, pos ≤ r.1 ∧ ∀ fuel, mkvInfoLoop h rt data endPos (fuel + 1) pos ts dur = some r) ∨
      (∃ pos' ts' dur', pos < pos' ∧ pos + 2 ≤ data.length ∧
        ∀ fuel, mkvInfoLoop h rt data endPos (fuel + 1) pos ts dur =
          mkvInfoLoop h rt data endPos fuel pos' ts' dur') := by
  by_cases hend : pos ≥ endPos
  · exact Or.inl ⟨(pos, ts, dur), le_refl _, fun fuel => by rw [mkvInfoLoop, if_pos hend]⟩
  · cases he : (ebmlReadElement data pos).err with
    | some e =>
      exact Or.inl ⟨((ebmlReadElement data pos).pos, ts, dur), ebmlReadElement_pos_ge_hosted data pos,
        fun fuel => by simp only [mkvInfoLoop, if_neg hend, he]⟩
    | none =>
      right
      obtain ⟨f1, f2, f3, -⟩ := elem_facts_hosted data pos h0 he
      by_cases c1 : (ebmlReadElement data pos).id = ebmlTimestampScale
      · exact ⟨seekStart h (ebmlReadUint data (ebmlReadElement data pos).pos
            (ebmlReadElement data pos).size).pos
            ((ebmlReadElement data pos).pos + toInt64 (ebmlReadElement data pos).size), _, _,
          by
            have := seekStart_ge_lo_hosted h _ _ _ (ebmlReadUint_pos_ge_hosted data (ebmlReadElement data pos).pos
              (ebmlReadElement data pos).size) f3
            omega,
          f2, fun fuel => by
          simp only [mkvInfoLoop, if_neg hend, he, if_pos c1]; rfl⟩
      · by_cases c2 : (ebmlReadElement data pos).id = ebmlDuration
        · exact ⟨seekStart h (ebmlReadFloat rt data (ebmlReadElement data pos).pos
              (ebmlReadElement data pos).size).pos
              ((ebmlReadElement data pos).pos + toInt64 (ebmlReadElement data pos).size), _, _,
            by
              have := seekStart_ge_lo_hosted h _ _ _ (ebmlReadFloat_pos_ge_hosted rt data
                (ebmlReadElement data pos).pos (ebmlReadElement data pos).size) f3
              omega,
            f2, fun fuel => by
            simp only [mkvInfoLoop, if_neg hend, he, if_neg c1, if_pos c2]; rfl⟩
        · exact ⟨seekStart h (ebmlReadElement data pos).pos
              ((ebmlReadElement data pos).pos + toInt64 (ebmlReadElement data pos).size), _, _,
            by
              have := seekStart_ge_lo_hosted h (ebmlReadElement data pos).pos _ _ (le_refl _) f3
              omega,
            f2, fun fuel => by
            simp only [mkvInfoLoop, if_neg hend, he, if_neg c1, if_neg c2]; rfl⟩

theorem seekStart_nonneg_hosted (h : Host) (cur target : Int) (h0 : 0 ≤ cur) :
    0 ≤ seekStart h cur target := by
  unfold seekStart
  split
  · exact h0
  · omega

theorem mkvInfoLoop_terminates_hosted (h : Host) (rt : GoRuntime) (data : List Byte) (endPos : Int) :
    ∀ (fuel : Nat) (pos : Int) (ts : Nat) (dur : rt.F), 0 ≤ pos →
      (data.length - pos).toNat + 1 ≤ fuel →
      (mkvInfoLoop h rt data endPos fuel pos ts dur).isSome := by
  intro fuel
  induction fuel with
  | zero => intro pos _ _ _ hf; omega
  | succ fuel ih =>
    intro pos ts dur h0 hf
    rcases mkvInfoLoop_step_hosted h rt data endPos pos ts dur h0 with ⟨r, -, hr⟩ |
      ⟨pos', w', h', hlt, hle, hr⟩
    · rw [hr]; rfl
    · rw [hr]
      exact ih pos' w' h' (by omega) (by omega)

theorem mkvInfoLoop_pos_ge_hosted (h : Host) (rt : GoRuntime) (data : List Byte) (endPos : Int) :
    ∀ (fuel : Nat) (pos : Int) (ts : Nat) (dur : rt.F) (r : Int × Nat × rt.F), 0 ≤ pos →
      mkvInfoLoop h rt data endPos fuel pos ts dur = some r → pos ≤ r.1 := by
  intro fuel
  induction fuel with
  | zero => intro pos ts dur r _ hr; simp [mkvInfoLoop] at hr
  | succ fuel ih =>
    intro pos ts dur r h0 hr
    rcases mkvInfoLoop_step_hosted h rt data endPos pos ts dur h0 with ⟨r0, hge, hr0⟩ |
      ⟨pos', w', h', hlt, hle, hr0⟩
    · rw [hr0] at hr; cases hr; exact hge
    · rw [hr0] at hr
      have := ih pos' w' h' r (by omega) hr
      omega

theorem mkvParseInfo_terminates_hosted (h : Host) (rt : GoRuntime) (data : List Byte) (pos : Int)
    (size : Nat) (offset : Int) (h0 : 0 ≤ pos) : (mkvParseInfo h rt data pos size offset).isSome := by
  have := seekStart_nonneg_hosted h pos offset h0
  exact mkvInfoLoop_terminates_hosted h rt data _ _ _ _ _ this (by omega)

theorem mkvParseInfo_pos_ge_hosted (h : Host) (rt : GoRuntime) (data : List Byte) (pos : Int)
    (size : Nat) (r : Int × Nat × rt.F) (h0 : 0 ≤ pos)
    (hr : mkvParseInfo h rt data pos size pos = some r) : pos ≤ r.1 := by
  have h1 := seekStart_nonneg_hosted h pos pos h0
  have h2 := seekStart_ge_lo_hosted h pos pos pos (le_refl _) (le_refl _)
  have := mkvInfoLoop_pos_ge_hosted h rt data _ _ _ _ _ r h1 hr
  omega

theorem mkvVideoLoop_step_hosted (h : Host) (data : List Byte) (endPos pos width height : Int)
    (h0 : 0 ≤ pos) :
    (∃ r, pos ≤ r.1 ∧ ∀ fuel, mkvVideoLoop h data endPos (fuel + 1) pos width height = some r) ∨
      (∃ pos' w' h', pos < pos' ∧ pos + 2 ≤ data.length ∧
        ∀ fuel, mkvVideoLoop h data endPos (fuel + 1) pos width height =
          mkvVideoLoop h data endPos fuel pos' w' h') := by
  by_cases hend : pos ≥ endPos
  · exact Or.inl ⟨(pos, width, height), le_refl _, fun fuel => by
      rw [mkvVideoLoop, if_pos hend]⟩
  · cases he : (ebmlReadElement data pos).err with
    | some e =>
      exact Or.inl ⟨((ebmlReadElement data pos).pos, width, height), ebmlReadElement_pos_ge_hosted data pos,
        fun fuel => by simp only [mkvVideoLoop, if_neg hend, he]⟩
    | none =>
      right
      obtain ⟨f1, f2, f3, -⟩ := elem_facts_hosted data pos h0 he
      by_cases c1 : (ebmlReadElement data pos).id = ebmlPixelWidth
      · exact ⟨seekStart h (ebmlReadUint data (ebmlReadElement data pos).pos (ebmlReadElement data pos).size).pos ((ebmlReadElement data pos).pos + toInt64 (ebmlReadElement data pos).size), _, _,
          by
            have := seekStart_ge_lo_hosted h _ ((ebmlReadElement data pos).pos + toInt64 (ebmlReadElement data pos).size) (ebmlReadElement data pos).pos (ebmlReadUint_pos_ge_hosted data (ebmlReadElement data pos).pos (ebmlReadElement data pos).size) f3
            omega,
          f2, fun fuel => by
          simp only [mkvVideoLoop, if_neg hend, he, if_pos c1]; rfl⟩
      · by_cases c2 : (ebmlReadElement data pos).id = ebmlPixelHeight
        · exact ⟨seekStart h (ebmlReadUint data (ebmlReadElement data pos).pos (ebmlReadElement data pos).size).pos ((ebmlReadElement data pos).pos + toInt64 (ebmlReadElement data pos).size), _, _,
            by
            have := seekStart_ge_lo_hosted h _ ((ebmlReadElement data pos).pos + toInt64 (ebmlReadElement data pos).size) (ebmlReadElement data pos).pos (ebmlReadUint_pos_ge_hosted data (ebmlReadElement data pos).pos (ebmlReadElement data pos).size) f3
            omega,
            f2, fun fuel => by
            simp only [mkvVideoLoop, if_neg hend, he, if_neg c1, if_pos c2]; rfl⟩
        · exact ⟨seekStart h (ebmlReadElement data pos).pos ((ebmlReadElement data pos).pos + toInt64 (ebmlReadElement data pos).size), _, _,
            by
            have := seekStart_ge_lo_hosted h _ ((ebmlReadElement data pos).pos + toInt64 (ebmlReadElement data pos).size) (ebmlReadElement data pos).pos (le_refl _) f3
            omega,
            f2, fun fuel => by
            simp only [mkvVideoLoop, if_neg hend, he, if_neg c1, if_neg c2]; rfl⟩

theorem mkvVideoLoop_terminates_hosted (h : Host) (data : List Byte) (endPos : Int) :
    ∀ (fuel : Nat) (pos width height : Int), 0 ≤ pos → (data.length - pos).toNat + 1 ≤ fuel →
      (mkvVideoLoop h data endPos fuel pos width height).isSome := by
  intro fuel
  induction fuel with
  | zero => intro pos _ _ _ hf; omega
  | succ fuel ih =>
    intro pos width height h0 hf
    rcases mkvVideoLoop_step_hosted h data endPos pos width height h0 with ⟨r, -, hr⟩ |
      ⟨pos', w', h', hlt, hle, hr⟩
    · rw [hr]; rfl
    · rw [hr]
      exact ih pos' w' h' (by omega) (by omega)

theorem mkvVideoLoop_pos_ge_hosted (h : Host) (data : List Byte) (endPos : Int) :
    ∀ (fuel : Nat) (pos width height : Int) (r : Int × Int × Int), 0 ≤ pos →
      mkvVideoLoop h data endPos fuel pos width height = some r → pos ≤ r.1 := by
  intro fuel
  induction fuel with
  | zero => intro pos width height r _ hr; simp [mkvVideoLoop] at hr
  | succ fuel ih =>
    intro pos width height r h0 hr
    rcases mkvVideoLoop_step_hosted h data endPos pos width height h0 with ⟨r0, hge, hr0⟩ |
      ⟨pos', w', h', hlt, hle, hr0⟩
    · rw [hr0] at hr; cases hr; exact hge
    · rw [hr0] at hr
      have := ih pos' w' h' r (by omega) hr
      omega

theorem mkvParseVideoInfo_terminates_hosted (h : Host) (data : List Byte) (pos : Int) (size : Nat)
    (offset : Int) (h0 : 0 ≤ pos) : (mkvParseVideoInfo h data pos size offset).isSome := by
  have := seekStart_nonneg_hosted h pos offset h0
  exact mkvVideoLoop_terminates_hosted h data _ _ _ _ _ this (by omega)

theorem mkvParseVideoInfo_pos_ge_hosted (h : Host) (data : List Byte) (pos : Int) (size : Nat)
    (r : Int × Int × Int) (h0 : 0 ≤ pos)
    (hr : mkvParseVideoInfo h data pos size pos = some r) : pos ≤ r.1 := by
  have h1 := seekStart_nonneg_hosted h pos pos h0
  have h2 := seekStart_ge_lo_hosted h pos pos pos (le_refl _) (le_refl _)
  have := mkvVideoLoop_pos_ge_hosted h data _ _ _ _ _ r h1 hr
  omega

theorem mkvTrackEntryLoop_step_hosted (h : Host) (data : List Byte) (endPos pos : Int)
    (v : TrackVars) (h0 : 0 ≤ pos) :
    (∃ r, r ≠ Outcome.outOfFuel ∧ (∀ x, r = Outcome.done x → pos ≤ x.1) ∧
        ∀ fuel, mkvTrackEntryLoop h data endPos (fuel + 1) pos v = r) ∨
      (∃ pos' v', pos < pos' ∧ pos + 2 ≤ data.length ∧
        ∀ fuel, mkvTrackEntryLoop h data endPos (fuel + 1) pos v =
          mkvTrackEntryLoop h data endPos fuel pos' v') := by
  by_cases hend : pos ≥ endPos
  · exact Or.inl ⟨Outcome.done (pos, v), by simp, fun x hx => by cases hx; exact le_refl _,
      fun fuel => by rw [mkvTrackEntryLoop, if_pos hend]⟩
  · cases he : (ebmlReadElement data pos).err with
    | some e =>
      exact Or.inl ⟨Outcome.done ((ebmlReadElement data pos).pos, v), by simp,
        fun x hx => by cases hx; exact ebmlReadElement_pos_ge_hosted data pos,
        fun fuel => by simp only [mkvTrackEntryLoop, if_neg hend, he]⟩
    | none =>
      obtain ⟨f1, f2, f3, -⟩ := elem_facts_hosted data pos h0 he
      by_cases c1 : (ebmlReadElement data pos).id = ebmlTrackType
      · exact Or.inr ⟨seekStart h (ebmlReadUint data (ebmlReadElement data pos).pos (ebmlReadElement data pos).size).pos ((ebmlReadElement data pos).pos + toInt64 (ebmlReadElement data pos).size), _,
          by
            have := seekStart_ge_lo_hosted h _ ((ebmlReadElement data pos).pos + toInt64 (ebmlReadElement data pos).size) (ebmlReadElement data pos).pos (ebmlReadUint_pos_ge_hosted data (ebmlReadElement data pos).pos (ebmlReadElement data pos).size) f3
            omega,
          f2, fun fuel => by
          simp only [mkvTrackEntryLoop, if_neg hend, he, if_pos c1]; rfl⟩
      · by_cases c2 : (ebmlReadElement data pos).id = ebmlCodecID
        · cases hs : ebmlReadString h data (ebmlReadElement data pos).pos (ebmlReadElement data pos).size with
          | panic p =>
            exact Or.inl ⟨Outcome.panic p, by simp, (fun x hx => by cases hx), fun fuel => by
              simp only [mkvTrackEntryLoop, if_neg hend, he, if_neg c1, if_pos c2, hs]⟩
          | outOfMemory =>
            exact Or.inl ⟨Outcome.outOfMemory, by simp, (fun x hx => by cases hx), fun fuel => by
              simp only [mkvTrackEntryLoop, if_neg hend, he, if_neg c1, if_pos c2, hs]⟩
          | outOfFuel =>
            exfalso
            simp only [ebmlReadString] at hs
            split at hs
            · cases hs
            · split at hs
              · cases hs
              · split at hs <;> cases hs
          | done r =>
            exact Or.inr ⟨seekStart h r.pos ((ebmlReadElement data pos).pos + toInt64 (ebmlReadElement data pos).size), _,
              by
                have := seekStart_ge_lo_hosted h _ ((ebmlReadElement data pos).pos + toInt64 (ebmlReadElement data pos).size) (ebmlReadElement data pos).pos (ebmlReadString_pos_ge_hosted h data (ebmlReadElement data pos).pos (ebmlReadElement data pos).size r hs) f3
                omega,
              f2, fun fuel => by
              simp only [mkvTrackEntryLoop, if_neg hend, he, if_neg c1, if_pos c2, hs]; rfl⟩
        · by_cases c3 : (ebmlReadElement data pos).id = ebmlDefaultDur
          · exact Or.inr ⟨seekStart h (ebmlReadUint data (ebmlReadElement data pos).pos (ebmlReadElement data pos).size).pos ((ebmlReadElement data pos).pos + toInt64 (ebmlReadElement data pos).size), _,
              by
                have := seekStart_ge_lo_hosted h _ ((ebmlReadElement data pos).pos + toInt64 (ebmlReadElement data pos).size) (ebmlReadElement data pos).pos (ebmlReadUint_pos_ge_hosted data (ebmlReadElement data pos).pos (ebmlReadElement data pos).size) f3
                omega,
              f2, fun fuel => by
              simp only [mkvTrackEntryLoop, if_neg hend, he, if_neg c1, if_neg c2, if_pos c3]
              rfl⟩
          · by_cases c4 : (ebmlReadElement data pos).id = ebmlVideo
            · have ht := mkvParseVideoInfo_terminates_hosted h data (ebmlReadElement data pos).pos (ebmlReadElement data pos).size (ebmlReadElement data pos).pos (by omega)
              cases hv : mkvParseVideoInfo h data (ebmlReadElement data pos).pos (ebmlReadElement data pos).size (ebmlReadElement data pos).pos with
              | none => rw [hv] at ht; cases ht
              | some r =>
                exact Or.inr ⟨seekStart h r.1 ((ebmlReadElement data pos).pos + toInt64 (ebmlReadElement data pos).size), _,
                  by
                    have := seekStart_ge_lo_hosted h _ ((ebmlReadElement data pos).pos + toInt64 (ebmlReadElement data pos).size) (ebmlReadElement data pos).pos (mkvParseVideoInfo_pos_ge_hosted h data (ebmlReadElement data pos).pos (ebmlReadElement data pos).size r (by omega) hv) f3
                    omega,
                  f2, fun fuel => by
                  simp only [mkvTrackEntryLoop, if_neg hend, he, if_neg c1, if_neg c2, if_neg c3,
                    if_pos c4, hv]
                  rfl⟩
            · exact Or.inr ⟨seekStart h (ebmlReadElement data pos).pos ((ebmlReadElement data pos).pos + toInt64 (ebmlReadElement data pos).size), _,
                by
                  have := seekStart_ge_lo_hosted h _ ((ebmlReadElement data pos).pos + toInt64 (ebmlReadElement data pos).size) (ebmlReadElement data pos).pos (le_refl _) f3
                  omega,
                f2, fun fuel => by
                simp only [mkvTrackEntryLoop, if_neg hend, he, if_neg c1, if_neg c2, if_neg c3,
                  if_neg c4]
                rfl⟩

theorem mkvTrackEntryLoop_terminates_hosted (h : Host) (data : List Byte) (endPos : Int) :
    ∀ (fuel : Nat) (pos : Int) (v : TrackVars), 0 ≤ pos → (data.length - pos).toNat + 1 ≤ fuel →
      mkvTrackEntryLoop h data endPos fuel pos v ≠ Outcome.outOfFuel := by
  intro fuel
  induction fuel with
  | zero => intro pos _ _ hf; omega
  | succ fuel ih =>
    intro pos v h0 hf
    rcases mkvTrackEntryLoop_step_hosted h data endPos pos v h0 with ⟨r, hne, -, hr⟩ |
      ⟨pos', v', hlt, hle, hr⟩
    · rw [hr]; exact hne
    · rw [hr]
      exact ih pos' v' (by omega) (by omega)

theorem mkvTrackEntryLoop_pos_ge_hosted (h : Host) (data : List Byte) (endPos : Int) :
    ∀ (fuel : Nat) (pos : Int) (v : TrackVars) (r : Int × TrackVars), 0 ≤ pos →
      mkvTrackEntryLoop h data endPos fuel pos v = Outcome.done r → pos ≤ r.1 := by
  intro fuel
  induction fuel with
  | zero => intro pos v r _ hr; simp [mkvTrackEntryLoop] at hr
  | succ fuel ih =>
    intro pos v r h0 hr
    rcases mkvTrackEntryLoop_step_hosted h data endPos pos v h0 with ⟨r0, -, hge, hr0⟩ |
      ⟨pos', v', hlt, hle, hr0⟩
    · rw [hr0] at hr; exact hge r hr
    · rw [hr0] at hr
      have := ih pos' v' r (by omega) hr
      omega

theorem mkvParseTrackEntry_terminates_hosted (h : Host) (rt : GoRuntime) (data : List Byte) (pos : Int)
    (size : Nat) (offset : Int) (info : FileInfo rt.F) (h0 : 0 ≤ pos) :
    mkvParseTrackEntry h rt data pos size offset info ≠ Outcome.outOfFuel := by
  have h1 := seekStart_nonneg_hosted h pos offset h0
  have := mkvTrackEntryLoop_terminates_hosted h data (offset + toInt64 size) (data.length + 1)
    (seekStart h pos offset) ⟨0, [], 0, 0, 0⟩ h1 (by omega)
  simp only [mkvParseTrackEntry]
  split
  · simp
  · simp
  · simp
  · rename_i heq
    exact absurd heq this

theorem mkvParseTrackEntry_pos_ge_hosted (h : Host) (rt : GoRuntime) (data : List Byte) (pos : Int)
    (size : Nat) (info : FileInfo rt.F) (r : Int × FileInfo rt.F) (h0 : 0 ≤ pos)
    (hr : mkvParseTrackEntry h rt data pos size pos info = Outcome.done r) : pos ≤ r.1 := by
  have h1 := seekStart_nonneg_hosted h pos pos h0
  have h2 := seekStart_ge_lo_hosted h pos pos pos (le_refl _) (le_refl _)
  simp only [mkvParseTrackEntry] at hr
  split at hr
  · rename_i r1 heq
    cases hr
    have := mkvTrackEntryLoop_pos_ge_hosted h data _ _ _ _ r1 h1 heq
    simp only
    omega
  · cases hr
  · cases hr
  · cases hr

theorem mkvTracksLoop_step_hosted (h : Host) (rt : GoRuntime) (data : List Byte) (endPos pos : Int)
    (info : FileInfo rt.F) (h0 : 0 ≤ pos) :
    (∃ r, r ≠ Outcome.outOfFuel ∧ (∀ x, r = Outcome.done x → pos ≤ x.1) ∧
        ∀ fuel, mkvTracksLoop h rt data endPos (fuel + 1) pos info = r) ∨
      (∃ pos' info', pos < pos' ∧ pos + 2 ≤ data.length ∧
        ∀ fuel, mkvTracksLoop h rt data endPos (fuel + 1) pos info =
          mkvTracksLoop h rt data endPos fuel pos' info') := by
  by_cases hend : pos ≥ endPos
  · exact Or.inl ⟨Outcome.done (pos, info), by simp, (fun x hx => by cases hx; exact le_refl _),
      fun fuel => by rw [mkvTracksLoop, if_pos hend]⟩
  · cases he : (ebmlReadElement data pos).err with
    | some e =>
      exact Or.inl ⟨Outcome.done ((ebmlReadElement data pos).pos, info), by simp,
        (fun x hx => by cases hx; exact ebmlReadElement_pos_ge_hosted data pos),
        fun fuel => by simp only [mkvTracksLoop, if_neg hend, he]⟩
    | none =>
      obtain ⟨f1, f2, f3, -⟩ := elem_facts_hosted data pos h0 he
      by_cases c1 : (ebmlReadElement data pos).id = ebmlTrackEntry
      · have ht := mkvParseTrackEntry_terminates_hosted h rt data (ebmlReadElement data pos).pos (ebmlReadElement data pos).size (ebmlReadElement data pos).pos info
          (by omega)
        cases hs : mkvParseTrackEntry h rt data (ebmlReadElement data pos).pos (ebmlReadElement data pos).size (ebmlReadElement data pos).pos info with
        | outOfFuel => exact absurd hs ht
        | panic p =>
          exact Or.inl ⟨Outcome.panic p, by simp, (fun x hx => by cases hx), fun fuel => by
            simp only [mkvTracksLoop, if_neg hend, he, if_pos c1, hs]⟩
        | outOfMemory =>
          exact Or.inl ⟨Outcome.outOfMemory, by simp, (fun x hx => by cases hx), fun fuel => by
            simp only [mkvTracksLoop, if_neg hend, he, if_pos c1, hs]⟩
        | done r =>
          exact Or.inr ⟨seekStart h r.1 ((ebmlReadElement data pos).pos + toInt64 (ebmlReadElement data pos).size), _,
            by
              have := seekStart_ge_lo_hosted h _ ((ebmlReadElement data pos).pos + toInt64 (ebmlReadElement data pos).size) (ebmlReadElement data pos).pos (mkvParseTrackEntry_pos_ge_hosted h rt data (ebmlReadElement data pos).pos (ebmlReadElement data pos).size info r (by omega) hs) f3
              omega,
            f2, fun fuel => by
            simp only [mkvTracksLoop, if_neg hend, he, if_pos c1, hs]; rfl⟩
      · exact Or.inr ⟨seekStart h (ebmlReadElement data pos).pos ((ebmlReadElement data pos).pos + toInt64 (ebmlReadElement data pos).size), _,
          by
            have := seekStart_ge_lo_hosted h _ ((ebmlReadElement data pos).pos + toInt64 (ebmlReadElement data pos).size) (ebmlReadElement data pos).pos (le_refl _) f3
            omega,
          f2, fun fuel => by
          simp only [mkvTracksLoop, if_neg hend, he, if_neg c1]; rfl⟩

theorem mkvTracksLoop_terminates_hosted (h : Host) (rt : GoRuntime) (data : List Byte) (endPos : Int) :
    ∀ (fuel : Nat) (pos : Int) (info : FileInfo rt.F), 0 ≤ pos → (data.length - pos).toNat + 1 ≤ fuel →
      mkvTracksLoop h rt data endPos fuel pos info ≠ Outcome.outOfFuel := by
  intro fuel
  induction fuel with
  | zero => intro pos _ _ hf; omega
  | succ fuel ih =>
    intro pos info h0 hf
    rcases mkvTracksLoop_step_hosted h rt data endPos pos info h0 with ⟨r, hne, -, hr⟩ |
      ⟨pos', v', hlt, hle, hr⟩
    · rw [hr]; exact hne
    · rw [hr]
      exact ih pos' v' (by omega) (by omega)

theorem mkvTracksLoop_pos_ge_hosted (h : Host) (rt : GoRuntime) (data : List Byte) (endPos : Int) :
    ∀ (fuel : Nat) (pos : Int) (info : FileInfo rt.F) (r : Int × FileInfo rt.F), 0 ≤ pos →
      mkvTracksLoop h rt data endPos fuel pos info = Outcome.done r → pos ≤ r.1 := by
  intro fuel
  induction fuel with
  | zero => intro pos info r _ hr; simp [mkvTracksLoop] at hr
  | succ fuel ih =>
    intro pos info r h0 hr
    rcases mkvTracksLoop_step_hosted h rt data endPos pos info h0 with ⟨r0, -, hge, hr0⟩ |
      ⟨pos', v', hlt, hle, hr0⟩
    · rw [hr0] at hr; exact hge r hr
    · rw [hr0] at hr
      have := ih pos' v' r (by omega) hr
      omega

theorem mkvParseTracks_terminates_hosted (h : Host) (rt : GoRuntime) (data : List Byte) (pos : Int)
    (size : Nat) (offset : Int) (info : FileInfo rt.F) (h0 : 0 ≤ pos) :
    mkvParseTracks h rt data pos size offset info ≠ Outcome.outOfFuel := by
  have := seekStart_nonneg_hosted h pos offset h0
  exact mkvTracksLoop_terminates_hosted h rt data _ _ _ _ this (by omega)

theorem mkvParseTracks_pos_ge_hosted (h : Host) (rt : GoRuntime) (data : List Byte) (pos : Int)
    (size : Nat) (info : FileInfo rt.F) (r : Int × FileInfo rt.F) (h0 : 0 ≤ pos)
    (hr : mkvParseTracks h rt data pos size pos info = Outcome.done r) : pos ≤ r.1 := by
  have h1 := seekStart_nonneg_hosted h pos pos h0
  have h2 := seekStart_ge_lo_hosted h pos pos pos (le_refl _) (le_refl _)
  have := mkvTracksLoop_pos_ge_hosted h rt data _ _ _ _ r h1 hr
  omega

theorem mkvSegmentLoop_step_hosted (h : Host) (rt : GoRuntime) (data : List Byte)
    (parseLimit pos : Int) (v : SegmentVars rt.F) (h0 : 0 ≤ pos) :
    (∃ r, r ≠ Outcome.outOfFuel ∧ (∀ x, r = Outcome.done x → pos ≤ x.1) ∧
        ∀ fuel, mkvSegmentLoop h rt data parseLimit (fuel + 1) pos v = r) ∨
      (∃ pos' v', pos < pos' ∧ pos + 2 ≤ data.length ∧
        ∀ fuel, mkvSegmentLoop h rt data parseLimit (fuel + 1) pos v =
          mkvSegmentLoop h rt data parseLimit fuel pos' v') := by
  by_cases hend : pos ≥ parseLimit
  · exact Or.inl ⟨Outcome.done (pos, v), by simp, (fun x hx => by cases hx; exact le_refl _),
      fun fuel => by rw [mkvSegmentLoop, if_pos hend]⟩
  · cases he : (ebmlReadElement data pos).err with
    | some e =>
      exact Or.inl ⟨Outcome.done ((ebmlReadElement data pos).pos, v), by simp,
        (fun x hx => by cases hx; exact ebmlReadElement_pos_ge_hosted data pos),
        fun fuel => by simp only [mkvSegmentLoop, if_neg hend, he]⟩
    | none =>
      obtain ⟨f1, f2, f3, -⟩ := elem_facts_hosted data pos h0 he
      by_cases c1 : (ebmlReadElement data pos).id = ebmlInfo
      · have ht := mkvParseInfo_terminates_hosted h rt data (ebmlReadElement data pos).pos (ebmlReadElement data pos).size (ebmlReadElement data pos).pos (by omega)
        cases hv : mkvParseInfo h rt data (ebmlReadElement data pos).pos (ebmlReadElement data pos).size (ebmlReadElement data pos).pos with
        | none => rw [hv] at ht; cases ht
        | some r =>
          exact Or.inr ⟨seekStart h r.1 ((ebmlReadElement data pos).pos + toInt64 (ebmlReadElement data pos).size), _,
            by
              have := seekStart_ge_lo_hosted h _ ((ebmlReadElement data pos).pos + toInt64 (ebmlReadElement data pos).size) (ebmlReadElement data pos).pos (mkvParseInfo_pos_ge_hosted h rt data (ebmlReadElement data pos).pos (ebmlReadElement data pos).size r (by omega) hv) f3
              omega,
            f2, fun fuel => by
            simp only [mkvSegmentLoop, if_neg hend, he, if_pos c1, hv]; rfl⟩
      · by_cases c2 : (ebmlReadElement data pos).id = ebmlTracks
        · have ht := mkvParseTracks_terminates_hosted h rt data (ebmlReadElement data pos).pos (ebmlReadElement data pos).size (ebmlReadElement data pos).pos v.info
            (by omega)
          cases hs : mkvParseTracks h rt data (ebmlReadElement data pos).pos (ebmlReadElement data pos).size (ebmlReadElement data pos).pos v.info with
          | outOfFuel => exact absurd hs ht
          | panic p =>
            exact Or.inl ⟨Outcome.panic p, by simp, (fun x hx => by cases hx), fun fuel => by
              simp only [mkvSegmentLoop, if_neg hend, he, if_neg c1, if_pos c2, hs]⟩
          | outOfMemory =>
            exact Or.inl ⟨Outcome.outOfMemory, by simp, (fun x hx => by cases hx), fun fuel => by
              simp only [mkvSegmentLoop, if_neg hend, he, if_neg c1, if_pos c2, hs]⟩
          | done r =>
            exact Or.inr ⟨seekStart h r.1 ((ebmlReadElement data pos).pos + toInt64 (ebmlReadElement data pos).size), _,
              by
                have := seekStart_ge_lo_hosted h _ ((ebmlReadElement data pos).pos + toInt64 (ebmlReadElement data pos).size) (ebmlReadElement data pos).pos (mkvParseTracks_pos_ge_hosted h rt data (ebmlReadElement data pos).pos (ebmlReadElement data pos).size v.info r (by omega) hs) f3
                omega,
              f2, fun fuel => by
              simp only [mkvSegmentLoop, if_neg hend, he, if_neg c1, if_pos c2, hs]; rfl⟩
        · exact Or.inr ⟨seekStart h (ebmlReadElement data pos).pos ((ebmlReadElement data pos).pos + toInt64 (ebmlReadElement data pos).size), _,
            by
              have := seekStart_ge_lo_hosted h _ ((ebmlReadElement data pos).pos + toInt64 (ebmlReadElement data pos).size) (ebmlReadElement data pos).pos (le_refl _) f3
              omega,
            f2, fun fuel => by
            simp only [mkvSegmentLoop, if_neg hend, he, if_neg c1, if_neg c2]; rfl⟩

theorem mkvSegmentLoop_terminates_hosted (h : Host) (rt : GoRuntime) (data : List Byte) (parseLimit : Int) :
    ∀ (fuel : Nat) (pos : Int) (v : SegmentVars rt.F), 0 ≤ pos → (data.length - pos).toNat + 1 ≤ fuel →
      mkvSegmentLoop h rt data parseLimit fuel pos v ≠ Outcome.outOfFuel := by
  intro fuel
  induction fuel with
  | zero => intro pos _ _ hf; omega
  | succ fuel ih =>
    intro pos v h0 hf
    rcases mkvSegmentLoop_step_hosted h rt data parseLimit pos v h0 with ⟨r, hne, -, hr⟩ |
      ⟨pos', v', hlt, hle, hr⟩
    · rw [hr]; exact hne
    · rw [hr]
      exact ih pos' v' (by omega) (by omega)

theorem mkvSegmentLoop_pos_ge_hosted (h : Host) (rt : GoRuntime) (data : List Byte) (parseLimit : Int) :
    ∀ (fuel : Nat) (pos : Int) (v : SegmentVars rt.F) (r : Int × SegmentVars rt.F), 0 ≤ pos →
      mkvSegmentLoop h rt data parseLimit fuel pos v = Outcome.done r → pos ≤ r.1 := by
  intro fuel
  induction fuel with
  | zero => intro pos v r _ hr; simp [mkvSegmentLoop] at hr
  | succ fuel ih =>
    intro pos v r h0 hr
    rcases mkvSegmentLoop_step_hosted h rt data parseLimit pos v h0 with ⟨r0, -, hge, hr0⟩ |
      ⟨pos', v', hlt, hle, hr0⟩
    · rw [hr0] at hr; exact hge r hr
    · rw [hr0] at hr
      have := ih pos' v' r (by omega) hr
      omega

theorem parseMKV_valid_header_hosted (h : Host) (rt : GoRuntime) (path : GoString) (data : List Byte)
    (hh : (ebmlReadElement data 0).err = none ∧ (ebmlReadElement data 0).id = ebmlHeader)
    (hs : (mkvSegmentHeader h data).err = none ∧ (mkvSegmentHeader h data).id = ebmlSegment) :
    0 ≤ (mkvSegmentHeader h data).pos ∧
    parseMKV h rt path data =
      match mkvSegmentLoop h rt data (mkvParseLimit h data) (data.length + 1)
          (mkvSegmentHeader h data).pos (mkvSegmentInit rt path data) with
      | Outcome.done r => Outcome.done (mkvFinish rt r.2)
      | Outcome.panic p => Outcome.panic p
      | Outcome.outOfMemory => Outcome.outOfMemory
      | Outcome.outOfFuel => Outcome.outOfFuel := by
  have a1 := ebmlReadElement_pos_ge_hosted data 0
  have hcur : 0 ≤ seekCurrent h (ebmlReadElement data 0).pos
      (toInt64 (ebmlReadElement data 0).size) := by
    simp only [seekCurrent]
    exact seekStart_nonneg_hosted h _ _ a1
  have b1 := ebmlReadElement_pos_ge_hosted data (seekCurrent h (ebmlReadElement data 0).pos
      (toInt64 (ebmlReadElement data 0).size))
  refine ⟨by simp only [mkvSegmentHeader]; omega, ?_⟩
  have hneg1 : ¬ ((ebmlReadElement data 0).err ≠ none ∨ (ebmlReadElement data 0).id ≠ ebmlHeader) := by
    rw [hh.1, hh.2]; simp
  have hneg2 : ¬ ((mkvSegmentHeader h data).err ≠ none ∨
      (mkvSegmentHeader h data).id ≠ ebmlSegment) := by
    rw [hs.1, hs.2]; simp
  simp only [mkvSegmentHeader] at hneg2
  simp only [parseMKV, if_neg hneg1, if_neg hneg2]
  rfl

theorem mkvSegmentWalk_bounds_hosted (h : Host) (rt : GoRuntime) (data : List Byte) (parseLimit : Int) :
    ∀ (fuel : Nat) (pos : Int) (v : SegmentVars rt.F), 0 ≤ pos →
      ∀ c ∈ mkvSegmentWalk h rt data parseLimit fuel pos v, pos ≤ c.1 ∧ c.1 < parseLimit := by
  intro fuel
  induction fuel with
  | zero => intro pos v _ c hc; simp [mkvSegmentWalk] at hc
  | succ fuel ih =>
    intro pos v h0 c hc
    by_cases hend : pos ≥ parseLimit
    · simp only [mkvSegmentWalk, if_pos hend] at hc
      cases hc
    · cases he : (ebmlReadElement data pos).err with
      | some e =>
        simp only [mkvSegmentWalk, if_neg hend, he] at hc
        cases hc
      | none =>
        obtain ⟨f1, f2, f3, f4⟩ := elem_facts_hosted data pos h0 he

        by_cases c1 : (ebmlReadElement data pos).id = ebmlInfo
        · cases hv : mkvParseInfo h rt data (ebmlReadElement data pos).pos (ebmlReadElement data pos).size (ebmlReadElement data pos).pos with
          | none =>
            simp only [mkvSegmentWalk, if_neg hend, he, if_pos c1, hv] at hc
            simp only [List.mem_singleton] at hc
            cases hc
            exact ⟨le_refl _, by omega⟩
          | some i =>
            have gi := mkvParseInfo_pos_ge_hosted h rt data (ebmlReadElement data pos).pos (ebmlReadElement data pos).size i (by omega) hv
            have gn := seekStart_ge_lo_hosted h i.1 ((ebmlReadElement data pos).pos + toInt64 (ebmlReadElement data pos).size) (ebmlReadElement data pos).pos gi f3
            simp only [mkvSegmentWalk, if_neg hend, he, if_pos c1, hv] at hc
            simp only [List.mem_cons] at hc
            rcases hc with rfl | hc
            · exact ⟨le_refl _, by omega⟩
            · have := ih _ _ (by omega) c hc
              exact ⟨by omega, this.2⟩
        · by_cases c2 : (ebmlReadElement data pos).id = ebmlTracks
          · cases hs : mkvParseTracks h rt data (ebmlReadElement data pos).pos (ebmlReadElement data pos).size (ebmlReadElement data pos).pos v.info with
            | done t =>
              have gi := mkvParseTracks_pos_ge_hosted h rt data (ebmlReadElement data pos).pos (ebmlReadElement data pos).size v.info t (by omega) hs
              have gn := seekStart_ge_lo_hosted h t.1 ((ebmlReadElement data pos).pos + toInt64 (ebmlReadElement data pos).size) (ebmlReadElement data pos).pos gi f3
              simp only [mkvSegmentWalk, if_neg hend, he, if_neg c1, if_pos c2, hs] at hc
              simp only [List.mem_cons] at hc
              rcases hc with rfl | hc
              · exact ⟨le_refl _, by omega⟩
              · have := ih _ _ (by omega) c hc
                exact ⟨by omega, this.2⟩
            | panic p =>
              simp only [mkvSegmentWalk, if_neg hend, he, if_neg c1, if_pos c2, hs] at hc
              simp only [List.mem_singleton] at hc
              cases hc
              exact ⟨le_refl _, by omega⟩
            | outOfMemory =>
              simp only [mkvSegmentWalk, if_neg hend, he, if_neg c1, if_pos c2, hs] at hc
              simp only [List.mem_singleton] at hc
              cases hc
              exact ⟨le_refl _, by omega⟩
            | outOfFuel =>
              simp only [mkvSegmentWalk, if_neg hend, he, if_neg c1, if_pos c2, hs] at hc
              simp only [List.mem_singleton] at hc
              cases hc
              exact ⟨le_refl _, by omega⟩
          · have gn := seekStart_ge_lo_hosted h (ebmlReadElement data pos).pos ((ebmlReadElement data pos).pos + toInt64 (ebmlReadElement data pos).size) (ebmlReadElement data pos).pos (le_refl _) f3
            simp only [mkvSegmentWalk, if_neg hend, he, if_neg c1, if_neg c2] at hc
            simp only [List.mem_cons] at hc
            rcases hc with rfl | hc
            · exact ⟨le_refl _, by omega⟩
            · have := ih _ _ (by omega) c hc
              exact ⟨by omega, this.2⟩

theorem mkvSegmentWalk_mono_hosted (h : Host) (rt : GoRuntime) (data : List Byte)
    (parseLimit limit2 : Int) (hl : parseLimit ≤ limit2) :
    ∀ (fuel : Nat) (pos : Int) (v : SegmentVars rt.F), 0 ≤ pos →
      ∀ c ∈ mkvSegmentWalk h rt data parseLimit fuel pos v,
        c ∈ mkvSegmentWalk h rt data limit2 fuel pos v := by
  intro fuel
  induction fuel with
  | zero => intro pos v _ c hc; simp [mkvSegmentWalk] at hc
  | succ fuel ih =>
    intro pos v h0 c hc
    by_cases hend : pos ≥ parseLimit
    · simp only [mkvSegmentWalk, if_pos hend] at hc
      cases hc
    · have hend2 : ¬ pos ≥ limit2 := by omega
      cases he : (ebmlReadElement data pos).err with
      | some e =>
        simp only [mkvSegmentWalk, if_neg hend, if_neg hend2, he] at hc ⊢
        cases hc
      | none =>
        obtain ⟨f1, f2, f3, f4⟩ := elem_facts_hosted data pos h0 he

        by_cases c1 : (ebmlReadElement data pos).id = ebmlInfo
        · cases hv : mkvParseInfo h rt data (ebmlReadElement data pos).pos (ebmlReadElement data pos).size (ebmlReadElement data pos).pos with
          | none =>
            simp only [mkvSegmentWalk, if_neg hend, if_neg hend2, he, if_pos c1, hv] at hc ⊢
            exact hc
          | some i =>
            have gi := mkvParseInfo_pos_ge_hosted h rt data (ebmlReadElement data pos).pos (ebmlReadElement data pos).size i (by omega) hv
            have gn := seekStart_ge_lo_hosted h i.1 ((ebmlReadElement data pos).pos + toInt64 (ebmlReadElement data pos).size) (ebmlReadElement data pos).pos gi f3
            simp only [mkvSegmentWalk, if_neg hend, if_neg hend2, he, if_pos c1, hv] at hc ⊢
            simp only [List.mem_cons] at hc ⊢
            rcases hc with rfl | hc
            · exact Or.inl rfl
            · exact Or.inr (ih _ _ (by omega) c hc)
        · by_cases c2 : (ebmlReadElement data pos).id = ebmlTracks
          · cases hs : mkvParseTracks h rt data (ebmlReadElement data pos).pos (ebmlReadElement data pos).size (ebmlReadElement data pos).pos v.info with
            | done t =>
              have gi := mkvParseTracks_pos_ge_hosted h rt data (ebmlReadElement data pos).pos (ebmlReadElement data pos).size v.info t (by omega) hs
              have gn := seekStart_ge_lo_hosted h t.1 ((ebmlReadElement data pos).pos + toInt64 (ebmlReadElement data pos).size) (ebmlReadElement data pos).pos gi f3
              simp only [mkvSegmentWalk, if_neg hend, if_neg hend2, he, if_neg c1, if_pos c2, hs] at hc ⊢
              simp only [List.mem_cons] at hc ⊢
              rcases hc with rfl | hc
              · exact Or.inl rfl
              · exact Or.inr (ih _ _ (by omega) c hc)
            | panic p =>
              simp only [mkvSegmentWalk, if_neg hend, if_neg hend2, he, if_neg c1, if_pos c2, hs] at hc ⊢
              exact hc
            | outOfMemory =>
              simp only [mkvSegmentWalk, if_neg hend, if_neg hend2, he, if_neg c1, if_pos c2, hs] at hc ⊢
              exact hc
            | outOfFuel =>
              simp only [mkvSegmentWalk, if_neg hend, if_neg hend2, he, if_neg c1, if_pos c2, hs] at hc ⊢
              exact hc
          · have gn := seekStart_ge_lo_hosted h (ebmlReadElement data pos).pos ((ebmlReadElement data pos).pos + toInt64 (ebmlReadElement data pos).size) (ebmlReadElement data pos).pos (le_refl _) f3
            simp only [mkvSegmentWalk, if_neg hend, if_neg hend2, he, if_neg c1, if_neg c2] at hc ⊢
            simp only [List.mem_cons] at hc ⊢
            rcases hc with rfl | hc
            · exact Or.inl rfl
            · exact Or.inr (ih _ _ (by omega) c hc)

theorem mkvSegmentLoop_no_tracks_hosted (h : Host) (rt : GoRuntime) (data : List Byte)
    (parseLimit : Int) :
    ∀ (fuel : Nat) (pos : Int) (v : SegmentVars rt.F), 0 ≤ pos →
      (∀ c ∈ mkvSegmentWalk h rt data parseLimit fuel pos v, c.2 ≠ ebmlTracks) →
      mkvSegmentLoop h rt data parseLimit fuel pos v = Outcome.outOfFuel ∨
        ∃ r, mkvSegmentLoop h rt data parseLimit fuel pos v = Outcome.done r ∧
          r.2.info = v.info := by
  intro fuel
  induction fuel with
  | zero => intro pos v _ _; exact Or.inl rfl
  | succ fuel ih =>
    intro pos v h0 hc
    by_cases hend : pos ≥ parseLimit
    · simp only [mkvSegmentWalk, mkvSegmentLoop, if_pos hend] at hc ⊢
      exact Or.inr ⟨_, rfl, rfl⟩
    · cases he : (ebmlReadElement data pos).err with
      | some e =>
        simp only [mkvSegmentWalk, mkvSegmentLoop, if_neg hend, he] at hc ⊢
        exact Or.inr ⟨_, rfl, rfl⟩
      | none =>
        obtain ⟨f1, f2, f3, f4⟩ := elem_facts_hosted data pos h0 he

        by_cases c1 : (ebmlReadElement data pos).id = ebmlInfo
        · cases hv : mkvParseInfo h rt data (ebmlReadElement data pos).pos (ebmlReadElement data pos).size (ebmlReadElement data pos).pos with
          | none =>
            simp only [mkvSegmentWalk, mkvSegmentLoop, if_neg hend, he, if_pos c1, hv] at hc ⊢
            exact Or.inl trivial
          | some i =>
            have gi := mkvParseInfo_pos_ge_hosted h rt data (ebmlReadElement data pos).pos (ebmlReadElement data pos).size i (by omega) hv
            have gn := seekStart_ge_lo_hosted h i.1 ((ebmlReadElement data pos).pos + toInt64 (ebmlReadElement data pos).size) (ebmlReadElement data pos).pos gi f3
            simp only [mkvSegmentWalk, mkvSegmentLoop, if_neg hend, he, if_pos c1, hv] at hc ⊢
            exact ih _ _ (by omega) (fun c hc2 => hc c (List.mem_cons_of_mem _ hc2))
        · by_cases c2 : (ebmlReadElement data pos).id = ebmlTracks
          · cases hs : mkvParseTracks h rt data (ebmlReadElement data pos).pos (ebmlReadElement data pos).size (ebmlReadElement data pos).pos v.info with
            | done t =>
              have gi := mkvParseTracks_pos_ge_hosted h rt data (ebmlReadElement data pos).pos (ebmlReadElement data pos).size v.info t (by omega) hs
              have gn := seekStart_ge_lo_hosted h t.1 ((ebmlReadElement data pos).pos + toInt64 (ebmlReadElement data pos).size) (ebmlReadElement data pos).pos gi f3
              simp only [mkvSegmentWalk, mkvSegmentLoop, if_neg hend, he, if_neg c1, if_pos c2, hs] at hc ⊢
              exact absurd c2 (hc _ (List.mem_cons_self _ _))
            | panic p =>
              simp only [mkvSegmentWalk, mkvSegmentLoop, if_neg hend, he, if_neg c1, if_pos c2, hs] at hc ⊢
              exact absurd c2 (hc _ (List.mem_cons_self _ _))
            | outOfMemory =>
              simp only [mkvSegmentWalk, mkvSegmentLoop, if_neg hend, he, if_neg c1, if_pos c2, hs] at hc ⊢
              exact absurd c2 (hc _ (List.mem_cons_self _ _))
            | outOfFuel =>
              simp only [mkvSegmentWalk, mkvSegmentLoop, if_neg hend, he, if_neg c1, if_pos c2, hs] at hc ⊢
              exact absurd c2 (hc _ (List.mem_cons_self _ _))
          · have gn := seekStart_ge_lo_hosted h (ebmlReadElement data pos).pos ((ebmlReadElement data pos).pos + toInt64 (ebmlReadElement data pos).size) (ebmlReadElement data pos).pos (le_refl _) f3
            simp only [mkvSegmentWalk, mkvSegmentLoop, if_neg hend, he, if_neg c1, if_neg c2] at hc ⊢
            exact ih _ _ (by omega) (fun c hc2 => hc c (List.mem_cons_of_mem _ hc2))

theorem mkvInfoLoop_values_hosted (h : Host) (rt : GoRuntime) (data : List Byte)
    (endPos : Int) :
    ∀ (fuel : Nat) (pos : Int) (ts : Nat) (dur : rt.F) (r : Int × Nat × rt.F),
      mkvInfoLoop h rt data endPos fuel pos ts dur = some r →
      r.2.1 = ((mkvInfoScales data (mkvInfoWalk h rt data endPos fuel pos)).getLast?).getD ts ∧
      r.2.2 =
        ((mkvInfoDurations rt data (mkvInfoWalk h rt data endPos fuel pos)).getLast?).getD dur := by
  intro fuel
  induction fuel with
  | zero => intro pos ts dur r hr; simp [mkvInfoLoop] at hr
  | succ fuel ih =>
    intro pos ts dur r hr
    by_cases hend : pos ≥ endPos
    · simp only [mkvInfoLoop, mkvInfoWalk, if_pos hend] at hr ⊢
      cases hr
      exact ⟨rfl, rfl⟩
    · cases he : (ebmlReadElement data pos).err with
      | some e =>
        simp only [mkvInfoLoop, mkvInfoWalk, if_neg hend, he] at hr ⊢
        cases hr
        exact ⟨rfl, rfl⟩
      | none =>
        have hne : ebmlTimestampScale ≠ ebmlDuration := by decide
        by_cases c1 : (ebmlReadElement data pos).id = ebmlTimestampScale
        · simp only [mkvInfoLoop, mkvInfoWalk, if_neg hend, he, if_pos c1] at hr ⊢
          have c2 : (ebmlReadElement data pos).id ≠ ebmlDuration := by rw [c1]; exact hne
          obtain ⟨k1, k2⟩ := ih _ _ _ r hr
          rw [mkvInfoDurations_miss rt data _ _ _ _ (fun h => c2 h.1)]
          refine ⟨?_, k2⟩
          cases hu : (ebmlReadUint data (ebmlReadElement data pos).pos (ebmlReadElement data pos).size).err with
          | none =>
            rw [hu] at k1
            rw [mkvInfoScales_hit data _ _ _ _ c1 hu, getLast_cons_getD]
            exact k1
          | some e =>
            rw [hu] at k1
            rw [mkvInfoScales_miss data _ _ _ _
              (fun h => by rw [hu] at h; exact absurd h.2 (by simp))]
            exact k1
        · by_cases c2 : (ebmlReadElement data pos).id = ebmlDuration
          · simp only [mkvInfoLoop, mkvInfoWalk, if_neg hend, he, if_neg c1, if_pos c2] at hr ⊢
            have c1b := c1
            obtain ⟨k1, k2⟩ := ih _ _ _ r hr
            rw [mkvInfoScales_miss data _ _ _ _ (fun h => c1b h.1)]
            refine ⟨k1, ?_⟩
            cases hu : (ebmlReadFloat rt data (ebmlReadElement data pos).pos (ebmlReadElement data pos).size).err with
            | none =>
              rw [hu] at k2
              rw [mkvInfoDurations_hit rt data _ _ _ _ c2 hu, getLast_cons_getD]
              exact k2
            | some e =>
              rw [hu] at k2
              rw [mkvInfoDurations_miss rt data _ _ _ _
                (fun h => by rw [hu] at h; exact absurd h.2 (by simp))]
              exact k2
          · simp only [mkvInfoLoop, mkvInfoWalk, if_neg hend, he, if_neg c1, if_neg c2] at hr ⊢
            obtain ⟨k1, k2⟩ := ih _ _ _ r hr
            rw [mkvInfoScales_miss data _ _ _ _ (fun h => c1 h.1),
              mkvInfoDurations_miss rt data _ _ _ _ (fun h => c2 h.1)]
            exact ⟨k1, k2⟩

theorem mkvSegmentLoop_no_info_hosted (h : Host) (rt : GoRuntime) (data : List Byte)
    (parseLimit : Int) :
    ∀ (fuel : Nat) (pos : Int) (v : SegmentVars rt.F) (r : Int × SegmentVars rt.F), 0 ≤ pos →
      (∀ c ∈ mkvSegmentWalk h rt data parseLimit fuel pos v, c.2 ≠ ebmlInfo) →
      mkvSegmentLoop h rt data parseLimit fuel pos v = Outcome.done r →
      r.2.timestampScale = v.timestampScale ∧ r.2.durationFloat = v.durationFloat := by
  intro fuel
  induction fuel with
  | zero => intro pos v r _ _ hr; simp [mkvSegmentLoop] at hr
  | succ fuel ih =>
    intro pos v r h0 hc hr
    by_cases hend : pos ≥ parseLimit
    · simp only [mkvSegmentWalk, mkvSegmentLoop, if_pos hend] at hc hr
      cases hr; exact ⟨rfl, rfl⟩
    · cases he : (ebmlReadElement data pos).err with
      | some e =>
        simp only [mkvSegmentWalk, mkvSegmentLoop, if_neg hend, he] at hc hr
        cases hr; exact ⟨rfl, rfl⟩
      | none =>
        obtain ⟨f1, f2, f3, f4⟩ := elem_facts_hosted data pos h0 he

        by_cases c1 : (ebmlReadElement data pos).id = ebmlInfo
        · cases hv : mkvParseInfo h rt data (ebmlReadElement data pos).pos (ebmlReadElement data pos).size (ebmlReadElement data pos).pos with
          | none =>
            simp only [mkvSegmentWalk, mkvSegmentLoop, if_neg hend, he, if_pos c1, hv] at hc hr
            cases hr
          | some i =>
            have gi := mkvParseInfo_pos_ge_hosted h rt data (ebmlReadElement data pos).pos (ebmlReadElement data pos).size i (by omega) hv
            have gn := seekStart_ge_lo_hosted h i.1 ((ebmlReadElement data pos).pos + toInt64 (ebmlReadElement data pos).size) (ebmlReadElement data pos).pos gi f3
            simp only [mkvSegmentWalk, mkvSegmentLoop, if_neg hend, he, if_pos c1, hv] at hc hr
            exact absurd c1 (hc _ (List.mem_cons_self _ _))
        · by_cases c2 : (ebmlReadElement data pos).id = ebmlTracks
          · cases hs : mkvParseTracks h rt data (ebmlReadElement data pos).pos (ebmlReadElement data pos).size (ebmlReadElement data pos).pos v.info with
            | done t =>
              have gi := mkvParseTracks_pos_ge_hosted h rt data (ebmlReadElement data pos).pos (ebmlReadElement data pos).size v.info t (by omega) hs
              have gn := seekStart_ge_lo_hosted h t.1 ((ebmlReadElement data pos).pos + toInt64 (ebmlReadElement data pos).size) (ebmlReadElement data pos).pos gi f3
              simp only [mkvSegmentWalk, mkvSegmentLoop, if_neg hend, he, if_neg c1, if_pos c2, hs] at hc hr
              refine ih _ { v with info := t.2 } r ?_ (fun c hc2 => hc c (List.mem_cons_of_mem _ hc2)) hr
              omega
            | panic p =>
              simp only [mkvSegmentWalk, mkvSegmentLoop, if_neg hend, he, if_neg c1, if_pos c2, hs] at hc hr
              cases hr
            | outOfMemory =>
              simp only [mkvSegmentWalk, mkvSegmentLoop, if_neg hend, he, if_neg c1, if_pos c2, hs] at hc hr
              cases hr
            | outOfFuel =>
              simp only [mkvSegmentWalk, mkvSegmentLoop, if_neg hend, he, if_neg c1, if_pos c2, hs] at hc hr
              cases hr
          · have gn := seekStart_ge_lo_hosted h (ebmlReadElement data pos).pos ((ebmlReadElement data pos).pos + toInt64 (ebmlReadElement data pos).size) (ebmlReadElement data pos).pos (le_refl _) f3
            simp only [mkvSegmentWalk, mkvSegmentLoop, if_neg hend, he, if_neg c1, if_neg c2] at hc hr
            refine ih _ v r ?_ (fun c hc2 => hc c (List.mem_cons_of_mem _ hc2)) hr
            omega

theorem mkvSegmentLoop_one_info_hosted (h : Host) (rt : GoRuntime) (data : List Byte)
    (parseLimit : Int) (p : Int) :
    ∀ (fuel : Nat) (pos : Int) (v : SegmentVars rt.F) (r : Int × SegmentVars rt.F), 0 ≤ pos →
      (mkvSegmentWalk h rt data parseLimit fuel pos v).filter (fun c => decide (c.2 = ebmlInfo)) =
        [(p, ebmlInfo)] →
      mkvSegmentLoop h rt data parseLimit fuel pos v = Outcome.done r →
      0 ≤ p ∧ (ebmlReadElement data p).err = none ∧
      ∃ i, mkvParseInfo h rt data (ebmlReadElement data p).pos (ebmlReadElement data p).size
          (ebmlReadElement data p).pos = some i ∧
        r.2.timestampScale = (if i.2.1 > 0 then i.2.1 else v.timestampScale) ∧
        r.2.durationFloat = i.2.2 := by
  intro fuel
  induction fuel with
  | zero => intro pos v r _ _ hr; simp [mkvSegmentLoop] at hr
  | succ fuel ih =>
    intro pos v r h0 hc hr
    by_cases hend : pos ≥ parseLimit
    · simp only [mkvSegmentWalk, mkvSegmentLoop, if_pos hend] at hc hr
      simp at hc
    · cases he : (ebmlReadElement data pos).err with
      | some e =>
        simp only [mkvSegmentWalk, mkvSegmentLoop, if_neg hend, he] at hc hr
        simp at hc
      | none =>
        obtain ⟨f1, f2, f3, f4⟩ := elem_facts_hosted data pos h0 he

        by_cases c1 : (ebmlReadElement data pos).id = ebmlInfo
        · cases hv : mkvParseInfo h rt data (ebmlReadElement data pos).pos (ebmlReadElement data pos).size (ebmlReadElement data pos).pos with
          | none =>
            simp only [mkvSegmentWalk, mkvSegmentLoop, if_neg hend, he, if_pos c1, hv] at hc hr
            cases hr
          | some i =>
            have gi := mkvParseInfo_pos_ge_hosted h rt data (ebmlReadElement data pos).pos (ebmlReadElement data pos).size i (by omega) hv
            have gn := seekStart_ge_lo_hosted h i.1 ((ebmlReadElement data pos).pos + toInt64 (ebmlReadElement data pos).size) (ebmlReadElement data pos).pos gi f3
            simp only [mkvSegmentWalk, mkvSegmentLoop, if_neg hend, he, if_pos c1, hv] at hc hr
            rw [List.filter_cons_of_pos (by simpa using c1)] at hc
            have hp : pos = p := by
              have := congrArg (fun l => (l.head?).map Prod.fst) hc
              simpa using this
            have hrest := congrArg List.tail hc
            simp only [List.tail_cons] at hrest
            have hnone := fun c hcm => (List.filter_eq_nil_iff.mp hrest) c hcm
            simp only [decide_eq_true_eq] at hnone
            subst hp
            obtain ⟨k1, k2⟩ := mkvSegmentLoop_no_info_hosted h rt data parseLimit _ _ _ r (by omega) hnone hr
            exact ⟨h0, he, i, hv, k1, k2⟩
        · by_cases c2 : (ebmlReadElement data pos).id = ebmlTracks
          · cases hs : mkvParseTracks h rt data (ebmlReadElement data pos).pos (ebmlReadElement data pos).size (ebmlReadElement data pos).pos v.info with
            | done t =>
              have gi := mkvParseTracks_pos_ge_hosted h rt data (ebmlReadElement data pos).pos (ebmlReadElement data pos).size v.info t (by omega) hs
              have gn := seekStart_ge_lo_hosted h t.1 ((ebmlReadElement data pos).pos + toInt64 (ebmlReadElement data pos).size) (ebmlReadElement data pos).pos gi f3
              simp only [mkvSegmentWalk, mkvSegmentLoop, if_neg hend, he, if_neg c1, if_pos c2, hs] at hc hr
              rw [List.filter_cons_of_neg (by simpa using c1)] at hc
              refine ih _ { v with info := t.2 } r ?_ hc hr
              omega
            | panic p =>
              simp only [mkvSegmentWalk, mkvSegmentLoop, if_neg hend, he, if_neg c1, if_pos c2, hs] at hc hr
              cases hr
            | outOfMemory =>
              simp only [mkvSegmentWalk, mkvSegmentLoop, if_neg hend, he, if_neg c1, if_pos c2, hs] at hc hr
              cases hr
            | outOfFuel =>
              simp only [mkvSegmentWalk, mkvSegmentLoop, if_neg hend, he, if_neg c1, if_pos c2, hs] at hc hr
              cases hr
          · have gn := seekStart_ge_lo_hosted h (ebmlReadElement data pos).pos ((ebmlReadElement data pos).pos + toInt64 (ebmlReadElement data pos).size) (ebmlReadElement data pos).pos (le_refl _) f3
            simp only [mkvSegmentWalk, mkvSegmentLoop, if_neg hend, he, if_neg c1, if_neg c2] at hc hr
            rw [List.filter_cons_of_neg (by simpa using c1)] at hc
            refine ih _ v r ?_ hc hr
            omega

theorem mkvTrackCommit_video_hosted (rt : GoRuntime) (v : TrackVars) (info : FileInfo rt.F)
    (hv : v.trackType = 1) (hc : info.Codec = []) :
    (mkvTrackCommit rt v info).Codec = mkvCodecName rt v.codecID ∧
    (mkvTrackCommit rt v info).Width = v.width ∧
    (mkvTrackCommit rt v info).Height = v.height ∧
    (mkvTrackCommit rt v info).Framerate = mkvTrackFramerate rt v info.Framerate := by
  have hcond : v.trackType = 1 ∧ info.Codec = [] := ⟨hv, hc⟩
  simp only [mkvTrackCommit, if_pos hcond, mkvTrackFramerate]
  split_ifs <;> exact ⟨rfl, rfl, rfl, rfl⟩

theorem mkvEntries_before_codec_hosted (rt : GoRuntime) :
    ∀ (pre : List TrackVars) (info : FileInfo rt.F), info.Codec = [] →
      (∀ p ∈ pre, p.trackType = 1 → mkvCodecName rt p.codecID = []) →
      (pre.foldl (fun i v => mkvTrackCommit rt v i) info).Codec = [] ∧
      (pre.foldl (fun i v => mkvTrackCommit rt v i) info).Framerate =
        mkvFramerateLeft rt pre info.Framerate := by
  intro pre
  induction pre with
  | nil => intro info hc _; exact ⟨hc, rfl⟩
  | cons p pre ih =>
    intro info hc hpre
    simp only [List.foldl_cons, mkvFramerateLeft]
    by_cases hv : p.trackType = 1
    · obtain ⟨k1, -, -, k4⟩ := mkvTrackCommit_video_hosted rt p info hv hc
      have hpc := hpre p (List.mem_cons_self _ _) hv
      have hc2 : (mkvTrackCommit rt p info).Codec = [] := by rw [k1, hpc]
      obtain ⟨j1, j2⟩ := ih (mkvTrackCommit rt p info) hc2
        (fun q hq => hpre q (List.mem_cons_of_mem _ hq))
      refine ⟨j1, ?_⟩
      rw [j2, k4, if_pos hv]
      rfl
    · have hk := mkvTrackCommit_keeps rt p info (Or.inr hv)
      simp only [videoFields, Prod.mk.injEq] at hk
      have hc2 : (mkvTrackCommit rt p info).Codec = [] := by rw [hk.1]; exact hc
      obtain ⟨j1, j2⟩ := ih (mkvTrackCommit rt p info) hc2
        (fun q hq => hpre q (List.mem_cons_of_mem _ hq))
      refine ⟨j1, ?_⟩
      rw [j2, hk.2.2.2, if_neg hv]
      rfl

theorem mkvEntries_after_codec_hosted (rt : GoRuntime) :
    ∀ (post : List TrackVars) (info : FileInfo rt.F), info.Codec ≠ [] →
      videoFields (post.foldl (fun i v => mkvTrackCommit rt v i) info) = videoFields info := by
  intro post
  induction post with
  | nil => intro info _; rfl
  | cons p post ih =>
    intro info hc
    simp only [List.foldl_cons]
    have hk := mkvTrackCommit_keeps rt p info (Or.inl hc)
    have hc2 : (mkvTrackCommit rt p info).Codec ≠ [] := by
      have : (mkvTrackCommit rt p info).Codec = info.Codec := congrArg (fun x => x.1) hk
      rw [this]; exact hc
    rw [ih _ hc2, hk]

theorem mkvEntries_first_codec_hosted (rt : GoRuntime) :
    ∀ (l : List TrackVars) (info : FileInfo rt.F), info.Codec = [] →
      (l.foldl (fun i v => mkvTrackCommit rt v i) info).Codec ≠ [] →
      ∃ pre t post, l = pre ++ t :: post ∧
        (∀ p ∈ pre, p.trackType = 1 → mkvCodecName rt p.codecID = []) ∧
        t.trackType = 1 ∧ mkvCodecName rt t.codecID ≠ [] := by
  intro l
  induction l with
  | nil => intro info hc hne; exact absurd hc hne
  | cons v l ih =>
    intro info hc hne
    simp only [List.foldl_cons] at hne
    by_cases hP : v.trackType = 1 ∧ mkvCodecName rt v.codecID ≠ []
    · exact ⟨[], v, l, rfl, ⟨fun p hp => absurd hp (List.not_mem_nil p), hP.1, hP.2⟩⟩
    · have hc2 : (mkvTrackCommit rt v info).Codec = [] := by
        by_cases hv : v.trackType = 1
        · have hvc : mkvCodecName rt v.codecID = [] := by
            by_contra hh; exact hP ⟨hv, hh⟩
          rw [(mkvTrackCommit_video_hosted rt v info hv hc).1, hvc]
        · have hk := mkvTrackCommit_keeps rt v info (Or.inr hv)
          have : (mkvTrackCommit rt v info).Codec = info.Codec := congrArg (fun x => x.1) hk
          rw [this]; exact hc
      obtain ⟨pre, t, post, hl, hpre, ht1, ht2⟩ := ih _ hc2 hne
      refine ⟨v :: pre, t, post, by rw [hl]; rfl, ?_, ht1, ht2⟩
      intro p hp hpv
      rcases List.mem_cons.mp hp with rfl | hp
      · by_contra hh; exact hP ⟨hpv, hh⟩
      · exact hpre p hp hpv

theorem mkvEntries_fields_hosted (rt : GoRuntime) (pre post : List TrackVars) (t : TrackVars)
    (info : FileInfo rt.F) (hc : info.Codec = [])
    (hpre : ∀ p ∈ pre, p.trackType = 1 → mkvCodecName rt p.codecID = [])
    (ht : t.trackType = 1) (htc : mkvCodecName rt t.codecID ≠ []) :
    videoFields ((pre ++ t :: post).foldl (fun i v => mkvTrackCommit rt v i) info) =
      (mkvCodecName rt t.codecID, t.width, t.height,
        mkvTrackFramerate rt t (mkvFramerateLeft rt pre info.Framerate)) := by
  obtain ⟨j1, j2⟩ := mkvEntries_before_codec_hosted rt pre info hc hpre
  obtain ⟨k1, k2, k3, k4⟩ := mkvTrackCommit_video_hosted rt t _ ht j1
  have hne : (mkvTrackCommit rt t (pre.foldl (fun i v => mkvTrackCommit rt v i) info)).Codec ≠
      [] := by
    rw [k1]; exact htc
  rw [List.foldl_append, List.foldl_cons, mkvEntries_after_codec_hosted rt post _ hne]
  simp only [videoFields, k1, k2, k3, k4, j2]

theorem mkvTracksLoop_fold_hosted (h : Host) (rt : GoRuntime) (data : List Byte) (endPos : Int) :
    ∀ (fuel : Nat) (pos : Int) (info : FileInfo rt.F) (r : Int × FileInfo rt.F),
      mkvTracksLoop h rt data endPos fuel pos info = Outcome.done r →
      r.2 = (mkvTracksEntries h data endPos fuel pos).foldl (fun i v => mkvTrackCommit rt v i)
        info := by
  intro fuel
  induction fuel with
  | zero => intro pos info r hr; simp [mkvTracksLoop] at hr
  | succ fuel ih =>
    intro pos info r hr
    by_cases hend : pos ≥ endPos
    · simp only [mkvTracksLoop, mkvTracksEntries, if_pos hend] at hr ⊢
      cases hr; rfl
    · cases he : (ebmlReadElement data pos).err with
      | some e =>
        simp only [mkvTracksLoop, mkvTracksEntries, if_neg hend, he] at hr ⊢
        cases hr; rfl
      | none =>
        by_cases c1 : (ebmlReadElement data pos).id = ebmlTrackEntry
        · cases ht : mkvTrackEntryLoop h data ((ebmlReadElement data pos).pos + toInt64 (ebmlReadElement data pos).size) (data.length + 1)
              (seekStart h (ebmlReadElement data pos).pos (ebmlReadElement data pos).pos) ⟨0, [], 0, 0, 0⟩ with
          | done t =>
            simp only [mkvTracksLoop, mkvTracksEntries, mkvParseTrackEntry, if_neg hend, he,
              if_pos c1, ht, List.foldl_cons] at hr ⊢
            exact ih _ _ r hr
          | panic p =>
            simp only [mkvTracksLoop, mkvParseTrackEntry, if_neg hend, he, if_pos c1, ht] at hr
            cases hr
          | outOfMemory =>
            simp only [mkvTracksLoop, mkvParseTrackEntry, if_neg hend, he, if_pos c1, ht] at hr
            cases hr
          | outOfFuel =>
            simp only [mkvTracksLoop, mkvParseTrackEntry, if_neg hend, he, if_pos c1, ht] at hr
            cases hr
        · simp only [mkvTracksLoop, mkvTracksEntries, if_neg hend, he, if_neg c1] at hr ⊢
          exact ih _ _ r hr

theorem mkvSegmentLoop_fold_hosted (h : Host) (rt : GoRuntime) (data : List Byte)
    (parseLimit : Int) :
    ∀ (fuel : Nat) (pos : Int) (v : SegmentVars rt.F) (r : Int × SegmentVars rt.F), 0 ≤ pos →
      mkvSegmentLoop h rt data parseLimit fuel pos v = Outcome.done r →
      r.2.info = (mkvSegmentEntries h rt data parseLimit fuel pos v).foldl
        (fun i t => mkvTrackCommit rt t i) v.info := by
  intro fuel
  induction fuel with
  | zero => intro pos v r _ hr; simp [mkvSegmentLoop] at hr
  | succ fuel ih =>
    intro pos v r h0 hr
    by_cases hend : pos ≥ parseLimit
    · simp only [mkvSegmentEntries, mkvSegmentLoop, if_pos hend] at hr ⊢
      cases hr; rfl
    · cases he : (ebmlReadElement data pos).err with
      | some e =>
        simp only [mkvSegmentEntries, mkvSegmentLoop, if_neg hend, he] at hr ⊢
        cases hr; rfl
      | none =>
        obtain ⟨f1, f2, f3, f4⟩ := elem_facts_hosted data pos h0 he

        by_cases c1 : (ebmlReadElement data pos).id = ebmlInfo
        · cases hv : mkvParseInfo h rt data (ebmlReadElement data pos).pos (ebmlReadElement data pos).size (ebmlReadElement data pos).pos with
          | none =>
            simp only [mkvSegmentEntries, mkvSegmentLoop, if_neg hend, he, if_pos c1, hv] at hr ⊢
            cases hr
          | some i =>
            have gi := mkvParseInfo_pos_ge_hosted h rt data (ebmlReadElement data pos).pos (ebmlReadElement data pos).size i (by omega) hv
            have gn := seekStart_ge_lo_hosted h i.1 ((ebmlReadElement data pos).pos + toInt64 (ebmlReadElement data pos).size) (ebmlReadElement data pos).pos gi f3
            simp only [mkvSegmentEntries, mkvSegmentLoop, if_neg hend, he, if_pos c1, hv] at hr ⊢
            exact ih _ _ r (by omega) hr
        · by_cases c2 : (ebmlReadElement data pos).id = ebmlTracks
          · cases hs : mkvParseTracks h rt data (ebmlReadElement data pos).pos (ebmlReadElement data pos).size (ebmlReadElement data pos).pos v.info with
            | done t =>
              have gi := mkvParseTracks_pos_ge_hosted h rt data (ebmlReadElement data pos).pos (ebmlReadElement data pos).size v.info t (by omega) hs
              have gn := seekStart_ge_lo_hosted h t.1 ((ebmlReadElement data pos).pos + toInt64 (ebmlReadElement data pos).size) (ebmlReadElement data pos).pos gi f3
              simp only [mkvSegmentEntries, mkvSegmentLoop, if_neg hend, he, if_neg c1, if_pos c2, hs] at hr ⊢
              rw [List.foldl_append, ← mkvTracksLoop_fold_hosted h rt data _ _ _ _ t hs]
              exact ih _ { v with info := t.2 } r (by omega) hr
            | panic p =>
              simp only [mkvSegmentEntries, mkvSegmentLoop, if_neg hend, he, if_neg c1, if_pos c2, hs] at hr ⊢
              cases hr
            | outOfMemory =>
              simp only [mkvSegmentEntries, mkvSegmentLoop, if_neg hend, he, if_neg c1, if_pos c2, hs] at hr ⊢
              cases hr
            | outOfFuel =>
              simp only [mkvSegmentEntries, mkvSegmentLoop, if_neg hend, he, if_neg c1, if_pos c2, hs] at hr ⊢
              cases hr
          · have gn := seekStart_ge_lo_hosted h (ebmlReadElement data pos).pos ((ebmlReadElement data pos).pos + toInt64 (ebmlReadElement data pos).size) (ebmlReadElement data pos).pos (le_refl _) f3
            simp only [mkvSegmentEntries, mkvSegmentLoop, if_neg hend, he, if_neg c1, if_neg c2] at hr ⊢
            exact ih _ v r (by omega) hr

theorem mkvFinish_videoFields_hosted (rt : GoRuntime) (v : SegmentVars rt.F)
    (info : FileInfo rt.F) (hf : mkvFinish rt v = Except.ok info) :
    videoFields info = videoFields v.info := by
  by_cases hd : (rt.lt (rt.ofUint 0) v.durationFloat = true ∧ v.timestampScale > 0)
  · by_cases hc : v.info.Codec = []
    · simp only [mkvFinish, if_pos hd, if_pos hc] at hf
      cases hf
    · simp only [mkvFinish, if_pos hd, if_neg hc] at hf
      cases hf
      rfl
  · by_cases hc : v.info.Codec = []
    · simp only [mkvFinish, if_neg hd, if_pos hc] at hf
      cases hf
    · simp only [mkvFinish, if_neg hd, if_neg hc] at hf
      cases hf
      rfl

/-- What the two header checks of `parseMKV` establish on a host: a record is
returned only if the file starts with `1A 45 DF A3` and the four bytes at the
cursor that the `Seek` over the header payload leaves are `18 53 80 67`; when
the host accepts that `Seek`, they are the four bytes right after the declared
payload. -/
theorem parseMKV_record_header_hosted (h : Host) (rt : GoRuntime) (path : GoString)
    (data : List Byte) (info : FileInfo rt.F)
    (hp : parseMKV h rt path data = Outcome.done (Except.ok info)) :
    data.take 4 = [0x1A, 0x45, 0xDF, 0xA3] ∧
    (bytesFrom data (seekCurrent h (ebmlReadElement data 0).pos
      (toInt64 (ebmlReadElement data 0).size))).take 4 = [0x18, 0x53, 0x80, 0x67] ∧
    (mkvSegmentOffset data ≤ h.maxOffset → MkvMagic data) := by
  have hmagic : beUint [0x1A, 0x45, 0xDF, 0xA3] = ebmlHeader := by decide
  have hsegid : beUint [0x18, 0x53, 0x80, 0x67] = ebmlSegment := by decide
  by_cases c1 : (ebmlReadElement data 0).err ≠ none ∨ (ebmlReadElement data 0).id ≠ ebmlHeader
  · simp only [parseMKV, if_pos c1] at hp
    cases hp
  · by_cases c2 : (mkvSegmentHeader h data).err ≠ none ∨
        (mkvSegmentHeader h data).id ≠ ebmlSegment
    · simp only [mkvSegmentHeader] at c2
      simp only [parseMKV, if_neg c1, if_pos c2] at hp
      cases hp
    · have hh : (ebmlReadElement data 0).err = none ∧
          (ebmlReadElement data 0).id = ebmlHeader :=
        ⟨by by_contra hc; exact c1 (Or.inl hc), by by_contra hc; exact c1 (Or.inr hc)⟩
      have hs : (mkvSegmentHeader h data).err = none ∧
          (mkvSegmentHeader h data).id = ebmlSegment :=
        ⟨by by_contra hc; exact c2 (Or.inl hc), by by_contra hc; exact c2 (Or.inr hc)⟩
      obtain ⟨a1, a2, a3⟩ := ebmlReadElement_ok data 0 (le_refl _) hh.1
      have hcur : 0 ≤ seekCurrent h (ebmlReadElement data 0).pos
          (toInt64 (ebmlReadElement data 0).size) := by
        simp only [seekCurrent]
        exact seekStart_nonneg_hosted h _ _ (by omega)
      have hdr : data.take 4 = [0x1A, 0x45, 0xDF, 0xA3] := by
        obtain ⟨h1, h2⟩ := ebmlReadElement_id data 0 hh.1
        have := (ebmlReadElementID_four data 0 (le_refl _) 0x1A 0x45 0xDF 0xA3 (by decide)
          (by decide)).mp ⟨h1, by rw [← h2, hh.2, hmagic]⟩
        simpa [bytesFrom] using this
      have hseg : (bytesFrom data (seekCurrent h (ebmlReadElement data 0).pos
          (toInt64 (ebmlReadElement data 0).size))).take 4 = [0x18, 0x53, 0x80, 0x67] := by
        simp only [mkvSegmentHeader] at hs
        obtain ⟨h1, h2⟩ := ebmlReadElement_id data _ hs.1
        exact (ebmlReadElementID_four data _ hcur 0x18 0x53 0x80 0x67 (by decide)
          (by decide)).mp ⟨h1, by rw [← h2, hs.2, hsegid]⟩
      refine ⟨hdr, hseg, ?_⟩
      intro hmax
      refine ⟨hdr, ?_⟩
      have hoff : seekCurrent h (ebmlReadElement data 0).pos
          (toInt64 (ebmlReadElement data 0).size) = mkvSegmentOffset data := by
        simp only [seekCurrent, mkvSegmentOffset] at hmax ⊢
        rw [toInt64_small _ (by omega)]
        exact seekStart_ok_hosted h _ _ (by omega) hmax
      rw [← hoff]
      exact hseg

/-- C14 (as amended): on every host, when `parseMKV` returns a record, the
track entries it committed contain a first entry of `TrackType` 1 whose
`CodecID` maps to a non-empty name; `Codec`, `Width` and `Height` of the record
are those of that entry, and `Framerate` is the value of that entry when its
`DefaultDuration` is positive, otherwise the value left by the video entries
without codec name that precede it.  An entry of another type, and any entry
once `Codec` is non-empty, leaves `Codec`, `Width`, `Height` and `Framerate` as
they are; a video entry met while `Codec` is empty sets `Codec`, `Width` and
`Height` from its own children and `Framerate` as `mkvTrackFramerate` says, and
`Codec` stays empty when its `CodecID` is absent or is `V_`; from a record with
a non-empty `Codec` the walk of `Tracks` and the walk of the segment change
none of the four. -/
theorem mkv_first_codec_entry_wins (h : Host) (rt : GoRuntime) (data : List Byte) :
    (∀ (v : TrackVars) (info : FileInfo rt.F),
      info.Codec ≠ [] ∨ v.trackType ≠ 1 →
      videoFields (mkvTrackCommit rt v info) = videoFields info) ∧
    (∀ (v : TrackVars) (info : FileInfo rt.F), v.trackType = 1 → info.Codec = [] →
      (mkvTrackCommit rt v info).Codec = mkvCodecName rt v.codecID ∧
      (mkvTrackCommit rt v info).Width = v.width ∧
      (mkvTrackCommit rt v info).Height = v.height ∧
      (mkvTrackCommit rt v info).Framerate = mkvTrackFramerate rt v info.Framerate) ∧
    (mkvCodecName rt [] = [] ∧ mkvCodecName rt (str "V_") = []) ∧
    (∀ (endPos : Int) (fuel : Nat) (pos : Int) (info : FileInfo rt.F) (r : Int × FileInfo rt.F),
      info.Codec ≠ [] → mkvTracksLoop h rt data endPos fuel pos info = Outcome.done r →
      videoFields r.2 = videoFields info) ∧
    (∀ (parseLimit : Int) (fuel : Nat) (pos : Int) (v : SegmentVars rt.F)
      (r : Int × SegmentVars rt.F), 0 ≤ pos →
      v.info.Codec ≠ [] → mkvSegmentLoop h rt data parseLimit fuel pos v = Outcome.done r →
      videoFields r.2.info = videoFields v.info) ∧
    (∀ (path : GoString) (info : FileInfo rt.F),
      parseMKV h rt path data = Outcome.done (Except.ok info) →
      ∃ pre t post, mkvEntries h rt path data = pre ++ t :: post ∧
        (∀ p ∈ pre, p.trackType = 1 → mkvCodecName rt p.codecID = []) ∧
        t.trackType = 1 ∧ mkvCodecName rt t.codecID ≠ [] ∧
        info.Codec = mkvCodecName rt t.codecID ∧ info.Width = t.width ∧
        info.Height = t.height ∧
        info.Framerate = mkvTrackFramerate rt t (mkvFramerateLeft rt pre (rt.ofUint 0))) := by
  refine ⟨fun v info hk => mkvTrackCommit_keeps rt v info hk,
    fun v info hv hc => mkvTrackCommit_video_hosted rt v info hv hc, ⟨rfl, rfl⟩, ?_, ?_, ?_⟩
  · intro endPos fuel pos info r hc hr
    rw [mkvTracksLoop_fold_hosted h rt data endPos fuel pos info r hr]
    exact mkvEntries_after_codec_hosted rt _ info hc
  · intro parseLimit fuel pos v r h0 hc hr
    rw [mkvSegmentLoop_fold_hosted h rt data parseLimit fuel pos v r h0 hr]
    exact mkvEntries_after_codec_hosted rt _ v.info hc
  · intro path info hp
    by_cases c1 : (ebmlReadElement data 0).err ≠ none ∨ (ebmlReadElement data 0).id ≠ ebmlHeader
    · simp only [parseMKV, if_pos c1] at hp
      cases hp
    · by_cases c2 : (mkvSegmentHeader h data).err ≠ none ∨
          (mkvSegmentHeader h data).id ≠ ebmlSegment
      · simp only [mkvSegmentHeader] at c2
        simp only [parseMKV, if_neg c1, if_pos c2] at hp
        cases hp
      · have hh : (ebmlReadElement data 0).err = none ∧
            (ebmlReadElement data 0).id = ebmlHeader :=
          ⟨by by_contra hc; exact c1 (Or.inl hc), by by_contra hc; exact c1 (Or.inr hc)⟩
        have hs : (mkvSegmentHeader h data).err = none ∧
            (mkvSegmentHeader h data).id = ebmlSegment :=
          ⟨by by_contra hc; exact c2 (Or.inl hc), by by_contra hc; exact c2 (Or.inr hc)⟩
        obtain ⟨hpos0, hpe⟩ := parseMKV_valid_header_hosted h rt path data hh hs
        rw [hpe] at hp
        cases hl : mkvSegmentLoop h rt data (mkvParseLimit h data) (data.length + 1)
            (mkvSegmentHeader h data).pos (mkvSegmentInit rt path data) with
        | outOfFuel => rw [hl] at hp; cases hp
        | panic pn => rw [hl] at hp; cases hp
        | outOfMemory => rw [hl] at hp; cases hp
        | done r =>
          rw [hl] at hp
          have hf : mkvFinish rt r.2 = Except.ok info := Outcome.done.inj hp
          have hne : info.Codec ≠ [] := (mkvFinish_codec rt r.2).1 info hf
          have hv := mkvFinish_videoFields_hosted rt r.2 info hf
          have hfold := mkvSegmentLoop_fold_hosted h rt data _ _ _ _ r hpos0 hl
          have hE : r.2.info = (mkvEntries h rt path data).foldl
              (fun i t => mkvTrackCommit rt t i) (newFileInfo rt path data.length) := hfold
          rw [hE] at hv
          have hcf : ((mkvEntries h rt path data).foldl (fun i t => mkvTrackCommit rt t i)
              (newFileInfo rt path data.length)).Codec ≠ [] := by
            have : info.Codec = ((mkvEntries h rt path data).foldl
                (fun i t => mkvTrackCommit rt t i) (newFileInfo rt path data.length)).Codec :=
              congrArg (fun x => x.1) hv
            rw [← this]; exact hne
          obtain ⟨pre, t, post, hlst, hpre, ht1, ht2⟩ :=
            mkvEntries_first_codec_hosted rt _ (newFileInfo rt path data.length) rfl hcf
          refine ⟨pre, t, post, hlst, hpre, ht1, ht2, ?_⟩
          rw [hlst, mkvEntries_fields_hosted rt pre post t _ rfl hpre ht1 ht2] at hv
          simp only [videoFields, Prod.mk.injEq] at hv
          exact ⟨hv.1, hv.2.1, hv.2.2.1, hv.2.2.2⟩

set_option maxRecDepth 100000 in

theorem mkv_first_codec_entry_wins_witness :
    videoFields (mkvTrackCommit exactRuntime videoTrackVars recordWithCodec) =
      videoFields recordWithCodec ∧
    (mkvTrackCommit exactRuntime videoTrackVars (newFileInfo exactRuntime (str "a.mkv") 0)).Codec =
      str "vp9" ∧
    mkvEntries ext4Host exactRuntime (str "a.mkv") mkvFramerateFromFirst =
      [⟨1, [], 640, 480, 40000000⟩, ⟨1, str "V_VP8", 320, 240, 0⟩] ∧
    (∃ info, parseMKV ext4Host exactRuntime (str "a.mkv") mkvFramerateFromFirst =
        Outcome.done (Except.ok info) ∧
      info.Codec = str "vp8" ∧ info.Width = 320 ∧ info.Height = 240 ∧
      info.Framerate = ⟨2500, 100⟩) ∧
    (∃ pre t post, mkvEntries ext4Host exactRuntime (str "a.mkv") mkvFramerateFromFirst =
        pre ++ t :: post ∧
      (∀ p ∈ pre, p.trackType = 1 → mkvCodecName exactRuntime p.codecID = []) ∧
      t.trackType = 1 ∧ mkvCodecName exactRuntime t.codecID ≠ [] ∧
      str "vp8" = mkvCodecName exactRuntime t.codecID ∧ (320 : Int) = t.width ∧
      (240 : Int) = t.height ∧
      (⟨2500, 100⟩ : Frac) =
        mkvTrackFramerate exactRuntime t (mkvFramerateLeft exactRuntime pre
          (exactRuntime.ofUint 0))) :=
  ⟨(mkv_first_codec_entry_wins ext4Host exactRuntime []).1 videoTrackVars recordWithCodec
      (Or.inl (by decide)),
    ((mkv_first_codec_entry_wins ext4Host exactRuntime []).2.1 videoTrackVars
      (newFileInfo exactRuntime (str "a.mkv") 0) rfl rfl).1,
    by decide, ⟨_, rfl, rfl, rfl, rfl, rfl⟩,
    (mkv_first_codec_entry_wins ext4Host exactRuntime mkvFramerateFromFirst).2.2.2.2.2
      (str "a.mkv") _ rfl⟩

set_option maxRecDepth 100000 in

/-- C14 (counterexample): `Tracks` holds two entries of `TrackType` 1.  The
first has a 640x480 `Video` element and no `CodecID`, so it leaves `Codec`
empty; the record of `parseMKV` has the width, height and codec of the second
entry. -/
theorem parseMKV_second_video_entry_sets :
    mkvEntries ext4Host exactRuntime (str "a.mkv") mkvTwoVideoEntries =
      [⟨1, [], 640, 480, 0⟩, ⟨1, str "V_VP8", 320, 240, 0⟩] ∧
    (∃ info, parseMKV ext4Host exactRuntime (str "a.mkv") mkvTwoVideoEntries =
        Outcome.done (Except.ok info) ∧
      info.Width = 320 ∧ info.Height = 240 ∧ info.Codec = str "vp8") :=
  ⟨by decide, ⟨_, rfl, rfl, rfl, rfl⟩⟩

/-- C22: on every host, once the EBML header and the Segment header are read,
the segment loop of `parseMKV` runs with the limit `segStart + min(segSize,
10 MiB)`: at a cursor at or beyond the limit it returns without reading an
element, so every top-level child on its walk has a header that starts at an
offset in `[segStart, limit)`; and when every `Tracks` element on the walk
(continued up to any bound `limit2` at or beyond the limit) starts at or beyond
the limit, `parseMKV` fails with 'no video track found'. -/
theorem parseMKV_walk_below_limit (h : Host) (rt : GoRuntime) (path : GoString)
    (data : List Byte)
    (hh : (ebmlReadElement data 0).err = none ∧ (ebmlReadElement data 0).id = ebmlHeader)
    (hs : (mkvSegmentHeader h data).err = none ∧ (mkvSegmentHeader h data).id = ebmlSegment) :
    mkvParseLimit h data =
      (mkvSegmentHeader h data).pos + min ((mkvSegmentHeader h data).size : Int) (10 * 1024 * 1024) ∧
    (∀ (pos : Int) (fuel : Nat) (v : SegmentVars rt.F), mkvParseLimit h data ≤ pos →
      mkvSegmentLoop h rt data (mkvParseLimit h data) (fuel + 1) pos v = Outcome.done (pos, v)) ∧
    (∀ c ∈ mkvSegmentWalk h rt data (mkvParseLimit h data) (data.length + 1)
        (mkvSegmentHeader h data).pos (mkvSegmentInit rt path data),
      (mkvSegmentHeader h data).pos ≤ c.1 ∧ c.1 < mkvParseLimit h data) ∧
    (∀ limit2 : Int, mkvParseLimit h data ≤ limit2 →
      (∀ c ∈ mkvSegmentWalk h rt data limit2 (data.length + 1) (mkvSegmentHeader h data).pos
          (mkvSegmentInit rt path data),
        c.2 = ebmlTracks → mkvParseLimit h data ≤ c.1) →
      parseMKV h rt path data =
        Outcome.done (Except.error (GoError.msg "no video track found"))) := by
  obtain ⟨hpos, hp⟩ := parseMKV_valid_header_hosted h rt path data hh hs
  have hcur : 0 ≤ seekCurrent h (ebmlReadElement data 0).pos
      (toInt64 (ebmlReadElement data 0).size) := by
    simp only [seekCurrent]
    exact seekStart_nonneg_hosted h _ _ (ebmlReadElement_pos_ge_hosted data 0)
  obtain ⟨b1, b2, b3⟩ := ebmlReadElement_ok data _ hcur hs.1
  have hsz : toInt64 (mkvSegmentHeader h data).size = ((mkvSegmentHeader h data).size : Int) :=
    toInt64_small _ (by simp only [mkvSegmentHeader]; omega)
  refine ⟨?_, ?_, mkvSegmentWalk_bounds_hosted h rt data _ _ _ _ hpos, ?_⟩
  · simp only [mkvParseLimit, hsz]
    split <;> omega
  · intro pos fuel v hge
    rw [mkvSegmentLoop, if_pos (by omega : pos ≥ mkvParseLimit h data)]
  · intro limit2 hl hc
    have hno : ∀ c ∈ mkvSegmentWalk h rt data (mkvParseLimit h data) (data.length + 1)
        (mkvSegmentHeader h data).pos (mkvSegmentInit rt path data), c.2 ≠ ebmlTracks := by
      intro c hmem hid
      have h1 := (mkvSegmentWalk_bounds_hosted h rt data _ _ _ _ hpos c hmem).2
      have h2 := hc c (mkvSegmentWalk_mono_hosted h rt data _ _ hl _ _ _ hpos c hmem) hid
      omega
    have hb : (mkvSegmentHeader h data).pos ≤ data.length := by
      simp only [mkvSegmentHeader]; omega
    rcases mkvSegmentLoop_no_tracks_hosted h rt data _ (data.length + 1)
      (mkvSegmentHeader h data).pos (mkvSegmentInit rt path data) hpos hno with
      hout | ⟨r, hr, hinfo⟩
    · exact absurd hout (mkvSegmentLoop_terminates_hosted h rt data _ _ _ _ hpos (by omega))
    · rw [hp, hr]
      simp only
      congr 1
      exact (mkvFinish_codec rt r.2).2 (by rw [hinfo]; rfl)

set_option maxRecDepth 100000 in

theorem parseMKV_walk_below_limit_witness :
    mkvParseLimit ext4Host mkvTracksBeyondSegment = 15 ∧
    mkvSegmentWalk ext4Host exactRuntime mkvTracksBeyondSegment 39 40 10
      (mkvSegmentInit exactRuntime (str "a.mkv") mkvTracksBeyondSegment) =
        [(10, 0xEC), (15, ebmlTracks)] ∧
    parseMKV ext4Host exactRuntime (str "a.mkv") mkvTracksBeyondSegment =
      Outcome.done (Except.error (GoError.msg "no video track found")) ∧
    mkvSegmentWalk ext4Host exactRuntime mkvVoidPastOffsets
      (mkvParseLimit ext4Host mkvVoidPastOffsets) 44 17
      (mkvSegmentInit exactRuntime (str "a.mkv") mkvVoidPastOffsets) =
        [(17, 0xEC), (26, ebmlTracks)] ∧
    (∃ info, parseMKV ext4Host exactRuntime (str "a.mkv") mkvVoidPastOffsets =
      Outcome.done (Except.ok info) ∧ info.Codec = str "vp8") :=
  ⟨by decide, by decide,
    (parseMKV_walk_below_limit ext4Host exactRuntime (str "a.mkv") mkvTracksBeyondSegment
      ⟨rfl, rfl⟩ ⟨rfl, rfl⟩).2.2.2 39 (by decide) (by decide),
    by decide, ⟨_, rfl, rfl⟩⟩

set_option maxRecDepth 100000 in

/-- C24 (evaluation at the failing input, and what holds on every host):
`parseMKV` returns a record only if the file starts with `1A 45 DF A3` and the
four bytes at the cursor that the `Seek` over the header payload leaves are
`18 53 80 67`; these are the bytes right after the declared payload when the
host accepts the `Seek`.  The failing input starts with the EBML header ID and
a header size of `2^56 - 1`, and the 22 bytes that follow the header at offset
12 are a Segment with a `V_VP8` video entry, so the four bytes right after the
declared payload do not exist.  On a host whose file system refuses the `Seek`
(ext4) the cursor stays at offset 12, the Segment is read there and `parseMKV`
returns a record; on a host that accepts the `Seek` it fails with
'no Segment element found'. -/
theorem parseMKV_header_seek_refused :
    (∀ (h : Host) (rt : GoRuntime) (path : GoString) (data : List Byte) (info : FileInfo rt.F),
      parseMKV h rt path data = Outcome.done (Except.ok info) →
      data.take 4 = [0x1A, 0x45, 0xDF, 0xA3] ∧
      (bytesFrom data (seekCurrent h (ebmlReadElement data 0).pos
        (toInt64 (ebmlReadElement data 0).size))).take 4 = [0x18, 0x53, 0x80, 0x67] ∧
      (mkvSegmentOffset data ≤ h.maxOffset → MkvMagic data)) ∧
    mkvHeaderPastOffsets.length = 34 ∧
    (ebmlReadElement mkvHeaderPastOffsets 0).err = none ∧
    (ebmlReadElement mkvHeaderPastOffsets 0).id = ebmlHeader ∧
    (ebmlReadElement mkvHeaderPastOffsets 0).pos = 12 ∧
    (ebmlReadElement mkvHeaderPastOffsets 0).size = 2 ^ 56 - 1 ∧
    ¬ MkvMagic mkvHeaderPastOffsets ∧
    seekCurrent ext4Host 12 (2 ^ 56 - 1) = 12 ∧
    (mkvSegmentHeader ext4Host mkvHeaderPastOffsets).id = ebmlSegment ∧
    (∃ info, parseMKV ext4Host exactRuntime (str "a.mkv") mkvHeaderPastOffsets =
      Outcome.done (Except.ok info) ∧ info.Codec = str "vp8") ∧
    seekCurrent unboundedHost 12 (2 ^ 56 - 1) = 2 ^ 56 + 11 ∧
    parseMKV unboundedHost exactRuntime (str "a.mkv") mkvHeaderPastOffsets =
      Outcome.done (Except.error (GoError.msg "no Segment element found")) :=
  ⟨fun h rt path data info hp => parseMKV_record_header_hosted h rt path data info hp,
    by decide, by decide, by decide, by decide, by decide, by decide, by decide, by decide,
    ⟨_, rfl, rfl⟩, by decide, rfl⟩

set_option maxRecDepth 100000 in

theorem parseMKV_header_seek_refused_witness :
    MkvMagic mkvSample ∧
    (bytesFrom mkvHeaderPastOffsets 12).take 4 = [0x18, 0x53, 0x80, 0x67] :=
  ⟨(parseMKV_header_seek_refused.1 ext4Host exactRuntime (str "a.mkv") mkvSample _ rfl).2.2
      (by decide),
    (parseMKV_header_seek_refused.1 ext4Host exactRuntime (str "a.mkv") mkvHeaderPastOffsets
      _ rfl).2.1⟩

/-- C36: on every host, for a file with a valid EBML header and Segment header
whose segment walk holds exactly one `Info` element (header at offset `p`), and
whose last readable `Duration` child on the walk of that element has a positive
value `D`: when the walk of the element has no `TimestampScale` child the scale
is 1,000,000, and when its last readable `TimestampScale` child has a positive
value `T` the scale is `T`; `parseMKV` panics, dies for lack of memory, fails
with 'no video track found', or returns a record with
`DurationSeconds = D * scale / 10^9` and `Duration` its formatting. -/
theorem parseMKV_duration_times_scale (h : Host) (rt : GoRuntime) (path : GoString)
    (data : List Byte)
    (hh : (ebmlReadElement data 0).err = none ∧ (ebmlReadElement data 0).id = ebmlHeader)
    (hs : (mkvSegmentHeader h data).err = none ∧ (mkvSegmentHeader h data).id = ebmlSegment)
    (p : Int)
    (hone : (mkvSegmentWalk h rt data (mkvParseLimit h data) (data.length + 1)
        (mkvSegmentHeader h data).pos (mkvSegmentInit rt path data)).filter
          (fun c => decide (c.2 = ebmlInfo)) = [(p, ebmlInfo)])
    (D : rt.F)
    (hD : (mkvInfoDurations rt data (mkvInfoWalkAt h rt data p)).getLast? = some D)
    (hpos : rt.lt (rt.ofUint 0) D = true)
    (scale : Nat)
    (hscale : ((∀ c ∈ mkvInfoWalkAt h rt data p, c.1 ≠ ebmlTimestampScale) ∧ scale = 1000000) ∨
      ((mkvInfoScales data (mkvInfoWalkAt h rt data p)).getLast? = some scale ∧ 0 < scale)) :
    (∃ pn, parseMKV h rt path data = Outcome.panic pn) ∨
    parseMKV h rt path data = Outcome.outOfMemory ∨
    parseMKV h rt path data =
      Outcome.done (Except.error (GoError.msg "no video track found")) ∨
    ∃ info, parseMKV h rt path data = Outcome.done (Except.ok info) ∧
      info.DurationSeconds =
        rt.div (rt.mul D (rt.ofUint scale)) (rt.ofUint 1000000000) ∧
      info.Duration = formatDuration rt info.DurationSeconds := by
  obtain ⟨hpos0, hp⟩ := parseMKV_valid_header_hosted h rt path data hh hs
  have hcur : 0 ≤ seekCurrent h (ebmlReadElement data 0).pos
      (toInt64 (ebmlReadElement data 0).size) := by
    simp only [seekCurrent]
    exact seekStart_nonneg_hosted h _ _ (ebmlReadElement_pos_ge_hosted data 0)
  obtain ⟨b1, b2, b3⟩ := ebmlReadElement_ok data _ hcur hs.1
  have hb : (mkvSegmentHeader h data).pos ≤ data.length := by
    simp only [mkvSegmentHeader]; omega
  have hterm := mkvSegmentLoop_terminates_hosted h rt data (mkvParseLimit h data)
    (data.length + 1) (mkvSegmentHeader h data).pos (mkvSegmentInit rt path data) hpos0
    (by omega)
  cases hl : mkvSegmentLoop h rt data (mkvParseLimit h data) (data.length + 1)
      (mkvSegmentHeader h data).pos (mkvSegmentInit rt path data) with
  | outOfFuel => exact absurd hl hterm
  | panic pn => exact Or.inl ⟨pn, by rw [hp, hl]⟩
  | outOfMemory => exact Or.inr (Or.inl (by rw [hp, hl]))
  | done r =>
    right; right
    rw [hp, hl]
    simp only
    obtain ⟨hp0, hpe, i, hi, k1, k2⟩ :=
      mkvSegmentLoop_one_info_hosted h rt data _ p _ _ _ r hpos0 hone hl
    simp only [mkvParseInfo] at hi
    obtain ⟨v1, v2⟩ := mkvInfoLoop_values_hosted h rt data _ _ _ _ _ i hi
    simp only [mkvInfoWalkAt] at hD hscale
    rw [hD] at v2
    simp only [Option.getD_some] at v2
    have hts : r.2.timestampScale = scale := by
      rw [k1]
      rcases hscale with ⟨hnone, hsc⟩ | ⟨hlast, hsc⟩
      · rw [mkvInfoScales_none data _ hnone] at v1
        have : i.2.1 = 0 := v1
        rw [this, hsc]
        rfl
      · rw [hlast] at v1
        have : i.2.1 = scale := v1
        rw [this, if_pos hsc]
    have hdur : r.2.durationFloat = D := by rw [k2, v2]
    have hsc0 : 0 < scale := by
      rcases hscale with ⟨-, hsc⟩ | ⟨-, hsc⟩
      · rw [hsc]; norm_num
      · exact hsc
    have hcond : rt.lt (rt.ofUint 0) r.2.durationFloat = true ∧ r.2.timestampScale > 0 := by
      rw [hdur, hts]; exact ⟨hpos, hsc0⟩
    rw [mkvFinish_pos rt r.2 hcond]
    by_cases hc : r.2.info.Codec = []
    · left
      rw [if_pos hc]
    · right
      rw [if_neg hc]
      refine ⟨_, rfl, ?_, rfl⟩
      simp only [hdur, hts]

set_option maxRecDepth 100000 in

theorem parseMKV_duration_times_scale_witness :
    (∃ info, parseMKV ext4Host exactRuntime (str "a.mkv") mkvDurationOnly =
        Outcome.done (Except.ok info) ∧
      info.DurationSeconds = exactRuntime.div
        (exactRuntime.mul ⟨10240000, 2048⟩ (exactRuntime.ofUint 1000000))
        (exactRuntime.ofUint 1000000000) ∧
      info.Duration = str "00:00:05") ∧
    (∃ info, parseMKV ext4Host exactRuntime (str "a.mkv") mkvDurationScaled =
        Outcome.done (Except.ok info) ∧
      info.DurationSeconds = exactRuntime.div
        (exactRuntime.mul ⟨10240000, 2048⟩ (exactRuntime.ofUint 500000))
        (exactRuntime.ofUint 1000000000) ∧
      info.Duration = str "00:00:02") ∧
    ((∃ pn, parseMKV ext4Host exactRuntime (str "a.mkv") mkvDurationOnly = Outcome.panic pn) ∨
      parseMKV ext4Host exactRuntime (str "a.mkv") mkvDurationOnly = Outcome.outOfMemory ∨
      parseMKV ext4Host exactRuntime (str "a.mkv") mkvDurationOnly =
        Outcome.done (Except.error (GoError.msg "no video track found")) ∨
      ∃ info, parseMKV ext4Host exactRuntime (str "a.mkv") mkvDurationOnly =
          Outcome.done (Except.ok info) ∧
        info.DurationSeconds = exactRuntime.div
          (exactRuntime.mul ⟨10240000, 2048⟩ (exactRuntime.ofUint 1000000))
          (exactRuntime.ofUint 1000000000) ∧
        info.Duration = formatDuration exactRuntime info.DurationSeconds) ∧
    ((∃ pn, parseMKV ext4Host exactRuntime (str "a.mkv") mkvDurationScaled = Outcome.panic pn) ∨
      parseMKV ext4Host exactRuntime (str "a.mkv") mkvDurationScaled = Outcome.outOfMemory ∨
      parseMKV ext4Host exactRuntime (str "a.mkv") mkvDurationScaled =
        Outcome.done (Except.error (GoError.msg "no video track found")) ∨
      ∃ info, parseMKV ext4Host exactRuntime (str "a.mkv") mkvDurationScaled =
          Outcome.done (Except.ok info) ∧
        info.DurationSeconds = exactRuntime.div
          (exactRuntime.mul ⟨10240000, 2048⟩ (exactRuntime.ofUint 500000))
          (exactRuntime.ofUint 1000000000) ∧
        info.Duration = formatDuration exactRuntime info.DurationSeconds) ∧
    (mkvSegmentWalk ext4Host exactRuntime mkvInfoBehindVoid
        (mkvParseLimit ext4Host mkvInfoBehindVoid) 68 17
        (mkvSegmentInit exactRuntime (str "a.mkv") mkvInfoBehindVoid)).filter
          (fun c => decide (c.2 = ebmlInfo)) = [(17, ebmlInfo), (38, ebmlInfo)] ∧
    (∃ info, parseMKV ext4Host exactRuntime (str "a.mkv") mkvInfoBehindVoid =
        Outcome.done (Except.ok info) ∧
      info.DurationSeconds = exactRuntime.div
        (exactRuntime.mul ⟨10240000, 4096⟩ (exactRuntime.ofUint 1000000))
        (exactRuntime.ofUint 1000000000) ∧
      info.Duration = str "00:00:02") :=
  ⟨⟨_, rfl, rfl, rfl⟩, ⟨_, rfl, rfl, rfl⟩,
    parseMKV_duration_times_scale ext4Host exactRuntime (str "a.mkv") mkvDurationOnly
      ⟨rfl, rfl⟩ ⟨rfl, rfl⟩ 10 (by decide) ⟨10240000, 2048⟩ rfl rfl 1000000
      (Or.inl ⟨by decide, rfl⟩),
    parseMKV_duration_times_scale ext4Host exactRuntime (str "a.mkv") mkvDurationScaled
      ⟨rfl, rfl⟩ ⟨rfl, rfl⟩ 10 (by decide) ⟨10240000, 2048⟩ rfl rfl 500000
      (Or.inr ⟨rfl, by decide⟩),
    by decide, ⟨_, rfl, rfl, rfl⟩⟩

end hosted

namespace preset

/-- C38: for a preset with `UseSourceRes` false, width 1920 and height 0 the
scale filter is not added (it needs a positive height) and the branch that
prepends the deinterlace filter is taken (it needs a positive width only): the
argument list holds no `-vf` option and no `yadif` filter.  For a preset with
both dimensions and an input path that is the text `-vf`, the prefix lands on
the argument after the input path (`-c:v`), and the filter value stays
`scale=1920:1080`. -/
theorem ToFFmpegArgsWithEncoder_drops_yadif (ops : PresetOps exactRuntime) :
    ToFFmpegArgsWithEncoder exactRuntime ops (widthOnlyPreset exactRuntime) (str "in.mp4")
        (str "out.mkv") (some ⟨1920, 1080, ⟨30, 1⟩⟩) (str "libx265") 0 =
      [str "-i", str "in.mp4", str "-c:v", str "libx265", str "-crf", str "22",
       str "-preset", str "fast", str "-tune", str "fastdecode", str "-profile:v", str "main",
       str "-level:v", str "4.1", str "-x265-params",
       str "keyint=30:min-keyint=30:open-gop=0:scenecut=0:repeat-headers=1:ref=4:bframes=3:hrd=1",
       str "-vsync", str "cfr", str "-c:a", str "aac", str "-b:a", str "160k", str "-ac", str "2",
       str "-f", str "matroska", str "out.mkv"] ∧
    (ToFFmpegArgsWithEncoder exactRuntime ops (widthOnlyPreset exactRuntime) (str "in.mp4")
        (str "out.mkv") (some ⟨1920, 1080, ⟨30, 1⟩⟩) (str "libx265") 0).count (str "-vf") = 0 ∧
    ToFFmpegArgsWithEncoder exactRuntime ops (fixedPreset exactRuntime) (str "-vf")
        (str "out.mkv") (some ⟨1920, 1080, ⟨30, 1⟩⟩) (str "libx265") 0 =
      [str "-i", str "-vf", str "yadif=mode=0:parity=-1:deint=1,-c:v", str "libx265",
       str "-crf", str "22",
       str "-preset", str "fast", str "-tune", str "fastdecode", str "-profile:v", str "main",
       str "-level:v", str "4.1", str "-x265-params",
       str "keyint=30:min-keyint=30:open-gop=0:scenecut=0:repeat-headers=1:ref=4:bframes=3:hrd=1",
       str "-vf", str "scale=1920:1080",
       str "-vsync", str "cfr", str "-c:a", str "aac", str "-b:a", str "160k", str "-ac", str "2",
       str "-f", str "matroska", str "out.mkv"] := by
  have h1 : ToFFmpegArgsWithEncoder exactRuntime ops (widthOnlyPreset exactRuntime) (str "in.mp4")
        (str "out.mkv") (some ⟨1920, 1080, ⟨30, 1⟩⟩) (str "libx265") 0 =
      [str "-i", str "in.mp4", str "-c:v", str "libx265", str "-crf", str "22",
       str "-preset", str "fast", str "-tune", str "fastdecode", str "-profile:v", str "main",
       str "-level:v", str "4.1", str "-x265-params",
       str "keyint=30:min-keyint=30:open-gop=0:scenecut=0:repeat-headers=1:ref=4:bframes=3:hrd=1",
       str "-vsync", str "cfr", str "-c:a", str "aac", str "-b:a", str "160k", str "-ac", str "2",
       str "-f", str "matroska", str "out.mkv"] := rfl
  refine ⟨h1, ?_, rfl⟩
  rw [h1]
  decide

/-- C39: given that the runtime's comparison `30 < fps` is true for 60 and
false for 30, 29.97, 24 and 23.976, every preset of `GetAllPresets` with
`UseSourceRes` and `UseSourceFPS` both false has the `Level` that
`DetermineLevel` computes from its `Width`, `Height` and `FPS`. -/
theorem GetAllPresets_level_agrees (rt : GoRuntime)
    (h60 : rt.lt (rt.ofUint 30) (rt.ofUint 60) = true)
    (h30 : rt.lt (rt.ofUint 30) (rt.ofUint 30) = false)
    (h2997 : rt.lt (rt.ofUint 30) (fps2997 rt) = false)
    (h24 : rt.lt (rt.ofUint 30) (rt.ofUint 24) = false)
    (h23976 : rt.lt (rt.ofUint 30) (fps23976 rt) = false) :
    ∀ p ∈ GetAllPresets rt, p.UseSourceRes = false → p.UseSourceFPS = false →
      p.Level = DetermineLevel rt p.Width p.Height p.FPS := by
  intro p hp hres hfps
  simp only [GetAllPresets, List.mem_cons, List.mem_singleton, List.not_mem_nil, or_false] at hp
  rcases hp with rfl | rfl | rfl | rfl | rfl | rfl | rfl | rfl | rfl | rfl | rfl
  · cases hres
  all_goals simp [DetermineLevel, h60, h30, h2997, h24, h23976]

theorem GetAllPresets_level_agrees_witness :
    (GetAllPresets exactRuntime).length = 11 ∧
    ((GetAllPresets exactRuntime).filter
      (fun p => p.UseSourceRes = false ∧ p.UseSourceFPS = false)).length = 10 ∧
    ∀ p ∈ GetAllPresets exactRuntime, p.UseSourceRes = false → p.UseSourceFPS = false →
      p.Level = DetermineLevel exactRuntime p.Width p.Height p.FPS :=
  ⟨rfl, by decide,
    GetAllPresets_level_agrees exactRuntime (by decide) (by decide) (by decide) (by decide)
      (by decide)⟩

end preset

end fileinfo
